import Mathlib

/-!
# haystack-lite storage engine: needle codec, volumes and store

A shallow embedding of `internal/storage` (needle.go, volume.go, store.go,
database.go, models.go, errors.go) and theorems about it.

Modelling conventions
* `[]byte` is `List Nat`; every byte the code itself produces is reduced `% 256`.
* `uint8`/`uint32`/`uint64` fields are `Nat`; arithmetic the code performs in such a
  type is reduced `% 2 ^ w` at the place where the code computes it.
* `int64` file offsets and sizes are `Int`.  Sums of offsets are not wrapped: a file
  offset near `2 ^ 63` is outside the range the operating system serves.
* A `*os.File` is the list of bytes the file currently holds; `Seek` + `Write`
  overwrite at the offset and extend the file (zero filling a gap).  Reads are
  determined by the bytes (short input gives `EOF` / `ErrUnexpectedEOF`).
* Go maps are association lists read through `mapGet` and written by `mapSet`; the order in
  which `range` visits a map is an explicit argument (`order`).
* Catalog (gorm) calls and the opening of a volume file may fail; whether a call fails is
  an input (`Env`, `StartEnv`).  Faults of the operating system inside a read or a write of
  an open file are not part of the model.
* `crc32.ChecksumIEEE` (Go standard library) is the bit-serial CRC-32 of the IEEE
  polynomial; `crypto/md5` is not modelled, the digest string is an input.
-/

namespace Haystack

/-! ## errors.go -/

/-- The sentinel errors of errors.go, followed by the conditions raised by the
runtime and the libraries the package calls. -/
inductive Error where
  | ErrNeedleNotFound
  | ErrVolumeNotFound
  | ErrVolumeFull
  | ErrCRCMismatch
  | ErrReadOnly
  | ErrInvalidNeedle
  /-- The io.EOF condition: nothing left to read. -/
  | EOF
  /-- The io.ErrUnexpectedEOF condition: input ended inside a value. -/
  | ErrUnexpectedEOF
  /-- Seek to a negative offset. -/
  | ErrSeek
  /-- Opening the volume file failed. -/
  | ErrOpen
  /-- A catalog call returned an error. -/
  | ErrDatabase
  /-- Method call through a nil volume pointer (runtime panic). -/
  | ErrNilVolume
  deriving DecidableEq, Repr

instance instDecidableEqExcept {ε α : Type} [DecidableEq ε] [DecidableEq α] :
    DecidableEq (Except ε α)
  | .ok a, .ok b =>
    if h : a = b then isTrue (by rw [h]) else isFalse (by intro e; cases e; exact h rfl)
  | .error a, .error b =>
    if h : a = b then isTrue (by rw [h]) else isFalse (by intro e; cases e; exact h rfl)
  | .ok _, .error _ => isFalse (by intro e; cases e)
  | .error _, .ok _ => isFalse (by intro e; cases e)

/-! ## hash/crc32 and encoding/binary -/

/-- The reversed IEEE 802.3 polynomial. -/
def crcPoly : Nat := 0xEDB88320

/-- One bit of the reflected CRC shift register. -/
def crcShift (c : Nat) : Nat :=
  if c % 2 = 1 then (c / 2) ^^^ crcPoly else c / 2

/-- Feed one byte into the 32-bit register. -/
def crcByte (c b : Nat) : Nat :=
  crcShift (crcShift (crcShift (crcShift (crcShift (crcShift (crcShift (crcShift
    (c ^^^ (b % 256)))))))))

/-- Modelled from the spec: `crc32.ChecksumIEEE` belongs to the Go standard library
(hash/crc32), which is not under src/.  The spec fixes it as the 32-bit CRC with the
IEEE polynomial over the data bytes; this is the bit-serial definition of that
checksum (register preset to all ones, reflected, complemented at the end). -/
def ChecksumIEEE (data : List Nat) : Nat :=
  (data.foldl crcByte 0xFFFFFFFF) ^^^ 0xFFFFFFFF

/-- The `size` low-order bytes of `x`, most significant first (binary.BigEndian). -/
def bigEndian : Nat → Nat → List Nat
  | 0, _ => []
  | k + 1, x => bigEndian k (x / 256) ++ [x % 256]

/-- Value of a big-endian byte string. -/
def fromBigEndian (bs : List Nat) : Nat :=
  bs.foldl (fun acc b => acc * 256 + b) 0

/-- Conversion `uint64(x)` of an `int64` (two's complement image). -/
def toUint64 (x : Int) : Nat := (x % 2 ^ 64).toNat

/-- Conversion `int64(u)` of the 64 bits read from the wire. -/
def toInt64 (u : Nat) : Int :=
  if u % 2 ^ 64 < 2 ^ 63 then ((u % 2 ^ 64 : Nat) : Int) else ((u % 2 ^ 64 : Nat) : Int) - 2 ^ 64

/-- Call `binary.Write(w, binary.BigEndian, x)` for a fixed-size integer of `size`
bytes; the writer is the list of bytes emitted so far. -/
def binaryWrite (w : List Nat) (size x : Nat) : List Nat :=
  w ++ bigEndian size x

/-- Call `io.ReadFull(r, buf)` with `len(buf) = n`: the bytes read and the rest of the
reader.  An empty buffer reads nothing and succeeds. -/
def readFull (r : List Nat) (n : Nat) : Except Error (List Nat × List Nat) :=
  if n = 0 then .ok ([], r)
  else if r.length = 0 then .error .EOF
  else if r.length < n then .error .ErrUnexpectedEOF
  else .ok (r.take n, r.drop n)

/-- Call `binary.Read(r, binary.BigEndian, &x)` for a fixed-size unsigned integer. -/
def binaryRead (r : List Nat) (size : Nat) : Except Error (Nat × List Nat) :=
  match readFull r size with
  | .error e => .error e
  | .ok (b, rest) => .ok (fromBigEndian b, rest)

/-! ## needle.go -/

def NeedleHeaderSize : Nat := 8 + 4 + 4 + 8 + 1

def NeedleFooterSize : Nat := 4

structure Needle where
  ID : Nat
  Cookie : Nat
  Data : List Nat
  DataSize : Nat
  Flags : Nat
  CreateTime : Int
  FileName : String
  MimeType : String
  MD5 : String
  deriving DecidableEq, Repr

structure NeedleInfo where
  Offset : Int
  Size : Nat
  Flags : Nat
  VolumeID : Nat
  deriving DecidableEq, Repr

/-- The field ranges of the Go struct (`uint64`, `uint32`, `uint8`, `int64`). -/
def Needle.InRange (n : Needle) : Prop :=
  n.ID < 2 ^ 64 ∧ n.Cookie < 2 ^ 32 ∧ n.DataSize < 2 ^ 32 ∧ n.Flags < 2 ^ 8 ∧
    -(2 ^ 63) ≤ n.CreateTime ∧ n.CreateTime < 2 ^ 63

instance (n : Needle) : Decidable n.InRange := by
  unfold Needle.InRange
  infer_instance

def Needle.IsDeleted (n : Needle) : Bool := n.Flags &&& 0x01 != 0

def Needle.SetDeleted (n : Needle) : Needle := { n with Flags := n.Flags ||| 0x01 }

/-- Method `(*Needle).Write`: the bytes handed to the writer `w`, in order. -/
def Needle.Write (n : Needle) (w : List Nat) : List Nat :=
  let w := binaryWrite w 8 n.ID
  let w := binaryWrite w 4 n.Cookie
  let w := binaryWrite w 4 n.DataSize
  let w := binaryWrite w 8 (toUint64 n.CreateTime)
  let w := binaryWrite w 1 n.Flags
  let w := w ++ n.Data
  let crc := ChecksumIEEE n.Data
  binaryWrite w 4 crc

/-- Function `ReadNeedleFrom`: the decoded needle and the unread rest of the reader. -/
def ReadNeedleFrom (r : List Nat) : Except Error (Needle × List Nat) :=
  match binaryRead r 8 with
  | .error e => .error e
  | .ok (id, r) =>
  match binaryRead r 4 with
  | .error e => .error e
  | .ok (cookie, r) =>
  match binaryRead r 4 with
  | .error e => .error e
  | .ok (dataSize, r) =>
  match binaryRead r 8 with
  | .error e => .error e
  | .ok (createTime, r) =>
  match binaryRead r 1 with
  | .error e => .error e
  | .ok (flags, r) =>
  match readFull r dataSize with
  | .error e => .error e
  | .ok (data, r) =>
  match binaryRead r 4 with
  | .error e => .error e
  | .ok (crc, r) =>
  if ChecksumIEEE data != crc then .error .ErrCRCMismatch
  else .ok ({ ID := id, Cookie := cookie, Data := data, DataSize := dataSize, Flags := flags,
              CreateTime := toInt64 createTime, FileName := "", MimeType := "", MD5 := "" }, r)

/-- The needle `ReadNeedleFrom` assembles from a reader that holds a whole record: the
fields at their offsets 0, 8, 12, 16, 24 and 25. -/
def decodedNeedle (r : List Nat) : Needle :=
  { ID := fromBigEndian (r.take 8)
    Cookie := fromBigEndian ((r.drop 8).take 4)
    Data := (r.drop 25).take (fromBigEndian ((r.drop 12).take 4))
    DataSize := fromBigEndian ((r.drop 12).take 4)
    Flags := fromBigEndian ((r.drop 24).take 1)
    CreateTime := toInt64 (fromBigEndian ((r.drop 16).take 8))
    FileName := "", MimeType := "", MD5 := "" }

/-- Method `(*Needle).Size`: the sum is formed in `uint32` (the type of `DataSize`)
and converted to `int64` afterwards. -/
def Needle.Size (n : Needle) : Int :=
  (((NeedleHeaderSize + n.DataSize + NeedleFooterSize) % 2 ^ 32 : Nat) : Int)

/-! ## volume.go -/

/-- Lookup in a Go map kept as an association list. -/
def mapGet {α : Type} (m : List (Nat × α)) (k : Nat) : Option α :=
  match m with
  | [] => none
  | (k1, a) :: rest => if k1 = k then some a else mapGet rest k

/-- Assignment `m[k] = a`. -/
def mapSet {α : Type} (m : List (Nat × α)) (k : Nat) (a : α) : List (Nat × α) :=
  (k, a) :: m.filter (fun e => e.1 != k)

/-- The file after `Seek(off, 0)` and a write of `bs`. -/
def writeAt (f : List Nat) (off : Nat) (bs : List Nat) : List Nat :=
  f.take off ++ List.replicate (off - f.length) 0 ++ bs ++ f.drop (off + bs.length)

/-- The file after bit `k` of the byte at `pos` is flipped. -/
def flipBit (f : List Nat) (pos k : Nat) : List Nat := f.set pos (f.getD pos 0 ^^^ 2 ^ k)

structure Volume where
  ID : Nat
  File : List Nat
  MaxSize : Int
  CurrentSize : Int
  Active : Bool
  NeedleIndex : List (Nat × NeedleInfo)
  deriving DecidableEq, Repr

/-- Function `NewVolume`; `existing` is what the file `volume_<id>.dat` holds when it is
opened (empty when the file is created by the call). -/
def NewVolume (id : Nat) (existing : List Nat) (maxSize : Int) : Volume :=
  { ID := id, File := existing, MaxSize := maxSize, CurrentSize := (existing.length : Int),
    Active := true, NeedleIndex := [] }

/-- The volume after bit `k` of the file byte at `pos` is flipped behind its back. -/
def Volume.corruptBit (v : Volume) (pos k : Nat) : Volume :=
  { v with File := flipBit v.File pos k }

/-- The volume after the file byte at `pos` is overwritten with `b` behind its back. -/
def Volume.corruptByte (v : Volume) (pos b : Nat) : Volume :=
  { v with File := v.File.set pos b }

/-- Method `(*Volume).WriteNeedle`: the volume afterwards and the error returned.  The two
sums `v.CurrentSize+n.Size()` are taken exactly; they are the `int64` sums of the code as
long as the sum is an `int64` value, see `Volume.WriteNeedleInt64` and
`WriteNeedleInt64_exact`. -/
def Volume.WriteNeedle (v : Volume) (n : Needle) : Volume × Option Error :=
  if v.CurrentSize + n.Size > v.MaxSize then
    ({ v with Active := false }, some .ErrVolumeFull)
  else
    let offset := v.CurrentSize
    if offset < 0 then (v, some .ErrSeek)
    else
      ({ v with
          File := writeAt v.File offset.toNat (n.Write [])
          NeedleIndex := (mapSet v.NeedleIndex n.ID
            { Offset := offset, Size := n.DataSize, Flags := n.Flags, VolumeID := v.ID })
          CurrentSize := v.CurrentSize + n.Size }, none)

/-- Method `(*Volume).ReadNeedle`. -/
def Volume.ReadNeedle (v : Volume) (id : Nat) : Except Error Needle :=
  match mapGet v.NeedleIndex id with
  | none => .error .ErrNeedleNotFound
  | some info =>
    if info.Flags &&& 0x01 != 0 then .error .ErrNeedleNotFound
    else if info.Offset < 0 then .error .ErrSeek
    else
      match ReadNeedleFrom (v.File.drop info.Offset.toNat) with
      | .error e => .error e
      | .ok (n, _) => .ok n

/-- Method `(*Volume).DeleteNeedle`. -/
def Volume.DeleteNeedle (v : Volume) (id : Nat) : Volume × Option Error :=
  match mapGet v.NeedleIndex id with
  | none => (v, some .ErrNeedleNotFound)
  | some info =>
    ({ v with NeedleIndex := mapSet v.NeedleIndex id { info with Flags := info.Flags ||| 0x01 } },
      none)

/-! ## models.go and database.go -/

structure FileMetadata where
  ID : Nat
  VolumeID : Nat
  Offset : Int
  Size : Nat
  Cookie : Nat
  Flags : Nat
  Deleted : Bool
  FileName : String
  MimeType : String
  MD5 : String
  CreateTime : Int
  deriving DecidableEq, Repr

structure VolumeInfo where
  ID : Nat
  MaxSize : Int
  CurrentSize : Int
  Active : Bool
  deriving DecidableEq, Repr

/-- The two catalog tables, rows in the order the engine returns them. -/
structure Database where
  files : List FileMetadata
  volumes : List VolumeInfo
  deriving DecidableEq, Repr

/-- Method `SaveFileMetadata` (gorm Create): insert a row; a row with the same primary key
is an error.  When `fails` is set the engine reports an error and changes nothing. -/
def Database.SaveFileMetadata (d : Database) (row : FileMetadata) (fails : Bool) :
    Database × Option Error :=
  if fails then (d, some .ErrDatabase)
  else if d.files.any (fun m => m.ID == row.ID) then (d, some .ErrDatabase)
  else ({ d with files := d.files ++ [row] }, none)

/-- Method `DeleteFileMetadata`: set deleted = true and flags = 1 on the row with this id. -/
def Database.DeleteFileMetadata (d : Database) (id : Nat) (fails : Bool) :
    Database × Option Error :=
  if fails then (d, some .ErrDatabase)
  else
    ({ d with files := (d.files.map
        (fun m => if m.ID = id then { m with Deleted := true, Flags := 1 } else m)) }, none)

def Database.LoadAllFileMetadataIncludingDeleted (d : Database) (fails : Bool) :
    Except Error (List FileMetadata) :=
  if fails then .error .ErrDatabase else .ok d.files

/-- Method `SaveVolumeInfo` (gorm Save): update the row with this primary key, or insert. -/
def Database.SaveVolumeInfo (d : Database) (info : VolumeInfo) (fails : Bool) :
    Database × Option Error :=
  if fails then (d, some .ErrDatabase)
  else if d.volumes.any (fun r => r.ID == info.ID) then
    ({ d with volumes := d.volumes.map (fun r => if r.ID = info.ID then info else r) }, none)
  else ({ d with volumes := d.volumes ++ [info] }, none)

def Database.LoadAllVolumeInfo (d : Database) (fails : Bool) : Except Error (List VolumeInfo) :=
  if fails then .error .ErrDatabase else .ok d.volumes

def Database.UpdateVolumeSize (d : Database) (id : Nat) (size : Int) (fails : Bool) :
    Database × Option Error :=
  if fails then (d, some .ErrDatabase)
  else
    ({ d with volumes := (d.volumes.map
        (fun r => if r.ID = id then { r with CurrentSize := size } else r)) }, none)

def Database.SetVolumeInactive (d : Database) (id : Nat) (fails : Bool) :
    Database × Option Error :=
  if fails then (d, some .ErrDatabase)
  else
    ({ d with volumes := (d.volumes.map
        (fun r => if r.ID = id then { r with Active := false } else r)) }, none)

/-! ## store.go -/

/-- The storage section of the configuration, as far as the store reads it. -/
structure Config where
  MaxVolumeSize : Int
  ReadOnly : Bool
  deriving DecidableEq, Repr

/-- The store.  The field `disk` holds the volume files of the data directory that no
volume of the table has open, keyed by volume number. -/
structure Store where
  config : Config
  volumes : List (Nat × Volume)
  activeVolID : Nat
  nextID : Nat
  db : Database
  disk : List (Nat × List Nat)
  deriving DecidableEq, Repr

/-- What one call of a store method takes from outside the store: the two clock
readings of `WriteWithMetadata`, the hex MD5 of the data (crypto/md5), and whether the
file open and each catalog call fail. -/
structure Env where
  cookieNow : Int
  createNow : Int
  md5hex : String
  openFails : Bool
  setInactiveFails : Bool
  saveVolumeFails : Bool
  saveMetaFails : Bool
  updateSizeFails : Bool
  deleteMetaFails : Bool
  deriving DecidableEq, Repr

/-- What the start of a store takes from outside. -/
structure StartEnv where
  loadVolumesFails : Bool
  loadMetasFails : Bool
  openFails : Nat → Bool
  saveVolumeFails : Bool

/-- The bytes `os.OpenFile` finds for volume number `id`. -/
def Store.openFile (s : Store) (id : Nat) : List Nat :=
  match mapGet s.volumes id with
  | some v => v.File
  | none => (mapGet s.disk id).getD []

/-- First loop of `loadFromDatabase`: one volume per catalog row. -/
def Store.loadVolumes (s : Store) (openFails : Nat → Bool) :
    List VolumeInfo → Nat → Store
  | [], _ => s
  | info :: rest, maxID =>
    if openFails info.ID then Store.loadVolumes s openFails rest maxID
    else
      let vol := NewVolume info.ID (s.openFile info.ID) s.config.MaxVolumeSize
      let vol := { vol with CurrentSize := info.CurrentSize, Active := info.Active }
      let s1 := { s with volumes := mapSet s.volumes info.ID vol }
      if info.Active ∧ info.ID > maxID then
        Store.loadVolumes { s1 with activeVolID := info.ID } openFails rest info.ID
      else Store.loadVolumes s1 openFails rest maxID

/-- Second loop of `loadFromDatabase`: one index entry per file row of a known volume,
and the id counter. -/
def Store.loadMetas (s : Store) : List FileMetadata → Store
  | [] => s
  | m :: rest =>
    let s1 :=
      match mapGet s.volumes m.VolumeID with
      | some vol =>
        { s with volumes := (mapSet s.volumes m.VolumeID
            { vol with NeedleIndex := (mapSet vol.NeedleIndex m.ID
                { Offset := m.Offset, Size := m.Size, Flags := m.Flags,
                  VolumeID := m.VolumeID }) }) }
      | none => s
    let s2 := if m.ID ≥ s1.nextID then { s1 with nextID := (m.ID + 1) % 2 ^ 64 } else s1
    Store.loadMetas s2 rest

def Store.loadFromDatabase (s : Store) (env : StartEnv) : Except Error Store :=
  match s.db.LoadAllVolumeInfo env.loadVolumesFails with
  | .error e => .error e
  | .ok volumeInfos =>
    let s := s.loadVolumes env.openFails volumeInfos 0
    match s.db.LoadAllFileMetadataIncludingDeleted env.loadMetasFails with
    | .error e => .error e
    | .ok allMetas => .ok (s.loadMetas allMetas)

/-- Method `createNewVolume`. -/
def Store.createNewVolume (s : Store) (openFails saveVolumeFails : Bool) :
    Store × Except Error Volume :=
  let newID := (s.activeVolID + 1) % 2 ^ 32
  if openFails then (s, .error .ErrOpen)
  else
    let vol := NewVolume newID (s.openFile newID) s.config.MaxVolumeSize
    let volumeInfo : VolumeInfo :=
      { ID := newID, MaxSize := vol.MaxSize, CurrentSize := 0, Active := true }
    match s.db.SaveVolumeInfo volumeInfo saveVolumeFails with
    | (db, some _) => ({ s with db := db }, .error .ErrDatabase)
    | (db, none) =>
      ({ s with db := db, volumes := mapSet s.volumes newID vol, activeVolID := newID }, .ok vol)

/-- Function `NewStore` on the catalog `db` and the data directory `disk`. -/
def NewStore (cfg : Config) (db : Database) (disk : List (Nat × List Nat)) (env : StartEnv) :
    Except Error Store :=
  let s : Store :=
    { config := cfg, volumes := [], activeVolID := 0, nextID := 1, db := db, disk := disk }
  match s.loadFromDatabase env with
  | .error e => .error e
  | .ok s =>
    if s.volumes.length = 0 then
      match s.createNewVolume (env.openFails ((s.activeVolID + 1) % 2 ^ 32)) env.saveVolumeFails with
      | (_, .error e) => .error e
      | (s, .ok _) => .ok s
    else .ok s

/-- The needle `WriteWithMetadata` builds for `data` under the id `id`: cookie and create
time from the clock, `DataSize` the conversion `uint32(len(data))`, flags 0. -/
def buildNeedle (id : Nat) (data : List Nat) (filename mimeType : String) (env : Env) : Needle :=
  { ID := id, Cookie := (env.cookieNow % 2 ^ 32).toNat, Data := data,
    DataSize := data.length % 2 ^ 32, Flags := 0, CreateTime := env.createNow,
    FileName := filename, MimeType := mimeType, MD5 := env.md5hex }

/-- The tail of `WriteWithMetadata` after the needle is in volume `vol` (key `volID`):
the catalog row and the volume size; catalog errors are logged and dropped. -/
def Store.saveWritten (s : Store) (vol : Volume) (volID : Nat) (needle : Needle)
    (filename mimeType : String) (env : Env) : Store × Except Error Nat :=
  let row : FileMetadata :=
    { ID := needle.ID, VolumeID := volID,
      Offset := ((mapGet vol.NeedleIndex needle.ID).map (fun i => i.Offset)).getD 0,
      Size := needle.DataSize, Cookie := needle.Cookie, Flags := needle.Flags, Deleted := false,
      FileName := filename, MimeType := mimeType, MD5 := needle.MD5,
      CreateTime := needle.CreateTime }
  let db := (s.db.SaveFileMetadata row env.saveMetaFails).1
  let db := (db.UpdateVolumeSize volID vol.CurrentSize env.updateSizeFails).1
  ({ s with db := db }, .ok needle.ID)

/-- Method `WriteWithMetadata`. -/
def Store.WriteWithMetadata (s : Store) (data : List Nat) (filename mimeType : String)
    (env : Env) : Store × Except Error Nat :=
  if s.config.ReadOnly then (s, .error .ErrReadOnly)
  else
    let id := s.nextID
    let s := { s with nextID := (s.nextID + 1) % 2 ^ 64 }
    let needle := buildNeedle id data filename mimeType env
    let volID := s.activeVolID
    match mapGet s.volumes volID with
    | none => (s, .error .ErrNilVolume)
    | some vol =>
      match vol.WriteNeedle needle with
      | (vol, none) =>
        Store.saveWritten { s with volumes := mapSet s.volumes volID vol } vol volID needle
          filename mimeType env
      | (vol, some err) =>
        let s := { s with volumes := mapSet s.volumes volID vol }
        if err = .ErrVolumeFull then
          let s := { s with db := (s.db.SetVolumeInactive volID env.setInactiveFails).1 }
          match s.createNewVolume env.openFails env.saveVolumeFails with
          | (s, .error e) => (s, .error e)
          | (s, .ok vol) =>
            let volID := vol.ID
            match vol.WriteNeedle needle with
            | (vol, none) =>
              Store.saveWritten { s with volumes := mapSet s.volumes volID vol } vol volID needle
                filename mimeType env
            | (vol, some e) => ({ s with volumes := mapSet s.volumes volID vol }, .error e)
        else (s, .error err)

/-- Method `Read`; `order` is the sequence of keys in which `range s.volumes` visits the
volume table. -/
def Store.Read (s : Store) (order : List Nat) (id : Nat) : Except Error (List Nat) :=
  match order with
  | [] => .error .ErrNeedleNotFound
  | k :: rest =>
    match mapGet s.volumes k with
    | none => s.Read rest id
    | some vol =>
      match vol.ReadNeedle id with
      | .ok needle => .ok needle.Data
      | .error _ => s.Read rest id

/-- The loop of `Delete` over the volume table, visited in `order`. -/
def Store.deleteRange (s : Store) (id : Nat) (env : Env) : List Nat → Store × Option Error
  | [] => (s, some .ErrNeedleNotFound)
  | k :: rest =>
    match mapGet s.volumes k with
    | none => Store.deleteRange s id env rest
    | some vol =>
      match vol.DeleteNeedle id with
      | (vol, none) =>
        ({ s with volumes := mapSet s.volumes k vol,
                  db := (s.db.DeleteFileMetadata id env.deleteMetaFails).1 }, none)
      | (_, some _) => Store.deleteRange s id env rest

/-- Method `Delete`; `order` as in `Read`. -/
def Store.Delete (s : Store) (order : List Nat) (id : Nat) (env : Env) : Store × Option Error :=
  if s.config.ReadOnly then (s, some .ErrReadOnly)
  else Store.deleteRange s id env order

/-- The store after the byte at `pos` of the file of volume `k` is overwritten with `b`
behind its back. -/
def Store.corruptByte (s : Store) (k pos b : Nat) : Store :=
  match mapGet s.volumes k with
  | none => s
  | some v => { s with volumes := mapSet s.volumes k (v.corruptByte pos b) }

/-- The keys of the volume table. -/
def Store.volumeIDs (s : Store) : List Nat := s.volumes.map (fun e => e.1)

/-- A call of one of the two mutating store methods. -/
inductive Op where
  | write (data : List Nat) (filename mimeType : String) (env : Env)
  | delete (order : List Nat) (id : Nat) (env : Env)

/-- The store after one call. -/
def Store.step (s : Store) : Op → Store
  | .write data filename mimeType env => (s.WriteWithMetadata data filename mimeType env).1
  | .delete order id env => (s.Delete order id env).1

/-- The store after a sequence of calls. -/
def Store.run (s : Store) (ops : List Op) : Store := ops.foldl Store.step s

/-- Whether the call is `Delete(id)`. -/
def Op.isDeleteOf (id : Nat) : Op → Bool
  | .write _ _ _ _ => false
  | .delete _ i _ => i == id

/-! ## Sample values -/

/-- A two-byte needle. -/
def sampleNeedle : Needle :=
  { ID := 7, Cookie := 1700000000, Data := [104, 105], DataSize := 2, Flags := 0,
    CreateTime := -3, FileName := "a.txt", MimeType := "text/plain", MD5 := "" }

/-- A new volume of at most 64 bytes on a new file. -/
def sampleVolume : Volume := NewVolume 1 [] 64

/-- A volume of at most 64 bytes that holds 40 bytes. -/
def fullVolume : Volume :=
  { ID := 1, File := List.replicate 40 0, MaxSize := 64, CurrentSize := 40, Active := true,
    NeedleIndex := [] }

/-- A needle that carries the tombstone flag. -/
def deadNeedle : Needle :=
  { ID := 7, Cookie := 0, Data := [104], DataSize := 1, Flags := 1,
    CreateTime := 0, FileName := "", MimeType := "", MD5 := "" }

/-- A needle whose DataSize is smaller than len(Data): the bytes after the first data
byte are the checksum of the one-byte string 01. -/
def oddNeedle : Needle :=
  { ID := 7, Cookie := 0, Data := (0 :: bigEndian 4 (ChecksumIEEE [1])), DataSize := 1, Flags := 0,
    CreateTime := 0, FileName := "", MimeType := "", MD5 := "" }

/-- The bytes of "hello". -/
def hello : List Nat := [104, 101, 108, 108, 111]

/-- A payload of 4 GiB of zero bytes. -/
def hugeData : List Nat := List.replicate 4294967296 0

/-- Inputs of a call in which the file open and every catalog call succeed. -/
def sampleEnv : Env :=
  { cookieNow := 1700000000, createNow := 1700000000, md5hex := "", openFails := false,
    setInactiveFails := false, saveVolumeFails := false, saveMetaFails := false,
    updateSizeFails := false, deleteMetaFails := false }

/-- A start in which nothing fails. -/
def sampleStartEnv : StartEnv :=
  { loadVolumesFails := false, loadMetasFails := false, openFails := fun _ => false,
    saveVolumeFails := false }

/-- The store `NewStore` builds on an empty catalog and an empty data directory with
max_volume_size = 4096. -/
def sampleStore : Store :=
  { config := { MaxVolumeSize := 4096, ReadOnly := false },
    volumes := [(1, NewVolume 1 [] 4096)], activeVolID := 1, nextID := 1,
    db := { files := [], volumes := [{ ID := 1, MaxSize := 4096, CurrentSize := 0, Active := true }] },
    disk := [] }

/-- The store `NewStore` builds on an empty catalog and an empty data directory with
max_volume_size = 8 GiB. -/
def bigStore : Store :=
  { config := { MaxVolumeSize := 8589934592, ReadOnly := false },
    volumes := [(1, NewVolume 1 [] 8589934592)], activeVolID := 1, nextID := 1,
    db := { files := [],
            volumes := [{ ID := 1, MaxSize := 8589934592, CurrentSize := 0, Active := true }] },
    disk := [] }

/-- The store after "hello" is written to `sampleStore`. -/
def writtenStore : Store :=
  (sampleStore.WriteWithMetadata hello "a.txt" "text/plain" sampleEnv).1

/-- A write of one byte followed by `Delete(2)`. -/
def sampleOps : List Op := [.write [120] "x" "" sampleEnv, .delete [1] 2 sampleEnv]

/-! ## Predicates on the volume table -/

/-- No volume of the table has an index entry for `id`. -/
def Store.Unheld (s : Store) (id : Nat) : Prop :=
  ∀ k v, mapGet s.volumes k = some v → mapGet v.NeedleIndex id = none

/-- At most one volume of the table has an index entry for `id`. -/
def Store.HeldOnce (s : Store) (id : Nat) : Prop :=
  ∀ k1 v1 k2 v2, mapGet s.volumes k1 = some v1 → mapGet s.volumes k2 = some v2 →
    mapGet v1.NeedleIndex id ≠ none → mapGet v2.NeedleIndex id ≠ none → k1 = k2

/-- The volume under key `k` has an index entry for `id`. -/
def Holds (vols : List (Nat × Volume)) (k id : Nat) : Prop :=
  ∃ v, mapGet vols k = some v ∧ mapGet v.NeedleIndex id ≠ none

/-- The id discipline of a running store: every indexed id was issued (is below the
counter) and is indexed by one volume only. -/
def Store.IdsSound (s : Store) : Prop :=
  (∀ k id, Holds s.volumes k id → id < s.nextID) ∧
  (∀ k1 k2 id, Holds s.volumes k1 id → Holds s.volumes k2 id → k1 = k2)

/-- The volume has a live index entry for `id` whose record, the encoding of a needle with
data `d`, lies in the file in front of `CurrentSize`. -/
def Volume.Keeps (v : Volume) (id : Nat) (d : List Nat) : Prop :=
  ∃ (info : NeedleInfo) (n : Needle),
    mapGet v.NeedleIndex id = some info ∧ info.Flags &&& 0x01 = 0 ∧ 0 ≤ info.Offset ∧
    (v.File.drop info.Offset.toNat).take (n.Write []).length = n.Write [] ∧
    n.Data = d ∧ n.DataSize = d.length ∧ n.DataSize < 2 ^ 32 ∧
    info.Offset + ((n.Write []).length : Int) ≤ v.CurrentSize

/-- The volume under key `k` keeps the record of `id`, and no other volume of the table
has an index entry for `id`. -/
def KeepsAt (vols : List (Nat × Volume)) (id : Nat) (d : List Nat) (k : Nat) : Prop :=
  (∃ v, mapGet vols k = some v ∧ v.Keeps id d) ∧
  ∀ k2 v2, k2 ≠ k → mapGet vols k2 = some v2 → mapGet v2.NeedleIndex id = none

/-- The record of `id` is kept under key `k`, and neither the next `fuel` ids nor the next
`fuel` volume numbers the store can issue collide with `id` and `k`. -/
def Store.Guard (s : Store) (id : Nat) (d : List Nat) (k fuel : Nat) : Prop :=
  KeepsAt s.volumes id d k ∧ s.nextID < 2 ^ 64 ∧
  (∀ j, j < fuel → (s.nextID + j) % 2 ^ 64 ≠ id) ∧
  (∀ j, 1 ≤ j → j ≤ fuel → (s.activeVolID + j) % 2 ^ 32 ≠ k)

/-- An index entry of the volume for `id`, if there is one, carries the tombstone bit. -/
def Volume.NoLive (v : Volume) (id : Nat) : Prop :=
  ∀ info, mapGet v.NeedleIndex id = some info → info.Flags &&& 0x01 ≠ 0

/-- No volume of the table has a live index entry for `id`. -/
def NoLive (vols : List (Nat × Volume)) (id : Nat) : Prop :=
  ∀ k v, mapGet vols k = some v → v.NoLive id

/-! ## Sequences of volume calls, and further sample values -/

/-- A call of one of the two mutating volume methods. -/
inductive VolOp where
  | write (n : Needle)
  | delete (id : Nat)

/-- The volume after one call. -/
def Volume.step (v : Volume) : VolOp → Volume
  | .write n => (v.WriteNeedle n).1
  | .delete id => (v.DeleteNeedle id).1

/-- The volume after a sequence of calls. -/
def Volume.run (v : Volume) (ops : List VolOp) : Volume := ops.foldl Volume.step v

/-- The number of bytes `Write` emitted for the needles that the calls appended
successfully, tombstoned or not. -/
def Volume.appended (v : Volume) : List VolOp → Nat
  | [] => 0
  | .write n :: ops =>
    (if (v.WriteNeedle n).2 = none then (n.Write []).length else 0) +
      Volume.appended (v.WriteNeedle n).1 ops
  | .delete id :: ops => Volume.appended (v.DeleteNeedle id).1 ops

/-- The needle of a write has DataSize = len(Data) and an encoded size below 2 ^ 32. -/
def VolOp.WellSized : VolOp → Prop
  | .write n => n.DataSize = n.Data.length ∧ n.Data.length + 29 < 2 ^ 32
  | .delete _ => True

/-- Three appends and one tombstone. -/
def sampleVolOps : List VolOp :=
  [.write sampleNeedle, .write { sampleNeedle with ID := 8 }, .delete 7,
   .write { sampleNeedle with ID := 9 }]

/-- A volume of at most 64 bytes on a new file, marked inactive. -/
def inactiveVolume : Volume := { NewVolume 1 [] 64 with Active := false }

/-- The store `NewStore` builds on an empty catalog and an empty data directory with
max_volume_size = 64. -/
def smallStore : Store :=
  { config := { MaxVolumeSize := 64, ReadOnly := false },
    volumes := [(1, NewVolume 1 [] 64)], activeVolID := 1, nextID := 1,
    db := { files := [], volumes := [{ ID := 1, MaxSize := 64, CurrentSize := 0, Active := true }] },
    disk := [] }

/-- A payload of 20 bytes: its record has 49 bytes. -/
def payload20 : List Nat := List.replicate 20 7

/-- A payload of 40 bytes: its record has 69 bytes and fits no volume of 64 bytes. -/
def payload40 : List Nat := List.replicate 40 7

/-- The store after a write of 20 bytes and a failed write of 40 bytes to `smallStore`. -/
def rolledStore : Store :=
  smallStore.run [.write payload20 "" "" sampleEnv, .write payload40 "" "" sampleEnv]

/-- The store `sampleStore`, configured read-only. -/
def readOnlyStore : Store :=
  { sampleStore with config := { MaxVolumeSize := 4096, ReadOnly := true } }

/-- Inputs of a call in which the catalog update of `Delete` fails. -/
def deleteFaultEnv : Env := { sampleEnv with deleteMetaFails := true }

/-- Inputs of a call in which the catalog insert of `WriteWithMetadata` fails. -/
def saveFaultEnv : Env := { sampleEnv with saveMetaFails := true }

/-- A volume whose index entry for id 7 has a negative offset. -/
def negativeVolume : Volume :=
  { NewVolume 1 [] 64 with
    NeedleIndex := [(7, { Offset := -1, Size := 2, Flags := 0, VolumeID := 1 })] }

/-- The ids that the successful `WriteWithMetadata` calls among `ops` return, in call
order. -/
def Store.issued (s : Store) : List Op → List Nat
  | [] => []
  | .write data filename mimeType env :: ops =>
    match (s.WriteWithMetadata data filename mimeType env).2 with
    | .ok id => id :: Store.issued (s.WriteWithMetadata data filename mimeType env).1 ops
    | .error _ => Store.issued (s.WriteWithMetadata data filename mimeType env).1 ops
  | .delete order id env :: ops => Store.issued (s.Delete order id env).1 ops

/-- Three writes, the second of which fails, and a delete. -/
def mixedOps : List Op :=
  [.write payload20 "" "" sampleEnv, .write payload40 "" "" sampleEnv,
   .delete [1, 2] 1 sampleEnv, .write payload20 "" "" sampleEnv]

/-! ## store.go: Close and a restart; the loop body of `loadFromDatabase` -/

/-- Method `Close`: what the store leaves behind, the catalog and the data directory (the
file of every volume of the table, then the files that no volume had open). -/
def Store.Close (s : Store) : Database × List (Nat × List Nat) :=
  (s.db, s.volumes.map (fun e => (e.1, e.2.File)) ++ s.disk)

/-- A restart: `NewStore` with the same configuration on what `Close` left behind. -/
def Store.reopen (s : Store) (env : StartEnv) : Except Error Store :=
  NewStore s.config s.Close.1 s.Close.2 env

/-- The body of the second loop of `loadFromDatabase`, for one file row. -/
def Store.loadMeta (s : Store) (m : FileMetadata) : Store :=
  let s1 :=
    match mapGet s.volumes m.VolumeID with
    | some vol =>
      { s with volumes := (mapSet s.volumes m.VolumeID
          { vol with NeedleIndex := (mapSet vol.NeedleIndex m.ID
              { Offset := m.Offset, Size := m.Size, Flags := m.Flags,
                VolumeID := m.VolumeID }) }) }
    | none => s
  if m.ID ≥ s1.nextID then { s1 with nextID := (m.ID + 1) % 2 ^ 64 } else s1

/-- A catalog whose only file row has the largest id a uint64 holds. -/
def lastIdCatalog : Database :=
  { files := [{ ID := 18446744073709551615, VolumeID := 1, Offset := 0, Size := 2,
                Cookie := 0, Flags := 0, Deleted := false, FileName := "", MimeType := "",
                MD5 := "", CreateTime := 0 }],
    volumes := [{ ID := 1, MaxSize := 4096, CurrentSize := 31, Active := true }] }

/-- The store after "hello" is written to `sampleStore` while the catalog insert fails. -/
def orphanStore : Store :=
  (sampleStore.WriteWithMetadata hello "a.txt" "text/plain" saveFaultEnv).1

/-- The store after `writtenStore` is closed and opened again. -/
def reopenedStore : Store := (writtenStore.reopen sampleStartEnv).toOption.getD sampleStore

/-! ## Rollover -/

/-- No volume number above the active one has a file with content, open or not. -/
def Store.Fresh (s : Store) : Prop := ∀ k, s.activeVolID < k → s.openFile k = []

/-- The store after one write of 20 bytes to `smallStore`: volume 1 holds 49 of its 64
bytes. -/
def filledStore : Store := smallStore.run [.write payload20 "" "" sampleEnv]

/-- The store after three writes of 20 bytes to `smallStore`. -/
def threeWrites : Store :=
  smallStore.run [.write payload20 "" "" sampleEnv, .write payload20 "" "" sampleEnv,
    .write payload20 "" "" sampleEnv]

/-! ## volume.go: LoadIndex -/

/-- The loop of `LoadIndex`: `r` is the unread rest of the file, `offset` the local
variable `offset`, `index` the map so far.  The argument `fuel` bounds the number of
iterations; every iteration consumes at least 29 bytes and `LoadIndex` starts the loop
with more fuel than the file has bytes. -/
def loadIndexLoop (volID : Nat) : Nat → List Nat → Int → List (Nat × NeedleInfo) →
    List (Nat × NeedleInfo) × Int
  | 0, _, offset, index => (index, offset)
  | fuel + 1, r, offset, index =>
    match ReadNeedleFrom r with
    | .error _ => (index, offset)
    | .ok (n, rest) =>
      loadIndexLoop volID fuel rest (offset + n.Size)
        (mapSet index n.ID
          { Offset := offset, Size := n.DataSize, Flags := n.Flags, VolumeID := volID })

/-- Method `(*Volume).LoadIndex`. -/
def Volume.LoadIndex (v : Volume) : Volume × Option Error :=
  let res := loadIndexLoop v.ID (v.File.length + 1) v.File 0 v.NeedleIndex
  ({ v with NeedleIndex := res.1, CurrentSize := res.2 }, none)

/-! ## compaction.go -/

/-- What one call of `compactVolume` takes from outside: the outcome of the float64
comparison `deletedRatio < cfg.DeletedThreshold`, the order in which `range
vol.NeedleIndex` visits the ids when the live ones are collected, and whether the open of
the temporary file and the catalog update fail. -/
structure CompactEnv where
  belowThreshold : Bool
  order : List Nat
  openFails : Bool
  updateSizeFails : Bool

/-- Whether the index has an entry for `id` without the tombstone bit. -/
def Volume.isLive (v : Volume) (id : Nat) : Bool :=
  match mapGet v.NeedleIndex id with
  | some info => info.Flags &&& 0x01 == 0
  | none => false

/-- The copy loop of `compactVolume`: every needle of `ids` that `vol` can read and
`tempVol` can take is appended to `tempVol`; a needle whose read or write fails is
skipped. -/
def copyNeedles (vol : Volume) : List Nat → Volume → Volume
  | [], tempVol => tempVol
  | id :: rest, tempVol =>
    match vol.ReadNeedle id with
    | .error _ => copyNeedles vol rest tempVol
    | .ok needle => copyNeedles vol rest (tempVol.WriteNeedle needle).1

/-- Method `compactVolume`, called for the volume `vol` of the table.  The temporary file
takes the place of the file of `vol` (remove, rename), and the volume that replaces `vol`
in the table is a new volume on that file with the index that `LoadIndex` builds.  The
catalog is touched by `UpdateVolumeSize` only.  A volume of the table under the
temporary number is not modelled as sharing the temporary file. -/
def Store.compactVolume (s : Store) (vol : Volume) (env : CompactEnv) : Store × Option Error :=
  let totalFiles := vol.NeedleIndex.length
  if totalFiles = 0 then (s, none)
  else if env.belowThreshold then (s, none)
  else
    let tempID := (vol.ID + 10000) % 2 ^ 32
    if env.openFails then (s, some .ErrOpen)
    else
      let tempVol := NewVolume tempID (s.openFile tempID) s.config.MaxVolumeSize
      let needles := env.order.filter vol.isLive
      let tempVol := copyNeedles vol needles tempVol
      let newVol := NewVolume vol.ID tempVol.File s.config.MaxVolumeSize
      let newVol := newVol.LoadIndex.1
      ({ s with
          volumes := mapSet s.volumes vol.ID newVol
          disk := s.disk.filter (fun e => e.1 != tempID)
          db := (s.db.UpdateVolumeSize vol.ID newVol.CurrentSize env.updateSizeFails).1 }, none)

/-! ## database.go: the two name queries -/

/-- What the SQL engine decides for `LIKE`: when a pattern character matches a character
of the value (SQLite and MySQL fold ASCII case by default), and the escape character of
the engine when it has one by default (MySQL: the backslash). -/
structure Engine where
  same : Char → Char → Bool
  escape : Option Char

/-- An engine that compares characters exactly and has no escape character. -/
def exactEngine : Engine := { same := fun a b => a == b, escape := none }

/-- Operator `value LIKE pattern`, read from left to right; `escaped` says that the
pattern character before was the escape character.  `%` matches any run of characters,
`_` any one character, an escaped character itself, any other character what the engine
says. -/
def likeFrom (e : Engine) : Bool → List Char → List Char → Bool
  | escaped, [], s => !escaped && s.isEmpty
  | escaped, c :: p, s =>
    if escaped then
      match s with
      | [] => false
      | x :: t => e.same c x && likeFrom e false p t
    else if c = '%' then s.tails.any (fun t => likeFrom e false p t)
    else if c = '_' then
      match s with
      | [] => false
      | _ :: t => likeFrom e false p t
    else if some c = e.escape then likeFrom e true p s
    else
      match s with
      | [] => false
      | x :: t => e.same c x && likeFrom e false p t

/-- Operator `value LIKE pattern`. -/
def like (e : Engine) (pattern value : List Char) : Bool := likeFrom e false pattern value

/-- The row that gorm's `First` returns from `rows`: the one with the smallest primary
key. -/
def firstByID : List FileMetadata → Option FileMetadata
  | [] => none
  | m :: rest =>
    match firstByID rest with
    | none => some m
    | some r => if m.ID ≤ r.ID then some m else some r

/-- Method `FindByFilename`: `Where("file_name = ? AND deleted = ?", filename,
false).First(&meta)`; the comparison of names is the exact one (SQLite).  No row is the
error `gorm.ErrRecordNotFound`. -/
def Database.FindByFilename (d : Database) (filename : String) (fails : Bool) :
    Except Error FileMetadata :=
  if fails then .error .ErrDatabase
  else
    match firstByID (d.files.filter (fun m => m.FileName == filename && !m.Deleted)) with
    | none => .error .ErrDatabase
    | some m => .ok m

/-- Method `ListByPrefix`: `Where("file_name LIKE ? AND deleted = ?", pfx+"%", false)`,
`Limit(limit)` when `limit > 0`, `Find`. -/
def Database.ListByPrefix (d : Database) (e : Engine) (pfx : String) (limit : Int)
    (fails : Bool) : Except Error (List FileMetadata) :=
  if fails then .error .ErrDatabase
  else
    let rows := d.files.filter (fun m => like e (pfx.data ++ ['%']) m.FileName.data && !m.Deleted)
    .ok (if limit > 0 then rows.take limit.toNat else rows)

/-! ## Sample catalogs -/

/-- A catalog whose only volume row is inactive. -/
def inactiveCatalog : Database :=
  { files := [], volumes := [{ ID := 1, MaxSize := 4096, CurrentSize := 0, Active := false }] }

/-- The store `NewStore` builds on `inactiveCatalog` and an empty data directory. -/
def inactiveStart : Store :=
  { config := { MaxVolumeSize := 4096, ReadOnly := false },
    volumes := [(1, { NewVolume 1 [] 4096 with Active := false })], activeVolID := 0,
    nextID := 1, db := inactiveCatalog, disk := [] }

/-- A catalog row of volume 1 with the given id, name and deleted mark. -/
def nameRow (id : Nat) (name : String) (deleted : Bool) : FileMetadata :=
  { ID := id, VolumeID := 1, Offset := 0, Size := 0, Cookie := 0,
    Flags := if deleted then 1 else 0, Deleted := deleted, FileName := name, MimeType := "",
    MD5 := "", CreateTime := 0 }

/-- A catalog with three rows named a.txt, the last of them deleted. -/
def nameCatalog : Database :=
  { files := [nameRow 1 "a.txt" false, nameRow 2 "b.txt" false, nameRow 3 "a.txt" false,
              nameRow 4 "a.txt" true, nameRow 5 "abc" false],
    volumes := [] }


/-! ## Files that are a sequence of records -/

/-- The needle as `ReadNeedleFrom` returns it: the three strings are not on the wire. -/
def Needle.bare (n : Needle) : Needle := { n with FileName := "", MimeType := "", MD5 := "" }

/-- A needle within the Go field ranges, with DataSize = len(Data) and an encoded size
below 2 ^ 32. -/
def Needle.WellFormed (n : Needle) : Prop :=
  n.InRange ∧ n.DataSize = n.Data.length ∧ n.Data.length + 29 < 2 ^ 32

instance (n : Needle) : Decidable n.WellFormed := by
  unfold Needle.WellFormed
  infer_instance

/-- The concatenation of the encodings of the needles. -/
def encodeAll : List Needle → List Nat
  | [] => []
  | n :: ns => n.Write [] ++ encodeAll ns

/-- The sum of the encoded sizes of the needles. -/
def sizeAll : List Needle → Nat
  | [] => 0
  | n :: ns => (n.Write []).length + sizeAll ns

/-- The index after the needles were entered one after the other, the first at `offset`. -/
def indexAll (volID : Nat) : List Needle → Int → List (Nat × NeedleInfo) →
    List (Nat × NeedleInfo)
  | [], _, index => index
  | n :: ns, offset, index =>
    indexAll volID ns (offset + (n.Write []).length)
      (mapSet index n.ID
        { Offset := offset, Size := n.DataSize, Flags := n.Flags, VolumeID := volID })

/-- A volume whose file is the encoding of `oddNeedle`. -/
def oddVolume : Volume := NewVolume 1 (oddNeedle.Write []) 4096

/-- A volume whose file is the encoding of the sample needle, of the same needle under
id 8, and three bytes more. -/
def scannedVolume : Volume :=
  NewVolume 1 (encodeAll [sampleNeedle, { sampleNeedle with ID := 8, Flags := 1 }] ++ [1, 2, 3])
    4096

/-! ## Volumes whose index describes the file -/

/-- Entry `info` locates the encoding of `n` in the file of `v`. -/
def Volume.Locates (v : Volume) (info : NeedleInfo) (n : Needle) : Prop :=
  0 ≤ info.Offset ∧
  (v.File.drop info.Offset.toNat).take (n.Write []).length = n.Write [] ∧
  info.Offset + ((n.Write []).length : Int) ≤ v.CurrentSize

/-- Every live entry of the index locates, in front of CurrentSize, the record of a
well-formed needle that has the id and the size of the entry and a clear tombstone bit. -/
def Volume.Sound (v : Volume) : Prop :=
  ∀ id info, mapGet v.NeedleIndex id = some info → info.Flags &&& 0x01 = 0 →
    ∃ n : Needle, n.WellFormed ∧ n.ID = id ∧ n.DataSize = info.Size ∧ n.Flags &&& 0x01 = 0 ∧
      v.Locates info n

/-- The needles that `ReadNeedle` returns for the ids, an id that does not read left
out. -/
def readAll (vol : Volume) : List Nat → List Needle
  | [] => []
  | id :: rest =>
    match vol.ReadNeedle id with
    | .error _ => readAll vol rest
    | .ok n => n :: readAll vol rest

/-- The sum of 29 + size over the index entries of the ids. -/
def Volume.liveSize (v : Volume) : List Nat → Nat
  | [] => 0
  | id :: rest =>
    (match mapGet v.NeedleIndex id with
      | some info => 29 + info.Size
      | none => 0) + Volume.liveSize v rest

/-- Every volume of the table is sound. -/
def Store.AllSound (s : Store) : Prop := ∀ k v, mapGet s.volumes k = some v → v.Sound

/-- The payload of a write has an encoded size below 2 ^ 32 and the clock reading is an
int64 value. -/
def Op.Plain : Op → Prop
  | .write data _ _ env =>
    data.length + 29 < 2 ^ 32 ∧ -(2 ^ 63) ≤ env.createNow ∧ env.createNow < 2 ^ 63
  | .delete _ _ _ => True

/-- The records that the index entries of `a` and `b` describe do not overlap. -/
def Volume.Apart (v : Volume) (a b : Nat) : Prop :=
  match mapGet v.NeedleIndex a, mapGet v.NeedleIndex b with
  | some i1, some i2 =>
    i1.Offset + 29 + (i1.Size : Int) ≤ i2.Offset ∨ i2.Offset + 29 + (i2.Size : Int) ≤ i1.Offset
  | _, _ => True

instance (v : Volume) (a b : Nat) : Decidable (v.Apart a b) := by
  unfold Volume.Apart
  split <;> infer_instance

instance (op : Op) : Decidable op.Plain := by
  cases op <;> unfold Op.Plain <;> infer_instance

/-- A payload of 100 bytes. -/
def payload100 (b : Nat) : List Nat := List.replicate 100 b

/-- Ten writes of 100 bytes. -/
def tenOps : List Op := (List.range 10).map (fun i => Op.write (payload100 i) "" "" sampleEnv)

/-- The deletes of the ids 1 to 4. -/
def fourOps : List Op := (List.range 4).map (fun i => Op.delete [1] (i + 1) sampleEnv)

/-- Scenario S4 before the compaction: ten objects of 100 bytes written to `sampleStore`,
the first four deleted. -/
def fourDeleted : Store := (sampleStore.run tenOps).run fourOps

/-- Volume 1 of `fourDeleted`. -/
def s4Volume : Volume := (mapGet fourDeleted.volumes 1).getD sampleVolume

/-- A compaction that is not skipped and meets no failure; the ids are visited in some
order. -/
def s4Env : CompactEnv :=
  { belowThreshold := false, order := [10, 3, 5, 1, 7, 9, 2, 6, 8, 4], openFails := false,
    updateSizeFails := false }

/-- A compaction over the ids in `order` that is not skipped and meets no failure. -/
def allKeysEnv (order : List Nat) : CompactEnv :=
  { belowThreshold := false, order := order, openFails := false, updateSizeFails := false }

/-- The objects "a", "b", "c" written to `sampleStore` as ids 1, 2, 3, then `Delete(1)`. -/
def stale1 : Store :=
  sampleStore.run [.write [97] "" "" sampleEnv, .write [98] "" "" sampleEnv,
    .write [99] "" "" sampleEnv, .delete [1] 1 sampleEnv]

/-- The store `stale1` after volume 1 is compacted. -/
def stale2 : Store :=
  (stale1.compactVolume ((mapGet stale1.volumes 1).getD sampleVolume) (allKeysEnv [1, 2, 3])).1

/-- The store `stale2` after it is closed and opened again. -/
def stale3 : Store := (stale2.reopen sampleStartEnv).toOption.getD sampleStore

/-- The store `stale3` after the two-byte object "dd" is written as id 4. -/
def stale4 : Store := (stale3.WriteWithMetadata [100, 100] "" "" sampleEnv).1

/-- Volume 1 of `stale4`. -/
def stale4Volume : Volume := (mapGet stale4.volumes 1).getD sampleVolume

/-- The store `stale4` after volume 1 is compacted a second time. -/
def stale5 : Store := (stale4.compactVolume stale4Volume (allKeysEnv [1, 2, 3, 4])).1

/-- The store value on which `NewStore` calls `loadFromDatabase` when it starts on what
`Close` left behind. -/
def Store.closed (s : Store) : Store :=
  { config := s.config, volumes := [], activeVolID := 0, nextID := 1, db := s.Close.1,
    disk := s.Close.2 }

/-- The volume `loadFromDatabase` makes of a volume row, on the file with content `file`. -/
def loadedVolume (info : VolumeInfo) (file : List Nat) (maxSize : Int) : Volume :=
  { ID := info.ID, File := file, MaxSize := maxSize, CurrentSize := info.CurrentSize,
    Active := info.Active, NeedleIndex := [] }

/-- The index entry `loadFromDatabase` makes of a file row. -/
def rowEntry (m : FileMetadata) : NeedleInfo :=
  { Offset := m.Offset, Size := m.Size, Flags := m.Flags, VolumeID := m.VolumeID }

/-- The index of the volume under key `k` after the second loop of `loadFromDatabase` has
gone through `files`. -/
def indexAfter (k : Nat) : List FileMetadata → List (Nat × NeedleInfo) → List (Nat × NeedleInfo)
  | [], index => index
  | m :: rest, index =>
    indexAfter k rest (if m.VolumeID = k then mapSet index m.ID (rowEntry m) else index)

/-- The store after "hello" is written to `sampleStore` and `sampleOps` follow. -/
def roundTripStore : Store :=
  (sampleStore.WriteWithMetadata hello "a.txt" "text/plain" sampleEnv).1.run sampleOps

/-- Volume 1 of `roundTripStore`. -/
def roundTripVolume : Volume := (mapGet roundTripStore.volumes 1).getD sampleVolume

/-- The catalog mirrors the memory state: the volume rows and the file rows have distinct
ids and there is a volume row; the table holds a volume exactly under the ids of the volume
rows; each volume carries its table key, and its index holds an entry for an id exactly
when a file row has that id and that volume, the entry made of the row; every file row has
an id below the counter, flags 0 or 1 and a volume number not above the active one; and
the table holds nothing above the active volume number. -/
def Mirror (vols : List (Nat × Volume)) (db : Database) (next active : Nat) : Prop :=
  (db.volumes.map (fun i => i.ID)).Nodup ∧
  (db.files.map (fun m => m.ID)).Nodup ∧
  db.volumes ≠ [] ∧
  (∀ k, mapGet vols k = none ↔ k ∉ db.volumes.map (fun i => i.ID)) ∧
  (∀ k v, mapGet vols k = some v → v.ID = k ∧ ∀ id info,
    (mapGet v.NeedleIndex id = some info ↔
      ∃ m ∈ db.files, m.ID = id ∧ m.VolumeID = k ∧ info = rowEntry m)) ∧
  (∀ m ∈ db.files, m.ID < next ∧ m.Flags ≤ 1 ∧ m.VolumeID ≤ active) ∧
  (∀ k, active < k → mapGet vols k = none)

/-- The catalog of the store mirrors its memory state. -/
def Store.Mirrored (s : Store) : Prop := Mirror s.volumes s.db s.nextID s.activeVolID

/-- The catalog calls that record a write or a delete succeed. -/
def Op.CatalogOk : Op → Prop
  | .write _ _ _ env => env.saveMetaFails = false
  | .delete _ _ env => env.deleteMetaFails = false

instance (op : Op) : Decidable op.CatalogOk := by
  cases op <;> unfold Op.CatalogOk <;> infer_instance

/-- The payload of a write has an encoded size below 2 ^ 32. -/
def Op.Short : Op → Prop
  | .write data _ _ _ => data.length + 29 < 2 ^ 32
  | .delete _ _ _ => True

instance (op : Op) : Decidable op.Short := by
  cases op <;> unfold Op.Short <;> infer_instance

/-- The total encoded size, 29 + len(data) each, of the needles that the writes among the
calls wrote with success. -/
def Store.written : Store → List Op → Nat
  | _, [] => 0
  | s, .write data filename mimeType env :: rest =>
    (match (s.WriteWithMetadata data filename mimeType env).2 with
      | .ok _ => 29 + data.length
      | .error _ => 0) +
    Store.written (s.WriteWithMetadata data filename mimeType env).1 rest
  | s, .delete order id env :: rest => Store.written (s.Delete order id env).1 rest

/-- CurrentSize of the volume is its file length and is at most `S`, its MaxSize. -/
def Volume.Bounded (v : Volume) (S : Int) : Prop :=
  v.CurrentSize = (v.File.length : Int) ∧ v.CurrentSize ≤ S ∧ v.MaxSize = S

/-- Every volume of the table is bounded by max_volume_size. -/
def Store.Bounded (s : Store) : Prop :=
  ∀ k v, mapGet s.volumes k = some v → v.Bounded s.config.MaxVolumeSize

/-- The table holds volumes under two different numbers. -/
def Store.Two (s : Store) : Prop :=
  ∃ k1 k2 v1 v2, k1 ≠ k2 ∧ mapGet s.volumes k1 = some v1 ∧ mapGet s.volumes k2 = some v2

/-- The active volume is in the table and has the CurrentSize `w`. -/
def Store.One (s : Store) (w : Nat) : Prop :=
  ∃ v, mapGet s.volumes s.activeVolID = some v ∧ v.CurrentSize = (w : Int)

/-- The objects "a" and "b" written to `sampleStore` as ids 1 and 2, then `Delete(1)`. -/
def lone1 : Store :=
  sampleStore.run [.write [97] "" "" sampleEnv, .write [98] "" "" sampleEnv,
    .delete [1] 1 sampleEnv]

/-- The store `lone1` after volume 1 is compacted. -/
def lone2 : Store :=
  (lone1.compactVolume ((mapGet lone1.volumes 1).getD sampleVolume) (allKeysEnv [1, 2])).1

/-- The store `lone2` after it is closed and opened again. -/
def lone3 : Store := (lone2.reopen sampleStartEnv).toOption.getD sampleStore

/-- The sum `a + b` of two `int64` values as Go computes it: the low 64 bits of the exact
sum, read as two's complement. -/
def addInt64 (a b : Int) : Int := toInt64 (toUint64 (a + b))

/-- Method `(*Volume).WriteNeedle` with its two `int64` sums, `v.CurrentSize+n.Size()` of the
capacity test and `v.CurrentSize += n.Size()`, wrapping as in Go.  `Volume.WriteNeedle`
takes both sums exactly; the two agree whenever the sum is an `int64` value
(`WriteNeedleInt64_exact`). -/
def Volume.WriteNeedleInt64 (v : Volume) (n : Needle) : Volume × Option Error :=
  if addInt64 v.CurrentSize n.Size > v.MaxSize then
    ({ v with Active := false }, some .ErrVolumeFull)
  else
    let offset := v.CurrentSize
    if offset < 0 then (v, some .ErrSeek)
    else
      ({ v with
          File := writeAt v.File offset.toNat (n.Write [])
          NeedleIndex := (mapSet v.NeedleIndex n.ID
            { Offset := offset, Size := n.DataSize, Flags := n.Flags, VolumeID := v.ID })
          CurrentSize := addInt64 v.CurrentSize n.Size }, none)

/-- A volume as `loadFromDatabase` builds it on an empty file from a catalog row whose
current_size is the largest `int64`. -/
def brimVolume : Volume :=
  { ID := 1, File := [], MaxSize := 100, CurrentSize := 9223372036854775807, Active := true,
    NeedleIndex := [] }

/-- The store `NewStore` builds on an empty catalog and an empty data directory with
max_volume_size = 100. -/
def store100 : Store :=
  { config := { MaxVolumeSize := 100, ReadOnly := false },
    volumes := [(1, NewVolume 1 [] 100)], activeVolID := 1, nextID := 1,
    db := { files := [],
            volumes := [{ ID := 1, MaxSize := 100, CurrentSize := 0, Active := true }] },
    disk := [] }

/-- A payload of 50 bytes: its record has 79 bytes. -/
def payload50 : List Nat := List.replicate 50 7

/-- The objects "a", "b", "c" written to `store100` as ids 1, 2, 3, the catalog insert of
the third failing, then `Delete(1)`. -/
def twin1 : Store :=
  store100.run [.write [97] "" "" sampleEnv, .write [98] "" "" sampleEnv,
    .write [99] "" "" saveFaultEnv, .delete [1] 1 sampleEnv]

/-- The store `twin1` after volume 1 is compacted. -/
def twin2 : Store :=
  (twin1.compactVolume ((mapGet twin1.volumes 1).getD sampleVolume) (allKeysEnv [1, 2, 3])).1

/-- The store `twin2` after it is closed and opened again. -/
def twin3 : Store := (twin2.reopen sampleStartEnv).toOption.getD sampleStore

/-- The store `twin3` after volume 1 is compacted a second time. -/
def twin4 : Store :=
  (twin3.compactVolume ((mapGet twin3.volumes 1).getD sampleVolume) (allKeysEnv [1, 2])).1

/-- The store `twin4` after a write of 50 bytes, which rolls over to volume 2. -/
def twin5 : Store := (twin4.WriteWithMetadata payload50 "" "" sampleEnv).1

/-- The store after `smallStore` took a write of 20 bytes, a second one whose rollover
fails to mark volume 1 inactive in the catalog, and a third one whose rollover fails to
open the file of volume 3. -/
def clash1 : Store :=
  smallStore.run [.write payload20 "" "" sampleEnv,
    .write payload20 "" "" { sampleEnv with setInactiveFails := true },
    .write payload20 "" "" { sampleEnv with openFails := true }]

/-- The store `clash1` after it is closed and opened again. -/
def clash2 : Store := (clash1.reopen sampleStartEnv).toOption.getD sampleStore

/-- Method `GetFileMetadata`: `Where("id = ? AND deleted = ?", id, false).First(&meta)`.
No row is the error `gorm.ErrRecordNotFound`. -/
def Database.GetFileMetadata (d : Database) (id : Nat) (fails : Bool) :
    Except Error FileMetadata :=
  if fails then .error .ErrDatabase
  else
    match firstByID (d.files.filter (fun m => m.ID == id && !m.Deleted)) with
    | none => .error .ErrDatabase
    | some m => .ok m

/-- Method `(*Store).FindByFilename`. -/
def Store.FindByFilename (s : Store) (filename : String) (fails : Bool) :
    Except Error FileMetadata :=
  s.db.FindByFilename filename fails

/-- Method `(*Store).ReadWithMetadata`; `order` as in `Read`. -/
def Store.ReadWithMetadata (s : Store) (order : List Nat) (id : Nat) (fails : Bool) :
    Except Error (List Nat × FileMetadata) :=
  match s.db.GetFileMetadata id fails with
  | .error _ => .error .ErrNeedleNotFound
  | .ok m =>
    match s.Read order id with
    | .error e => .error e
    | .ok data => .ok (data, m)

/-- Handler `(*S3Handler).PutObject` on a request body that was read in full: the store
afterwards, and the answer, which is the id of the header x-amz-request-id with status 200
or the code of the S3 error. -/
def S3Handler.PutObject (s : Store) (bucket key : String) (data : List Nat)
    (contentType : String) (env : Env) : Store × Except String Nat :=
  if bucket == "" || key == "" then (s, .error "InvalidRequest")
  else
    let contentType := if contentType == "" then "application/octet-stream" else contentType
    let filename := bucket ++ "/" ++ key
    match s.WriteWithMetadata data filename contentType env with
    | (s, .error _) => (s, .error "InternalError")
    | (s, .ok id) => (s, .ok id)

/-- Handler `(*S3Handler).GetObject`: the body and the Content-Type of the answer with
status 200, or the code of the S3 error. -/
def S3Handler.GetObject (s : Store) (order : List Nat) (bucket key : String)
    (findFails getFails : Bool) : Except String (List Nat × String) :=
  if bucket == "" || key == "" then .error "InvalidRequest"
  else
    let filename := bucket ++ "/" ++ key
    match s.FindByFilename filename findFails with
    | .error _ => .error "NoSuchKey"
    | .ok m =>
      match s.ReadWithMetadata order m.ID getFails with
      | .error _ => .error "InternalError"
      | .ok (data, metadata) => .ok (data, metadata.MimeType)

/-- The store after the S3 request PUT /b/k with the body "v1" on `sampleStore`. -/
def put1 : Store := (S3Handler.PutObject sampleStore "b" "k" [118, 49] "" sampleEnv).1

/-- The store after a second PUT /b/k, with the body "v2". -/
def put2 : Store := (S3Handler.PutObject put1 "b" "k" [118, 50] "" sampleEnv).1

/-! ## The checksum: range and sensitivity to one byte -/

theorem crcPoly_lt : crcPoly < 2 ^ 32 := by decide

theorem crcShift_lt {c : Nat} (h : c < 2 ^ 32) : crcShift c < 2 ^ 32 := by
  unfold crcShift
  split
  · exact Nat.xor_lt_two_pow (by omega) crcPoly_lt
  · omega

theorem crcShift_inj {a b : Nat} (ha : a < 2 ^ 32) (hb : b < 2 ^ 32)
    (h : crcShift a = crcShift b) : a = b := by
  have key : ∀ c, c < 2 ^ 32 → c % 2 = 1 → 2 ^ 31 ≤ (c / 2) ^^^ crcPoly := by
    intro c hc _
    apply Nat.testBit_implies_ge
    rw [Nat.testBit_xor, Nat.testBit_lt_two_pow (by omega : c / 2 < 2 ^ 31)]
    decide
  unfold crcShift at h
  by_cases h1 : a % 2 = 1 <;> by_cases h2 : b % 2 = 1
  · simp only [h1, h2, if_true] at h
    have := Nat.xor_left_injective h
    omega
  · simp only [h1, h2, if_true, if_false] at h
    have := key a ha h1
    omega
  · simp only [h1, h2, if_true, if_false] at h
    have := key b hb h2
    omega
  · simp only [h1, h2, if_false] at h
    omega

theorem xor_byte_lt {c : Nat} (h : c < 2 ^ 32) (b : Nat) : c ^^^ (b % 256) < 2 ^ 32 :=
  Nat.xor_lt_two_pow h (by omega)

theorem crcByte_lt {c : Nat} (h : c < 2 ^ 32) (b : Nat) : crcByte c b < 2 ^ 32 := by
  unfold crcByte
  exact crcShift_lt (crcShift_lt (crcShift_lt (crcShift_lt (crcShift_lt (crcShift_lt
    (crcShift_lt (crcShift_lt (xor_byte_lt h b))))))))

theorem crcByte_pre_inj {x y : Nat} (hx : x < 2 ^ 32) (hy : y < 2 ^ 32)
    (h : crcShift (crcShift (crcShift (crcShift (crcShift (crcShift (crcShift (crcShift x)))))))
       = crcShift (crcShift (crcShift (crcShift (crcShift (crcShift (crcShift (crcShift y)))))))) :
    x = y := by
  have l1 := fun {c : Nat} (h : c < 2 ^ 32) => crcShift_lt h
  exact crcShift_inj hx hy (crcShift_inj (l1 hx) (l1 hy) (crcShift_inj (l1 (l1 hx)) (l1 (l1 hy))
    (crcShift_inj (l1 (l1 (l1 hx))) (l1 (l1 (l1 hy)))
    (crcShift_inj (l1 (l1 (l1 (l1 hx)))) (l1 (l1 (l1 (l1 hy))))
    (crcShift_inj (l1 (l1 (l1 (l1 (l1 hx))))) (l1 (l1 (l1 (l1 (l1 hy)))))
    (crcShift_inj (l1 (l1 (l1 (l1 (l1 (l1 hx)))))) (l1 (l1 (l1 (l1 (l1 (l1 hy))))))
    (crcShift_inj (l1 (l1 (l1 (l1 (l1 (l1 (l1 hx))))))) (l1 (l1 (l1 (l1 (l1 (l1 (l1 hy)))))))
      h)))))))

theorem crcByte_inj_state {a b : Nat} (ha : a < 2 ^ 32) (hb : b < 2 ^ 32) (x : Nat)
    (h : crcByte a x = crcByte b x) : a = b := by
  unfold crcByte at h
  exact Nat.xor_left_injective (crcByte_pre_inj (xor_byte_lt ha x) (xor_byte_lt hb x) h)

theorem crcByte_inj_byte {c : Nat} (hc : c < 2 ^ 32) (x y : Nat)
    (h : crcByte c x = crcByte c y) : x % 256 = y % 256 := by
  unfold crcByte at h
  exact Nat.xor_right_injective (crcByte_pre_inj (xor_byte_lt hc x) (xor_byte_lt hc y) h)

theorem crcFold_lt (l : List Nat) {c : Nat} (h : c < 2 ^ 32) : l.foldl crcByte c < 2 ^ 32 := by
  induction l generalizing c with
  | nil => simpa using h
  | cons b l ih => exact ih (crcByte_lt h b)

theorem crcFold_inj (l : List Nat) {a b : Nat} (ha : a < 2 ^ 32) (hb : b < 2 ^ 32)
    (h : l.foldl crcByte a = l.foldl crcByte b) : a = b := by
  induction l generalizing a b with
  | nil => simpa using h
  | cons x l ih => exact crcByte_inj_state ha hb x (ih (crcByte_lt ha x) (crcByte_lt hb x) h)

theorem ChecksumIEEE_lt (data : List Nat) : ChecksumIEEE data < 2 ^ 32 :=
  Nat.xor_lt_two_pow (crcFold_lt data (by norm_num)) (by norm_num)

set_option maxRecDepth 100000 in
/-- The standard check value of CRC-32/IEEE: the checksum of the ASCII digits 1 to 9. -/
theorem ChecksumIEEE_check :
    ChecksumIEEE [49, 50, 51, 52, 53, 54, 55, 56, 57] = 0xCBF43926 := by
  decide

/-- Replacing one byte of the data by a byte with another value changes the checksum. -/
theorem ChecksumIEEE_ne_of_byte (pre post : List Nat) (x y : Nat) (h : x % 256 ≠ y % 256) :
    ChecksumIEEE (pre ++ x :: post) ≠ ChecksumIEEE (pre ++ y :: post) := by
  intro he
  unfold ChecksumIEEE at he
  have h0 := Nat.xor_left_injective he
  simp only [List.foldl_append, List.foldl_cons] at h0
  have hp : pre.foldl crcByte 0xFFFFFFFF < 2 ^ 32 := crcFold_lt pre (by norm_num)
  exact h (crcByte_inj_byte hp x y (crcFold_inj post (crcByte_lt hp x) (crcByte_lt hp y) h0))

/-! ## The codec -/

theorem bigEndian_length (k x : Nat) : (bigEndian k x).length = k := by
  induction k generalizing x with
  | zero => rfl
  | succ k ih => simp [bigEndian, ih]

theorem fromBigEndian_snoc (bs : List Nat) (b : Nat) :
    fromBigEndian (bs ++ [b]) = fromBigEndian bs * 256 + b := by
  simp [fromBigEndian, List.foldl_append]

theorem fromBigEndian_bigEndian (k x : Nat) : fromBigEndian (bigEndian k x) = x % 256 ^ k := by
  induction k generalizing x with
  | zero => simp [bigEndian, fromBigEndian, Nat.mod_one]
  | succ k ih =>
    rw [bigEndian, fromBigEndian_snoc, ih, pow_succ, Nat.mul_comm (256 ^ k) 256, Nat.mod_mul]
    omega

theorem readFull_append (bs rest : List Nat) (n : Nat) (h : bs.length = n) :
    readFull (bs ++ rest) n = .ok (bs, rest) := by
  unfold readFull
  by_cases h0 : n = 0
  · subst h0
    have : bs = [] := List.length_eq_zero.mp h
    simp [this]
  · have h1 : ¬ (bs ++ rest).length = 0 := by rw [List.length_append]; omega
    have h2 : ¬ (bs ++ rest).length < n := by rw [List.length_append]; omega
    simp only [h0, h1, h2, if_false]
    subst h
    simp

theorem binaryRead_bigEndian (k x : Nat) (rest : List Nat) :
    binaryRead (bigEndian k x ++ rest) k = .ok (x % 256 ^ k, rest) := by
  unfold binaryRead
  rw [readFull_append _ _ _ (bigEndian_length k x)]
  simp [fromBigEndian_bigEndian]

theorem Needle.Write_eq (n : Needle) (w : List Nat) :
    n.Write w = w ++ (bigEndian 8 n.ID ++ (bigEndian 4 n.Cookie ++ (bigEndian 4 n.DataSize ++
      (bigEndian 8 (toUint64 n.CreateTime) ++ (bigEndian 1 n.Flags ++ (n.Data ++
        bigEndian 4 (ChecksumIEEE n.Data))))))) := by
  simp [Needle.Write, binaryWrite, List.append_assoc]

theorem Needle.Write_length (n : Needle) : (n.Write []).length = 29 + n.Data.length := by
  rw [Needle.Write_eq]
  simp [bigEndian_length]
  omega

theorem toInt64_toUint64 (x : Int) (h1 : -(2 ^ 63) ≤ x) (h2 : x < 2 ^ 63) :
    toInt64 (toUint64 x) = x := by
  unfold toInt64 toUint64
  have h3 : (0 : Int) ≤ x % 2 ^ 64 := Int.emod_nonneg _ (by norm_num)
  have h4 : x % 2 ^ 64 < 2 ^ 64 := Int.emod_lt_of_pos _ (by norm_num)
  split <;> omega

/-- Decoding what `Write` emitted (followed by anything). -/
theorem ReadNeedleFrom_Write (n : Needle) (rest : List Nat)
    (hs : n.DataSize = n.Data.length) (hlt : n.DataSize < 2 ^ 32) :
    ReadNeedleFrom (n.Write [] ++ rest) =
      .ok ({ ID := n.ID % 2 ^ 64, Cookie := n.Cookie % 2 ^ 32, Data := n.Data,
             DataSize := n.DataSize, Flags := n.Flags % 2 ^ 8,
             CreateTime := toInt64 (toUint64 n.CreateTime % 2 ^ 64),
             FileName := "", MimeType := "", MD5 := "" }, rest) := by
  rw [Needle.Write_eq]
  simp only [List.nil_append, List.append_assoc]
  unfold ReadNeedleFrom
  simp only [binaryRead_bigEndian]
  have hd : n.DataSize % 256 ^ 4 = n.Data.length := by
    rw [← hs]; exact Nat.mod_eq_of_lt (by norm_num at hlt ⊢; exact hlt)
  rw [hd, readFull_append _ _ _ rfl]
  simp only [binaryRead_bigEndian]
  have hc : ChecksumIEEE n.Data % 4294967296 = ChecksumIEEE n.Data :=
    Nat.mod_eq_of_lt (by have := ChecksumIEEE_lt n.Data; omega)
  simp [hc, hs]

theorem readFull_of_le (r : List Nat) (n : Nat) (h : n ≤ r.length) :
    readFull r n = .ok (r.take n, r.drop n) := by
  unfold readFull
  by_cases h0 : n = 0
  · subst h0; simp
  · have h1 : ¬ r.length = 0 := by omega
    have h2 : ¬ r.length < n := by omega
    simp only [h0, h1, h2, if_false]

theorem readFull_of_lt (r : List Nat) (n : Nat) (h : r.length < n) :
    readFull r n = .error .EOF ∨ readFull r n = .error .ErrUnexpectedEOF := by
  unfold readFull
  have h0 : ¬ n = 0 := by omega
  by_cases h1 : r.length = 0
  · left; simp only [h0, h1, if_false, if_true]
  · right; simp only [h0, h1, h, if_false, if_true]

theorem binaryRead_of_le (r : List Nat) (n : Nat) (h : n ≤ r.length) :
    binaryRead r n = .ok (fromBigEndian (r.take n), r.drop n) := by
  unfold binaryRead
  rw [readFull_of_le r n h]

theorem binaryRead_of_lt (r : List Nat) (n : Nat) (h : r.length < n) :
    binaryRead r n = .error .EOF ∨ binaryRead r n = .error .ErrUnexpectedEOF := by
  unfold binaryRead
  rcases readFull_of_lt r n h with h1 | h1 <;> rw [h1] <;> simp

theorem ReadNeedleFrom_of_le (r : List Nat)
    (h : 29 + fromBigEndian ((r.drop 12).take 4) ≤ r.length) :
    ReadNeedleFrom r =
      if ChecksumIEEE ((r.drop 25).take (fromBigEndian ((r.drop 12).take 4))) !=
          fromBigEndian ((r.drop (25 + fromBigEndian ((r.drop 12).take 4))).take 4)
      then .error .ErrCRCMismatch
      else .ok (decodedNeedle r, r.drop (29 + fromBigEndian ((r.drop 12).take 4))) := by
  unfold ReadNeedleFrom
  rw [binaryRead_of_le r 8 (by omega)]
  simp only
  rw [binaryRead_of_le (r.drop 8) 4 (by rw [List.length_drop]; omega)]
  simp only [List.drop_drop]
  rw [binaryRead_of_le (r.drop 12) 4 (by rw [List.length_drop]; omega)]
  simp only [List.drop_drop]
  rw [binaryRead_of_le (r.drop 16) 8 (by rw [List.length_drop]; omega)]
  simp only [List.drop_drop]
  rw [binaryRead_of_le (r.drop 24) 1 (by rw [List.length_drop]; omega)]
  simp only [List.drop_drop]
  rw [readFull_of_le (r.drop 25) _ (by rw [List.length_drop]; omega)]
  simp only [List.drop_drop]
  rw [binaryRead_of_le (r.drop (25 + _)) 4 (by rw [List.length_drop]; omega)]
  simp only [List.drop_drop, decodedNeedle]
  have : 25 + fromBigEndian (List.take 4 (List.drop 12 r)) + 4 = 29 + fromBigEndian (List.take 4 (List.drop 12 r)) := by omega
  simp only [this]

theorem ReadNeedleFrom_of_lt (r : List Nat)
    (h : r.length < 29 + fromBigEndian ((r.drop 12).take 4)) :
    ReadNeedleFrom r = .error .EOF ∨ ReadNeedleFrom r = .error .ErrUnexpectedEOF := by
  unfold ReadNeedleFrom
  by_cases h1 : 8 ≤ r.length
  swap
  · rcases binaryRead_of_lt r 8 (by omega) with e | e <;> rw [e] <;> simp
  rw [binaryRead_of_le r 8 h1]
  simp only
  by_cases h2 : 12 ≤ r.length
  swap
  · rcases binaryRead_of_lt (r.drop 8) 4 (by rw [List.length_drop]; omega) with e | e <;> rw [e] <;> simp
  rw [binaryRead_of_le (r.drop 8) 4 (by rw [List.length_drop]; omega)]
  simp only [List.drop_drop]
  by_cases h3 : 16 ≤ r.length
  swap
  · rcases binaryRead_of_lt (r.drop 12) 4 (by rw [List.length_drop]; omega) with e | e <;> rw [e] <;> simp
  rw [binaryRead_of_le (r.drop 12) 4 (by rw [List.length_drop]; omega)]
  simp only [List.drop_drop]
  by_cases h4 : 24 ≤ r.length
  swap
  · rcases binaryRead_of_lt (r.drop 16) 8 (by rw [List.length_drop]; omega) with e | e <;> rw [e] <;> simp
  rw [binaryRead_of_le (r.drop 16) 8 (by rw [List.length_drop]; omega)]
  simp only [List.drop_drop]
  by_cases h5 : 25 ≤ r.length
  swap
  · rcases binaryRead_of_lt (r.drop 24) 1 (by rw [List.length_drop]; omega) with e | e <;> rw [e] <;> simp
  rw [binaryRead_of_le (r.drop 24) 1 (by rw [List.length_drop]; omega)]
  simp only [List.drop_drop]
  by_cases h6 : 25 + fromBigEndian ((r.drop 12).take 4) ≤ r.length
  swap
  · rcases readFull_of_lt (r.drop 25) (fromBigEndian ((r.drop 12).take 4)) (by rw [List.length_drop]; omega) with e | e <;> simp [e]
  rw [readFull_of_le (r.drop 25) _ (by rw [List.length_drop]; omega)]
  simp only [List.drop_drop]
  rcases binaryRead_of_lt (r.drop (25 + fromBigEndian ((r.drop 12).take 4))) 4 (by rw [List.length_drop]; omega) with e | e <;> simp [e]

theorem toUint64_cast (x : Int) : ((toUint64 x : Nat) : Int) = x % 2 ^ 64 := by
  unfold toUint64
  exact Int.toNat_of_nonneg (Int.emod_nonneg _ (by norm_num))

theorem Needle.Size_eq (n : Needle) (h : n.DataSize + 29 < 2 ^ 32) :
    n.Size = 29 + (n.DataSize : Int) := by
  unfold Needle.Size NeedleHeaderSize NeedleFooterSize
  rw [Nat.mod_eq_of_lt (by omega)]
  push_cast
  omega

theorem Needle.Size_nonneg (n : Needle) : 0 ≤ n.Size := by
  unfold Needle.Size
  exact Int.natCast_nonneg _

theorem mapGet_filter_ne {α : Type} (m : List (Nat × α)) (k j : Nat) (h : j ≠ k) :
    mapGet (m.filter (fun e => e.1 != k)) j = mapGet m j := by
  induction m with
  | nil => rfl
  | cons e m ih =>
    obtain ⟨k1, a⟩ := e
    by_cases h1 : k1 = k
    · subst h1
      have : k1 ≠ j := fun h2 => h h2.symm
      simp [List.filter_cons, mapGet, ih, this]
    · by_cases h2 : k1 = j
      · subst h2
        simp [List.filter_cons, mapGet, h]
      · simp [List.filter_cons, mapGet, h1, h2, ih]

theorem mapGet_mapSet_self {α : Type} (m : List (Nat × α)) (k : Nat) (a : α) :
    mapGet (mapSet m k a) k = some a := by
  simp [mapSet, mapGet]

theorem mapGet_mapSet_ne {α : Type} (m : List (Nat × α)) (k j : Nat) (a : α) (h : j ≠ k) :
    mapGet (mapSet m k a) j = mapGet m j := by
  have : k ≠ j := fun h2 => h h2.symm
  simp [mapSet, mapGet, this, mapGet_filter_ne m k j h]

theorem writeAt_eq (f : List Nat) (off : Nat) (bs : List Nat) :
    writeAt f off bs =
      (f.take off ++ List.replicate (off - f.length) 0) ++ (bs ++ f.drop (off + bs.length)) := by
  simp [writeAt, List.append_assoc]

theorem writeAt_head_length (f : List Nat) (off : Nat) :
    (f.take off ++ List.replicate (off - f.length) 0).length = off := by
  simp [List.length_append, List.length_take, List.length_replicate]
  omega

/-- The bytes written are found at the offset. -/
theorem writeAt_drop (f : List Nat) (off : Nat) (bs : List Nat) :
    (writeAt f off bs).drop off = bs ++ f.drop (off + bs.length) := by
  rw [writeAt_eq]
  exact List.drop_left' (writeAt_head_length f off)

theorem writeAt_drop_take (f : List Nat) (off : Nat) (bs : List Nat) :
    ((writeAt f off bs).drop off).take bs.length = bs := by
  rw [writeAt_drop]
  simp

/-- Bytes of the file in front of the offset stay. -/
theorem writeAt_take (f : List Nat) (off k : Nat) (bs : List Nat) (h1 : k ≤ off)
    (h2 : k ≤ f.length) : (writeAt f off bs).take k = f.take k := by
  rw [writeAt_eq, List.append_assoc, List.take_append_of_le_length, List.take_take]
  · simp [h1]
  · simp [List.length_take]; omega

theorem writeAt_getElem? (f : List Nat) (off i : Nat) (bs : List Nat) (h1 : i < off)
    (h2 : i < f.length) : (writeAt f off bs)[i]? = f[i]? := by
  have h := writeAt_take f off (i + 1) bs (by omega) (by omega)
  have e1 : ((writeAt f off bs).take (i + 1))[i]? = (writeAt f off bs)[i]? := by
    rw [List.getElem?_take]; simp
  have e2 : (f.take (i + 1))[i]? = f[i]? := by
    rw [List.getElem?_take]; simp
  rw [← e1, h, e2]

theorem xor_two_pow_mod_ne (x k : Nat) (hk : k < 8) : (x ^^^ 2 ^ k) % 256 ≠ x % 256 := by
  intro h
  have h1 : ((x ^^^ 2 ^ k) % 2 ^ 8).testBit k = (x % 2 ^ 8).testBit k := by
    have e : (2 : Nat) ^ 8 = 256 := by norm_num
    rw [e, h]
  rw [Nat.testBit_mod_two_pow, Nat.testBit_mod_two_pow, Nat.testBit_xor, Nat.testBit_two_pow] at h1
  simp [hk] at h1

/-- Decoding a record laid out as header, data, footer, rest. -/
theorem ReadNeedleFrom_layout (n : Needle) (data : List Nat) (c : Nat) (rest : List Nat)
    (hs : n.DataSize = data.length) (hlt : n.DataSize < 2 ^ 32) :
    ReadNeedleFrom (bigEndian 8 n.ID ++ (bigEndian 4 n.Cookie ++ (bigEndian 4 n.DataSize ++
      (bigEndian 8 (toUint64 n.CreateTime) ++ (bigEndian 1 n.Flags ++ (data ++
        (bigEndian 4 c ++ rest))))))) =
      if ChecksumIEEE data != c % 2 ^ 32 then .error .ErrCRCMismatch
      else .ok ({ ID := n.ID % 2 ^ 64, Cookie := n.Cookie % 2 ^ 32, Data := data,
                  DataSize := n.DataSize, Flags := n.Flags % 2 ^ 8,
                  CreateTime := toInt64 (toUint64 n.CreateTime % 2 ^ 64),
                  FileName := "", MimeType := "", MD5 := "" }, rest) := by
  unfold ReadNeedleFrom
  simp only [binaryRead_bigEndian]
  have hd : n.DataSize % 256 ^ 4 = data.length := by
    rw [← hs]; exact Nat.mod_eq_of_lt (by norm_num at hlt ⊢; exact hlt)
  rw [hd, readFull_append _ _ _ rfl]
  simp only [binaryRead_bigEndian]
  simp [hs]

theorem set_in_segment (P M T : List Nat) (q y : Nat) (hq : q < M.length) :
    (P ++ (M ++ T)).set (P.length + q) y = P ++ (M.set q y ++ T) := by
  rw [List.set_append_right _ _ (by omega)]
  simp [List.set_append_left _ _ hq]

theorem getD_in_segment (P M T : List Nat) (q : Nat) (hq : q < M.length) :
    (P ++ (M ++ T)).getD (P.length + q) 0 = M.getD q 0 := by
  rw [List.getD_append_right _ _ _ _ (by omega)]
  simp [List.getElem?_append_left hq]

theorem flipBit_in_segment (P M T : List Nat) (q k : Nat) (hq : q < M.length) :
    flipBit (P ++ (M ++ T)) (P.length + q) k = P ++ (flipBit M q k ++ T) := by
  unfold flipBit
  rw [getD_in_segment P M T q hq, set_in_segment P M T q _ hq]

theorem flipBit_split (M : List Nat) (q k : Nat) (hq : q < M.length) :
    M = M.take q ++ M.getD q 0 :: M.drop (q + 1) ∧
    flipBit M q k = M.take q ++ (M.getD q 0 ^^^ 2 ^ k) :: M.drop (q + 1) := by
  constructor
  · rw [List.getD_eq_getElem _ _ hq]
    simp
  · unfold flipBit
    rw [List.set_eq_take_append_cons_drop]
    simp [hq]

theorem ChecksumIEEE_flipBit (data : List Nat) (q k : Nat) (hq : q < data.length) (hk : k < 8) :
    ChecksumIEEE (flipBit data q k) ≠ ChecksumIEEE data := by
  obtain ⟨h1, h2⟩ := flipBit_split data q k hq
  rw [h2]
  conv => rhs; rw [h1]
  exact ChecksumIEEE_ne_of_byte _ _ _ _ (xor_two_pow_mod_ne _ k hk)

theorem flipBit_length (f : List Nat) (pos k : Nat) : (flipBit f pos k).length = f.length := by
  simp [flipBit]

/-- Header bytes of a needle. -/
theorem Needle.Write_split (n : Needle) :
    ∃ H : List Nat, H.length = 25 ∧
      H = bigEndian 8 n.ID ++ (bigEndian 4 n.Cookie ++ (bigEndian 4 n.DataSize ++
        (bigEndian 8 (toUint64 n.CreateTime) ++ bigEndian 1 n.Flags))) ∧
      n.Write [] = H ++ (n.Data ++ bigEndian 4 (ChecksumIEEE n.Data)) := by
  refine ⟨_, ?_, rfl, ?_⟩
  · simp [bigEndian_length]
  · rw [Needle.Write_eq]; simp

/-- The file after a write of `n` at `off` and a flip of bit `k` of data byte `p`. -/
theorem flipBit_writeAt (f : List Nat) (off : Nat) (n : Needle) (p k : Nat)
    (hp : p < n.Data.length) :
    (flipBit (writeAt f off (n.Write [])) (off + 25 + p) k).drop off =
      bigEndian 8 n.ID ++ (bigEndian 4 n.Cookie ++ (bigEndian 4 n.DataSize ++
        (bigEndian 8 (toUint64 n.CreateTime) ++ (bigEndian 1 n.Flags ++ (flipBit n.Data p k ++
          (bigEndian 4 (ChecksumIEEE n.Data) ++ f.drop (off + (n.Write []).length))))))) := by
  obtain ⟨H, hH, hHe, hW⟩ := Needle.Write_split n
  have hlen := writeAt_head_length f off
  have e0 : off + 25 + p = (f.take off ++ List.replicate (off - f.length) 0).length + (25 + p) := by
    rw [hlen]; omega
  have hq : 25 + p < (n.Write []).length := by rw [Needle.Write_length]; omega
  have e1 := flipBit_in_segment (f.take off ++ List.replicate (off - f.length) 0) (n.Write [])
    (f.drop (off + (n.Write []).length)) (25 + p) k hq
  have e2 : flipBit (n.Write []) (25 + p) k =
      H ++ (flipBit n.Data p k ++ bigEndian 4 (ChecksumIEEE n.Data)) := by
    have := flipBit_in_segment H n.Data (bigEndian 4 (ChecksumIEEE n.Data)) p k hp
    rw [hH] at this
    rw [hW]
    exact this
  rw [writeAt_eq, e0, e1, e2, List.drop_left' hlen, hHe]
  simp only [List.append_assoc]

/-- One flipped data bit in the record of a live needle is reported by the volume. -/
theorem ReadNeedle_flipBit (v : Volume) (n : Needle) (p k : Nat)
    (hs : n.DataSize = n.Data.length) (hlt : n.DataSize < 2 ^ 32) (hlive : n.Flags &&& 0x01 = 0)
    (hok : (v.WriteNeedle n).2 = none) (hp : p < n.Data.length) (hk : k < 8) :
    ((v.WriteNeedle n).1.corruptBit (v.CurrentSize.toNat + 25 + p) k).ReadNeedle n.ID =
      .error .ErrCRCMismatch := by
  have h1 : ¬ v.CurrentSize + n.Size > v.MaxSize := by
    intro h; simp [Volume.WriteNeedle, h] at hok
  have h2 : ¬ v.CurrentSize < 0 := by
    intro h; simp [Volume.WriteNeedle, h1, h] at hok
  simp only [Volume.WriteNeedle, h1, h2, if_false, Volume.ReadNeedle, Volume.corruptBit,
    mapGet_mapSet_self]
  have hl : ¬ (n.Flags &&& 1 != 0) = true := by simp [hlive]
  simp only [hl, if_false, h2]
  rw [flipBit_writeAt _ _ _ _ _ hp,
    ReadNeedleFrom_layout n (flipBit n.Data p k) _ _ (by rw [flipBit_length]; exact hs) hlt]
  have hc : ChecksumIEEE n.Data % 2 ^ 32 = ChecksumIEEE n.Data :=
    Nat.mod_eq_of_lt (ChecksumIEEE_lt n.Data)
  rw [hc]
  have := ChecksumIEEE_flipBit n.Data p k hp hk
  simp [this]

theorem NewStore_sample :
    NewStore { MaxVolumeSize := 4096, ReadOnly := false } { files := [], volumes := [] } []
      sampleStartEnv = .ok sampleStore := by
  decide

theorem NewStore_big :
    NewStore { MaxVolumeSize := 8589934592, ReadOnly := false } { files := [], volumes := [] } []
      sampleStartEnv = .ok bigStore := by
  decide

theorem Store.Read_error (s : Store) (order : List Nat) (id : Nat) (e : Error)
    (h : s.Read order id = .error e) : e = .ErrNeedleNotFound := by
  induction order with
  | nil => simp [Store.Read] at h; exact h.symm
  | cons k rest ih =>
    unfold Store.Read at h
    split at h
    · exact ih h
    · split at h
      · simp at h
      · exact ih h

/-! ## The store -/

theorem saveWritten_fst (s : Store) (vol : Volume) (volID : Nat) (m : Needle)
    (filename mimeType : String) (env : Env) :
    (s.saveWritten vol volID m filename mimeType env).1.volumes = s.volumes ∧
    (s.saveWritten vol volID m filename mimeType env).1.activeVolID = s.activeVolID ∧
    (s.saveWritten vol volID m filename mimeType env).1.nextID = s.nextID ∧
    (s.saveWritten vol volID m filename mimeType env).1.config = s.config ∧
    (s.saveWritten vol volID m filename mimeType env).1.disk = s.disk ∧
    (s.saveWritten vol volID m filename mimeType env).2 = .ok m.ID := by
  simp [Store.saveWritten]

/-- The outcomes of `WriteWithMetadata`: refused (read-only); nothing written; the needle
handed to the active volume; the needle handed to the active volume and, after
`ErrVolumeFull`, to a new volume under the next volume number. -/
theorem WriteWithMetadata_cases (s : Store) (data : List Nat) (filename mimeType : String)
    (env : Env) (m : Needle) (hm : m = buildNeedle s.nextID data filename mimeType env)
    (b : Nat) (hb : b = (s.activeVolID + 1) % 2 ^ 32)
    (r : Store × Except Error Nat) (hr : r = s.WriteWithMetadata data filename mimeType env) :
    (r.1 = s ∧ r.2 = .error .ErrReadOnly) ∨
    (r.1.nextID = (s.nextID + 1) % 2 ^ 64 ∧ r.1.config = s.config ∧ r.1.disk = s.disk ∧
      ((r.1.volumes = s.volumes ∧ r.1.activeVolID = s.activeVolID ∧ ∃ e, r.2 = .error e) ∨
       (∃ vol, mapGet s.volumes s.activeVolID = some vol ∧
          r.1.volumes = mapSet s.volumes s.activeVolID (vol.WriteNeedle m).1 ∧
          r.1.activeVolID = s.activeVolID ∧
          (((vol.WriteNeedle m).2 = none ∧ r.2 = .ok s.nextID) ∨
            ((vol.WriteNeedle m).2 ≠ none ∧ ∃ e, r.2 = .error e))) ∨
       (∃ vol file, mapGet s.volumes s.activeVolID = some vol ∧
          (vol.WriteNeedle m).2 = some .ErrVolumeFull ∧
          r.1.volumes = mapSet (mapSet (mapSet s.volumes s.activeVolID (vol.WriteNeedle m).1) b
            (NewVolume b file s.config.MaxVolumeSize)) b
              ((NewVolume b file s.config.MaxVolumeSize).WriteNeedle m).1 ∧
          r.1.activeVolID = b ∧
          ((((NewVolume b file s.config.MaxVolumeSize).WriteNeedle m).2 = none ∧
              r.2 = .ok s.nextID) ∨
            ((((NewVolume b file s.config.MaxVolumeSize).WriteNeedle m).2 ≠ none ∧
              ∃ e, r.2 = .error e)))))) := by
  subst hr
  unfold Store.WriteWithMetadata
  by_cases hro : s.config.ReadOnly = true
  · left; simp [hro]
  right
  simp only [hro, Bool.false_eq_true, if_false, ← hm]
  cases hvol : mapGet s.volumes s.activeVolID with
  | none => simp
  | some vol =>
    simp only
    rcases hw : vol.WriteNeedle m with ⟨vol1, _ | err⟩
    · have e1 : vol1 = (vol.WriteNeedle m).1 := by rw [hw]
      have hmid : m.ID = s.nextID := by rw [hm]; rfl
      simp only [saveWritten_fst, hmid, true_and]
      right; left
      refine ⟨vol, ?_⟩
      simp [hw]
    · simp only
      by_cases he : err = .ErrVolumeFull
      · subst he
        simp only [if_true]
        unfold Store.createNewVolume
        simp only [← hb]
        by_cases ho : env.openFails = true
        · simp only [ho, if_true, true_and]
          right; left
          refine ⟨vol, ?_⟩
          simp [hw]
        · simp only [ho, Bool.false_eq_true, if_false]
          generalize hf : Store.openFile _ b = file
          generalize hnv : NewVolume b file s.config.MaxVolumeSize = nv
          rcases hdb : Database.SaveVolumeInfo _ _ env.saveVolumeFails with ⟨db, _ | e⟩
          · simp only
            have hnid : nv.ID = b := by rw [← hnv]; rfl
            rcases hw2 : nv.WriteNeedle m with ⟨vol3, _ | e2⟩
            · have hmid : m.ID = s.nextID := by rw [hm]; rfl
              simp only [saveWritten_fst, hmid, true_and, hnid]
              right; right
              refine ⟨vol, file, ?_⟩
              simp [hnv, hw2, hw]
            · simp only [true_and, hnid]
              right; right
              refine ⟨vol, file, ?_⟩
              simp [hnv, hw2, hw]
          · simp only [true_and]
            right; left
            refine ⟨vol, ?_⟩
            simp [hw]
      · simp only [he, if_false, true_and]
        right; left
        refine ⟨vol, ?_⟩
        simp [hw]

/-! ### Volumes -/

theorem WriteNeedle_index_ne (v : Volume) (m : Needle) (id : Nat) (h : id ≠ m.ID) :
    mapGet (v.WriteNeedle m).1.NeedleIndex id = mapGet v.NeedleIndex id := by
  unfold Volume.WriteNeedle
  by_cases h1 : v.CurrentSize + m.Size > v.MaxSize
  · simp [h1]
  · by_cases h2 : v.CurrentSize < 0
    · simp [h1, h2]
    · simp only [h1, h2, if_false]
      exact mapGet_mapSet_ne _ _ _ _ h

theorem WriteNeedle_ok (v : Volume) (m : Needle) (h : (v.WriteNeedle m).2 = none) :
    0 ≤ v.CurrentSize ∧
    (v.WriteNeedle m).1.File = writeAt v.File v.CurrentSize.toNat (m.Write []) ∧
    (v.WriteNeedle m).1.NeedleIndex = mapSet v.NeedleIndex m.ID
      { Offset := v.CurrentSize, Size := m.DataSize, Flags := m.Flags, VolumeID := v.ID } ∧
    (v.WriteNeedle m).1.CurrentSize = v.CurrentSize + m.Size := by
  unfold Volume.WriteNeedle at h ⊢
  by_cases h1 : v.CurrentSize + m.Size > v.MaxSize
  · simp [h1] at h
  · by_cases h2 : v.CurrentSize < 0
    · simp [h1, h2] at h
    · simp only [h1, h2, if_false]
      refine ⟨by omega, ?_, ?_, ?_⟩ <;> trivial

theorem WriteNeedle_failed (v : Volume) (m : Needle) (h : (v.WriteNeedle m).2 ≠ none) :
    (v.WriteNeedle m).1.File = v.File ∧
    (v.WriteNeedle m).1.NeedleIndex = v.NeedleIndex ∧
    (v.WriteNeedle m).1.CurrentSize = v.CurrentSize := by
  unfold Volume.WriteNeedle at h ⊢
  by_cases h1 : v.CurrentSize + m.Size > v.MaxSize
  · simp [h1]
  · by_cases h2 : v.CurrentSize < 0
    · simp [h1, h2]
    · simp [h1, h2] at h

/-- A stretch of the file in front of the write offset is not touched. -/
theorem writeAt_segment (f : List Nat) (off o len : Nat) (bs : List Nat) (h1 : o + len ≤ off)
    (h2 : o + len ≤ f.length) :
    ((writeAt f off bs).drop o).take len = (f.drop o).take len := by
  have e := writeAt_take f off (o + len) bs h1 h2
  have a1 : ((writeAt f off bs).drop o).take len = ((writeAt f off bs).take (o + len)).drop o := by
    rw [List.drop_take]; simp
  have a2 : (f.drop o).take len = (f.take (o + len)).drop o := by
    rw [List.drop_take]; simp
  rw [a1, a2, e]

theorem Volume.Keeps_write (v : Volume) (m : Needle) (id : Nat) (d : List Nat)
    (h : v.Keeps id d) (hne : id ≠ m.ID) : (v.WriteNeedle m).1.Keeps id d := by
  obtain ⟨info, n, hi, hf, ho, hseg, hd, hs, hlt, hcs⟩ := h
  by_cases hok : (v.WriteNeedle m).2 = none
  · obtain ⟨h0, hF, hI, hC⟩ := WriteNeedle_ok v m hok
    refine ⟨info, n, ?_, hf, ho, ?_, hd, hs, hlt, ?_⟩
    · rw [WriteNeedle_index_ne v m id hne]; exact hi
    · rw [hF]
      have hl : (n.Write []).length ≤ (v.File.drop info.Offset.toNat).length := by
        have := congrArg List.length hseg
        rw [List.length_take] at this
        omega
      rw [List.length_drop] at hl
      have hpos : 0 < (n.Write []).length := by rw [Needle.Write_length]; omega
      rw [writeAt_segment _ _ _ _ _ (by omega) (by omega)]
      exact hseg
    · rw [hC]
      have := Needle.Size_nonneg m
      omega
  · obtain ⟨hF, hI, hC⟩ := WriteNeedle_failed v m hok
    exact ⟨info, n, by rw [hI]; exact hi, hf, ho, by rw [hF]; exact hseg, hd, hs, hlt,
      by rw [hC]; exact hcs⟩

theorem Volume.Keeps_of_write (v : Volume) (m : Needle) (hs : m.DataSize = m.Data.length)
    (hlt : m.Data.length + 29 < 2 ^ 32) (hfl : m.Flags = 0) (hok : (v.WriteNeedle m).2 = none) :
    (v.WriteNeedle m).1.Keeps m.ID m.Data := by
  obtain ⟨h0, hF, hI, hC⟩ := WriteNeedle_ok v m hok
  refine ⟨{ Offset := v.CurrentSize, Size := m.DataSize, Flags := m.Flags, VolumeID := v.ID }, m,
    ?_, ?_, h0, ?_, rfl, hs, by omega, ?_⟩
  · rw [hI]; exact mapGet_mapSet_self _ _ _
  · simp [hfl]
  · rw [hF]; exact writeAt_drop_take _ _ _
  · rw [hC, Needle.Size_eq m (by omega), Needle.Write_length]
    simp only
    omega

theorem DeleteNeedle_index_ne (v : Volume) (i id : Nat) (h : id ≠ i) :
    mapGet (v.DeleteNeedle i).1.NeedleIndex id = mapGet v.NeedleIndex id := by
  unfold Volume.DeleteNeedle
  split
  · rfl
  · exact mapGet_mapSet_ne _ _ _ _ h

theorem DeleteNeedle_File (v : Volume) (i : Nat) :
    (v.DeleteNeedle i).1.File = v.File ∧ (v.DeleteNeedle i).1.CurrentSize = v.CurrentSize := by
  unfold Volume.DeleteNeedle
  split <;> exact ⟨rfl, rfl⟩

theorem Volume.Keeps_delete (v : Volume) (i id : Nat) (d : List Nat)
    (h : v.Keeps id d) (hne : id ≠ i) : (v.DeleteNeedle i).1.Keeps id d := by
  obtain ⟨info, n, hi, hf, ho, hseg, hd, hs, hlt, hcs⟩ := h
  obtain ⟨hF, hC⟩ := DeleteNeedle_File v i
  exact ⟨info, n, by rw [DeleteNeedle_index_ne v i id hne]; exact hi, hf, ho,
    by rw [hF]; exact hseg, hd, hs, hlt, by rw [hC]; exact hcs⟩

/-- A volume that keeps the record of `id` reads it back. -/
theorem Volume.Keeps_read (v : Volume) (id : Nat) (d : List Nat) (h : v.Keeps id d) :
    ∃ n, v.ReadNeedle id = .ok n ∧ n.Data = d := by
  obtain ⟨info, n, hi, hf, ho, hseg, hd, hs, hlt, hcs⟩ := h
  have hsplit : v.File.drop info.Offset.toNat =
      n.Write [] ++ (v.File.drop info.Offset.toNat).drop (n.Write []).length := by
    conv => lhs; rw [← List.take_append_drop (n.Write []).length (v.File.drop info.Offset.toNat)]
    rw [hseg]
  unfold Volume.ReadNeedle
  have hfl : ¬ (info.Flags &&& 1 != 0) = true := by simp [hf]
  have ho2 : ¬ info.Offset < 0 := by omega
  simp only [hi, hfl, ho2, if_false]
  rw [hsplit, ReadNeedleFrom_Write n _ (by rw [hs, hd]) hlt]
  exact ⟨_, rfl, hd⟩

theorem ReadNeedle_unheld (v : Volume) (id : Nat) (h : mapGet v.NeedleIndex id = none) :
    v.ReadNeedle id = .error .ErrNeedleNotFound := by
  simp [Volume.ReadNeedle, h]

/-! ### The volume table -/

theorem KeepsAt_update (vols : List (Nat × Volume)) (id : Nat) (d : List Nat) (k a : Nat)
    (va vb : Volume) (h : KeepsAt vols id d k) (ha : mapGet vols a = some va)
    (h1 : va.Keeps id d → vb.Keeps id d)
    (h2 : mapGet va.NeedleIndex id = none → mapGet vb.NeedleIndex id = none) :
    KeepsAt (mapSet vols a vb) id d k := by
  obtain ⟨⟨v, hv, hk⟩, ho⟩ := h
  by_cases hak : a = k
  · subst hak
    rw [ha] at hv
    cases hv
    refine ⟨⟨vb, mapGet_mapSet_self _ _ _, h1 hk⟩, ?_⟩
    intro k2 v2 hne hg
    rw [mapGet_mapSet_ne _ _ _ _ hne] at hg
    exact ho k2 v2 hne hg
  · refine ⟨⟨v, ?_, hk⟩, ?_⟩
    · rw [mapGet_mapSet_ne _ _ _ _ (fun h => hak h.symm)]; exact hv
    · intro k2 v2 hne hg
      by_cases h2a : k2 = a
      · subst h2a
        rw [mapGet_mapSet_self] at hg
        cases hg
        exact h2 (ho k2 va hne ha)
      · rw [mapGet_mapSet_ne _ _ _ _ h2a] at hg
        exact ho k2 v2 hne hg

theorem KeepsAt_new (vols : List (Nat × Volume)) (id : Nat) (d : List Nat) (k b : Nat)
    (vb : Volume) (h : KeepsAt vols id d k) (hb : b ≠ k)
    (h2 : mapGet vb.NeedleIndex id = none) : KeepsAt (mapSet vols b vb) id d k := by
  obtain ⟨⟨v, hv, hk⟩, ho⟩ := h
  refine ⟨⟨v, ?_, hk⟩, ?_⟩
  · rw [mapGet_mapSet_ne _ _ _ _ (fun h => hb h.symm)]; exact hv
  · intro k2 v2 hne hg
    by_cases h2b : k2 = b
    · subst h2b
      rw [mapGet_mapSet_self] at hg
      cases hg
      exact h2
    · rw [mapGet_mapSet_ne _ _ _ _ h2b] at hg
      exact ho k2 v2 hne hg

theorem KeepsAt_write (vols : List (Nat × Volume)) (id : Nat) (d : List Nat) (k a : Nat)
    (va : Volume) (m : Needle) (h : KeepsAt vols id d k) (ha : mapGet vols a = some va)
    (hne : id ≠ m.ID) : KeepsAt (mapSet vols a (va.WriteNeedle m).1) id d k :=
  KeepsAt_update vols id d k a va _ h ha (fun hk => Volume.Keeps_write va m id d hk hne)
    (fun hn => by rw [WriteNeedle_index_ne va m id hne]; exact hn)

theorem KeepsAt_delete (vols : List (Nat × Volume)) (id : Nat) (d : List Nat) (k a : Nat)
    (va : Volume) (i : Nat) (h : KeepsAt vols id d k) (ha : mapGet vols a = some va)
    (hne : id ≠ i) : KeepsAt (mapSet vols a (va.DeleteNeedle i).1) id d k :=
  KeepsAt_update vols id d k a va _ h ha (fun hk => Volume.Keeps_delete va i id d hk hne)
    (fun hn => by rw [DeleteNeedle_index_ne va i id hne]; exact hn)

/-- The record kept under key `k` is what `Read` returns when its loop visits `k`. -/
theorem KeepsAt_read (s : Store) (id : Nat) (d : List Nat) (k : Nat)
    (h : KeepsAt s.volumes id d k) (order : List Nat) (hk : k ∈ order) :
    s.Read order id = .ok d := by
  obtain ⟨⟨v, hv, hkeep⟩, ho⟩ := h
  induction order with
  | nil => simp at hk
  | cons a rest ih =>
    unfold Store.Read
    by_cases hak : a = k
    · subst hak
      obtain ⟨n, hn, hd⟩ := Volume.Keeps_read v id d hkeep
      simp [hv, hn, hd]
    · have hk2 : k ∈ rest := by
        rcases List.mem_cons.mp hk with h1 | h1
        · exact absurd h1.symm hak
        · exact h1
      cases hg : mapGet s.volumes a with
      | none => simp only; exact ih hk2
      | some va =>
        simp only [ReadNeedle_unheld va id (ho a va hak hg)]
        exact ih hk2

theorem mapGet_mem_keys {α : Type} (m : List (Nat × α)) (k : Nat) (a : α)
    (h : mapGet m k = some a) : k ∈ m.map (fun e => e.1) := by
  induction m with
  | nil => simp [mapGet] at h
  | cons e m ih =>
    obtain ⟨k1, a1⟩ := e
    by_cases h1 : k1 = k
    · simp [h1]
    · simp only [mapGet, h1, if_false] at h
      simp [ih h]

/-! ### Delete -/

/-- The outcomes of the loop of `Delete`: no volume visited has the id, or the first
visited volume that has it is marked. -/
theorem deleteRange_cases (s : Store) (i : Nat) (env : Env) (order : List Nat) :
    (s.deleteRange i env order).1.activeVolID = s.activeVolID ∧
    (s.deleteRange i env order).1.nextID = s.nextID ∧
    (s.deleteRange i env order).1.config = s.config ∧
    (s.deleteRange i env order).1.disk = s.disk ∧
    (((s.deleteRange i env order).1.volumes = s.volumes ∧
        (s.deleteRange i env order).2 = some .ErrNeedleNotFound) ∨
     (∃ a va, mapGet s.volumes a = some va ∧ (va.DeleteNeedle i).2 = none ∧
        (s.deleteRange i env order).1.volumes = mapSet s.volumes a (va.DeleteNeedle i).1 ∧
        (s.deleteRange i env order).2 = none)) := by
  induction order with
  | nil => simp [Store.deleteRange]
  | cons a rest ih =>
    unfold Store.deleteRange
    cases hg : mapGet s.volumes a with
    | none => simpa using ih
    | some va =>
      simp only
      rcases hd : va.DeleteNeedle i with ⟨v1, _ | e⟩
      · simp only [true_and]
        right
        exact ⟨a, va, hg, by rw [hd], by rw [hd], trivial⟩
      · simpa using ih

theorem Delete_cases (s : Store) (i : Nat) (env : Env) (order : List Nat) :
    (s.Delete order i env).1.activeVolID = s.activeVolID ∧
    (s.Delete order i env).1.nextID = s.nextID ∧
    (s.Delete order i env).1.config = s.config ∧
    (s.Delete order i env).1.disk = s.disk ∧
    (((s.Delete order i env).1.volumes = s.volumes ∧ (s.Delete order i env).2 ≠ none) ∨
     (∃ a va, mapGet s.volumes a = some va ∧ (va.DeleteNeedle i).2 = none ∧
        (s.Delete order i env).1.volumes = mapSet s.volumes a (va.DeleteNeedle i).1 ∧
        (s.Delete order i env).2 = none)) := by
  unfold Store.Delete
  by_cases hro : s.config.ReadOnly = true
  · simp [hro]
  · simp only [hro, Bool.false_eq_true, if_false]
    obtain ⟨h1, h2, h3, h4, h5⟩ := deleteRange_cases s i env order
    refine ⟨h1, h2, h3, h4, ?_⟩
    rcases h5 with ⟨h5, h6⟩ | h5
    · left; exact ⟨h5, by rw [h6]; simp⟩
    · right; exact h5

/-! ### The guard is kept by every call that is not `Delete(id)` -/

theorem NewVolume_index (b : Nat) (file : List Nat) (maxSize : Int) (id : Nat) :
    mapGet (NewVolume b file maxSize).NeedleIndex id = none := rfl

theorem buildNeedle_ID (id : Nat) (data : List Nat) (filename mimeType : String) (env : Env) :
    (buildNeedle id data filename mimeType env).ID = id := rfl

theorem Guard_write (s : Store) (id : Nat) (d : List Nat) (k fuel : Nat)
    (data : List Nat) (filename mimeType : String) (env : Env)
    (h : s.Guard id d k (fuel + 1)) :
    (s.WriteWithMetadata data filename mimeType env).1.Guard id d k fuel := by
  obtain ⟨hk, hn, hids, hvols⟩ := h
  have hne : id ≠ (buildNeedle s.nextID data filename mimeType env).ID := by
    rw [buildNeedle_ID]
    have := hids 0 (by omega)
    omega
  have hb : (s.activeVolID + 1) % 2 ^ 32 ≠ k := hvols 1 (by omega) (by omega)
  rcases WriteWithMetadata_cases s data filename mimeType env _ rfl _ rfl _ rfl with
    ⟨h1, _⟩ | ⟨hnext, _, _, hc⟩
  · rw [h1]
    exact ⟨hk, hn, fun j hj => hids j (by omega), fun j h1 h2 => hvols j h1 (by omega)⟩
  · have hids2 : ∀ j, j < fuel →
        ((s.WriteWithMetadata data filename mimeType env).1.nextID + j) % 2 ^ 64 ≠ id := by
      intro j hj
      rw [hnext]
      have := hids (j + 1) (by omega)
      omega
    have hn2 : (s.WriteWithMetadata data filename mimeType env).1.nextID < 2 ^ 64 := by
      rw [hnext]; omega
    rcases hc with ⟨hv, ha, _⟩ | ⟨vol, hvol, hv, ha, _⟩ | ⟨vol, file, hvol, _, hv, ha, _⟩
    · refine ⟨by rw [hv]; exact hk, hn2, hids2, ?_⟩
      intro j h1 h2
      rw [ha]
      exact hvols j h1 (by omega)
    · refine ⟨by rw [hv]; exact KeepsAt_write _ _ _ _ _ _ _ hk hvol hne, hn2, hids2, ?_⟩
      intro j h1 h2
      rw [ha]
      exact hvols j h1 (by omega)
    · refine ⟨?_, hn2, hids2, ?_⟩
      · rw [hv]
        exact KeepsAt_write _ _ _ _ _ _ _
          (KeepsAt_new _ _ _ _ _ _ (KeepsAt_write _ _ _ _ _ _ _ hk hvol hne) hb
            (NewVolume_index _ _ _ _))
          (mapGet_mapSet_self _ _ _) hne
      · intro j h1 h2
        rw [ha]
        have := hvols (j + 1) (by omega) (by omega)
        omega

theorem Guard_delete (s : Store) (id : Nat) (d : List Nat) (k fuel : Nat)
    (order : List Nat) (i : Nat) (env : Env) (hi : id ≠ i)
    (h : s.Guard id d k (fuel + 1)) : (s.Delete order i env).1.Guard id d k fuel := by
  obtain ⟨hk, hn, hids, hvols⟩ := h
  obtain ⟨h1, h2, _, _, h5⟩ := Delete_cases s i env order
  refine ⟨?_, by rw [h2]; exact hn, ?_, ?_⟩
  · rcases h5 with ⟨hv, _⟩ | ⟨a, va, hva, _, hv, _⟩
    · rw [hv]; exact hk
    · rw [hv]; exact KeepsAt_delete _ _ _ _ _ _ _ hk hva hi
  · intro j hj
    rw [h2]
    exact hids j (by omega)
  · intro j hj1 hj2
    rw [h1]
    exact hvols j hj1 (by omega)

theorem Guard_run (ops : List Op) (s : Store) (id : Nat) (d : List Nat) (k : Nat)
    (hops : ∀ op ∈ ops, op.isDeleteOf id = false) (h : s.Guard id d k ops.length) :
    (s.run ops).Guard id d k 0 := by
  induction ops generalizing s with
  | nil => exact h
  | cons op ops ih =>
    have hrest : ∀ o ∈ ops, o.isDeleteOf id = false := fun o ho => hops o (List.mem_cons_of_mem _ ho)
    have hop := hops op (List.mem_cons_self _ _)
    show ((s.step op).run ops).Guard id d k 0
    apply ih _ hrest
    cases op with
    | write data filename mimeType env => exact Guard_write s id d k _ data filename mimeType env h
    | delete order i env =>
      have hi : id ≠ i := by
        intro e
        simp [Op.isDeleteOf, e] at hop
      exact Guard_delete s id d k _ order i env hi h

/-! ### Round trip through the store -/

/-- After a successful `WriteWithMetadata` the active volume keeps the record. -/
theorem WriteWithMetadata_keeps (s s1 : Store) (d : List Nat) (filename mimeType : String)
    (env : Env) (id : Nat) (hu : s.Unheld s.nextID) (hlen : d.length + 29 < 2 ^ 32)
    (hw : s.WriteWithMetadata d filename mimeType env = (s1, .ok id)) :
    id = s.nextID ∧ KeepsAt s1.volumes id d s1.activeVolID ∧
    s1.nextID = (s.nextID + 1) % 2 ^ 64 ∧
    (s1.activeVolID = s.activeVolID ∨ s1.activeVolID = (s.activeVolID + 1) % 2 ^ 32) := by
  have hm : ∀ v : Volume, (v.WriteNeedle (buildNeedle s.nextID d filename mimeType env)).2 = none →
      (v.WriteNeedle (buildNeedle s.nextID d filename mimeType env)).1.Keeps s.nextID d := by
    intro v hv
    have hsz : (buildNeedle s.nextID d filename mimeType env).DataSize =
        (buildNeedle s.nextID d filename mimeType env).Data.length := by
      show d.length % 2 ^ 32 = d.length
      exact Nat.mod_eq_of_lt (by omega)
    exact Volume.Keeps_of_write v _ hsz hlen rfl hv
  rcases WriteWithMetadata_cases s d filename mimeType env _ rfl _ rfl _ rfl with
    ⟨_, h2⟩ | ⟨hnext, _, _, hc⟩
  · rw [hw] at h2; simp at h2
  · rw [hw] at hnext hc
    simp only at hnext hc
    rcases hc with ⟨_, _, e, he⟩ | ⟨vol, hvol, hv, ha, hres⟩ | ⟨vol, file, hvol, hfull, hv, ha, hres⟩
    · simp at he
    · rcases hres with ⟨hok, hid⟩ | ⟨_, e, he⟩
      swap
      · simp at he
      have hid2 : id = s.nextID := by simpa using hid
      subst hid2
      refine ⟨rfl, ⟨⟨_, ?_, hm vol hok⟩, ?_⟩, hnext, Or.inl ha⟩
      · rw [hv, ha]; exact mapGet_mapSet_self _ _ _
      · intro k2 v2 hne hg
        rw [hv, mapGet_mapSet_ne _ _ _ _ (by rw [← ha]; exact hne)] at hg
        exact hu k2 v2 hg
    · rcases hres with ⟨hok, hid⟩ | ⟨_, e, he⟩
      swap
      · simp at he
      have hid2 : id = s.nextID := by simpa using hid
      subst hid2
      refine ⟨rfl, ⟨⟨_, ?_, hm _ hok⟩, ?_⟩, hnext, Or.inr ha⟩
      · rw [hv, ha]; exact mapGet_mapSet_self _ _ _
      · intro k2 v2 hne hg
        rw [ha] at hne
        rw [hv, mapGet_mapSet_ne _ _ _ _ hne, mapGet_mapSet_ne _ _ _ _ hne] at hg
        by_cases h2a : k2 = s.activeVolID
        · subst h2a
          rw [mapGet_mapSet_self] at hg
          cases hg
          rw [(WriteNeedle_failed vol _ (by rw [hfull]; simp)).2.1]
          exact hu _ vol hvol
        · rw [mapGet_mapSet_ne _ _ _ _ h2a] at hg
          exact hu k2 v2 hg

/-- Round trip: what a successful write stored is what `Read` returns after any further
calls that are not `Delete(id)`, as long as neither counter of the store runs over. -/
theorem Read_after_write (s s1 : Store) (d : List Nat) (filename mimeType : String)
    (env : Env) (id : Nat) (hu : s.Unheld s.nextID) (hlen : d.length + 29 < 2 ^ 32)
    (hw : s.WriteWithMetadata d filename mimeType env = (s1, .ok id))
    (ops : List Op) (hops : ∀ op ∈ ops, op.isDeleteOf id = false) (hshort : ops.length < 2 ^ 32)
    (order : List Nat) (hord : order.Perm (s1.run ops).volumeIDs) :
    (s1.run ops).Read order id = .ok d := by
  obtain ⟨hid, hk, hnext, hact⟩ := WriteWithMetadata_keeps s s1 d filename mimeType env id hu hlen hw
  have hg : s1.Guard id d s1.activeVolID ops.length := by
    refine ⟨hk, by rw [hnext]; omega, ?_, ?_⟩
    · intro j hj
      rw [hnext, hid]
      omega
    · intro j h1 h2
      rcases hact with h | h <;> rw [h] <;> omega
  obtain ⟨hk2, _⟩ := Guard_run ops s1 id d _ hops hg
  apply KeepsAt_read _ id d s1.activeVolID hk2 order
  obtain ⟨⟨v, hv, _⟩, _⟩ := hk2
  exact hord.mem_iff.mpr (mapGet_mem_keys _ _ _ hv)

theorem sampleStore_unheld : sampleStore.Unheld sampleStore.nextID := by
  intro k v h
  by_cases hk : k = 1
  · subst hk
    have : v = NewVolume 1 [] 4096 := by
      simp [sampleStore, mapGet] at h
      exact h.symm
    rw [this]; rfl
  · have hk2 : ¬ 1 = k := fun e => hk e.symm
    simp [sampleStore, mapGet, hk2] at h

theorem writeAt_nil (bs : List Nat) : writeAt [] 0 bs = bs := by
  simp [writeAt]

/-- A payload whose length is a multiple of 2 ^ 32 and which starts with four zero bytes
is stored under DataSize 0 and read back as the empty string. -/
theorem huge_payload (d tail : List Nat) (hd : d = bigEndian 4 0 ++ tail)
    (hl : d.length % 2 ^ 32 = 0) :
    (bigStore.WriteWithMetadata d "" "" sampleEnv).2 = .ok 1 ∧
    (bigStore.WriteWithMetadata d "" "" sampleEnv).1.Read [1] 1 = .ok [] := by
  have hl2 : d.length % 4294967296 = 0 := hl
  have hsz : (buildNeedle 1 d "" "" sampleEnv).Size = 29 := by
    show (((NeedleHeaderSize + d.length % 2 ^ 32 + NeedleFooterSize) % 2 ^ 32 : Nat) : Int) = 29
    rw [hl]; rfl
  have hw : (NewVolume 1 [] 8589934592).WriteNeedle (buildNeedle 1 d "" "" sampleEnv) =
      ({ ID := 1, File := (buildNeedle 1 d "" "" sampleEnv).Write [], MaxSize := 8589934592,
         CurrentSize := 29, Active := true,
         NeedleIndex := [(1, { Offset := 0, Size := 0, Flags := 0, VolumeID := 1 })] }, none) := by
    unfold Volume.WriteNeedle
    simp only [hsz]
    simp [NewVolume, writeAt_nil, mapSet, buildNeedle, hl2]
  have hread : ReadNeedleFrom ((buildNeedle 1 d "" "" sampleEnv).Write []) =
      .ok ({ ID := 1, Cookie := 1700000000, Data := [], DataSize := 0, Flags := 0,
             CreateTime := 1700000000, FileName := "", MimeType := "", MD5 := "" },
           tail ++ bigEndian 4 (ChecksumIEEE d)) := by
    rw [Needle.Write_eq]
    have e : (buildNeedle 1 d "" "" sampleEnv).Data ++
        bigEndian 4 (ChecksumIEEE (buildNeedle 1 d "" "" sampleEnv).Data) =
        [] ++ (bigEndian 4 0 ++ (tail ++ bigEndian 4 (ChecksumIEEE d))) := by
      show d ++ bigEndian 4 (ChecksumIEEE d) = _
      rw [hd]; simp
    rw [List.nil_append, e,
      ReadNeedleFrom_layout (buildNeedle 1 d "" "" sampleEnv) [] 0 _ (by
        show d.length % 2 ^ 32 = 0
        exact hl) (by
        show d.length % 2 ^ 32 < 2 ^ 32
        omega)]
    have hc : ChecksumIEEE [] = 0 := by decide
    simp [hc, buildNeedle, sampleEnv, hl2, toInt64, toUint64]
  have hvr : Volume.ReadNeedle
      { ID := 1, File := (buildNeedle 1 d "" "" sampleEnv).Write [], MaxSize := 8589934592,
        CurrentSize := 29, Active := true,
        NeedleIndex := [(1, { Offset := 0, Size := 0, Flags := 0, VolumeID := 1 })] } 1 =
      .ok { ID := 1, Cookie := 1700000000, Data := [], DataSize := 0, Flags := 0,
            CreateTime := 1700000000, FileName := "", MimeType := "", MD5 := "" } := by
    simp [Volume.ReadNeedle, mapGet, hread]
  unfold Store.WriteWithMetadata
  have e1 : mapGet bigStore.volumes bigStore.activeVolID = some (NewVolume 1 [] 8589934592) := rfl
  have e0 : bigStore.config.ReadOnly = false := rfl
  have e2 : bigStore.nextID = 1 := rfl
  have e3 : bigStore.activeVolID = 1 := rfl
  simp only [e0, e2, e3, Bool.false_eq_true, if_false]
  have e4 : mapGet bigStore.volumes 1 = some (NewVolume 1 [] 8589934592) := rfl
  rw [e4]
  simp only
  rw [hw]
  simp only [saveWritten_fst, buildNeedle_ID, true_and]
  simp only [Store.Read, mapSet, mapGet, if_true, hvr]

/-! ### Tombstones -/

theorem NoLive_set (vols : List (Nat × Volume)) (id a : Nat) (vb : Volume)
    (h : NoLive vols id) (hb : vb.NoLive id) : NoLive (mapSet vols a vb) id := by
  intro k v hg
  by_cases hk : k = a
  · subst hk
    rw [mapGet_mapSet_self] at hg
    cases hg
    exact hb
  · rw [mapGet_mapSet_ne _ _ _ _ hk] at hg
    exact h k v hg

theorem Volume.NoLive_write (v : Volume) (m : Needle) (id : Nat) (h : v.NoLive id)
    (hne : id ≠ m.ID) : (v.WriteNeedle m).1.NoLive id := by
  intro info hi
  rw [WriteNeedle_index_ne v m id hne] at hi
  exact h info hi

theorem or_one_and_one (x : Nat) : (x ||| 1) &&& 1 ≠ 0 := by
  rw [Nat.and_one_is_mod]
  intro h
  have h0 : (x ||| 1).testBit 0 = false := by
    rw [Nat.testBit_zero]
    simp [h]
  rw [Nat.testBit_or] at h0
  simp at h0

theorem Volume.NoLive_delete (v : Volume) (i id : Nat) (h : v.NoLive id) :
    (v.DeleteNeedle i).1.NoLive id := by
  by_cases hne : id = i
  · subst hne
    unfold Volume.DeleteNeedle
    cases hg : mapGet v.NeedleIndex id with
    | none => exact h
    | some info0 =>
      intro info hi
      simp only [mapGet_mapSet_self] at hi
      cases hi
      exact or_one_and_one _
  · intro info hi
    rw [DeleteNeedle_index_ne v i id hne] at hi
    exact h info hi

/-- The entry for the deleted id carries the tombstone bit after `DeleteNeedle`. -/
theorem Volume.NoLive_delete_self (v : Volume) (id : Nat) : (v.DeleteNeedle id).1.NoLive id := by
  unfold Volume.DeleteNeedle
  cases hg : mapGet v.NeedleIndex id with
  | none =>
    intro info hi
    simp only at hi
    rw [hg] at hi
    cases hi
  | some info0 =>
    intro info hi
    simp only [mapGet_mapSet_self] at hi
    cases hi
    exact or_one_and_one _

theorem DeleteNeedle_ok_held (v : Volume) (id : Nat) (h : (v.DeleteNeedle id).2 = none) :
    mapGet v.NeedleIndex id ≠ none := by
  intro hg
  simp [Volume.DeleteNeedle, hg] at h

theorem ReadNeedle_NoLive (v : Volume) (id : Nat) (h : v.NoLive id) :
    v.ReadNeedle id = .error .ErrNeedleNotFound := by
  unfold Volume.ReadNeedle
  cases hg : mapGet v.NeedleIndex id with
  | none => rfl
  | some info =>
    have hb : (info.Flags &&& 1 != 0) = true := by
      simpa using h info hg
    simp only [hb, if_true]

theorem NoLive_read (s : Store) (id : Nat) (h : NoLive s.volumes id) (order : List Nat) :
    s.Read order id = .error .ErrNeedleNotFound := by
  induction order with
  | nil => rfl
  | cons a rest ih =>
    unfold Store.Read
    cases hg : mapGet s.volumes a with
    | none => exact ih
    | some va =>
      simp only [ReadNeedle_NoLive va id (h a va hg)]
      exact ih

theorem NoLive_step (s : Store) (id : Nat) (op : Op) (h : NoLive s.volumes id)
    (hid : s.nextID ≠ id) : NoLive (s.step op).volumes id := by
  cases op with
  | write data filename mimeType env =>
    have hne : id ≠ (buildNeedle s.nextID data filename mimeType env).ID := by
      rw [buildNeedle_ID]; exact fun e => hid e.symm
    show NoLive (s.WriteWithMetadata data filename mimeType env).1.volumes id
    rcases WriteWithMetadata_cases s data filename mimeType env _ rfl _ rfl _ rfl with
      ⟨h1, _⟩ | ⟨_, _, _, hc⟩
    · rw [h1]; exact h
    · rcases hc with ⟨hv, _, _⟩ | ⟨vol, hvol, hv, _, _⟩ | ⟨vol, file, hvol, _, hv, _, _⟩
      · rw [hv]; exact h
      · rw [hv]
        exact NoLive_set _ _ _ _ h (Volume.NoLive_write vol _ id (h _ vol hvol) hne)
      · rw [hv]
        have hnv : (NewVolume ((s.activeVolID + 1) % 2 ^ 32) file s.config.MaxVolumeSize).NoLive id := by
          intro info hi
          rw [NewVolume_index] at hi
          cases hi
        exact NoLive_set _ _ _ _
          (NoLive_set _ _ _ _
            (NoLive_set _ _ _ _ h (Volume.NoLive_write vol _ id (h _ vol hvol) hne)) hnv)
          (Volume.NoLive_write _ _ id hnv hne)
  | delete order i env =>
    show NoLive (s.Delete order i env).1.volumes id
    obtain ⟨_, _, _, _, h5⟩ := Delete_cases s i env order
    rcases h5 with ⟨hv, _⟩ | ⟨a, va, hva, _, hv, _⟩
    · rw [hv]; exact h
    · rw [hv]
      exact NoLive_set _ _ _ _ h (Volume.NoLive_delete va i id (h a va hva))

theorem step_nextID (s : Store) (op : Op) :
    (s.step op).nextID = s.nextID ∨ (s.step op).nextID = (s.nextID + 1) % 2 ^ 64 := by
  cases op with
  | write data filename mimeType env =>
    show (s.WriteWithMetadata data filename mimeType env).1.nextID = _ ∨ _
    rcases WriteWithMetadata_cases s data filename mimeType env _ rfl _ rfl _ rfl with
      ⟨h1, _⟩ | ⟨h1, _⟩
    · left; rw [h1]
    · right; exact h1
  | delete order i env =>
    left
    exact (Delete_cases s i env order).2.1

theorem NoLive_run (ops : List Op) (s : Store) (id : Nat) (h : NoLive s.volumes id)
    (hid : id < s.nextID) (hroom : s.nextID + ops.length < 2 ^ 64) :
    NoLive (s.run ops).volumes id := by
  induction ops generalizing s with
  | nil => exact h
  | cons op ops ih =>
    show NoLive ((s.step op).run ops).volumes id
    simp only [List.length_cons] at hroom
    have h1 := NoLive_step s id op h (by omega)
    rcases step_nextID s op with h2 | h2
    · exact ih _ h1 (by rw [h2]; exact hid) (by rw [h2]; omega)
    · have h3 : (s.nextID + 1) % 2 ^ 64 = s.nextID + 1 := Nat.mod_eq_of_lt (by omega)
      exact ih _ h1 (by rw [h2, h3]; omega) (by rw [h2, h3]; omega)

/-- After a successful `Delete(id)` no volume has a live entry for `id`, and the files are
what they were. -/
theorem Delete_tombstone (s : Store) (order : List Nat) (id : Nat) (env : Env)
    (hu : s.HeldOnce id) (hok : (s.Delete order id env).2 = none) :
    NoLive (s.Delete order id env).1.volumes id ∧
    (∀ k, (mapGet (s.Delete order id env).1.volumes k).map (fun v => v.File) =
      (mapGet s.volumes k).map (fun v => v.File)) := by
  obtain ⟨_, _, _, _, h5⟩ := Delete_cases s id env order
  rcases h5 with ⟨_, hne⟩ | ⟨a, va, hva, hdel, hv, _⟩
  · exact absurd hok hne
  · rw [hv]
    constructor
    · intro k v hg
      by_cases hk : k = a
      · subst hk
        rw [mapGet_mapSet_self] at hg
        cases hg
        exact Volume.NoLive_delete_self va id
      · rw [mapGet_mapSet_ne _ _ _ _ hk] at hg
        intro info hi
        have := hu k v a va hg hva (by rw [hi]; simp) (DeleteNeedle_ok_held va id hdel)
        exact absurd this hk
    · intro k
      by_cases hk : k = a
      · subst hk
        rw [mapGet_mapSet_self, hva]
        simp [(DeleteNeedle_File va id).1]
      · rw [mapGet_mapSet_ne _ _ _ _ hk]

theorem writtenStore_heldOnce (id : Nat) : writtenStore.HeldOnce id := by
  intro k1 v1 k2 v2 h1 h2 _ _
  have e : writtenStore.volumes.map (fun e => e.1) = [1] := by decide
  have m1 := mapGet_mem_keys _ _ _ h1
  have m2 := mapGet_mem_keys _ _ _ h2
  rw [e] at m1 m2
  simp at m1 m2
  rw [m1, m2]

/-! ## The id discipline of a running store -/

theorem IdsSound_unheld (s : Store) (h : s.IdsSound) : s.Unheld s.nextID := by
  intro k v hv
  by_contra hne
  have := h.1 k s.nextID ⟨v, hv, hne⟩
  omega

theorem IdsSound_heldOnce (s : Store) (h : s.IdsSound) (id : Nat) : s.HeldOnce id := by
  intro k1 v1 k2 v2 h1 h2 n1 n2
  exact h.2 k1 k2 id ⟨v1, h1, n1⟩ ⟨v2, h2, n2⟩

theorem Holds_set_ne (vols : List (Nat × Volume)) (a : Nat) (vb : Volume) (k id : Nat)
    (hk : k ≠ a) (h : Holds (mapSet vols a vb) k id) : Holds vols k id := by
  obtain ⟨v, hv, hn⟩ := h
  rw [mapGet_mapSet_ne _ _ _ _ hk] at hv
  exact ⟨v, hv, hn⟩

theorem Holds_set_self (vols : List (Nat × Volume)) (a : Nat) (vb : Volume) (id : Nat)
    (h : Holds (mapSet vols a vb) a id) : mapGet vb.NeedleIndex id ≠ none := by
  obtain ⟨v, hv, hn⟩ := h
  rw [mapGet_mapSet_self] at hv
  cases hv
  exact hn

theorem WriteNeedle_holds (v : Volume) (m : Needle) (id : Nat)
    (h : mapGet (v.WriteNeedle m).1.NeedleIndex id ≠ none) :
    mapGet v.NeedleIndex id ≠ none ∨ (id = m.ID ∧ (v.WriteNeedle m).2 = none) := by
  by_cases hok : (v.WriteNeedle m).2 = none
  · by_cases hid : id = m.ID
    · right; exact ⟨hid, hok⟩
    · left; rw [WriteNeedle_index_ne v m id hid] at h; exact h
  · left; rw [(WriteNeedle_failed v m hok).2.1] at h; exact h

theorem DeleteNeedle_holds (v : Volume) (i id : Nat)
    (h : mapGet (v.DeleteNeedle i).1.NeedleIndex id ≠ none) : mapGet v.NeedleIndex id ≠ none := by
  by_cases hid : id = i
  · subst hid
    intro hn
    simp [Volume.DeleteNeedle, hn] at h
  · rw [DeleteNeedle_index_ne v i id hid] at h; exact h

/-- Where an index entry of the table after a call comes from: it was there before, or it
is the entry of the id just issued, in the active volume. -/
theorem Holds_step (s : Store) (op : Op) (k id : Nat) (h : Holds (s.step op).volumes k id) :
    Holds s.volumes k id ∨
      (id = s.nextID ∧ k = (s.step op).activeVolID ∧
        (s.step op).nextID = (s.nextID + 1) % 2 ^ 64) := by
  cases op with
  | write data filename mimeType env =>
    change Holds (s.WriteWithMetadata data filename mimeType env).1.volumes k id at h
    show _ ∨ (_ ∧ k = (s.WriteWithMetadata data filename mimeType env).1.activeVolID ∧
      (s.WriteWithMetadata data filename mimeType env).1.nextID = _)
    rcases WriteWithMetadata_cases s data filename mimeType env _ rfl _ rfl _ rfl with
      ⟨h1, _⟩ | ⟨hnext, _, _, hc⟩
    · rw [h1] at h; exact Or.inl h
    · rcases hc with ⟨hv, _, _⟩ | ⟨vol, hvol, hv, ha, _⟩ | ⟨vol, file, hvol, hfull, hv, ha, _⟩
      · rw [hv] at h; exact Or.inl h
      · rw [hv] at h
        by_cases hk : k = s.activeVolID
        · subst hk
          rcases WriteNeedle_holds vol _ id (Holds_set_self _ _ _ _ h) with h1 | ⟨h1, _⟩
          · exact Or.inl ⟨vol, hvol, h1⟩
          · exact Or.inr ⟨h1, ha.symm, hnext⟩
        · exact Or.inl (Holds_set_ne _ _ _ _ _ hk h)
      · rw [hv] at h
        by_cases hk : k = (s.activeVolID + 1) % 2 ^ 32
        · subst hk
          rcases WriteNeedle_holds _ _ id (Holds_set_self _ _ _ _ h) with h1 | ⟨h1, _⟩
          · exact absurd (NewVolume_index _ _ _ _) h1
          · exact Or.inr ⟨h1, ha.symm, hnext⟩
        · have h2 := Holds_set_ne _ _ _ _ _ hk (Holds_set_ne _ _ _ _ _ hk h)
          by_cases hk2 : k = s.activeVolID
          · subst hk2
            have h3 := Holds_set_self _ _ _ _ h2
            rw [(WriteNeedle_failed vol _ (by rw [hfull]; simp)).2.1] at h3
            exact Or.inl ⟨vol, hvol, h3⟩
          · exact Or.inl (Holds_set_ne _ _ _ _ _ hk2 h2)
  | delete order i env =>
    change Holds (s.Delete order i env).1.volumes k id at h
    left
    obtain ⟨_, _, _, _, h5⟩ := Delete_cases s i env order
    rcases h5 with ⟨hv, _⟩ | ⟨a, va, hva, _, hv, _⟩
    · rw [hv] at h; exact h
    · rw [hv] at h
      by_cases hk : k = a
      · subst hk
        exact ⟨va, hva, DeleteNeedle_holds va i id (Holds_set_self _ _ _ _ h)⟩
      · exact Holds_set_ne _ _ _ _ _ hk h

theorem IdsSound_step (s : Store) (op : Op) (h : s.IdsSound) (hroom : s.nextID + 1 < 2 ^ 64) :
    (s.step op).IdsSound := by
  have hmod : (s.nextID + 1) % 2 ^ 64 = s.nextID + 1 := Nat.mod_eq_of_lt hroom
  constructor
  · intro k id hh
    rcases Holds_step s op k id hh with h1 | ⟨h1, _, h3⟩
    · have := h.1 k id h1
      rcases step_nextID s op with e | e <;> rw [e] <;> omega
    · rw [h3, hmod, h1]; omega
  · intro k1 k2 id hh1 hh2
    rcases Holds_step s op k1 id hh1 with h1 | ⟨h1, h2, _⟩ <;>
      rcases Holds_step s op k2 id hh2 with g1 | ⟨g1, g2, _⟩
    · exact h.2 k1 k2 id h1 g1
    · have := h.1 k1 id h1; omega
    · have := h.1 k2 id g1; omega
    · rw [h2, g2]

/-- Every store reached from a sound one by fewer calls than the id counter has room for
is sound. -/
theorem IdsSound_run (ops : List Op) (s : Store) (h : s.IdsSound)
    (hroom : s.nextID + ops.length < 2 ^ 64) : (s.run ops).IdsSound := by
  induction ops generalizing s with
  | nil => exact h
  | cons op ops ih =>
    show ((s.step op).run ops).IdsSound
    simp only [List.length_cons] at hroom
    apply ih _ (IdsSound_step s op h (by omega))
    rcases step_nextID s op with e | e <;> rw [e] <;> omega

/-- The store `NewStore` builds on an empty catalog is sound. -/
theorem IdsSound_new (cfg : Config) (disk : List (Nat × List Nat)) (env : StartEnv) (s : Store)
    (h : NewStore cfg { files := [], volumes := [] } disk env = .ok s) :
    s.IdsSound ∧ s.nextID = 1 := by
  unfold NewStore Store.loadFromDatabase Database.LoadAllVolumeInfo
    Database.LoadAllFileMetadataIncludingDeleted at h
  by_cases h1 : env.loadVolumesFails = true
  · simp [h1] at h
  by_cases h2 : env.loadMetasFails = true
  · simp [h1, h2, Store.loadVolumes] at h
  simp only [h1, h2, Bool.false_eq_true, if_false, Store.loadVolumes, Store.loadMetas,
    List.length_nil, if_true, Store.createNewVolume] at h
  simp only [show (0 + 1) % 2 ^ 32 = 1 from rfl] at h
  by_cases h3 : env.openFails 1 = true
  · rw [if_pos h3] at h
    simp at h
  rw [if_neg h3] at h
  by_cases h4 : env.saveVolumeFails = true
  · simp [h4, Database.SaveVolumeInfo] at h
  simp only [h4, Database.SaveVolumeInfo, Bool.false_eq_true, if_false, List.any_nil,
    Except.ok.injEq] at h
  subst h
  refine ⟨⟨?_, ?_⟩, rfl⟩
  · intro k id ⟨v, hv, hn⟩
    simp only [mapSet, List.filter_nil, mapGet] at hv
    split at hv
    · cases hv; exact absurd (NewVolume_index _ _ _ _) hn
    · cases hv
  · intro k1 k2 id ⟨v, hv, hn⟩ _
    simp only [mapSet, List.filter_nil, mapGet] at hv
    split at hv
    · cases hv; exact absurd (NewVolume_index _ _ _ _) hn
    · cases hv



/-! ## Sequences of volume calls -/

theorem writeAt_end_length (f bs : List Nat) :
    (writeAt f f.length bs).length = f.length + bs.length := by
  simp [writeAt]

/-- A volume whose CurrentSize is its file length keeps that, and CurrentSize grows by the
bytes appended. -/
theorem Volume.run_size (ops : List VolOp) (v : Volume) (hw : ∀ op ∈ ops, op.WellSized)
    (h : v.CurrentSize = (v.File.length : Int)) :
    (v.run ops).CurrentSize = ((v.run ops).File.length : Int) ∧
    (v.run ops).CurrentSize = v.CurrentSize + (v.appended ops : Int) := by
  induction ops generalizing v with
  | nil => exact ⟨h, by simp [Volume.run, Volume.appended]⟩
  | cons op ops ih =>
    have hrest : ∀ o ∈ ops, o.WellSized := fun o ho => hw o (List.mem_cons_of_mem _ ho)
    have hop := hw op (List.mem_cons_self _ _)
    cases op with
    | write n =>
      obtain ⟨hs, hlt⟩ := hop
      show ((v.WriteNeedle n).1.run ops).CurrentSize = _ ∧
        ((v.WriteNeedle n).1.run ops).CurrentSize = _
      by_cases hok : (v.WriteNeedle n).2 = none
      · obtain ⟨h0, hF, _, hC⟩ := WriteNeedle_ok v n hok
        have hsz : n.Size = 29 + (n.Data.length : Int) := by
          rw [Needle.Size_eq n (by omega), hs]
        have hcs : v.CurrentSize.toNat = v.File.length := by omega
        have h1 : (v.WriteNeedle n).1.CurrentSize = ((v.WriteNeedle n).1.File.length : Int) := by
          rw [hC, hF, hcs, writeAt_end_length, Needle.Write_length, hsz, h]
          push_cast
          omega
        obtain ⟨i1, i2⟩ := ih _ hrest h1
        refine ⟨i1, ?_⟩
        rw [i2, hC, hsz]
        simp only [Volume.appended, hok, if_true, Needle.Write_length]
        push_cast
        omega
      · obtain ⟨hF, _, hC⟩ := WriteNeedle_failed v n hok
        obtain ⟨i1, i2⟩ := ih _ hrest (by rw [hC, hF]; exact h)
        refine ⟨i1, ?_⟩
        rw [i2, hC]
        simp [Volume.appended, hok]
    | delete id =>
      show ((v.DeleteNeedle id).1.run ops).CurrentSize = _ ∧
        ((v.DeleteNeedle id).1.run ops).CurrentSize = _
      obtain ⟨hF, hC⟩ := DeleteNeedle_File v id
      obtain ⟨i1, i2⟩ := ih _ hrest (by rw [hC, hF]; exact h)
      refine ⟨i1, ?_⟩
      rw [i2, hC]
      simp [Volume.appended]

/-! ## Outcomes of `Delete` -/

theorem NewStore_small :
    NewStore { MaxVolumeSize := 64, ReadOnly := false } { files := [], volumes := [] } []
      sampleStartEnv = .ok smallStore := by
  decide

/-- The loop of `Delete` returns nil or ErrNeedleNotFound; it returns nil exactly when a
visited volume has an index entry for the id, whatever the catalog does, and the catalog
is then what `DeleteFileMetadata` left. -/
theorem deleteRange_result (s : Store) (id : Nat) (env : Env) (order : List Nat) :
    ((s.deleteRange id env order).2 = none ∨
      (s.deleteRange id env order).2 = some .ErrNeedleNotFound) ∧
    ((s.deleteRange id env order).2 = none ↔
      ∃ k ∈ order, ∃ v, mapGet s.volumes k = some v ∧ mapGet v.NeedleIndex id ≠ none) ∧
    ((s.deleteRange id env order).2 = none →
      (s.deleteRange id env order).1.db =
        (s.db.DeleteFileMetadata id env.deleteMetaFails).1) := by
  induction order with
  | nil => simp [Store.deleteRange]
  | cons a rest ih =>
    unfold Store.deleteRange
    cases hg : mapGet s.volumes a with
    | none =>
      simp only
      refine ⟨ih.1, ?_, ih.2.2⟩
      rw [ih.2.1]
      constructor
      · rintro ⟨k, hk, v, h1, h2⟩
        exact ⟨k, List.mem_cons_of_mem _ hk, v, h1, h2⟩
      · rintro ⟨k, hk, v, h1, h2⟩
        rcases List.mem_cons.1 hk with rfl | hk
        · rw [hg] at h1; cases h1
        · exact ⟨k, hk, v, h1, h2⟩
    | some vol =>
      simp only
      cases hi : mapGet vol.NeedleIndex id with
      | none =>
        simp only [Volume.DeleteNeedle, hi]
        refine ⟨ih.1, ?_, ih.2.2⟩
        rw [ih.2.1]
        constructor
        · rintro ⟨k, hk, v, h1, h2⟩
          exact ⟨k, List.mem_cons_of_mem _ hk, v, h1, h2⟩
        · rintro ⟨k, hk, v, h1, h2⟩
          rcases List.mem_cons.1 hk with rfl | hk
          · rw [hg] at h1; cases h1; exact absurd hi h2
          · exact ⟨k, hk, v, h1, h2⟩
      | some info =>
        simp only [Volume.DeleteNeedle, hi]
        refine ⟨Or.inl trivial, ?_, ?_⟩
        · simp only [true_iff]
          exact ⟨a, List.mem_cons_self _ _, vol, hg, by simp [hi]⟩
        · intro _
          trivial

/-! ## The counter and the catalog rows under `WriteWithMetadata` -/

theorem SaveVolumeInfo_files (d : Database) (info : VolumeInfo) (fails : Bool) :
    (d.SaveVolumeInfo info fails).1.files = d.files := by
  unfold Database.SaveVolumeInfo
  split
  · rfl
  · split <;> rfl

theorem createNewVolume_frame (s : Store) (o f : Bool) :
    (s.createNewVolume o f).1.nextID = s.nextID ∧
    (s.createNewVolume o f).1.config = s.config ∧
    (s.createNewVolume o f).1.disk = s.disk ∧
    (s.createNewVolume o f).1.db.files = s.db.files := by
  unfold Store.createNewVolume
  by_cases ho : o = true
  · simp [ho]
  · simp only [ho, Bool.false_eq_true, if_false]
    have hf := SaveVolumeInfo_files s.db
      { ID := (s.activeVolID + 1) % 2 ^ 32,
        MaxSize := (NewVolume ((s.activeVolID + 1) % 2 ^ 32)
          (s.openFile ((s.activeVolID + 1) % 2 ^ 32)) s.config.MaxVolumeSize).MaxSize,
        CurrentSize := 0, Active := true } f
    rcases hs : s.db.SaveVolumeInfo
      { ID := (s.activeVolID + 1) % 2 ^ 32,
        MaxSize := (NewVolume ((s.activeVolID + 1) % 2 ^ 32)
          (s.openFile ((s.activeVolID + 1) % 2 ^ 32)) s.config.MaxVolumeSize).MaxSize,
        CurrentSize := 0, Active := true } f with ⟨db, _ | e⟩
    · rw [hs] at hf
      exact ⟨rfl, rfl, rfl, hf⟩
    · rw [hs] at hf
      exact ⟨rfl, rfl, rfl, hf⟩

theorem SaveFileMetadata_files (d : Database) (row : FileMetadata) (fails : Bool) :
    ((d.SaveFileMetadata row fails).1.files = d.files ∨
      (d.SaveFileMetadata row fails).1.files = d.files ++ [row]) ∧
    (fails = false → ∃ r ∈ (d.SaveFileMetadata row fails).1.files, r.ID = row.ID) := by
  unfold Database.SaveFileMetadata
  by_cases hf : fails = true
  · simp [hf]
  · simp only [hf, Bool.false_eq_true, if_false]
    by_cases hany : (d.files.any fun r => r.ID == row.ID) = true
    · simp only [hany, if_true]
      refine ⟨Or.inl trivial, fun _ => ?_⟩
      obtain ⟨r, hr, he⟩ := List.any_eq_true.1 hany
      exact ⟨r, hr, by simpa using he⟩
    · simp only [hany, Bool.false_eq_true, if_false]
      exact ⟨Or.inr trivial, fun _ => ⟨row, by simp, rfl⟩⟩

theorem UpdateVolumeSize_files (d : Database) (id : Nat) (size : Int) (fails : Bool) :
    (d.UpdateVolumeSize id size fails).1.files = d.files := by
  unfold Database.UpdateVolumeSize
  split <;> rfl

theorem SetVolumeInactive_files (d : Database) (id : Nat) (fails : Bool) :
    (d.SetVolumeInactive id fails).1.files = d.files := by
  unfold Database.SetVolumeInactive
  split <;> rfl

theorem saveWritten_files (s : Store) (vol : Volume) (volID : Nat) (m : Needle)
    (filename mimeType : String) (env : Env) :
    ((s.saveWritten vol volID m filename mimeType env).1.db.files = s.db.files ∨
      ∃ row, row.ID = m.ID ∧
        (s.saveWritten vol volID m filename mimeType env).1.db.files = s.db.files ++ [row]) ∧
    (env.saveMetaFails = false →
      ∃ row ∈ (s.saveWritten vol volID m filename mimeType env).1.db.files, row.ID = m.ID) := by
  simp only [Store.saveWritten, UpdateVolumeSize_files]
  refine ⟨?_, fun h => ?_⟩
  · rcases (SaveFileMetadata_files s.db _ env.saveMetaFails).1 with h | h
    · exact Or.inl h
    · exact Or.inr ⟨_, rfl, h⟩
  · exact (SaveFileMetadata_files s.db _ env.saveMetaFails).2 h

theorem saveWritten_catalog (s1 s : Store) (vol : Volume) (volID : Nat) (m : Needle)
    (filename mimeType : String) (env : Env) (e1 : s1.db.files = s.db.files)
    (e2 : s1.nextID = (s.nextID + 1) % 2 ^ 64) (hmid : m.ID = s.nextID) :
    (s1.saveWritten vol volID m filename mimeType env).1.nextID = (s.nextID + 1) % 2 ^ 64 ∧
    ((s1.saveWritten vol volID m filename mimeType env).1.db.files = s.db.files ∨
      ∃ row, row.ID = s.nextID ∧
        (s1.saveWritten vol volID m filename mimeType env).1.db.files = s.db.files ++ [row]) ∧
    (∀ id, (s1.saveWritten vol volID m filename mimeType env).2 = .ok id →
      id = s.nextID ∧ (env.saveMetaFails = false →
        ∃ row ∈ (s1.saveWritten vol volID m filename mimeType env).1.db.files, row.ID = id)) := by
  obtain ⟨f1, f2⟩ := saveWritten_files s1 vol volID m filename mimeType env
  obtain ⟨_, _, g3, _, _, g6⟩ := saveWritten_fst s1 vol volID m filename mimeType env
  rw [e1, hmid] at f1
  rw [hmid] at f2
  refine ⟨by rw [g3, e2], f1, fun id hid => ?_⟩
  rw [g6, hmid] at hid
  cases hid
  exact ⟨rfl, f2⟩

/-- What `WriteWithMetadata` does to the counter and to the file rows of the catalog when
the store is not read-only: the counter advances, at most one row is appended and it
carries the id of the call, and after a successful call whose catalog insert was not
failed the catalog has a row with the id returned. -/
theorem WriteWithMetadata_catalog (s : Store) (hro : s.config.ReadOnly = false)
    (data : List Nat) (filename mimeType : String) (env : Env) :
    (s.WriteWithMetadata data filename mimeType env).1.nextID = (s.nextID + 1) % 2 ^ 64 ∧
    ((s.WriteWithMetadata data filename mimeType env).1.db.files = s.db.files ∨
      ∃ row, row.ID = s.nextID ∧
        (s.WriteWithMetadata data filename mimeType env).1.db.files = s.db.files ++ [row]) ∧
    (∀ id, (s.WriteWithMetadata data filename mimeType env).2 = .ok id →
      id = s.nextID ∧ (env.saveMetaFails = false →
        ∃ row ∈ (s.WriteWithMetadata data filename mimeType env).1.db.files, row.ID = id)) := by
  unfold Store.WriteWithMetadata
  simp only [hro, Bool.false_eq_true, if_false]
  generalize hm : buildNeedle s.nextID data filename mimeType env = m
  have hmid : m.ID = s.nextID := by rw [← hm]; rfl
  cases hvol : mapGet s.volumes s.activeVolID with
  | none => simp
  | some vol =>
    simp only
    rcases hw : vol.WriteNeedle m with ⟨vol1, _ | err⟩
    · exact saveWritten_catalog _ s vol1 s.activeVolID m filename mimeType env rfl rfl hmid
    · simp only
      by_cases he : err = .ErrVolumeFull
      · simp only [he, if_true]
        have hfr := createNewVolume_frame
          (Store.mk s.config (mapSet s.volumes s.activeVolID vol1) s.activeVolID
            ((s.nextID + 1) % 2 ^ 64) (s.db.SetVolumeInactive s.activeVolID env.setInactiveFails).1
            s.disk) env.openFails env.saveVolumeFails
        simp only [SetVolumeInactive_files] at hfr
        generalize Store.createNewVolume _ env.openFails env.saveVolumeFails = c at hfr ⊢
        obtain ⟨c1, c2, c3, c4⟩ := hfr
        rcases c with ⟨s2, e | vol2⟩
        · simp only at c1 c4 ⊢
          exact ⟨c1, Or.inl c4, fun id hid => by cases hid⟩
        · simp only at c1 c4 ⊢
          rcases hw2 : vol2.WriteNeedle m with ⟨vol3, _ | e2⟩
          · exact saveWritten_catalog _ s vol3 vol2.ID m filename mimeType env c4 c1 hmid
          · simp only
            exact ⟨c1, Or.inl c4, fun id hid => by cases hid⟩
      · simp [he]

/-! ## The ids issued by a sequence of calls -/

/-- A successful `WriteWithMetadata` returns the counter value it found and leaves the
counter one higher. -/
theorem WriteWithMetadata_ok (s : Store) (data : List Nat) (filename mimeType : String)
    (env : Env) (id : Nat) (h : (s.WriteWithMetadata data filename mimeType env).2 = .ok id) :
    id = s.nextID ∧
    (s.WriteWithMetadata data filename mimeType env).1.nextID = (s.nextID + 1) % 2 ^ 64 := by
  by_cases hro : s.config.ReadOnly = true
  · simp [Store.WriteWithMetadata, hro] at h
  · have hro2 : s.config.ReadOnly = false := by simpa using hro
    obtain ⟨h1, _, h3⟩ := WriteWithMetadata_catalog s hro2 data filename mimeType env
    exact ⟨(h3 id h).1, h1⟩

/-- The ids issued by a sequence of calls that does not exhaust the counter lie between
the counter at the start and the counter at the end, and increase strictly. -/
theorem issued_bounds (ops : List Op) (s : Store) (h : s.nextID + ops.length < 2 ^ 64) :
    (∀ id ∈ s.issued ops, s.nextID ≤ id ∧ id < s.nextID + ops.length) ∧
    (s.issued ops).Pairwise (fun a b => a < b) := by
  induction ops generalizing s with
  | nil => simp [Store.issued]
  | cons op ops ih =>
    simp only [List.length_cons] at h
    cases op with
    | write data filename mimeType env =>
      unfold Store.issued
      cases hr : (s.WriteWithMetadata data filename mimeType env).2 with
      | ok id =>
        obtain ⟨e1, e2⟩ := WriteWithMetadata_ok s data filename mimeType env id hr
        rw [Nat.mod_eq_of_lt (by omega)] at e2
        obtain ⟨i1, i2⟩ := ih (s.WriteWithMetadata data filename mimeType env).1 (by omega)
        simp only [List.mem_cons, List.pairwise_cons, List.length_cons]
        refine ⟨?_, ?_, i2⟩
        · rintro x (rfl | hx)
          · omega
          · have := i1 x hx
            omega
        · intro x hx
          have := i1 x hx
          omega
      | error e =>
        have hn := step_nextID s (.write data filename mimeType env)
        simp only [Store.step] at hn
        rw [Nat.mod_eq_of_lt (by omega)] at hn
        obtain ⟨i1, i2⟩ := ih (s.WriteWithMetadata data filename mimeType env).1 (by omega)
        simp only [List.length_cons]
        refine ⟨fun x hx => ?_, i2⟩
        have := i1 x hx
        omega
    | delete order i env =>
      unfold Store.issued
      have hn : (s.Delete order i env).1.nextID = s.nextID := (Delete_cases s i env order).2.1
      obtain ⟨i1, i2⟩ := ih (s.Delete order i env).1 (by omega)
      simp only [List.length_cons]
      refine ⟨fun x hx => ?_, i2⟩
      have := i1 x hx
      omega

/-! ## The counter at startup -/

theorem loadVolumes_frame (infos : List VolumeInfo) (s : Store) (o : Nat → Bool) (maxID : Nat) :
    (s.loadVolumes o infos maxID).nextID = s.nextID ∧
    (s.loadVolumes o infos maxID).db = s.db ∧
    (s.loadVolumes o infos maxID).config = s.config := by
  induction infos generalizing s maxID with
  | nil => exact ⟨rfl, rfl, rfl⟩
  | cons info rest ih =>
    unfold Store.loadVolumes
    split
    · exact ih s maxID
    · simp only
      split
      · exact ih _ _
      · exact ih _ _

theorem loadMetas_cons (s : Store) (m : FileMetadata) (rest : List FileMetadata) :
    s.loadMetas (m :: rest) = (s.loadMeta m).loadMetas rest := rfl

theorem loadMeta_frame (s : Store) (m : FileMetadata) :
    (s.loadMeta m).db = s.db ∧ (s.loadMeta m).config = s.config ∧
    (s.loadMeta m).nextID = if m.ID ≥ s.nextID then (m.ID + 1) % 2 ^ 64 else s.nextID := by
  unfold Store.loadMeta
  cases hg : mapGet s.volumes m.VolumeID with
  | none =>
    simp only
    by_cases hge : m.ID ≥ s.nextID
    · simp only [hge, if_true, and_self]
    · simp only [hge, if_false, and_self]
  | some vol =>
    simp only
    by_cases hge : m.ID ≥ s.nextID
    · simp only [hge, if_true, and_self]
    · simp only [hge, if_false, and_self]

theorem loadMetas_frame (files : List FileMetadata) (s : Store) :
    (s.loadMetas files).db = s.db ∧ (s.loadMetas files).config = s.config := by
  induction files generalizing s with
  | nil => exact ⟨rfl, rfl⟩
  | cons m rest ih =>
    rw [loadMetas_cons, (ih _).1, (ih _).2, (loadMeta_frame s m).1, (loadMeta_frame s m).2.1]
    exact ⟨rfl, rfl⟩

/-- The second loop of `loadFromDatabase` over rows whose ids are below 2 ^ 64 - 1 leaves
the counter above every row id, and at its old value or one above a row id. -/
theorem loadMetas_counter (files : List FileMetadata) (s : Store)
    (hid : ∀ m ∈ files, m.ID + 1 < 2 ^ 64) :
    s.nextID ≤ (s.loadMetas files).nextID ∧
    (∀ m ∈ files, m.ID < (s.loadMetas files).nextID) ∧
    ((s.loadMetas files).nextID = s.nextID ∨
      ∃ m ∈ files, (s.loadMetas files).nextID = m.ID + 1) := by
  induction files generalizing s with
  | nil => exact ⟨Nat.le_refl _, by simp, Or.inl rfl⟩
  | cons m rest ih =>
    rw [loadMetas_cons]
    obtain ⟨a3, a4, a5⟩ := ih (s.loadMeta m) (fun x hx => hid x (List.mem_cons_of_mem _ hx))
    obtain ⟨_, _, b3⟩ := loadMeta_frame s m
    have hm := hid m (List.mem_cons_self _ _)
    refine ⟨?_, ?_, ?_⟩
    · by_cases hge : m.ID ≥ s.nextID
      · rw [if_pos hge, Nat.mod_eq_of_lt hm] at b3; omega
      · rw [if_neg hge] at b3; omega
    · intro x hx
      rcases List.mem_cons.1 hx with rfl | hx
      · by_cases hge : x.ID ≥ s.nextID
        · rw [if_pos hge, Nat.mod_eq_of_lt hm] at b3; omega
        · rw [if_neg hge] at b3; omega
      · exact a4 x hx
    · rcases a5 with h | ⟨x, hx, h⟩
      · by_cases hge : m.ID ≥ s.nextID
        · rw [if_pos hge, Nat.mod_eq_of_lt hm] at b3
          exact Or.inr ⟨m, List.mem_cons_self _ _, by omega⟩
        · rw [if_neg hge] at b3
          exact Or.inl (by omega)
      · exact Or.inr ⟨x, List.mem_cons_of_mem _ hx, h⟩

theorem loadFromDatabase_eq (s0 : Store) (env : StartEnv) (s1 : Store)
    (h : s0.loadFromDatabase env = .ok s1) :
    s1 = (s0.loadVolumes env.openFails s0.db.volumes 0).loadMetas s0.db.files := by
  unfold Store.loadFromDatabase Database.LoadAllVolumeInfo
    Database.LoadAllFileMetadataIncludingDeleted at h
  by_cases h1 : env.loadVolumesFails = true
  · simp [h1] at h
  by_cases h2 : env.loadMetasFails = true
  · simp [h1, h2] at h
  simp only [h1, h2, Bool.false_eq_true, if_false, (loadVolumes_frame _ _ _ _).2.1,
    Except.ok.injEq] at h
  exact h.symm

/-- What `NewStore` takes over: the configuration, the file rows of the catalog and a
counter that the second loop of `loadFromDatabase` computed from 1. -/
theorem NewStore_frame (cfg : Config) (db : Database) (disk : List (Nat × List Nat))
    (env : StartEnv) (s : Store) (h : NewStore cfg db disk env = .ok s) :
    s.config = cfg ∧ s.db.files = db.files ∧
    ∃ s0 : Store, s0.nextID = 1 ∧ s.nextID = (s0.loadMetas db.files).nextID := by
  unfold NewStore at h
  simp only at h
  cases hl : Store.loadFromDatabase
      { config := cfg, volumes := [], activeVolID := 0, nextID := 1, db := db, disk := disk }
      env with
  | error e => rw [hl] at h; cases h
  | ok s1 =>
    rw [hl] at h
    simp only at h
    have e1 := loadFromDatabase_eq _ env s1 hl
    simp only at e1
    have hv := loadVolumes_frame db.volumes
      { config := cfg, volumes := [], activeVolID := 0, nextID := 1, db := db, disk := disk }
      env.openFails 0
    simp only at hv
    have key : s1.config = cfg ∧ s1.db.files = db.files ∧
        ∃ s0 : Store, s0.nextID = 1 ∧ s1.nextID = (s0.loadMetas db.files).nextID := by
      rw [e1, (loadMetas_frame _ _).1, (loadMetas_frame _ _).2, hv.2.1, hv.2.2]
      exact ⟨rfl, rfl, _, hv.1, rfl⟩
    obtain ⟨k1, k2, k3⟩ := key
    by_cases hlen : s1.volumes.length = 0
    · rw [if_pos hlen] at h
      have hfr := createNewVolume_frame s1 (env.openFails ((s1.activeVolID + 1) % 2 ^ 32))
        env.saveVolumeFails
      generalize Store.createNewVolume s1 _ _ = c at hfr h
      rcases c with ⟨s2, e | vol⟩
      · cases h
      · simp only [Except.ok.injEq] at h
        subst h
        simp only at hfr
        rw [hfr.1, hfr.2.1, hfr.2.2.2]
        exact ⟨k1, k2, k3⟩
    · rw [if_neg hlen] at h
      cases h
      exact ⟨k1, k2, k3⟩

theorem NewStore_counter (cfg : Config) (db : Database) (disk : List (Nat × List Nat))
    (env : StartEnv) (s : Store) (h : NewStore cfg db disk env = .ok s)
    (hid : ∀ m ∈ db.files, m.ID + 1 < 2 ^ 64) :
    (db.files = [] → s.nextID = 1) ∧
    (db.files ≠ [] → ∃ m ∈ db.files, s.nextID = m.ID + 1) ∧
    (∀ m ∈ db.files, m.ID < s.nextID) := by
  obtain ⟨_, _, s0, h0, hn⟩ := NewStore_frame cfg db disk env s h
  obtain ⟨c1, c2, c3⟩ := loadMetas_counter db.files s0 hid
  rw [← hn] at c1 c2 c3
  rw [h0] at c1 c3
  refine ⟨fun he => ?_, fun hne => ?_, c2⟩
  · rcases c3 with h3 | ⟨m, hm, _⟩
    · exact h3
    · rw [he] at hm; cases hm
  · rcases c3 with h3 | h3
    · obtain ⟨m, hm⟩ := List.exists_mem_of_ne_nil _ hne
      have := c2 m hm
      exact ⟨m, hm, by omega⟩
    · exact h3

set_option maxRecDepth 100000 in
theorem reopen_written : writtenStore.reopen sampleStartEnv = .ok reopenedStore := by
  decide

/-! ## The file rows of the catalog under a sequence of calls -/

theorem deleteRange_db (s : Store) (id : Nat) (env : Env) (order : List Nat) :
    (s.deleteRange id env order).1.db = s.db ∨
    (s.deleteRange id env order).1.db = (s.db.DeleteFileMetadata id env.deleteMetaFails).1 := by
  induction order with
  | nil => exact Or.inl rfl
  | cons a rest ih =>
    unfold Store.deleteRange
    split
    · exact ih
    · split
      · exact Or.inr rfl
      · exact ih

theorem DeleteFileMetadata_ids (d : Database) (id : Nat) (fails : Bool) :
    (d.DeleteFileMetadata id fails).1.files.map (fun m => m.ID) = d.files.map (fun m => m.ID) := by
  unfold Database.DeleteFileMetadata
  split
  · rfl
  · simp only [List.map_map]
    apply List.map_congr_left
    intro m _
    simp only [Function.comp]
    split <;> rfl

/-- No call removes a file row from the catalog or changes the id of one. -/
theorem step_keeps_row (s : Store) (op : Op) (id : Nat)
    (h : ∃ row ∈ s.db.files, row.ID = id) : ∃ row ∈ (s.step op).db.files, row.ID = id := by
  obtain ⟨row, hr, hid⟩ := h
  cases op with
  | write data filename mimeType env =>
    show ∃ row ∈ (s.WriteWithMetadata data filename mimeType env).1.db.files, row.ID = id
    by_cases hro : s.config.ReadOnly = true
    · simp only [Store.WriteWithMetadata, hro, if_true]
      exact ⟨row, hr, hid⟩
    · have hro2 : s.config.ReadOnly = false := by simpa using hro
      rcases (WriteWithMetadata_catalog s hro2 data filename mimeType env).2.1 with
        h1 | ⟨r2, _, h1⟩
      · rw [h1]; exact ⟨row, hr, hid⟩
      · rw [h1]; exact ⟨row, List.mem_append_left _ hr, hid⟩
  | delete order i env =>
    show ∃ row ∈ (s.Delete order i env).1.db.files, row.ID = id
    unfold Store.Delete
    split
    · exact ⟨row, hr, hid⟩
    · rcases deleteRange_db s i env order with h1 | h1
      · rw [h1]; exact ⟨row, hr, hid⟩
      · rw [h1]
        have hmem : id ∈ (s.db.DeleteFileMetadata i env.deleteMetaFails).1.files.map
            (fun m => m.ID) := by
          rw [DeleteFileMetadata_ids]
          exact List.mem_map.2 ⟨row, hr, hid⟩
        obtain ⟨r2, hr2, h2⟩ := List.mem_map.1 hmem
        exact ⟨r2, hr2, h2⟩

theorem run_keeps_row (ops : List Op) (s : Store) (id : Nat)
    (h : ∃ row ∈ s.db.files, row.ID = id) : ∃ row ∈ (s.run ops).db.files, row.ID = id := by
  induction ops generalizing s with
  | nil => exact h
  | cons op ops ih => exact ih (s.step op) (step_keeps_row s op id h)

/-! ## Rollover -/

theorem SaveVolumeInfo_ok (d : Database) (info : VolumeInfo) :
    (d.SaveVolumeInfo info false).2 = none := by
  unfold Database.SaveVolumeInfo
  simp only [Bool.false_eq_true, if_false]
  split <;> rfl

/-- When neither the open nor the catalog insert fails, `createNewVolume` puts a new volume
under the next volume number and makes it the active volume. -/
theorem createNewVolume_ok (s : Store) :
    s.createNewVolume false false =
      ({ s with
          db := (s.db.SaveVolumeInfo
            { ID := (s.activeVolID + 1) % 2 ^ 32, MaxSize := s.config.MaxVolumeSize,
              CurrentSize := 0, Active := true } false).1
          volumes := mapSet s.volumes ((s.activeVolID + 1) % 2 ^ 32)
            (NewVolume ((s.activeVolID + 1) % 2 ^ 32) (s.openFile ((s.activeVolID + 1) % 2 ^ 32))
              s.config.MaxVolumeSize)
          activeVolID := (s.activeVolID + 1) % 2 ^ 32 },
        .ok (NewVolume ((s.activeVolID + 1) % 2 ^ 32) (s.openFile ((s.activeVolID + 1) % 2 ^ 32))
              s.config.MaxVolumeSize)) := by
  unfold Store.createNewVolume
  simp only [Bool.false_eq_true, if_false]
  have hok := SaveVolumeInfo_ok s.db
    { ID := (s.activeVolID + 1) % 2 ^ 32, MaxSize := s.config.MaxVolumeSize,
      CurrentSize := 0, Active := true }
  have hmax : (NewVolume ((s.activeVolID + 1) % 2 ^ 32) (s.openFile ((s.activeVolID + 1) % 2 ^ 32))
      s.config.MaxVolumeSize).MaxSize = s.config.MaxVolumeSize := rfl
  rw [hmax]
  rcases hs : s.db.SaveVolumeInfo
    { ID := (s.activeVolID + 1) % 2 ^ 32, MaxSize := s.config.MaxVolumeSize,
      CurrentSize := 0, Active := true } false with ⟨db, _ | e⟩
  · rfl
  · rw [hs] at hok
    cases hok

theorem SaveFileMetadata_volumes (d : Database) (row : FileMetadata) (fails : Bool) :
    (d.SaveFileMetadata row fails).1.volumes = d.volumes := by
  unfold Database.SaveFileMetadata
  split
  · rfl
  · split <;> rfl

theorem WriteNeedle_full (v : Volume) (m : Needle) (h : v.CurrentSize + m.Size > v.MaxSize) :
    v.WriteNeedle m = ({ v with Active := false }, some .ErrVolumeFull) := by
  simp [Volume.WriteNeedle, h]

/-- A needle that fits the configured volume size is appended at offset 0 of a volume on a
new file. -/
theorem WriteNeedle_new (b : Nat) (maxSize : Int) (m : Needle) (h : m.Size ≤ maxSize) :
    (NewVolume b [] maxSize).WriteNeedle m =
      ({ ID := b, File := m.Write [], MaxSize := maxSize, CurrentSize := m.Size, Active := true,
         NeedleIndex := [(m.ID, { Offset := 0, Size := m.DataSize, Flags := m.Flags,
                                   VolumeID := b })] }, none) := by
  have h1 : ¬ (0 : Int) + m.Size > maxSize := by omega
  simp [Volume.WriteNeedle, NewVolume, h, writeAt_nil, mapSet]

theorem openFile_set_ne (s : Store) (a b : Nat) (v : Volume) (nid : Nat) (db : Database)
    (hab : b ≠ a) :
    Store.openFile { s with volumes := mapSet s.volumes a v, nextID := nid, db := db } b =
      s.openFile b := by
  simp only [Store.openFile]
  rw [mapGet_mapSet_ne _ _ _ _ hab]

theorem succ_mod_ne (a : Nat) : (a + 1) % 2 ^ 32 ≠ a := by
  intro h
  have h1 : (a + 1) % 2 ^ 32 < 2 ^ 32 := Nat.mod_lt _ (by norm_num)
  have h2 : a < 2 ^ 32 := by omega
  by_cases h3 : a + 1 < 2 ^ 32
  · rw [Nat.mod_eq_of_lt h3] at h; omega
  · have h4 : a + 1 = 2 ^ 32 := by omega
    rw [h4, Nat.mod_self] at h
    omega

theorem UpdateVolumeSize_volumes (d d2 : Database) (id : Nat) (size : Int) (fails : Bool)
    (h : d.volumes = d2.volumes) :
    (d.UpdateVolumeSize id size fails).1.volumes = (d2.UpdateVolumeSize id size fails).1.volumes := by
  unfold Database.UpdateVolumeSize
  split
  · exact h
  · simp only [h]

/-- The outcome of a `WriteWithMetadata` call that rolls over. -/
theorem WriteWithMetadata_rollover (s : Store) (data : List Nat) (filename mimeType : String)
    (env : Env) (vol : Volume) (m : Needle) (b : Nat)
    (hm : m = buildNeedle s.nextID data filename mimeType env)
    (hb : b = (s.activeVolID + 1) % 2 ^ 32)
    (hro : s.config.ReadOnly = false)
    (hvol : mapGet s.volumes s.activeVolID = some vol)
    (hfull : vol.CurrentSize + m.Size > vol.MaxSize)
    (hfit : m.Size ≤ s.config.MaxVolumeSize)
    (hnew : s.openFile b = [])
    (ho : env.openFails = false) (hsv : env.saveVolumeFails = false) :
    (s.WriteWithMetadata data filename mimeType env).2 = .ok s.nextID ∧
    (s.WriteWithMetadata data filename mimeType env).1.activeVolID = b ∧
    (s.WriteWithMetadata data filename mimeType env).1.volumes =
      mapSet (mapSet (mapSet s.volumes s.activeVolID { vol with Active := false }) b
        (NewVolume b [] s.config.MaxVolumeSize)) b
        ((NewVolume b [] s.config.MaxVolumeSize).WriteNeedle m).1 ∧
    (s.WriteWithMetadata data filename mimeType env).1.db.volumes =
      (((s.db.SetVolumeInactive s.activeVolID env.setInactiveFails).1.SaveVolumeInfo
        { ID := b, MaxSize := s.config.MaxVolumeSize, CurrentSize := 0, Active := true }
        false).1.UpdateVolumeSize b m.Size env.updateSizeFails).1.volumes := by
  have hmid : m.ID = s.nextID := by rw [hm]; rfl
  unfold Store.WriteWithMetadata
  simp only [hro, Bool.false_eq_true, if_false, ← hm, hvol, WriteNeedle_full vol m hfull,
    if_true, ho, hsv, createNewVolume_ok]
  simp only [← hb, openFile_set_ne _ _ _ _ _ _ (hb ▸ succ_mod_ne s.activeVolID)]
  simp only [hnew, WriteNeedle_new b _ m hfit]
  refine ⟨?_, ?_, ?_, ?_⟩
  · rw [(saveWritten_fst _ _ _ _ _ _ _).2.2.2.2.2, hmid]
  · rw [(saveWritten_fst _ _ _ _ _ _ _).2.1]
  · rw [(saveWritten_fst _ _ _ _ _ _ _).1]
    rfl
  · simp only [Store.saveWritten]
    exact UpdateVolumeSize_volumes _ _ _ _ _ (SaveFileMetadata_volumes _ _ _)

theorem SetVolumeInactive_rows (d : Database) (a : Nat) :
    (∀ row ∈ (d.SetVolumeInactive a false).1.volumes, row.ID = a → row.Active = false) ∧
    ((∃ row ∈ d.volumes, row.ID = a) →
      ∃ row ∈ (d.SetVolumeInactive a false).1.volumes, row.ID = a) := by
  simp only [Database.SetVolumeInactive, Bool.false_eq_true, if_false, List.mem_map]
  constructor
  · rintro row ⟨r0, _, rfl⟩ hid
    by_cases h : r0.ID = a
    · simp [h]
    · rw [if_neg h] at hid
      exact absurd hid h
  · rintro ⟨r0, hr0, h⟩
    exact ⟨_, ⟨r0, hr0, rfl⟩, by simp [h]⟩

theorem SaveVolumeInfo_rows (d : Database) (info : VolumeInfo) :
    (∀ row ∈ (d.SaveVolumeInfo info false).1.volumes, row = info ∨ row ∈ d.volumes) ∧
    (∀ row ∈ d.volumes, row.ID ≠ info.ID → row ∈ (d.SaveVolumeInfo info false).1.volumes) ∧
    info ∈ (d.SaveVolumeInfo info false).1.volumes := by
  unfold Database.SaveVolumeInfo
  simp only [Bool.false_eq_true, if_false]
  by_cases hany : (d.volumes.any fun r => r.ID == info.ID) = true
  · simp only [hany, if_true, List.mem_map]
    refine ⟨?_, ?_, ?_⟩
    · rintro row ⟨r0, hr0, rfl⟩
      by_cases h : r0.ID = info.ID
      · left; simp [h]
      · right; simp [h, hr0]
    · intro row hr hne
      exact ⟨row, hr, by simp [hne]⟩
    · obtain ⟨r0, hr0, h⟩ := List.any_eq_true.1 hany
      exact ⟨r0, hr0, by simp [show r0.ID = info.ID by simpa using h]⟩
  · simp only [hany, Bool.false_eq_true, if_false, List.mem_append, List.mem_singleton]
    exact ⟨fun row h => h.symm, fun row hr _ => Or.inl hr, Or.inr trivial⟩

theorem UpdateVolumeSize_rows (d : Database) (id : Nat) (size : Int) (fails : Bool) :
    (∀ row ∈ (d.UpdateVolumeSize id size fails).1.volumes,
      ∃ r0 ∈ d.volumes, r0.ID = row.ID ∧ r0.Active = row.Active) ∧
    (∀ r0 ∈ d.volumes, ∃ row ∈ (d.UpdateVolumeSize id size fails).1.volumes,
      row.ID = r0.ID ∧ row.Active = r0.Active ∧ row.MaxSize = r0.MaxSize ∧
      (fails = false → r0.ID = id → row.CurrentSize = size)) := by
  unfold Database.UpdateVolumeSize
  by_cases hf : fails = true
  · simp only [hf, if_true]
    exact ⟨fun row hr => ⟨row, hr, rfl, rfl⟩, fun r0 hr => ⟨r0, hr, rfl, rfl, rfl, by simp⟩⟩
  · simp only [hf, Bool.false_eq_true, if_false, List.mem_map]
    constructor
    · rintro row ⟨r0, hr0, rfl⟩
      refine ⟨r0, hr0, ?_⟩
      split <;> exact ⟨rfl, rfl⟩
    · intro r0 hr0
      refine ⟨_, ⟨r0, hr0, rfl⟩, ?_⟩
      by_cases h : r0.ID = id
      · simp [h]
      · simp [h]

theorem openFile_congr (s t : Store) (k : Nat) (hv : mapGet t.volumes k = mapGet s.volumes k)
    (hd : t.disk = s.disk) : t.openFile k = s.openFile k := by
  simp only [Store.openFile, hv, hd]

theorem Fresh_step (s : Store) (op : Op) (h : s.Fresh) (ha : s.activeVolID + 1 < 2 ^ 32) :
    (s.step op).Fresh ∧ (s.step op).activeVolID ≤ s.activeVolID + 1 := by
  cases op with
  | write data filename mimeType env =>
    show (s.WriteWithMetadata data filename mimeType env).1.Fresh ∧
      (s.WriteWithMetadata data filename mimeType env).1.activeVolID ≤ s.activeVolID + 1
    rcases WriteWithMetadata_cases s data filename mimeType env _ rfl _ rfl _ rfl with
      ⟨h1, _⟩ | ⟨_, _, hd, h2⟩
    · rw [h1]; exact ⟨h, by omega⟩
    · rcases h2 with ⟨hv, hact, _⟩ | ⟨vol, _, hv, hact, _⟩ | ⟨vol, file, _, _, hv, hact, _⟩
      · refine ⟨fun k hk => ?_, by omega⟩
        rw [openFile_congr s _ k (by rw [hv]) hd]
        exact h k (by omega)
      · refine ⟨fun k hk => ?_, by omega⟩
        rw [openFile_congr s _ k (by rw [hv, mapGet_mapSet_ne _ _ _ _ (by omega)]) hd]
        exact h k (by omega)
      · rw [Nat.mod_eq_of_lt ha] at hact hv
        refine ⟨fun k hk => ?_, by omega⟩
        rw [openFile_congr s _ k (by
          rw [hv, mapGet_mapSet_ne _ _ _ _ (by omega), mapGet_mapSet_ne _ _ _ _ (by omega),
            mapGet_mapSet_ne _ _ _ _ (by omega)]) hd]
        exact h k (by omega)
  | delete order i env =>
    show (s.Delete order i env).1.Fresh ∧ (s.Delete order i env).1.activeVolID ≤ s.activeVolID + 1
    obtain ⟨hact, _, _, hd, h5⟩ := Delete_cases s i env order
    refine ⟨fun k hk => ?_, by omega⟩
    rw [hact] at hk
    rcases h5 with ⟨hv, _⟩ | ⟨a, va, hva, _, hv, _⟩
    · rw [openFile_congr s _ k (by rw [hv]) hd]
      exact h k hk
    · by_cases hka : k = a
      · subst hka
        have h0 := h k hk
        simp only [Store.openFile, hva] at h0
        simp only [Store.openFile, hv, mapGet_mapSet_self, (DeleteNeedle_File va i).1]
        exact h0
      · rw [openFile_congr s _ k (by rw [hv, mapGet_mapSet_ne _ _ _ _ hka]) hd]
        exact h k hk

/-- Every store reached by calls that do not exhaust the volume numbers from a store in
which the files above the active volume are new is such a store. -/
theorem Fresh_run (ops : List Op) (s : Store) (h : s.Fresh)
    (ha : s.activeVolID + ops.length < 2 ^ 32) :
    (s.run ops).Fresh ∧ (s.run ops).activeVolID ≤ s.activeVolID + ops.length := by
  induction ops generalizing s with
  | nil => exact ⟨h, by simp [Store.run]⟩
  | cons op ops ih =>
    simp only [List.length_cons] at ha ⊢
    obtain ⟨f1, f2⟩ := Fresh_step s op h (by omega)
    obtain ⟨g1, g2⟩ := ih (s.step op) f1 (by omega)
    exact ⟨g1, by show ((s.step op).run ops).activeVolID ≤ _; omega⟩

/-- A store started on an empty catalog and an empty data directory has no file above its
active volume. -/
theorem Fresh_new (cfg : Config) (env : StartEnv) (s : Store)
    (h : NewStore cfg { files := [], volumes := [] } [] env = .ok s) :
    s.Fresh ∧ s.activeVolID = 1 := by
  unfold NewStore Store.loadFromDatabase Database.LoadAllVolumeInfo
    Database.LoadAllFileMetadataIncludingDeleted at h
  by_cases h1 : env.loadVolumesFails = true
  · simp [h1] at h
  by_cases h2 : env.loadMetasFails = true
  · simp [h1, h2, Store.loadVolumes] at h
  simp only [h1, h2, Bool.false_eq_true, if_false, Store.loadVolumes, Store.loadMetas,
    List.length_nil, if_true, Store.createNewVolume] at h
  simp only [show (0 + 1) % 2 ^ 32 = 1 from rfl] at h
  by_cases h3 : env.openFails 1 = true
  · rw [if_pos h3] at h
    simp at h
  rw [if_neg h3] at h
  by_cases h4 : env.saveVolumeFails = true
  · simp [h4, Database.SaveVolumeInfo] at h
  simp only [h4, Database.SaveVolumeInfo, Bool.false_eq_true, if_false, List.any_nil,
    Except.ok.injEq] at h
  subst h
  refine ⟨fun k hk => ?_, rfl⟩
  simp only at hk
  have hk1 : ¬ 1 = k := by omega
  simp [Store.openFile, mapSet, mapGet, hk1]

/-! ## The name queries -/

theorem firstByID_spec (rows : List FileMetadata) :
    (firstByID rows = none ↔ rows = []) ∧
    (∀ m, firstByID rows = some m → m ∈ rows ∧ ∀ r ∈ rows, m.ID ≤ r.ID) := by
  induction rows with
  | nil => simp [firstByID]
  | cons a rest ih =>
    unfold firstByID
    cases h : firstByID rest with
    | none =>
      have hr : rest = [] := ih.1.1 h
      subst hr
      simp
    | some r =>
      obtain ⟨hm, hle⟩ := ih.2 r h
      simp only
      constructor
      · constructor
        · intro h2; split at h2 <;> cases h2
        · intro h2; cases h2
      · intro m hm2
        by_cases hc : a.ID ≤ r.ID
        · rw [if_pos hc] at hm2
          cases hm2
          refine ⟨List.mem_cons_self _ _, fun x hx => ?_⟩
          rcases List.mem_cons.1 hx with rfl | hx
          · exact Nat.le_refl _
          · exact Nat.le_trans hc (hle x hx)
        · rw [if_neg hc] at hm2
          cases hm2
          refine ⟨List.mem_cons_of_mem _ hm, fun x hx => ?_⟩
          rcases List.mem_cons.1 hx with rfl | hx
          · omega
          · exact hle x hx

theorem likeFrom_nil (e : Engine) (s : List Char) : likeFrom e false [] s = s.isEmpty := by
  rw [likeFrom]
  rfl

theorem likeFrom_percent (e : Engine) (p s : List Char) :
    likeFrom e false ('%' :: p) s = s.tails.any (fun t => likeFrom e false p t) := by
  conv_lhs => unfold likeFrom
  simp

theorem likeFrom_literal_nil (e : Engine) (c : Char) (p : List Char)
    (h1 : c ≠ '%') (h2 : c ≠ '_') (h3 : some c ≠ e.escape) :
    likeFrom e false (c :: p) [] = false := by
  conv_lhs => unfold likeFrom
  simp [h1, h2, h3]

theorem likeFrom_literal_cons (e : Engine) (c : Char) (p : List Char) (x : Char)
    (t : List Char) (h1 : c ≠ '%') (h2 : c ≠ '_') (h3 : some c ≠ e.escape) :
    likeFrom e false (c :: p) (x :: t) = (e.same c x && likeFrom e false p t) := by
  conv_lhs => unfold likeFrom
  simp [h1, h2, h3]

theorem like_percent (e : Engine) (s : List Char) : likeFrom e false ['%'] s = true := by
  rw [likeFrom_percent, List.any_eq_true]
  exact ⟨[], by simp, by rw [likeFrom_nil]; rfl⟩

/-- A pattern of literal characters followed by `%` matches exactly the values that begin
with characters the engine takes for those of the pattern. -/
theorem like_literal (e : Engine) (p : List Char)
    (hp : ∀ c ∈ p, c ≠ '%' ∧ c ≠ '_' ∧ some c ≠ e.escape) (s : List Char) :
    like e (p ++ ['%']) s = true ↔
      ∃ q r, s = q ++ r ∧ List.Forall₂ (fun a b => e.same a b = true) p q := by
  unfold like
  induction p generalizing s with
  | nil =>
    simp only [List.nil_append, like_percent, true_iff]
    exact ⟨[], s, rfl, List.Forall₂.nil⟩
  | cons c p ih =>
    obtain ⟨h1, h2, h3⟩ := hp c (List.mem_cons_self _ _)
    have hp2 : ∀ c ∈ p, c ≠ '%' ∧ c ≠ '_' ∧ some c ≠ e.escape :=
      fun x hx => hp x (List.mem_cons_of_mem _ hx)
    rw [List.cons_append]
    cases s with
    | nil =>
      rw [likeFrom_literal_nil e c _ h1 h2 h3]
      simp only [Bool.false_eq_true, false_iff]
      rintro ⟨q, r, hqr, hf⟩
      cases hf
      simp at hqr
    | cons x t =>
      rw [likeFrom_literal_cons e c _ x t h1 h2 h3]
      simp only [Bool.and_eq_true, ih hp2 t]
      constructor
      · rintro ⟨hs, q, r, rfl, hf⟩
        exact ⟨x :: q, r, rfl, List.Forall₂.cons hs hf⟩
      · rintro ⟨q, r, hqr, hf⟩
        cases hf with
        | cons hs hf2 =>
          simp only [List.cons_append, List.cons.injEq] at hqr
          obtain ⟨rfl, rfl⟩ := hqr
          exact ⟨hs, _, r, rfl, hf2⟩

theorem forall2_exact (p q : List Char)
    (h : List.Forall₂ (fun a b => exactEngine.same a b = true) p q) : p = q := by
  induction h with
  | nil => rfl
  | @cons a b l1 l2 hab _ ih =>
    have hab2 : a = b := by simpa [exactEngine] using hab
    rw [hab2, ih]

/-! ## LoadIndex -/

theorem Needle.bare_Write (n : Needle) (w : List Nat) : n.bare.Write w = n.Write w := rfl

theorem Needle.bare_Size (n : Needle) : n.bare.Size = n.Size := rfl

theorem ReadNeedleFrom_wellFormed (n : Needle) (rest : List Nat) (h : n.WellFormed) :
    ReadNeedleFrom (n.Write [] ++ rest) = .ok (n.bare, rest) := by
  obtain ⟨⟨h1, h2, h3, h4, h5, h6⟩, hs, _⟩ := h
  rw [ReadNeedleFrom_Write n rest hs h3]
  have e1 : n.ID % 2 ^ 64 = n.ID := Nat.mod_eq_of_lt h1
  have e2 : n.Cookie % 2 ^ 32 = n.Cookie := Nat.mod_eq_of_lt h2
  have e3 : n.Flags % 2 ^ 8 = n.Flags := Nat.mod_eq_of_lt h4
  have e4 : toInt64 (toUint64 n.CreateTime % 2 ^ 64) = n.CreateTime := by
    have : toUint64 n.CreateTime % 2 ^ 64 = toUint64 n.CreateTime := by
      apply Nat.mod_eq_of_lt
      have := toUint64_cast n.CreateTime
      have h4 : n.CreateTime % 2 ^ 64 < 2 ^ 64 := Int.emod_lt_of_pos _ (by norm_num)
      omega
    rw [this]
    exact toInt64_toUint64 _ h5 h6
  rw [e1, e2, e3, e4]
  rfl

theorem Needle.WellFormed_Size (n : Needle) (h : n.WellFormed) :
    n.Size = ((n.Write []).length : Int) := by
  obtain ⟨_, hs, hlt⟩ := h
  rw [Needle.Size_eq n (by omega), Needle.Write_length, hs]
  push_cast
  rfl

theorem loadIndexLoop_step (volID : Nat) (n : Needle) (h : n.WellFormed) (fuel : Nat)
    (rest : List Nat) (offset : Int) (index : List (Nat × NeedleInfo)) :
    loadIndexLoop volID (fuel + 1) (n.Write [] ++ rest) offset index =
      loadIndexLoop volID fuel rest (offset + (n.Write []).length)
        (mapSet index n.ID
          { Offset := offset, Size := n.DataSize, Flags := n.Flags, VolumeID := volID }) := by
  rw [loadIndexLoop, ReadNeedleFrom_wellFormed n rest h]
  simp only [Needle.bare_Size, Needle.WellFormed_Size n h]
  rfl

theorem loadIndexLoop_stop (volID : Nat) (fuel : Nat) (r : List Nat)
    (h : (ReadNeedleFrom r).toOption = none) (offset : Int) (index : List (Nat × NeedleInfo)) :
    loadIndexLoop volID fuel r offset index = (index, offset) := by
  cases fuel with
  | zero => rfl
  | succ f =>
    rw [loadIndexLoop]
    cases hr : ReadNeedleFrom r with
    | error e => rfl
    | ok p => rw [hr] at h; cases h

theorem loadIndexLoop_encodeAll (volID : Nat) (ns : List Needle) (tail : List Nat)
    (hwf : ∀ n ∈ ns, n.WellFormed) (htail : (ReadNeedleFrom tail).toOption = none)
    (fuel : Nat) (hfuel : ns.length ≤ fuel) (offset : Int) (index : List (Nat × NeedleInfo)) :
    loadIndexLoop volID fuel (encodeAll ns ++ tail) offset index =
      (indexAll volID ns offset index, offset + sizeAll ns) := by
  induction ns generalizing fuel offset index with
  | nil =>
    simp only [encodeAll, List.nil_append, indexAll, sizeAll, Nat.cast_zero, add_zero]
    exact loadIndexLoop_stop volID fuel tail htail offset index
  | cons n ns ih =>
    cases fuel with
    | zero => simp at hfuel
    | succ f =>
      simp only [encodeAll, List.append_assoc]
      rw [loadIndexLoop_step volID n (hwf n (List.mem_cons_self _ _)),
        ih (fun x hx => hwf x (List.mem_cons_of_mem _ hx)) f (by simpa using hfuel)]
      simp only [indexAll, sizeAll, Nat.cast_add]
      rw [add_assoc]

theorem sizeAll_le_length (ns : List Needle) : 29 * ns.length ≤ sizeAll ns := by
  induction ns with
  | nil => simp [sizeAll]
  | cons n ns ih =>
    simp only [sizeAll, List.length_cons, Needle.Write_length]
    omega

theorem encodeAll_length (ns : List Needle) : (encodeAll ns).length = sizeAll ns := by
  induction ns with
  | nil => rfl
  | cons n ns ih => simp [encodeAll, sizeAll, ih]

theorem indexAll_other (volID : Nat) (ns : List Needle) (offset : Int)
    (index : List (Nat × NeedleInfo)) (id : Nat) (h : id ∉ ns.map (fun n => n.ID)) :
    mapGet (indexAll volID ns offset index) id = mapGet index id := by
  induction ns generalizing offset index with
  | nil => rfl
  | cons n ns ih =>
    simp only [List.map_cons, List.mem_cons, not_or] at h
    simp only [indexAll]
    rw [ih _ _ h.2, mapGet_mapSet_ne _ _ _ _ h.1]

theorem indexAll_get (volID : Nat) (ns : List Needle) (offset : Int)
    (index : List (Nat × NeedleInfo)) (hnd : (ns.map (fun n => n.ID)).Nodup)
    (i : Nat) (n : Needle) (hi : ns[i]? = some n) :
    mapGet (indexAll volID ns offset index) n.ID =
      some { Offset := offset + sizeAll (ns.take i), Size := n.DataSize, Flags := n.Flags,
             VolumeID := volID } := by
  induction ns generalizing offset index i with
  | nil => simp at hi
  | cons m ns ih =>
    simp only [List.map_cons, List.nodup_cons] at hnd
    cases i with
    | zero =>
      simp only [List.getElem?_cons_zero, Option.some.injEq] at hi
      subst hi
      simp only [indexAll, List.take_zero, sizeAll, Nat.cast_zero, add_zero]
      rw [indexAll_other _ _ _ _ _ hnd.1, mapGet_mapSet_self]
    | succ j =>
      simp only [List.getElem?_cons_succ] at hi
      simp only [indexAll, List.take_succ_cons, sizeAll, Nat.cast_add]
      rw [ih _ _ hnd.2 j hi, add_assoc]

theorem ReadNeedleFrom_rest (r : List Nat) (n : Needle) (rest : List Nat)
    (h : ReadNeedleFrom r = .ok (n, rest)) : rest.length + 29 ≤ r.length := by
  by_cases hle : 29 + fromBigEndian ((r.drop 12).take 4) ≤ r.length
  · rw [ReadNeedleFrom_of_le r hle] at h
    split at h
    · cases h
    · simp only [Except.ok.injEq, Prod.mk.injEq] at h
      rw [← h.2, List.length_drop]
      omega
  · rcases ReadNeedleFrom_of_lt r (by omega) with e | e <;> rw [e] at h <;> cases h

/-- The loop of `LoadIndex` does not run out of fuel: with more fuel than the reader has
bytes the result does not depend on the fuel. -/
theorem loadIndexLoop_fuel (volID : Nat) (f1 f2 : Nat) (r : List Nat) (h1 : r.length < f1)
    (h2 : r.length < f2) (offset : Int) (index : List (Nat × NeedleInfo)) :
    loadIndexLoop volID f1 r offset index = loadIndexLoop volID f2 r offset index := by
  induction f1 generalizing f2 r offset index with
  | zero => omega
  | succ f1 ih =>
    cases f2 with
    | zero => omega
    | succ f2 =>
      rw [loadIndexLoop, loadIndexLoop]
      cases hr : ReadNeedleFrom r with
      | error e => rfl
      | ok p =>
        obtain ⟨n, rest⟩ := p
        have := ReadNeedleFrom_rest r n rest hr
        exact ih f2 rest (by omega) (by omega) _ _

/-! ## Compaction -/

theorem Needle.bare_wellFormed (n : Needle) (h : n.WellFormed) : n.bare.WellFormed := h

theorem isLive_iff (v : Volume) (id : Nat) :
    v.isLive id = true ↔ ∃ info, mapGet v.NeedleIndex id = some info ∧ info.Flags &&& 0x01 = 0 := by
  unfold Volume.isLive
  cases mapGet v.NeedleIndex id with
  | none => simp
  | some info => simp

theorem ReadNeedle_not_live (v : Volume) (id : Nat) (h : v.isLive id = false) :
    v.ReadNeedle id = .error .ErrNeedleNotFound := by
  unfold Volume.isLive at h
  unfold Volume.ReadNeedle
  cases hg : mapGet v.NeedleIndex id with
  | none => rfl
  | some info =>
    rw [hg] at h
    have hb : (info.Flags &&& 1 != 0) = true := by
      simp only [beq_eq_false_iff_ne, ne_eq] at h
      simpa using h
    simp only [hb, if_true]

/-- In a sound volume a live id reads as a bare well-formed needle with that id, the size
of its entry and a clear tombstone bit. -/
theorem ReadNeedle_sound (v : Volume) (hs : v.Sound) (id : Nat) (info : NeedleInfo)
    (hg : mapGet v.NeedleIndex id = some info) (hl : info.Flags &&& 0x01 = 0) :
    ∃ n : Needle, v.ReadNeedle id = .ok n ∧ n.WellFormed ∧ n.ID = id ∧
      n.DataSize = info.Size ∧ n.Flags &&& 0x01 = 0 ∧ n.bare = n := by
  obtain ⟨n, hwf, hid, hsz, hfl, ho, hseg, _⟩ := hs id info hg hl
  have hsplit : v.File.drop info.Offset.toNat =
      n.Write [] ++ (v.File.drop info.Offset.toNat).drop (n.Write []).length := by
    conv => lhs; rw [← List.take_append_drop (n.Write []).length (v.File.drop info.Offset.toNat)]
    rw [hseg]
  refine ⟨n.bare, ?_, hwf, hid, hsz, hfl, rfl⟩
  unfold Volume.ReadNeedle
  have hb : ¬ (info.Flags &&& 1 != 0) = true := by simp [hl]
  have ho2 : ¬ info.Offset < 0 := by omega
  simp only [hg, hb, ho2, if_false]
  rw [hsplit, ReadNeedleFrom_wellFormed n _ hwf]
  simp

theorem copyNeedles_eq (vol : Volume) (ids : List Nat) (tempVol : Volume) :
    copyNeedles vol ids tempVol =
      (readAll vol ids).foldl (fun t n => (t.WriteNeedle n).1) tempVol := by
  induction ids generalizing tempVol with
  | nil => rfl
  | cons id rest ih =>
    unfold copyNeedles readAll
    cases vol.ReadNeedle id with
    | error e => exact ih tempVol
    | ok n => exact ih _

theorem WriteNeedle_MaxSize (v : Volume) (m : Needle) :
    (v.WriteNeedle m).1.MaxSize = v.MaxSize := by
  unfold Volume.WriteNeedle
  split
  · rfl
  · simp only
    split <;> rfl

/-- Well-formed needles that fit are appended one after the other. -/
theorem writeAll (ns : List Needle) (t : Volume) (hwf : ∀ n ∈ ns, n.WellFormed)
    (hcs : t.CurrentSize = (t.File.length : Int))
    (hfit : t.CurrentSize + (sizeAll ns : Int) ≤ t.MaxSize) :
    (ns.foldl (fun t n => (t.WriteNeedle n).1) t).File = t.File ++ encodeAll ns ∧
    (ns.foldl (fun t n => (t.WriteNeedle n).1) t).CurrentSize =
      t.CurrentSize + (sizeAll ns : Int) := by
  induction ns generalizing t with
  | nil => simp [encodeAll, sizeAll]
  | cons n ns ih =>
    have hn := hwf n (List.mem_cons_self _ _)
    have hsz := Needle.WellFormed_Size n hn
    simp only [sizeAll, Nat.cast_add] at hfit
    have h1 : ¬ t.CurrentSize + n.Size > t.MaxSize := by rw [hsz]; omega
    have h2 : ¬ t.CurrentSize < 0 := by omega
    have hok : (t.WriteNeedle n).2 = none := by
      simp only [Volume.WriteNeedle, h1, h2, if_false]
    obtain ⟨_, hF, _, hC⟩ := WriteNeedle_ok t n hok
    have hto : t.CurrentSize.toNat = t.File.length := by omega
    have hfile : (t.WriteNeedle n).1.File = t.File ++ n.Write [] := by
      rw [hF, hto]; simp [writeAt]
    simp only [List.foldl_cons]
    obtain ⟨i1, i2⟩ := ih (t.WriteNeedle n).1 (fun x hx => hwf x (List.mem_cons_of_mem _ hx))
      (by rw [hfile, hC, List.length_append, hsz, hcs]; push_cast; rfl)
      (by rw [hC, hsz, WriteNeedle_MaxSize]; omega)
    rw [i1, i2, hfile, hC, hsz]
    simp only [encodeAll, sizeAll, List.append_assoc, Nat.cast_add]
    exact ⟨trivial, by omega⟩

theorem readAll_sound (v : Volume) (hs : v.Sound) (ids : List Nat)
    (hlive : ∀ id ∈ ids, v.isLive id = true) :
    (readAll v ids).map (fun n => n.ID) = ids ∧
    (∀ n ∈ readAll v ids, n.WellFormed ∧ n.Flags &&& 0x01 = 0 ∧ n.bare = n ∧
      v.ReadNeedle n.ID = .ok n) ∧
    sizeAll (readAll v ids) = v.liveSize ids := by
  induction ids with
  | nil => simp [readAll, sizeAll, Volume.liveSize]
  | cons id rest ih =>
    obtain ⟨i1, i2, i3⟩ := ih (fun x hx => hlive x (List.mem_cons_of_mem _ hx))
    obtain ⟨info, hg, hl⟩ := (isLive_iff v id).1 (hlive id (List.mem_cons_self _ _))
    obtain ⟨n, hr, hwf, hid, hsz, hfl, hb⟩ := ReadNeedle_sound v hs id info hg hl
    simp only [readAll, hr, List.map_cons, hid, i1, List.mem_cons, sizeAll, Volume.liveSize, hg,
      i3, Needle.Write_length]
    refine ⟨trivial, ?_, ?_⟩
    · rintro m (rfl | hm)
      · exact ⟨hwf, hfl, hb, by rw [hid]; exact hr⟩
      · exact i2 m hm
    · rw [← hwf.2.1, hsz]

theorem encodeAll_drop (ns : List Needle) (i : Nat) (n : Needle) (hi : ns[i]? = some n) :
    (encodeAll ns).drop (sizeAll (ns.take i)) = n.Write [] ++ encodeAll (ns.drop (i + 1)) := by
  induction ns generalizing i with
  | nil => simp at hi
  | cons m ns ih =>
    cases i with
    | zero =>
      simp only [List.getElem?_cons_zero, Option.some.injEq] at hi
      subst hi
      simp [encodeAll, sizeAll]
    | succ j =>
      simp only [List.getElem?_cons_succ] at hi
      simp only [List.take_succ_cons, sizeAll, encodeAll, List.drop_succ_cons]
      rw [← List.drop_drop, List.drop_left, ih j hi]

/-- The volume `LoadIndex` builds on a file that is a sequence of records. -/
theorem LoadIndex_encodeAll (k : Nat) (maxSize : Int) (ns : List Needle)
    (hwf : ∀ n ∈ ns, n.WellFormed) :
    ((NewVolume k (encodeAll ns) maxSize).LoadIndex.1).File = encodeAll ns ∧
    ((NewVolume k (encodeAll ns) maxSize).LoadIndex.1).CurrentSize = sizeAll ns ∧
    ((NewVolume k (encodeAll ns) maxSize).LoadIndex.1).NeedleIndex = indexAll k ns 0 [] := by
  have hloop := loadIndexLoop_encodeAll k ns [] hwf rfl ((encodeAll ns ++ []).length + 1)
    (by
      have := sizeAll_le_length ns
      rw [List.length_append, encodeAll_length]
      omega) 0 []
  simp only [List.append_nil] at hloop
  simp only [Volume.LoadIndex, NewVolume, hloop]
  simp

/-- Reading from the volume `LoadIndex` builds on a sequence of records with distinct ids
and clear tombstone bits: each id of the sequence reads as its needle, any other id is not
found. -/
theorem ReadNeedle_rebuilt (k : Nat) (maxSize : Int) (ns : List Needle)
    (hwf : ∀ n ∈ ns, n.WellFormed) (hfl : ∀ n ∈ ns, n.Flags &&& 0x01 = 0)
    (hnd : (ns.map (fun n => n.ID)).Nodup) :
    (∀ n ∈ ns, ((NewVolume k (encodeAll ns) maxSize).LoadIndex.1).ReadNeedle n.ID = .ok n.bare) ∧
    (∀ id, id ∉ ns.map (fun n => n.ID) →
      ((NewVolume k (encodeAll ns) maxSize).LoadIndex.1).ReadNeedle id =
        .error .ErrNeedleNotFound) := by
  obtain ⟨hF, _, hI⟩ := LoadIndex_encodeAll k maxSize ns hwf
  constructor
  · intro n hn
    obtain ⟨i, hi⟩ := List.getElem?_of_mem hn
    have hg := indexAll_get k ns 0 [] hnd i n hi
    unfold Volume.ReadNeedle
    rw [hI, hg, hF]
    have hb : ¬ (n.Flags &&& 1 != 0) = true := by simp [hfl n hn]
    have ho : ¬ ((0 : Int) + (sizeAll (ns.take i) : Int) < 0) := by omega
    simp only [hb, ho, if_false]
    have hto : ((0 : Int) + (sizeAll (ns.take i) : Int)).toNat = sizeAll (ns.take i) := by omega
    rw [hto, encodeAll_drop ns i n hi, ReadNeedleFrom_wellFormed n _ (hwf n hn)]
    simp
  · intro id hid
    unfold Volume.ReadNeedle
    rw [hI, indexAll_other k ns 0 [] id hid]
    rfl

/-- `Read` depends on the volumes only through what `ReadNeedle` returns for the id. -/
theorem Read_congr (s t : Store) (id : Nat)
    (h : ∀ k, (mapGet t.volumes k).map (fun v => v.ReadNeedle id) =
      (mapGet s.volumes k).map (fun v => v.ReadNeedle id)) (order : List Nat) :
    t.Read order id = s.Read order id := by
  induction order with
  | nil => rfl
  | cons k rest ih =>
    unfold Store.Read
    have hk := h k
    cases h1 : mapGet t.volumes k with
    | none =>
      cases h2 : mapGet s.volumes k with
      | none => exact ih
      | some v2 => rw [h1, h2] at hk; cases hk
    | some v1 =>
      cases h2 : mapGet s.volumes k with
      | none => rw [h1, h2] at hk; cases hk
      | some v2 =>
        rw [h1, h2] at hk
        simp only [Option.map_some', Option.some.injEq] at hk
        simp only [hk, ih]

/-- The outcome of a `compactVolume` call that rewrites the volume. -/
theorem compactVolume_rewrite (s : Store) (vol : Volume) (env : CompactEnv)
    (hne : vol.NeedleIndex ≠ []) (hb : env.belowThreshold = false)
    (ho : env.openFails = false) (htemp : s.openFile ((vol.ID + 10000) % 2 ^ 32) = []) :
    (s.compactVolume vol env).2 = none ∧
    (s.compactVolume vol env).1.volumes = mapSet s.volumes vol.ID
      (NewVolume vol.ID
        (copyNeedles vol (env.order.filter vol.isLive)
          (NewVolume ((vol.ID + 10000) % 2 ^ 32) [] s.config.MaxVolumeSize)).File
        s.config.MaxVolumeSize).LoadIndex.1 ∧
    (s.compactVolume vol env).1.db.files = s.db.files ∧
    (s.compactVolume vol env).1.db.volumes =
      (s.db.UpdateVolumeSize vol.ID
        (NewVolume vol.ID
          (copyNeedles vol (env.order.filter vol.isLive)
            (NewVolume ((vol.ID + 10000) % 2 ^ 32) [] s.config.MaxVolumeSize)).File
          s.config.MaxVolumeSize).LoadIndex.1.CurrentSize env.updateSizeFails).1.volumes ∧
    (s.compactVolume vol env).1.config = s.config ∧
    (s.compactVolume vol env).1.nextID = s.nextID ∧
    (s.compactVolume vol env).1.activeVolID = s.activeVolID := by
  have hlen : ¬ vol.NeedleIndex.length = 0 := by
    intro h; exact hne (List.length_eq_zero.1 h)
  simp only [Store.compactVolume, hlen, hb, ho, htemp, if_false, Bool.false_eq_true,
    UpdateVolumeSize_files]
  simp

/-- The volume that replaces a sound volume whose live needles fit a volume. -/
theorem compacted_volume (vol : Volume) (hs : vol.Sound) (order : List Nat) (t : Nat)
    (maxSize : Int) (hfit : (vol.liveSize (order.filter vol.isLive) : Int) ≤ maxSize) :
    (copyNeedles vol (order.filter vol.isLive) (NewVolume t [] maxSize)).File =
      encodeAll (readAll vol (order.filter vol.isLive)) := by
  obtain ⟨_, i2, i3⟩ := readAll_sound vol hs (order.filter vol.isLive)
    (fun id hid => (List.mem_filter.1 hid).2)
  rw [copyNeedles_eq]
  have := (writeAll (readAll vol (order.filter vol.isLive)) (NewVolume t [] maxSize)
    (fun n hn => (i2 n hn).1) rfl (by simp only [NewVolume, List.length_nil]; rw [i3]; omega)).1
  rw [this]
  rfl

/-- Compaction of a sound volume: the volume that takes its place reads every id as the
old one did. -/
theorem compacted_reads (vol : Volume) (hs : vol.Sound) (order : List Nat) (t : Nat)
    (maxSize : Int) (hnd : order.Nodup) (hall : ∀ id, vol.isLive id = true → id ∈ order)
    (hfit : (vol.liveSize (order.filter vol.isLive) : Int) ≤ maxSize) (id : Nat) :
    ((NewVolume vol.ID (copyNeedles vol (order.filter vol.isLive)
      (NewVolume t [] maxSize)).File maxSize).LoadIndex.1).ReadNeedle id =
      vol.ReadNeedle id := by
  obtain ⟨i1, i2, _⟩ := readAll_sound vol hs (order.filter vol.isLive)
    (fun id hid => (List.mem_filter.1 hid).2)
  rw [compacted_volume vol hs order t maxSize hfit]
  obtain ⟨r1, r2⟩ := ReadNeedle_rebuilt vol.ID maxSize (readAll vol (order.filter vol.isLive))
    (fun n hn => (i2 n hn).1) (fun n hn => (i2 n hn).2.1)
    (by rw [i1]; exact hnd.filter _)
  by_cases hl : vol.isLive id = true
  · have hmem : id ∈ (readAll vol (order.filter vol.isLive)).map (fun n => n.ID) := by
      rw [i1]; exact List.mem_filter.2 ⟨hall id hl, hl⟩
    obtain ⟨n, hn, rfl⟩ := List.mem_map.1 hmem
    rw [r1 n hn, (i2 n hn).2.2.1, (i2 n hn).2.2.2]
  · have hl2 : vol.isLive id = false := by simpa using hl
    rw [ReadNeedle_not_live vol id hl2]
    apply r2
    rw [i1]
    intro hmem
    exact hl (List.mem_filter.1 hmem).2

theorem Sound_new (k : Nat) (f : List Nat) (maxSize : Int) : (NewVolume k f maxSize).Sound := by
  intro id info hg
  simp [NewVolume, mapGet] at hg

theorem Sound_write (v : Volume) (m : Needle) (hs : v.Sound) (hm : m.WellFormed) :
    (v.WriteNeedle m).1.Sound := by
  intro id info hg hl
  by_cases hok : (v.WriteNeedle m).2 = none
  · obtain ⟨h0, hF, hI, hC⟩ := WriteNeedle_ok v m hok
    by_cases hid : id = m.ID
    · subst hid
      rw [hI, mapGet_mapSet_self] at hg
      cases hg
      refine ⟨m, hm, rfl, rfl, hl, h0, ?_, ?_⟩
      · rw [hF]; exact writeAt_drop_take _ _ _
      · rw [hC, Needle.WellFormed_Size m hm]
    · rw [WriteNeedle_index_ne v m id hid] at hg
      obtain ⟨n, hwf, hnid, hsz, hfl, ho, hseg, hcs⟩ := hs id info hg hl
      refine ⟨n, hwf, hnid, hsz, hfl, ho, ?_, ?_⟩
      · rw [hF]
        have hlen : (n.Write []).length ≤ (v.File.drop info.Offset.toNat).length := by
          have := congrArg List.length hseg
          rw [List.length_take] at this
          omega
        rw [List.length_drop] at hlen
        have hpos : 0 < (n.Write []).length := by rw [Needle.Write_length]; omega
        rw [writeAt_segment _ _ _ _ _ (by omega) (by omega)]
        exact hseg
      · rw [hC]
        have := Needle.Size_nonneg m
        omega
  · obtain ⟨hF, hI, hC⟩ := WriteNeedle_failed v m hok
    rw [hI] at hg
    obtain ⟨n, hwf, hnid, hsz, hfl, ho, hseg, hcs⟩ := hs id info hg hl
    exact ⟨n, hwf, hnid, hsz, hfl, ho, by rw [hF]; exact hseg, by rw [hC]; exact hcs⟩

theorem Sound_delete (v : Volume) (i : Nat) (hs : v.Sound) : (v.DeleteNeedle i).1.Sound := by
  intro id info hg hl
  obtain ⟨hF, hC⟩ := DeleteNeedle_File v i
  by_cases hid : id = i
  · subst hid
    exact absurd hl (Volume.NoLive_delete_self v id info hg)
  · rw [DeleteNeedle_index_ne v i id hid] at hg
    obtain ⟨n, hwf, hnid, hsz, hfl, ho, hseg, hcs⟩ := hs id info hg hl
    exact ⟨n, hwf, hnid, hsz, hfl, ho, by rw [hF]; exact hseg, by rw [hC]; exact hcs⟩

theorem buildNeedle_wellFormed (id : Nat) (data : List Nat) (filename mimeType : String)
    (env : Env) (hid : id < 2 ^ 64) (hlen : data.length + 29 < 2 ^ 32)
    (h1 : -(2 ^ 63) ≤ env.createNow) (h2 : env.createNow < 2 ^ 63) :
    (buildNeedle id data filename mimeType env).WellFormed := by
  have hmod : data.length % 2 ^ 32 = data.length := Nat.mod_eq_of_lt (by omega)
  refine ⟨⟨hid, ?_, ?_, by simp [buildNeedle], h1, h2⟩, ?_, hlen⟩
  · simp only [buildNeedle]
    have hpos : (0 : Int) ≤ env.cookieNow % 2 ^ 32 := Int.emod_nonneg _ (by norm_num)
    have hlt : env.cookieNow % 2 ^ 32 < 2 ^ 32 := Int.emod_lt_of_pos _ (by norm_num)
    omega
  · simp only [buildNeedle, hmod]; omega
  · simp only [buildNeedle, hmod]

theorem AllSound_set (vols : List (Nat × Volume)) (a : Nat) (v : Volume)
    (h : ∀ k w, mapGet vols k = some w → w.Sound) (hv : v.Sound) :
    ∀ k w, mapGet (mapSet vols a v) k = some w → w.Sound := by
  intro k w hg
  by_cases hk : k = a
  · subst hk
    rw [mapGet_mapSet_self] at hg
    cases hg
    exact hv
  · rw [mapGet_mapSet_ne _ _ _ _ hk] at hg
    exact h k w hg

theorem AllSound_step (s : Store) (op : Op) (h : s.AllSound) (hp : op.Plain)
    (hn : s.nextID < 2 ^ 64) : (s.step op).AllSound := by
  cases op with
  | write data filename mimeType env =>
    obtain ⟨hlen, hc1, hc2⟩ := hp
    have hm := buildNeedle_wellFormed s.nextID data filename mimeType env hn hlen hc1 hc2
    show (s.WriteWithMetadata data filename mimeType env).1.AllSound
    unfold Store.AllSound
    rcases WriteWithMetadata_cases s data filename mimeType env _ rfl _ rfl _ rfl with
      ⟨h1, _⟩ | ⟨_, _, _, h2⟩
    · rw [h1]; exact h
    · rcases h2 with ⟨hv, _⟩ | ⟨vol, hvol, hv, _⟩ | ⟨vol, file, hvol, _, hv, _⟩
      · rw [hv]; exact h
      · rw [hv]
        exact AllSound_set _ _ _ h (Sound_write vol _ (h _ vol hvol) hm)
      · rw [hv]
        exact AllSound_set _ _ _
          (AllSound_set _ _ _
            (AllSound_set _ _ _ h (Sound_write vol _ (h _ vol hvol) hm))
            (Sound_new _ _ _))
          (Sound_write _ _ (Sound_new _ _ _) hm)
  | delete order i env =>
    show (s.Delete order i env).1.AllSound
    unfold Store.AllSound
    obtain ⟨_, _, _, _, h5⟩ := Delete_cases s i env order
    rcases h5 with ⟨hv, _⟩ | ⟨a, va, hva, _, hv, _⟩
    · rw [hv]; exact h
    · rw [hv]
      exact AllSound_set _ _ _ h (Sound_delete va i (h a va hva))

theorem AllSound_run (ops : List Op) (s : Store) (h : s.AllSound)
    (hp : ∀ op ∈ ops, op.Plain) (hn : s.nextID + ops.length < 2 ^ 64) :
    (s.run ops).AllSound := by
  induction ops generalizing s with
  | nil => exact h
  | cons op ops ih =>
    simp only [List.length_cons] at hn
    have h1 := AllSound_step s op h (hp op (List.mem_cons_self _ _)) (by omega)
    have h2 : (s.step op).nextID + ops.length < 2 ^ 64 := by
      rcases step_nextID s op with e | e
      · rw [e]; omega
      · rw [e, Nat.mod_eq_of_lt (by omega)]; omega
    exact ih (s.step op) h1 (fun x hx => hp x (List.mem_cons_of_mem _ hx)) h2

theorem AllSound_sample : sampleStore.AllSound := by
  intro k v hg
  simp only [sampleStore, mapGet] at hg
  split at hg
  · cases hg; exact Sound_new _ _ _
  · cases hg

/-- Intervals [o, o + len) inside [0, c) that do not overlap pairwise have lengths that
add up to c at most. -/
theorem sum_apart_le (l : List (Nat × Nat)) (c : Nat) (hin : ∀ p ∈ l, p.1 + p.2 ≤ c)
    (hap : l.Pairwise (fun p q => p.1 + p.2 ≤ q.1 ∨ q.1 + q.2 ≤ p.1)) :
    (l.map (fun p => p.2)).sum ≤ c := by
  have key : ∃ u : Finset Nat, u.card = (l.map (fun p => p.2)).sum ∧
      (∀ x, x ∈ u ↔ ∃ q ∈ l, q.1 ≤ x ∧ x < q.1 + q.2) := by
    induction l with
    | nil => exact ⟨∅, by simp, by simp⟩
    | cons p l ih =>
      obtain ⟨hp, hl⟩ := List.pairwise_cons.1 hap
      obtain ⟨u, hc, hu⟩ := ih (fun q hq => hin q (List.mem_cons_of_mem _ hq)) hl
      have hdis : Disjoint (Finset.Ico p.1 (p.1 + p.2)) u := by
        rw [Finset.disjoint_left]
        intro x hx hxu
        obtain ⟨q, hq, h1, h2⟩ := (hu x).1 hxu
        rw [Finset.mem_Ico] at hx
        rcases hp q hq with h | h <;> omega
      refine ⟨Finset.Ico p.1 (p.1 + p.2) ∪ u, ?_, fun x => ?_⟩
      · rw [Finset.card_union_of_disjoint hdis, hc]
        simp
      · rw [Finset.mem_union, hu x, Finset.mem_Ico]
        constructor
        · rintro (h | ⟨q, hq, h⟩)
          · exact ⟨p, List.mem_cons_self _ _, h⟩
          · exact ⟨q, List.mem_cons_of_mem _ hq, h⟩
        · rintro ⟨q, hq, h⟩
          rcases List.mem_cons.1 hq with rfl | hq
          · exact Or.inl h
          · exact Or.inr ⟨q, hq, h⟩
  obtain ⟨u, hc, hu⟩ := key
  rw [← hc]
  have hsub : u ⊆ Finset.range c := by
    intro x hx
    obtain ⟨q, hq, _, h2⟩ := (hu x).1 hx
    have := hin q hq
    exact Finset.mem_range.2 (by omega)
  simpa using Finset.card_le_card hsub

/-- The live records of a sound volume that do not overlap take no more room than
CurrentSize. -/
theorem liveSize_le (v : Volume) (hs : v.Sound) (ids : List Nat)
    (hlive : ∀ id ∈ ids, v.isLive id = true) (hap : ids.Pairwise v.Apart) :
    (v.liveSize ids : Int) ≤ max v.CurrentSize 0 := by
  have hentry : ∀ id ∈ ids, ∃ info, mapGet v.NeedleIndex id = some info ∧ 0 ≤ info.Offset ∧
      info.Offset + 29 + (info.Size : Int) ≤ v.CurrentSize := by
    intro id hid
    obtain ⟨info, hg, hl⟩ := (isLive_iff v id).1 (hlive id hid)
    obtain ⟨n, hwf, _, hsz, _, ho, _, hb⟩ := hs id info hg hl
    refine ⟨info, hg, ho, ?_⟩
    rw [Needle.Write_length, ← hwf.2.1, hsz] at hb
    push_cast at hb
    omega
  have hsum : v.liveSize ids =
      ((ids.map (fun id => (((mapGet v.NeedleIndex id).map (fun i => i.Offset.toNat)).getD 0,
        ((mapGet v.NeedleIndex id).map (fun i => 29 + i.Size)).getD 0))).map
          (fun p => p.2)).sum := by
    clear hlive hap hentry
    induction ids with
    | nil => rfl
    | cons id rest ih =>
      simp only [Volume.liveSize, List.map_cons, List.sum_cons, ih]
      cases mapGet v.NeedleIndex id <;> rfl
  have hle := sum_apart_le
    (ids.map (fun id => (((mapGet v.NeedleIndex id).map (fun i => i.Offset.toNat)).getD 0,
        ((mapGet v.NeedleIndex id).map (fun i => 29 + i.Size)).getD 0)))
    (max v.CurrentSize 0).toNat
    (by
      intro p hp
      obtain ⟨id, hid, rfl⟩ := List.mem_map.1 hp
      obtain ⟨info, hg, ho, hb⟩ := hentry id hid
      simp only [hg, Option.map_some', Option.getD_some]
      omega)
    (by
      rw [List.pairwise_map]
      refine List.Pairwise.imp_of_mem ?_ hap
      intro a b ha hb hab
      obtain ⟨i1, hg1, ho1, _⟩ := hentry a ha
      obtain ⟨i2, hg2, ho2, _⟩ := hentry b hb
      simp only [Volume.Apart, hg1, hg2] at hab
      simp only [hg1, hg2, Option.map_some', Option.getD_some]
      omega)
  rw [hsum]
  omega

theorem isLive_mem (v : Volume) (order : List Nat)
    (h : ∀ k ∈ v.NeedleIndex.map (fun e => e.1), k ∈ order) (id : Nat)
    (hl : v.isLive id = true) : id ∈ order := by
  obtain ⟨info, hg, _⟩ := (isLive_iff v id).1 hl
  exact h id (mapGet_mem_keys _ _ _ hg)

theorem run_run (s : Store) (ops1 ops2 : List Op) : (s.run ops1).run ops2 = s.run (ops1 ++ ops2) := by
  simp [Store.run, List.foldl_append]

theorem s4Volume_get : mapGet fourDeleted.volumes 1 = some s4Volume := by
  decide!

theorem s4Volume_sound : s4Volume.Sound := by
  have h : fourDeleted.AllSound := by
    unfold fourDeleted
    rw [run_run]
    exact AllSound_run _ _ AllSound_sample (by decide) (by decide)
  exact h 1 s4Volume s4Volume_get

/-- The first loop of `loadFromDatabase` over rows with distinct ids whose files open, in
a table that has none of them: each row gets its volume, on the file of the data
directory, with CurrentSize and Active of the row. -/
theorem loadVolumes_get (infos : List VolumeInfo) (s : Store) (openFails : Nat → Bool)
    (maxID : Nat) (hnd : (infos.map (fun i => i.ID)).Nodup)
    (hopen : ∀ i ∈ infos, openFails i.ID = false)
    (hnone : ∀ i ∈ infos, mapGet s.volumes i.ID = none) :
    (∀ i ∈ infos, mapGet (s.loadVolumes openFails infos maxID).volumes i.ID =
      some (loadedVolume i ((mapGet s.disk i.ID).getD []) s.config.MaxVolumeSize)) ∧
    (∀ k, k ∉ infos.map (fun i => i.ID) →
      mapGet (s.loadVolumes openFails infos maxID).volumes k = mapGet s.volumes k) ∧
    (s.loadVolumes openFails infos maxID).disk = s.disk := by
  induction infos generalizing s maxID with
  | nil => exact ⟨by simp, fun k _ => rfl, rfl⟩
  | cons info rest ih =>
    simp only [List.map_cons, List.nodup_cons] at hnd
    have ho := hopen info (List.mem_cons_self _ _)
    have hn := hnone info (List.mem_cons_self _ _)
    have hfile : s.openFile info.ID = (mapGet s.disk info.ID).getD [] := by
      simp only [Store.openFile, hn]
    -- the store after this row, whatever becomes of activeVolID
    have step : ∀ (t : Store) (m : Nat),
        t.volumes = mapSet s.volumes info.ID
          (loadedVolume info ((mapGet s.disk info.ID).getD []) s.config.MaxVolumeSize) →
        t.disk = s.disk → t.config = s.config →
        (∀ i ∈ info :: rest, mapGet (t.loadVolumes openFails rest m).volumes i.ID =
          some (loadedVolume i ((mapGet s.disk i.ID).getD []) s.config.MaxVolumeSize)) ∧
        (∀ k, k ∉ info.ID :: rest.map (fun i => i.ID) →
          mapGet (t.loadVolumes openFails rest m).volumes k = mapGet s.volumes k) ∧
        (t.loadVolumes openFails rest m).disk = s.disk := by
      intro t m hv hd hc
      obtain ⟨i1, i2, i3⟩ := ih t m hnd.2 (fun i hi => hopen i (List.mem_cons_of_mem _ hi))
        (fun i hi => by
          rw [hv, mapGet_mapSet_ne _ _ _ _ (by
            intro h
            exact hnd.1 (h ▸ List.mem_map.2 ⟨i, hi, rfl⟩))]
          exact hnone i (List.mem_cons_of_mem _ hi))
      refine ⟨fun i hi => ?_, fun k hk => ?_, by rw [i3, hd]⟩
      · rcases List.mem_cons.1 hi with rfl | hi
        · rw [i2 _ hnd.1, hv, mapGet_mapSet_self]
        · rw [i1 i hi, hd, hc]
      · simp only [List.mem_cons, not_or] at hk
        rw [i2 k hk.2, hv, mapGet_mapSet_ne _ _ _ _ hk.1]
    unfold Store.loadVolumes
    simp only [ho, Bool.false_eq_true, if_false, hfile]
    split
    · exact step _ _ rfl rfl rfl
    · exact step _ _ rfl rfl rfl


theorem loadMeta_get (s : Store) (m : FileMetadata) (k : Nat) :
    mapGet (s.loadMeta m).volumes k = (mapGet s.volumes k).map (fun v =>
      { v with NeedleIndex :=
          if m.VolumeID = k then mapSet v.NeedleIndex m.ID (rowEntry m) else v.NeedleIndex }) := by
  have hv : (s.loadMeta m).volumes = match mapGet s.volumes m.VolumeID with
      | some vol => mapSet s.volumes m.VolumeID
          { vol with NeedleIndex := mapSet vol.NeedleIndex m.ID (rowEntry m) }
      | none => s.volumes := by
    unfold Store.loadMeta
    cases hg : mapGet s.volumes m.VolumeID with
    | none => simp only; split <;> rfl
    | some vol => simp only; split <;> rfl
  rw [hv]
  by_cases hk : m.VolumeID = k
  · subst hk
    cases hg : mapGet s.volumes m.VolumeID with
    | none => simp [hg]
    | some vol => simp [mapGet_mapSet_self]
  · cases hg : mapGet s.volumes m.VolumeID with
    | none =>
      simp only [if_neg hk]
      cases mapGet s.volumes k <;> rfl
    | some vol =>
      simp only [if_neg hk]
      rw [mapGet_mapSet_ne _ _ _ _ (fun h => hk h.symm)]
      cases mapGet s.volumes k <;> rfl

/-- The second loop of `loadFromDatabase`: every volume of the table keeps everything but
its index, which takes the entries of the file rows that name the volume. -/
theorem loadMetas_get (files : List FileMetadata) (s : Store) (k : Nat) :
    mapGet (s.loadMetas files).volumes k = (mapGet s.volumes k).map (fun v =>
      { v with NeedleIndex := indexAfter k files v.NeedleIndex }) := by
  induction files generalizing s with
  | nil =>
    show mapGet s.volumes k = _
    cases mapGet s.volumes k <;> rfl
  | cons m rest ih =>
    rw [loadMetas_cons, ih, loadMeta_get]
    cases mapGet s.volumes k <;> rfl

/-- Lookup in the index built from file rows with distinct ids. -/
theorem indexAfter_get (k : Nat) (files : List FileMetadata) (index : List (Nat × NeedleInfo))
    (hnd : (files.map (fun m => m.ID)).Nodup) (id : Nat) :
    (∀ m ∈ files, m.ID = id → m.VolumeID = k →
      mapGet (indexAfter k files index) id = some (rowEntry m)) ∧
    ((∀ m ∈ files, m.ID = id → m.VolumeID ≠ k) →
      mapGet (indexAfter k files index) id = mapGet index id) := by
  induction files generalizing index with
  | nil => exact ⟨by simp, fun _ => rfl⟩
  | cons m rest ih =>
    simp only [List.map_cons, List.nodup_cons] at hnd
    refine ⟨fun x hx hid hvol => ?_, fun hnone => ?_⟩
    · rcases List.mem_cons.1 hx with rfl | hx
      · simp only [indexAfter, if_pos hvol]
        rw [(ih _ hnd.2).2 (fun y hy hyid => absurd (List.mem_map.2 ⟨y, hy, hyid.trans hid.symm⟩) hnd.1),
          hid, mapGet_mapSet_self]
      · simp only [indexAfter]
        exact (ih _ hnd.2).1 x hx hid hvol
    · simp only [indexAfter]
      rw [(ih _ hnd.2).2 (fun y hy => hnone y (List.mem_cons_of_mem _ hy))]
      by_cases hvol : m.VolumeID = k
      · rw [if_pos hvol]
        have hne : id ≠ m.ID := fun h => hnone m (List.mem_cons_self _ _) h.symm hvol
        rw [mapGet_mapSet_ne _ _ _ _ hne]
      · rw [if_neg hvol]


/-- What `loadFromDatabase` builds in an empty table from a catalog whose rows have
distinct ids, when the catalog answers and the files open. -/
theorem loadFromDatabase_get (s0 : Store) (env : StartEnv)
    (h0 : s0.volumes = []) (hndv : (s0.db.volumes.map (fun i => i.ID)).Nodup)
    (hlv : env.loadVolumesFails = false) (hlm : env.loadMetasFails = false)
    (hopen : ∀ i ∈ s0.db.volumes, env.openFails i.ID = false) :
    ∃ s, s0.loadFromDatabase env = .ok s ∧ s.db = s0.db ∧ s.config = s0.config ∧
      (∀ i ∈ s0.db.volumes, mapGet s.volumes i.ID =
        some { loadedVolume i ((mapGet s0.disk i.ID).getD []) s0.config.MaxVolumeSize with
          NeedleIndex := indexAfter i.ID s0.db.files [] }) ∧
      (∀ k, k ∉ s0.db.volumes.map (fun i => i.ID) → mapGet s.volumes k = none) := by
  refine ⟨(s0.loadVolumes env.openFails s0.db.volumes 0).loadMetas s0.db.files, ?_, ?_, ?_, ?_, ?_⟩
  · unfold Store.loadFromDatabase Database.LoadAllVolumeInfo
      Database.LoadAllFileMetadataIncludingDeleted
    simp only [hlv, hlm, Bool.false_eq_true, if_false, (loadVolumes_frame _ _ _ _).2.1]
  · rw [(loadMetas_frame _ _).1, (loadVolumes_frame _ _ _ _).2.1]
  · rw [(loadMetas_frame _ _).2, (loadVolumes_frame _ _ _ _).2.2]
  · intro i hi
    obtain ⟨g1, _, _⟩ := loadVolumes_get s0.db.volumes s0 env.openFails 0 hndv hopen
      (fun i _ => by rw [h0]; rfl)
    rw [loadMetas_get, g1 i hi]
    rfl
  · intro k hk
    obtain ⟨_, g2, _⟩ := loadVolumes_get s0.db.volumes s0 env.openFails 0 hndv hopen
      (fun i _ => by rw [h0]; rfl)
    rw [loadMetas_get, g2 k hk, h0]
    rfl

theorem mapGet_some_ne_nil {α : Type} (m : List (Nat × α)) (k : Nat) (a : α)
    (h : mapGet m k = some a) : m.length ≠ 0 := by
  cases m with
  | nil => simp [mapGet] at h
  | cons e m => simp

/-- `NewStore` on a catalog with at least one volume row: the store `loadFromDatabase`
builds, and no new volume. -/
theorem NewStore_get (cfg : Config) (db : Database) (disk : List (Nat × List Nat))
    (env : StartEnv) (hne : db.volumes ≠ [])
    (hndv : (db.volumes.map (fun i => i.ID)).Nodup)
    (hlv : env.loadVolumesFails = false) (hlm : env.loadMetasFails = false)
    (hopen : ∀ i ∈ db.volumes, env.openFails i.ID = false) :
    ∃ s, NewStore cfg db disk env = .ok s ∧ s.db = db ∧ s.config = cfg ∧
      (∀ i ∈ db.volumes, mapGet s.volumes i.ID =
        some { loadedVolume i ((mapGet disk i.ID).getD []) cfg.MaxVolumeSize with
          NeedleIndex := indexAfter i.ID db.files [] }) ∧
      (∀ k, k ∉ db.volumes.map (fun i => i.ID) → mapGet s.volumes k = none) := by
  obtain ⟨s, e1, e2, e3, e4, e5⟩ := loadFromDatabase_get
    { config := cfg, volumes := [], activeVolID := 0, nextID := 1, db := db, disk := disk }
    env rfl hndv hlv hlm hopen
  refine ⟨s, ?_, e2, e3, e4, e5⟩
  unfold NewStore
  simp only [e1]
  obtain ⟨i, hi⟩ := List.exists_mem_of_ne_nil _ hne
  rw [if_neg (mapGet_some_ne_nil _ _ _ (e4 i hi))]

/-- The index built from file rows with distinct ids holds, for each id, the entry of the
row with that id if the row names the volume, and nothing else. -/
theorem indexAfter_iff (k : Nat) (files : List FileMetadata)
    (hnd : (files.map (fun m => m.ID)).Nodup) (id : Nat) (info : NeedleInfo) :
    mapGet (indexAfter k files []) id = some info ↔
      ∃ m ∈ files, m.ID = id ∧ m.VolumeID = k ∧ info = rowEntry m := by
  obtain ⟨g1, g2⟩ := indexAfter_get k files [] hnd id
  constructor
  · intro hget
    by_cases hex : ∃ m ∈ files, m.ID = id ∧ m.VolumeID = k
    · obtain ⟨m, hm, hid, hvol⟩ := hex
      rw [g1 m hm hid hvol] at hget
      exact ⟨m, hm, hid, hvol, (Option.some.inj hget).symm⟩
    · rw [g2 (fun m hm hid hvol => hex ⟨m, hm, hid, hvol⟩)] at hget
      cases hget
  · rintro ⟨m, hm, hid, hvol, rfl⟩
    exact g1 m hm hid hvol

theorem UpdateVolumeSize_ids (d : Database) (id : Nat) (size : Int) (fails : Bool) :
    (d.UpdateVolumeSize id size fails).1.volumes.map (fun i => i.ID) =
      d.volumes.map (fun i => i.ID) := by
  unfold Database.UpdateVolumeSize
  split
  · rfl
  · simp only [List.map_map]
    apply List.map_congr_left
    intro r _
    simp only [Function.comp]
    split <;> rfl

theorem SetVolumeInactive_ids (d : Database) (id : Nat) (fails : Bool) :
    (d.SetVolumeInactive id fails).1.volumes.map (fun i => i.ID) =
      d.volumes.map (fun i => i.ID) := by
  unfold Database.SetVolumeInactive
  split
  · rfl
  · simp only [List.map_map]
    apply List.map_congr_left
    intro r _
    simp only [Function.comp]
    split <;> rfl

/-- A compaction that rewrites a volume whose index describes its file changes the result
of no `Read`. -/
theorem compactVolume_Read (s : Store) (vol : Volume) (env : CompactEnv)
    (hvol : mapGet s.volumes vol.ID = some vol) (hs : vol.Sound)
    (hnd : env.order.Nodup) (hall : ∀ id, vol.isLive id = true → id ∈ env.order)
    (hne : vol.NeedleIndex ≠ []) (hb : env.belowThreshold = false)
    (ho : env.openFails = false) (htemp : s.openFile ((vol.ID + 10000) % 2 ^ 32) = [])
    (hfit : (vol.liveSize (env.order.filter vol.isLive) : Int) ≤ s.config.MaxVolumeSize)
    (order : List Nat) (id : Nat) :
    (s.compactVolume vol env).1.Read order id = s.Read order id := by
  obtain ⟨_, c2, _⟩ := compactVolume_rewrite s vol env hne hb ho htemp
  have hreads := compacted_reads vol hs env.order ((vol.ID + 10000) % 2 ^ 32)
    s.config.MaxVolumeSize hnd hall hfit
  apply Read_congr
  intro k
  rw [c2]
  by_cases hk : k = vol.ID
  · subst hk
    rw [mapGet_mapSet_self, hvol]
    simp only [Option.map_some', hreads id]
  · rw [mapGet_mapSet_ne _ _ _ _ hk]

set_option maxRecDepth 100000 in
theorem roundTripVolume_sound : roundTripVolume.Sound :=
  AllSound_run (.write hello "a.txt" "text/plain" sampleEnv :: sampleOps) sampleStore
    AllSound_sample (by decide) (by decide) 1 roundTripVolume (by decide)

/-! ## The catalog as a mirror of the memory state -/

theorem Mirror_next (vols : List (Nat × Volume)) (db : Database) (n n2 a : Nat)
    (h : Mirror vols db n a) (hn : n ≤ n2) : Mirror vols db n2 a := by
  obtain ⟨h1, h2, h3, h4, h5, h6, h7⟩ := h
  exact ⟨h1, h2, h3, h4, h5, fun m hm => ⟨by have := (h6 m hm).1; omega, (h6 m hm).2⟩, h7⟩

theorem Mirror_setVolume (vols : List (Nat × Volume)) (db : Database) (n a k : Nat)
    (v v2 : Volume) (h : Mirror vols db n a) (hg : mapGet vols k = some v)
    (hid : v2.ID = v.ID) (hix : v2.NeedleIndex = v.NeedleIndex) :
    Mirror (mapSet vols k v2) db n a := by
  obtain ⟨h1, h2, h3, h4, h5, h6, h7⟩ := h
  refine ⟨h1, h2, h3, fun j => ?_, fun j w hw => ?_, h6, fun j hj => ?_⟩
  · by_cases hj : j = k
    · subst hj
      rw [mapGet_mapSet_self]
      constructor
      · intro hc; cases hc
      · intro hc
        rw [(h4 j).2 hc] at hg; cases hg
    · rw [mapGet_mapSet_ne _ _ _ _ hj]
      exact h4 j
  · by_cases hj : j = k
    · subst hj
      rw [mapGet_mapSet_self] at hw
      cases hw
      rw [hid, hix]
      exact h5 j v hg
    · rw [mapGet_mapSet_ne _ _ _ _ hj] at hw
      exact h5 j w hw
  · by_cases hjk : j = k
    · subst hjk
      rw [h7 j hj] at hg; cases hg
    · rw [mapGet_mapSet_ne _ _ _ _ hjk]
      exact h7 j hj

theorem Mirror_dbVolumes (vols : List (Nat × Volume)) (db db2 : Database) (n a : Nat)
    (h : Mirror vols db n a) (hf : db2.files = db.files)
    (hv : db2.volumes.map (fun i => i.ID) = db.volumes.map (fun i => i.ID)) :
    Mirror vols db2 n a := by
  obtain ⟨h1, h2, h3, h4, h5, h6, h7⟩ := h
  refine ⟨by rw [hv]; exact h1, by rw [hf]; exact h2, ?_, by rw [hv]; exact h4,
    by rw [hf]; exact h5, by rw [hf]; exact h6, h7⟩
  intro hc
  rw [hc] at hv
  exact h3 (List.map_eq_nil_iff.1 hv.symm)

/-- A needle appended to a volume of the table together with its file row. -/
theorem Mirror_write (vols : List (Nat × Volume)) (db : Database) (n a k : Nat)
    (v : Volume) (m : Needle) (row : FileMetadata) (h : Mirror vols db n a)
    (hg : mapGet vols k = some v) (hk : k ≤ a) (hw : (v.WriteNeedle m).2 = none)
    (hid : m.ID = n) (hrid : row.ID = n) (hrv : row.VolumeID = k) (hrf : row.Flags = 0)
    (hre : rowEntry row =
      { Offset := v.CurrentSize, Size := m.DataSize, Flags := m.Flags, VolumeID := v.ID }) :
    Mirror (mapSet vols k (v.WriteNeedle m).1) { db with files := db.files ++ [row] }
      (n + 1) a := by
  obtain ⟨h1, h2, h3, h4, h5, h6, h7⟩ := h
  obtain ⟨_, _, wix, _⟩ := WriteNeedle_ok v m hw
  have wid : (v.WriteNeedle m).1.ID = v.ID := by
    unfold Volume.WriteNeedle
    split
    · rfl
    · simp only
      split <;> rfl
  refine ⟨h1, ?_, h3, fun j => ?_, fun j w hjw => ?_, fun x hx => ?_, fun j hj => ?_⟩
  · show ((db.files ++ [row]).map (fun m => m.ID)).Nodup
    rw [List.map_append, List.nodup_append]
    refine ⟨h2, by simp, ?_⟩
    intro i hi1 hi2
    simp only [List.map_cons, List.map_nil, List.mem_singleton] at hi2
    obtain ⟨x, hx, rfl⟩ := List.mem_map.1 hi1
    have := (h6 x hx).1
    omega
  · by_cases hj : j = k
    · subst hj
      rw [mapGet_mapSet_self]
      constructor
      · intro hc; cases hc
      · intro hc
        rw [(h4 j).2 hc] at hg; cases hg
    · rw [mapGet_mapSet_ne _ _ _ _ hj]
      exact h4 j
  · show w.ID = j ∧ ∀ id info, (mapGet w.NeedleIndex id = some info ↔
      ∃ x ∈ db.files ++ [row], x.ID = id ∧ x.VolumeID = j ∧ info = rowEntry x)
    by_cases hj : j = k
    · subst hj
      rw [mapGet_mapSet_self] at hjw
      cases hjw
      obtain ⟨g1, g2⟩ := h5 j v hg
      refine ⟨by rw [wid]; exact g1, fun id info => ?_⟩
      rw [wix]
      by_cases hidn : id = n
      · subst hidn
        rw [hid, mapGet_mapSet_self]
        constructor
        · intro he
          refine ⟨row, by simp, hrid, hrv, ?_⟩
          rw [hre]
          exact (Option.some.inj he).symm
        · rintro ⟨x, hx, hxid, _, hxe⟩
          rcases List.mem_append.1 hx with hx | hx
          · have := (h6 x hx).1
            omega
          · simp only [List.mem_singleton] at hx
            subst hx
            rw [hxe, hre]
      · rw [mapGet_mapSet_ne _ _ _ _ (by rw [hid]; exact hidn), g2 id info]
        constructor
        · rintro ⟨x, hx, hx2⟩
          exact ⟨x, List.mem_append_left _ hx, hx2⟩
        · rintro ⟨x, hx, hxid, hx2⟩
          rcases List.mem_append.1 hx with hx | hx
          · exact ⟨x, hx, hxid, hx2⟩
          · simp only [List.mem_singleton] at hx
            subst hx
            exact absurd (hxid.symm.trans hrid) hidn
    · rw [mapGet_mapSet_ne _ _ _ _ hj] at hjw
      obtain ⟨g1, g2⟩ := h5 j w hjw
      refine ⟨g1, fun id info => ?_⟩
      rw [g2 id info]
      constructor
      · rintro ⟨x, hx, hx2⟩
        exact ⟨x, List.mem_append_left _ hx, hx2⟩
      · rintro ⟨x, hx, hxid, hxv, hx2⟩
        rcases List.mem_append.1 hx with hx | hx
        · exact ⟨x, hx, hxid, hxv, hx2⟩
        · simp only [List.mem_singleton] at hx
          subst hx
          exact absurd (hxv.symm.trans hrv) hj
  · rcases List.mem_append.1 hx with hx | hx
    · have := h6 x hx
      exact ⟨by omega, this.2⟩
    · simp only [List.mem_singleton] at hx
      subst hx
      exact ⟨by omega, by omega, by omega⟩
  · have hjk : j ≠ k := by omega
    rw [mapGet_mapSet_ne _ _ _ _ hjk]
    exact h7 j hj

/-- A volume with an empty index entered under a number above the active one, together
with its volume row. -/
theorem Mirror_newVolume (vols : List (Nat × Volume)) (db : Database) (n a b : Nat)
    (v : Volume) (info : VolumeInfo) (h : Mirror vols db n a) (hab : a < b)
    (hi : info.ID = b) (hv : v.ID = b) (hix : v.NeedleIndex = []) :
    Mirror (mapSet vols b v) { db with volumes := db.volumes ++ [info] } n b := by
  obtain ⟨h1, h2, h3, h4, h5, h6, h7⟩ := h
  have hb : b ∉ db.volumes.map (fun i => i.ID) := (h4 b).1 (h7 b hab)
  refine ⟨?_, h2, by simp, fun j => ?_, fun j w hjw => ?_, fun x hx => ?_, fun j hj => ?_⟩
  · show ((db.volumes ++ [info]).map (fun i => i.ID)).Nodup
    rw [List.map_append, List.nodup_append]
    refine ⟨h1, by simp, ?_⟩
    intro i hi1 hi2
    simp only [List.map_cons, List.map_nil, List.mem_singleton] at hi2
    rw [hi2, hi] at hi1
    exact hb hi1
  · show mapGet (mapSet vols b v) j = none ↔ j ∉ (db.volumes ++ [info]).map (fun i => i.ID)
    by_cases hj : j = b
    · subst hj
      rw [mapGet_mapSet_self]
      simp [hi]
    · rw [mapGet_mapSet_ne _ _ _ _ hj, h4 j]
      simp [hi, hj]
  · show w.ID = j ∧ ∀ id info, (mapGet w.NeedleIndex id = some info ↔
      ∃ x ∈ db.files, x.ID = id ∧ x.VolumeID = j ∧ info = rowEntry x)
    by_cases hj : j = b
    · subst hj
      rw [mapGet_mapSet_self] at hjw
      cases hjw
      refine ⟨hv, fun id info => ?_⟩
      rw [hix]
      constructor
      · intro hc; cases hc
      · rintro ⟨x, hx, _, hxv, _⟩
        have := (h6 x hx).2.2
        omega
    · rw [mapGet_mapSet_ne _ _ _ _ hj] at hjw
      exact h5 j w hjw
  · have := h6 x hx
    exact ⟨this.1, this.2.1, by omega⟩
  · have hjb : j ≠ b := by omega
    rw [mapGet_mapSet_ne _ _ _ _ hjb]
    exact h7 j (by omega)

theorem or_one_of_le_one (f : Nat) (h : f ≤ 1) : f ||| 1 = 1 := by
  have h2 : f = 0 ∨ f = 1 := by omega
  rcases h2 with rfl | rfl <;> decide

/-- A tombstone set in a volume of the table together with the update of the file row. -/
theorem Mirror_delete (vols : List (Nat × Volume)) (db : Database) (n a k id : Nat)
    (v : Volume) (h : Mirror vols db n a) (hg : mapGet vols k = some v)
    (hd : (v.DeleteNeedle id).2 = none) :
    Mirror (mapSet vols k (v.DeleteNeedle id).1) (db.DeleteFileMetadata id false).1 n a := by
  obtain ⟨h1, h2, h3, h4, h5, h6, h7⟩ := h
  obtain ⟨g1, g2⟩ := h5 k v hg
  -- the entry and the row of the id
  cases hinfo : mapGet v.NeedleIndex id with
  | none => exact absurd hinfo (DeleteNeedle_ok_held v id hd)
  | some info0 =>
  obtain ⟨m0, hm0, hm0id, hm0v, hm0e⟩ := (g2 id info0).1 hinfo
  have hv1 : (v.DeleteNeedle id).1 =
      { v with NeedleIndex := mapSet v.NeedleIndex id { info0 with Flags := info0.Flags ||| 0x01 } } := by
    simp only [Volume.DeleteNeedle, hinfo]
  have hfiles : (db.DeleteFileMetadata id false).1.files =
      db.files.map (fun m => if m.ID = id then { m with Deleted := true, Flags := 1 } else m) := by
    simp [Database.DeleteFileMetadata]
  have hvols : (db.DeleteFileMetadata id false).1.volumes = db.volumes := by
    simp [Database.DeleteFileMetadata]
  have huniq : ∀ x ∈ db.files, x.ID = id → x = m0 := fun x hx hxid =>
    List.inj_on_of_nodup_map h2 hx hm0 (hxid.trans hm0id.symm)
  have hmem : ∀ y, y ∈ (db.DeleteFileMetadata id false).1.files ↔
      ∃ x ∈ db.files, y = if x.ID = id then { x with Deleted := true, Flags := 1 } else x := by
    intro y
    rw [hfiles, List.mem_map]
    constructor
    · rintro ⟨x, hx, rfl⟩; exact ⟨x, hx, rfl⟩
    · rintro ⟨x, hx, rfl⟩; exact ⟨x, hx, rfl⟩
  refine ⟨by rw [hvols]; exact h1, ?_, by rw [hvols]; exact h3, fun j => ?_,
    fun j w hjw => ?_, fun y hy => ?_, fun j hj => ?_⟩
  · rw [hfiles, List.map_map]
    have : ((fun m : FileMetadata => m.ID) ∘
        (fun m => if m.ID = id then { m with Deleted := true, Flags := 1 } else m)) =
        (fun m : FileMetadata => m.ID) := by
      funext x
      simp only [Function.comp]
      split <;> rfl
    rw [this]
    exact h2
  · rw [hvols]
    by_cases hj : j = k
    · subst hj
      rw [mapGet_mapSet_self]
      constructor
      · intro hc; cases hc
      · intro hc
        rw [(h4 j).2 hc] at hg; cases hg
    · rw [mapGet_mapSet_ne _ _ _ _ hj]
      exact h4 j
  · by_cases hj : j = k
    · subst hj
      rw [mapGet_mapSet_self] at hjw
      cases hjw
      refine ⟨by rw [hv1]; exact g1, fun i info => ?_⟩
      rw [hv1]
      show mapGet (mapSet v.NeedleIndex id _) i = some info ↔ _
      by_cases hi : i = id
      · subst hi
        rw [mapGet_mapSet_self]
        have hnew : rowEntry { m0 with Deleted := true, Flags := 1 } =
            { info0 with Flags := info0.Flags ||| 0x01 } := by
          rw [hm0e]
          simp only [rowEntry]
          rw [or_one_of_le_one m0.Flags (h6 m0 hm0).2.1]
        constructor
        · intro he
          refine ⟨{ m0 with Deleted := true, Flags := 1 }, ?_, hm0id, hm0v, ?_⟩
          · rw [hmem]
            exact ⟨m0, hm0, by rw [if_pos hm0id]⟩
          · rw [hnew]
            exact (Option.some.inj he).symm
        · rintro ⟨y, hy, hyid, _, hye⟩
          obtain ⟨x, hx, rfl⟩ := (hmem y).1 hy
          have hxid : x.ID = i := by
            by_cases hc : x.ID = i
            · exact hc
            · rw [if_neg hc] at hyid; exact hyid
          have := huniq x hx hxid
          subst this
          rw [if_pos hxid] at hye
          rw [hye, hnew]
      · rw [mapGet_mapSet_ne _ _ _ _ hi, g2 i info]
        constructor
        · rintro ⟨x, hx, hxid, hx2⟩
          refine ⟨x, ?_, hxid, hx2⟩
          rw [hmem]
          exact ⟨x, hx, by rw [if_neg (by rw [hxid]; exact hi)]⟩
        · rintro ⟨y, hy, hyid, hy2⟩
          obtain ⟨x, hx, rfl⟩ := (hmem y).1 hy
          by_cases hc : x.ID = id
          · rw [if_pos hc] at hyid
            exact absurd (hyid.symm.trans hc) hi
          · rw [if_neg hc] at hyid hy2
            exact ⟨x, hx, hyid, hy2⟩
    · rw [mapGet_mapSet_ne _ _ _ _ hj] at hjw
      obtain ⟨q1, q2⟩ := h5 j w hjw
      refine ⟨q1, fun i info => ?_⟩
      rw [q2 i info]
      constructor
      · rintro ⟨x, hx, hxid, hxv, hx2⟩
        have hc : ¬ x.ID = id := by
          intro hc
          have := huniq x hx hc
          subst this
          exact hj (hxv.symm.trans hm0v)
        refine ⟨x, ?_, hxid, hxv, hx2⟩
        rw [hmem]
        exact ⟨x, hx, by rw [if_neg hc]⟩
      · rintro ⟨y, hy, hyid, hyv, hy2⟩
        obtain ⟨x, hx, rfl⟩ := (hmem y).1 hy
        by_cases hc : x.ID = id
        · rw [if_pos hc] at hyv
          have := huniq x hx hc
          subst this
          exact absurd (hyv.symm.trans hm0v) hj
        · rw [if_neg hc] at hyid hyv hy2
          exact ⟨x, hx, hyid, hyv, hy2⟩
  · obtain ⟨x, hx, rfl⟩ := (hmem y).1 hy
    have := h6 x hx
    by_cases hc : x.ID = id
    · rw [if_pos hc]
      exact ⟨this.1, Nat.le_refl 1, this.2.2⟩
    · rw [if_neg hc]
      exact this
  · by_cases hjk : j = k
    · subst hjk
      rw [h7 j hj] at hg; cases hg
    · rw [mapGet_mapSet_ne _ _ _ _ hjk]
      exact h7 j hj

/-- The tail of `WriteWithMetadata` after a needle with the id `n` went into volume `k`
of the table `vols`, when the catalog insert succeeds. -/
theorem saveWritten_mirror (t : Store) (vols : List (Nat × Volume)) (n k : Nat) (v : Volume)
    (m : Needle) (filename mimeType : String) (env : Env)
    (h : Mirror vols t.db n t.activeVolID) (hg : mapGet vols k = some v)
    (hk : k ≤ t.activeVolID) (hw : (v.WriteNeedle m).2 = none) (hid : m.ID = n)
    (hfl : m.Flags = 0) (hsave : env.saveMetaFails = false) :
    Mirror (mapSet vols k (v.WriteNeedle m).1)
      (t.saveWritten (v.WriteNeedle m).1 k m filename mimeType env).1.db (n + 1)
      t.activeVolID := by
  obtain ⟨_, _, wix, _⟩ := WriteNeedle_ok v m hw
  have hnone : (t.db.files.any fun x => x.ID == m.ID) = false := by
    rw [List.any_eq_false]
    intro x hx
    have := (h.2.2.2.2.2.1 x hx).1
    simp only [beq_iff_eq]
    omega
  have hv := (h.2.2.2.2.1 k v hg).1
  apply Mirror_dbVolumes _ { t.db with files := t.db.files ++
      [{ ID := m.ID, VolumeID := k,
         Offset := ((mapGet (v.WriteNeedle m).1.NeedleIndex m.ID).map (fun i => i.Offset)).getD 0,
         Size := m.DataSize, Cookie := m.Cookie, Flags := m.Flags, Deleted := false,
         FileName := filename, MimeType := mimeType, MD5 := m.MD5,
         CreateTime := m.CreateTime }] }
  · exact Mirror_write vols t.db n t.activeVolID k v m _ h hg hk hw hid hid rfl hfl
      (by simp only [rowEntry, wix, mapGet_mapSet_self, Option.map_some', Option.getD_some, hv])
  · simp only [Store.saveWritten, UpdateVolumeSize_files, Database.SaveFileMetadata, hsave,
      hnone, Bool.false_eq_true, if_false]
  · simp only [Store.saveWritten, UpdateVolumeSize_ids, Database.SaveFileMetadata, hsave,
      hnone, Bool.false_eq_true, if_false]

theorem WriteNeedle_ID (v : Volume) (m : Needle) : (v.WriteNeedle m).1.ID = v.ID := by
  unfold Volume.WriteNeedle
  split
  · rfl
  · simp only
    split <;> rfl

/-- Method `createNewVolume` in a mirrored store whose volume counter does not wrap. -/
theorem createNewVolume_mirror (t : Store) (n : Nat) (o f : Bool)
    (h : Mirror t.volumes t.db n t.activeVolID) (ha : t.activeVolID + 1 < 2 ^ 32) :
    Mirror (t.createNewVolume o f).1.volumes (t.createNewVolume o f).1.db n
      (t.createNewVolume o f).1.activeVolID ∧
    (t.createNewVolume o f).1.activeVolID ≤ t.activeVolID + 1 ∧
    (∀ vol, (t.createNewVolume o f).2 = .ok vol →
      mapGet (t.createNewVolume o f).1.volumes vol.ID = some vol ∧
      vol.ID = (t.createNewVolume o f).1.activeVolID) := by
  have hb : (t.activeVolID + 1) % 2 ^ 32 = t.activeVolID + 1 := Nat.mod_eq_of_lt ha
  have hnot : (t.activeVolID + 1) ∉ t.db.volumes.map (fun i => i.ID) :=
    (h.2.2.2.1 _).1 (h.2.2.2.2.2.2 _ (by omega))
  have hany : (t.db.volumes.any fun r => r.ID == t.activeVolID + 1) = false := by
    rw [List.any_eq_false]
    intro x hx
    simp only [beq_iff_eq]
    intro hc
    exact hnot (List.mem_map.2 ⟨x, hx, hc⟩)
  unfold Store.createNewVolume
  by_cases ho : o = true
  · simp only [ho, if_true]
    exact ⟨h, by omega, fun vol hv => by cases hv⟩
  by_cases hf : f = true
  · simp only [ho, hf, Database.SaveVolumeInfo, if_true, Bool.false_eq_true, if_false]
    exact ⟨h, by omega, fun vol hv => by cases hv⟩
  · simp only [ho, hf, Database.SaveVolumeInfo, hb, hany, Bool.false_eq_true, if_false]
    refine ⟨Mirror_newVolume _ _ _ _ _ _ _ h (by omega) rfl rfl rfl, Nat.le_refl _, ?_⟩
    intro vol hv
    simp only [Except.ok.injEq] at hv
    subst hv
    exact ⟨mapGet_mapSet_self _ _ _, rfl⟩

/-- A write whose catalog insert succeeds keeps the catalog a mirror of the memory state,
as long as neither counter wraps. -/
theorem Mirrored_write (s : Store) (data : List Nat) (filename mimeType : String) (env : Env)
    (h : s.Mirrored) (hsave : env.saveMetaFails = false) (hn : s.nextID + 1 < 2 ^ 64)
    (ha : s.activeVolID + 1 < 2 ^ 32) :
    (s.WriteWithMetadata data filename mimeType env).1.Mirrored ∧
    (s.WriteWithMetadata data filename mimeType env).1.activeVolID ≤ s.activeVolID + 1 := by
  have hnx : (s.nextID + 1) % 2 ^ 64 = s.nextID + 1 := Nat.mod_eq_of_lt hn
  unfold Store.WriteWithMetadata
  by_cases hro : s.config.ReadOnly = true
  · simp only [hro, if_true]
    exact ⟨h, by omega⟩
  simp only [hro, Bool.false_eq_true, if_false, hnx]
  cases hg : mapGet s.volumes s.activeVolID with
  | none =>
    simp only
    exact ⟨Mirror_next _ _ _ _ _ h (Nat.le_succ _), by omega⟩
  | some vol =>
    simp only
    have hm : (buildNeedle s.nextID data filename mimeType env).ID = s.nextID := rfl
    have hfl : (buildNeedle s.nextID data filename mimeType env).Flags = 0 := rfl
    generalize buildNeedle s.nextID data filename mimeType env = m at hm hfl
    by_cases hw : (vol.WriteNeedle m).2 = none
    · -- the needle goes into the active volume
      have key := saveWritten_mirror
        { s with nextID := s.nextID + 1, volumes := mapSet s.volumes s.activeVolID (vol.WriteNeedle m).1 }
        s.volumes s.nextID s.activeVolID vol m filename mimeType env h hg (Nat.le_refl _) hw hm
        hfl hsave
      obtain ⟨f1, f2, f3, _⟩ := saveWritten_fst
        { s with nextID := s.nextID + 1, volumes := mapSet s.volumes s.activeVolID (vol.WriteNeedle m).1 }
        (vol.WriteNeedle m).1 s.activeVolID m filename mimeType env
      rcases hwr : vol.WriteNeedle m with ⟨vol1, _ | err⟩
      · rw [hwr] at key f1 f2 f3
        simp only
        unfold Store.Mirrored
        rw [f1, f2, f3]
        exact ⟨key, by simp⟩
      · rw [hwr] at hw; cases hw
    · -- the active volume refuses the needle
      obtain ⟨_, wix, _⟩ := WriteNeedle_failed vol m hw
      have wid := WriteNeedle_ID vol m
      have h1 : Mirror (mapSet s.volumes s.activeVolID (vol.WriteNeedle m).1) s.db s.nextID
          s.activeVolID := Mirror_setVolume _ _ _ _ _ _ _ h hg wid wix
      rcases hwr : vol.WriteNeedle m with ⟨vol1, _ | err⟩
      · rw [hwr] at hw; exact absurd rfl hw
      · rw [hwr] at h1
        simp only
        by_cases hfull : err = .ErrVolumeFull
        · simp only [hfull, if_true]
          have h2 : Mirror (mapSet s.volumes s.activeVolID vol1)
              (s.db.SetVolumeInactive s.activeVolID env.setInactiveFails).1 s.nextID
              s.activeVolID :=
            Mirror_dbVolumes _ _ _ _ _ h1 (SetVolumeInactive_files _ _ _)
              (SetVolumeInactive_ids _ _ _)
          obtain ⟨c1, c2, c3⟩ := createNewVolume_mirror
            { s with nextID := s.nextID + 1, volumes := mapSet s.volumes s.activeVolID vol1,
                     db := (s.db.SetVolumeInactive s.activeVolID env.setInactiveFails).1 }
            s.nextID env.openFails env.saveVolumeFails h2 ha
          have c4 := (createNewVolume_frame
            { s with nextID := s.nextID + 1, volumes := mapSet s.volumes s.activeVolID vol1,
                     db := (s.db.SetVolumeInactive s.activeVolID env.setInactiveFails).1 }
            env.openFails env.saveVolumeFails).1
          generalize Store.createNewVolume
            { s with nextID := s.nextID + 1, volumes := mapSet s.volumes s.activeVolID vol1,
                     db := (s.db.SetVolumeInactive s.activeVolID env.setInactiveFails).1 }
            env.openFails env.saveVolumeFails = c at c1 c2 c3 c4
          obtain ⟨s3, e | vol2⟩ := c
          · simp only at c1 c2 c4 ⊢
            unfold Store.Mirrored
            rw [c4]
            exact ⟨Mirror_next _ _ _ _ _ c1 (by omega), c2⟩
          · simp only at c1 c2 c3 c4 ⊢
            obtain ⟨c5, c6⟩ := c3 vol2 rfl
            by_cases hw2 : (vol2.WriteNeedle m).2 = none
            · have key := saveWritten_mirror
                { s3 with volumes := mapSet s3.volumes vol2.ID (vol2.WriteNeedle m).1 }
                s3.volumes s.nextID vol2.ID vol2 m filename mimeType env c1 c5
                (Nat.le_of_eq c6) hw2 hm hfl hsave
              obtain ⟨f1, f2, f3, _⟩ := saveWritten_fst
                { s3 with volumes := mapSet s3.volumes vol2.ID (vol2.WriteNeedle m).1 }
                (vol2.WriteNeedle m).1 vol2.ID m filename mimeType env
              rcases hwr2 : vol2.WriteNeedle m with ⟨vol3, _ | err2⟩
              · rw [hwr2] at key f1 f2 f3
                simp only
                unfold Store.Mirrored
                rw [f1, f2, f3]
                simp only at key ⊢
                rw [c4]
                exact ⟨key, c2⟩
              · rw [hwr2] at hw2; cases hw2
            · obtain ⟨_, wix2, _⟩ := WriteNeedle_failed vol2 m hw2
              have wid2 := WriteNeedle_ID vol2 m
              have h3 : Mirror (mapSet s3.volumes vol2.ID (vol2.WriteNeedle m).1) s3.db s.nextID
                  s3.activeVolID := Mirror_setVolume _ _ _ _ _ _ _ c1 c5 wid2 wix2
              rcases hwr2 : vol2.WriteNeedle m with ⟨vol3, _ | err2⟩
              · rw [hwr2] at hw2; exact absurd rfl hw2
              · rw [hwr2] at h3
                simp only
                unfold Store.Mirrored
                simp only
                rw [c4]
                exact ⟨Mirror_next _ _ _ _ _ h3 (by omega), c2⟩
        · simp only [hfull, if_false]
          exact ⟨Mirror_next _ _ _ _ _ h1 (Nat.le_succ _), Nat.le_succ _⟩

theorem Mirrored_deleteRange (s : Store) (id : Nat) (env : Env) (order : List Nat)
    (h : s.Mirrored) (hdel : env.deleteMetaFails = false) :
    (s.deleteRange id env order).1.Mirrored := by
  induction order with
  | nil => exact h
  | cons k rest ih =>
    unfold Store.deleteRange
    cases hg : mapGet s.volumes k with
    | none => exact ih
    | some vol =>
      simp only
      have key := Mirror_delete s.volumes s.db s.nextID s.activeVolID k id vol h hg
      rcases hd : vol.DeleteNeedle id with ⟨vol1, _ | e⟩
      · rw [hd] at key
        simp only [hdel]
        exact key rfl
      · exact ih

theorem Mirrored_step (s : Store) (op : Op) (h : s.Mirrored) (hok : op.CatalogOk)
    (hn : s.nextID + 1 < 2 ^ 64) (ha : s.activeVolID + 1 < 2 ^ 32) :
    (s.step op).Mirrored ∧ (s.step op).activeVolID ≤ s.activeVolID + 1 := by
  cases op with
  | write data filename mimeType env =>
    exact Mirrored_write s data filename mimeType env h hok hn ha
  | delete order id env =>
    show (s.Delete order id env).1.Mirrored ∧ (s.Delete order id env).1.activeVolID ≤ _
    obtain ⟨d1, _⟩ := Delete_cases s id env order
    refine ⟨?_, by rw [d1]; omega⟩
    unfold Store.Delete
    by_cases hro : s.config.ReadOnly = true
    · simp only [hro, if_true]; exact h
    · simp only [hro, Bool.false_eq_true, if_false]
      exact Mirrored_deleteRange s id env order h hok

theorem Mirrored_run (ops : List Op) (s : Store) (h : s.Mirrored)
    (hok : ∀ op ∈ ops, op.CatalogOk) (hn : s.nextID + ops.length < 2 ^ 64)
    (ha : s.activeVolID + ops.length < 2 ^ 32) : (s.run ops).Mirrored := by
  induction ops generalizing s with
  | nil => exact h
  | cons op ops ih =>
    simp only [List.length_cons] at hn ha
    obtain ⟨h1, h2⟩ := Mirrored_step s op h (hok op (List.mem_cons_self _ _)) (by omega)
      (by omega)
    have h3 : (s.step op).nextID + ops.length < 2 ^ 64 := by
      rcases step_nextID s op with e | e
      · rw [e]; omega
      · rw [e, Nat.mod_eq_of_lt (by omega)]; omega
    exact ih (s.step op) h1 (fun x hx => hok x (List.mem_cons_of_mem _ hx)) h3 (by omega)

/-- The store `NewStore` builds on an empty catalog is mirrored by the catalog it leaves. -/
theorem Mirrored_new (cfg : Config) (disk : List (Nat × List Nat)) (env : StartEnv)
    (s : Store) (h : NewStore cfg { files := [], volumes := [] } disk env = .ok s) :
    s.Mirrored ∧ s.nextID = 1 ∧ s.activeVolID = 1 := by
  unfold NewStore Store.loadFromDatabase Database.LoadAllVolumeInfo
    Database.LoadAllFileMetadataIncludingDeleted at h
  by_cases h1 : env.loadVolumesFails = true
  · simp [h1] at h
  by_cases h2 : env.loadMetasFails = true
  · simp [h1, h2, Store.loadVolumes] at h
  simp only [h1, h2, Bool.false_eq_true, if_false, Store.loadVolumes, Store.loadMetas,
    List.length_nil, if_true, Store.createNewVolume] at h
  simp only [show (0 + 1) % 2 ^ 32 = 1 from rfl] at h
  by_cases h3 : env.openFails 1 = true
  · rw [if_pos h3] at h
    simp at h
  rw [if_neg h3] at h
  by_cases h4 : env.saveVolumeFails = true
  · simp [h4, Database.SaveVolumeInfo] at h
  simp only [h4, Database.SaveVolumeInfo, Bool.false_eq_true, if_false, List.any_nil,
    Except.ok.injEq] at h
  subst h
  refine ⟨⟨by simp, by simp, by simp, fun k => ?_, fun k v hv => ?_, by simp, fun k hk => ?_⟩,
    rfl, rfl⟩
  · by_cases hk : k = 1
    · subst hk
      simp [mapGet_mapSet_self]
    · rw [mapGet_mapSet_ne _ _ _ _ hk]
      simp [mapGet, hk]
  · by_cases hk : k = 1
    · subst hk
      simp only [mapGet_mapSet_self, Option.some.injEq] at hv
      subst hv
      refine ⟨rfl, fun id info => ?_⟩
      simp [NewVolume, mapGet]
    · simp only at hv
      rw [mapGet_mapSet_ne _ _ _ _ hk] at hv
      simp [mapGet] at hv
  · have hk1 : k ≠ 1 := by simp only at hk; omega
    simp only
    rw [mapGet_mapSet_ne _ _ _ _ hk1]
    rfl

theorem mapGet_map_append {α β : Type} (l : List (Nat × α)) (f : α → β)
    (d : List (Nat × β)) (k : Nat) :
    mapGet (l.map (fun e => (e.1, f e.2)) ++ d) k =
      match mapGet l k with
      | some a => some (f a)
      | none => mapGet d k := by
  induction l with
  | nil => rfl
  | cons e l ih =>
    obtain ⟨k1, a⟩ := e
    by_cases h : k1 = k
    · simp [mapGet, h]
    · simp only [List.map_cons, List.cons_append, mapGet, h, if_false]
      exact ih

theorem mapGet_keys_iff {α : Type} (m : List (Nat × α)) (k : Nat) :
    k ∈ m.map (fun e => e.1) ↔ mapGet m k ≠ none := by
  induction m with
  | nil => simp [mapGet]
  | cons e m ih =>
    obtain ⟨k1, a⟩ := e
    by_cases h : k1 = k
    · simp [mapGet, h]
    · have h2 : ¬ k = k1 := fun hc => h hc.symm
      simp only [List.map_cons, List.mem_cons, mapGet, h, if_false, h2, false_or]
      exact ih

theorem ReadNeedle_same (v v2 : Volume) (id : Nat)
    (hix : mapGet v2.NeedleIndex id = mapGet v.NeedleIndex id) (hf : v2.File = v.File) :
    v2.ReadNeedle id = v.ReadNeedle id := by
  unfold Volume.ReadNeedle
  rw [hix, hf]

/-- A store that the catalog mirrors comes back from a restart with the same keys in the
table and, volume by volume and id by id, the same result of `ReadNeedle`. -/
theorem reopen_mirrored (s : Store) (senv : StartEnv) (h : s.Mirrored)
    (h1 : senv.loadVolumesFails = false) (h2 : senv.loadMetasFails = false)
    (h3 : ∀ k, senv.openFails k = false) :
    ∃ s2, s.reopen senv = .ok s2 ∧
      (∀ k, mapGet s2.volumes k = none ↔ mapGet s.volumes k = none) ∧
      (∀ k id, (mapGet s2.volumes k).map (fun v => v.ReadNeedle id) =
        (mapGet s.volumes k).map (fun v => v.ReadNeedle id)) := by
  obtain ⟨m1, m2, m3, m4, m5, _, _⟩ := h
  obtain ⟨s2, e1, _, _, e4, e5⟩ := NewStore_get s.config s.db s.Close.2 senv m3 m1 h1 h2
    (fun i _ => h3 i.ID)
  have key : ∀ k, (mapGet s.volumes k = none → mapGet s2.volumes k = none) ∧
      (∀ v, mapGet s.volumes k = some v → ∃ v2, mapGet s2.volumes k = some v2 ∧
        v2.File = v.File ∧ ∀ id, mapGet v2.NeedleIndex id = mapGet v.NeedleIndex id) := by
    intro k
    constructor
    · intro hn
      exact e5 k ((m4 k).1 hn)
    · intro v hv
      have hk : k ∈ s.db.volumes.map (fun i => i.ID) := by
        by_contra hc
        rw [(m4 k).2 hc] at hv; cases hv
      obtain ⟨r, hr, rfl⟩ := List.mem_map.1 hk
      refine ⟨_, e4 r hr, ?_, fun id => ?_⟩
      · show (mapGet s.Close.2 r.ID).getD [] = v.File
        simp only [Store.Close, mapGet_map_append, hv, Option.getD_some]
      · show mapGet (indexAfter r.ID s.db.files []) id = mapGet v.NeedleIndex id
        apply Option.ext
        intro info
        rw [Option.mem_def, Option.mem_def, indexAfter_iff r.ID s.db.files m2 id info,
          (m5 r.ID v hv).2 id info]
  refine ⟨s2, e1, fun k => ?_, fun k id => ?_⟩
  · cases hv : mapGet s.volumes k with
    | none => simp [(key k).1 hv]
    | some v =>
      obtain ⟨v2, hv2, _⟩ := (key k).2 v hv
      simp [hv2]
  · cases hv : mapGet s.volumes k with
    | none => rw [(key k).1 hv]
    | some v =>
      obtain ⟨v2, hv2, hf, hix⟩ := (key k).2 v hv
      rw [hv2]
      simp only [Option.map_some', ReadNeedle_same v v2 id (hix id) hf]

/-- `Read` finds nothing when no visited volume reads the id. -/
theorem Read_none (s : Store) (order : List Nat) (id : Nat)
    (h : ∀ k ∈ order, ∀ v, mapGet s.volumes k = some v → ∀ n, v.ReadNeedle id ≠ .ok n) :
    s.Read order id = .error .ErrNeedleNotFound := by
  induction order with
  | nil => rfl
  | cons k rest ih =>
    unfold Store.Read
    cases hg : mapGet s.volumes k with
    | none => exact ih (fun j hj => h j (List.mem_cons_of_mem _ hj))
    | some v =>
      simp only
      cases hr : v.ReadNeedle id with
      | ok n => exact absurd hr (h k (List.mem_cons_self _ _) v hg n)
      | error e => exact ih (fun j hj => h j (List.mem_cons_of_mem _ hj))

/-- `Read` returns the data of the one volume that reads the id, when it is visited. -/
theorem Read_one (s : Store) (order : List Nat) (id k : Nat) (v : Volume) (n : Needle)
    (hk : k ∈ order) (hg : mapGet s.volumes k = some v) (hr : v.ReadNeedle id = .ok n)
    (hoth : ∀ j, j ≠ k → ∀ w, mapGet s.volumes j = some w → ∀ n2, w.ReadNeedle id ≠ .ok n2) :
    s.Read order id = .ok n.Data := by
  induction order with
  | nil => cases hk
  | cons j rest ih =>
    unfold Store.Read
    by_cases hj : j = k
    · subst hj
      simp only [hg, hr]
    · have hk2 : k ∈ rest := by
        rcases List.mem_cons.1 hk with h | h
        · exact absurd h.symm hj
        · exact h
      cases hgj : mapGet s.volumes j with
      | none => exact ih hk2
      | some w =>
        simp only
        cases hrj : w.ReadNeedle id with
        | ok n2 => exact absurd hrj (hoth j hj w hgj n2)
        | error e => exact ih hk2

/-- In a store that the catalog mirrors at most one volume has an index entry for an id. -/
theorem Mirror_holder (vols : List (Nat × Volume)) (db : Database) (n a : Nat)
    (h : Mirror vols db n a) (id j k : Nat) (v w : Volume)
    (hv : mapGet vols k = some v) (hw : mapGet vols j = some w)
    (h1 : mapGet v.NeedleIndex id ≠ none) (h2 : mapGet w.NeedleIndex id ≠ none) : j = k := by
  obtain ⟨_, m2, _, _, m5, _, _⟩ := h
  cases hi1 : mapGet v.NeedleIndex id with
  | none => exact absurd hi1 h1
  | some i1 =>
    cases hi2 : mapGet w.NeedleIndex id with
    | none => exact absurd hi2 h2
    | some i2 =>
      obtain ⟨x, hx, hxid, hxv, _⟩ := ((m5 k v hv).2 id i1).1 hi1
      obtain ⟨y, hy, hyid, hyv, _⟩ := ((m5 j w hw).2 id i2).1 hi2
      have := List.inj_on_of_nodup_map m2 hx hy (hxid.trans hyid.symm)
      subst this
      exact hyv.symm.trans hxv

theorem ReadNeedle_ok_held (v : Volume) (id : Nat) (n : Needle) (h : v.ReadNeedle id = .ok n) :
    mapGet v.NeedleIndex id ≠ none := by
  intro hc
  simp [Volume.ReadNeedle, hc] at h

/-- In a store that the catalog mirrors the result of `Read` does not depend on the order
in which the table is visited, as long as every key is visited. -/
theorem Read_any_order (s : Store) (h : s.Mirrored) (id : Nat) (o1 o2 : List Nat)
    (h1 : ∀ k, mapGet s.volumes k ≠ none → k ∈ o1)
    (h2 : ∀ k, mapGet s.volumes k ≠ none → k ∈ o2) : s.Read o1 id = s.Read o2 id := by
  by_cases hex : ∃ k v n, mapGet s.volumes k = some v ∧ v.ReadNeedle id = .ok n
  · obtain ⟨k, v, n, hg, hr⟩ := hex
    have hoth : ∀ j, j ≠ k → ∀ w, mapGet s.volumes j = some w → ∀ n2,
        w.ReadNeedle id ≠ .ok n2 := by
      intro j hj w hw n2 hc
      exact hj (Mirror_holder _ _ _ _ h id j k v w hg hw (ReadNeedle_ok_held v id n hr)
        (ReadNeedle_ok_held w id n2 hc))
    rw [Read_one s o1 id k v n (h1 k (by rw [hg]; simp)) hg hr hoth,
      Read_one s o2 id k v n (h2 k (by rw [hg]; simp)) hg hr hoth]
  · have hno : ∀ (o : List Nat), ∀ k ∈ o, ∀ v, mapGet s.volumes k = some v → ∀ n,
        v.ReadNeedle id ≠ .ok n := fun o k _ v hg n hr => hex ⟨k, v, n, hg, hr⟩
    rw [Read_none s o1 id (hno o1), Read_none s o2 id (hno o2)]

/-- In a store that the catalog mirrors, an id that has no file row, or whose file row
carries the tombstone bit, is not found by `Read`. -/
theorem Mirrored_read_none (s : Store) (h : s.Mirrored) (id : Nat)
    (hrows : ∀ m ∈ s.db.files, m.ID = id → m.Flags &&& 0x01 ≠ 0) (order : List Nat) :
    s.Read order id = .error .ErrNeedleNotFound := by
  apply Read_none
  intro k _ v hg n hr
  cases hi : mapGet v.NeedleIndex id with
  | none => exact ReadNeedle_ok_held v id n hr hi
  | some info =>
    obtain ⟨m, hm, hmid, _, rfl⟩ := ((h.2.2.2.2.1 k v hg).2 id info).1 hi
    have hf : ((rowEntry m).Flags &&& 0x01 != 0) = true := by
      simpa [rowEntry, bne_iff_ne] using hrows m hm hmid
    unfold Volume.ReadNeedle at hr
    simp only [hi] at hr
    rw [if_pos hf] at hr
    cases hr

/-! ## The size bound -/

theorem buildNeedle_Size (id : Nat) (data : List Nat) (filename mimeType : String) (env : Env)
    (h : data.length + 29 < 2 ^ 32) :
    (buildNeedle id data filename mimeType env).Size = 29 + (data.length : Int) ∧
    ((buildNeedle id data filename mimeType env).Write []).length = 29 + data.length := by
  have hds : (buildNeedle id data filename mimeType env).DataSize = data.length := by
    show data.length % 2 ^ 32 = data.length
    exact Nat.mod_eq_of_lt (by omega)
  constructor
  · rw [Needle.Size_eq _ (by rw [hds]; exact h), hds]
  · rw [Needle.Write_length]
    rfl

theorem Bounded_write (v : Volume) (S : Int) (m : Needle) (h : v.Bounded S)
    (hm : m.Size = ((m.Write []).length : Int)) : (v.WriteNeedle m).1.Bounded S := by
  obtain ⟨h1, h2, h3⟩ := h
  unfold Volume.WriteNeedle
  by_cases hfull : v.CurrentSize + m.Size > v.MaxSize
  · simp only [hfull, if_true]
    exact ⟨h1, h2, h3⟩
  · by_cases hneg : v.CurrentSize < 0
    · simp only [hfull, hneg, if_true, if_false]
      exact ⟨h1, h2, h3⟩
    · simp only [hfull, hneg, if_false]
      refine ⟨?_, by show v.CurrentSize + m.Size ≤ S; omega, h3⟩
      show v.CurrentSize + m.Size = ((writeAt v.File v.CurrentSize.toNat (m.Write [])).length : Int)
      have ht : v.CurrentSize.toNat = v.File.length := by omega
      rw [ht, writeAt_end_length, hm]
      push_cast
      omega

theorem Bounded_set (s : Store) (k : Nat) (v : Volume) (h : s.Bounded)
    (hv : v.Bounded s.config.MaxVolumeSize) :
    ∀ j w, mapGet (mapSet s.volumes k v) j = some w → w.Bounded s.config.MaxVolumeSize := by
  intro j w hw
  by_cases hj : j = k
  · subst hj
    rw [mapGet_mapSet_self] at hw
    cases hw
    exact hv
  · rw [mapGet_mapSet_ne _ _ _ _ hj] at hw
    exact h j w hw

theorem createNewVolume_bounded (t : Store) (o f : Bool) (h : t.Bounded)
    (hS : 0 ≤ t.config.MaxVolumeSize)
    (hnew : t.openFile ((t.activeVolID + 1) % 2 ^ 32) = []) :
    (t.createNewVolume o f).1.Bounded ∧
    (t.createNewVolume o f).1.config = t.config ∧
    (∀ vol, (t.createNewVolume o f).2 = .ok vol →
      mapGet (t.createNewVolume o f).1.volumes vol.ID = some vol) := by
  unfold Store.createNewVolume
  by_cases ho : o = true
  · simp only [ho, if_true]
    exact ⟨h, trivial, fun vol hv => by cases hv⟩
  simp only [ho, Bool.false_eq_true, if_false, hnew]
  rcases hdb : Database.SaveVolumeInfo t.db _ f with ⟨db, _ | e⟩
  · simp only
    refine ⟨?_, trivial, ?_⟩
    · exact Bounded_set t _ _ h ⟨rfl, hS, rfl⟩
    · intro vol hv
      simp only [Except.ok.injEq] at hv
      subst hv
      exact mapGet_mapSet_self _ _ _
  · simp only
    exact ⟨h, trivial, fun vol hv => by cases hv⟩

/-- A write of a payload with 29 + len below 2 ^ 32 keeps every volume bounded, when the
file of the next volume number is new. -/
theorem Bounded_write_step (s : Store) (data : List Nat) (filename mimeType : String)
    (env : Env) (h : s.Bounded) (hS : 0 ≤ s.config.MaxVolumeSize)
    (hlen : data.length + 29 < 2 ^ 32)
    (hnew : s.openFile ((s.activeVolID + 1) % 2 ^ 32) = []) :
    (s.WriteWithMetadata data filename mimeType env).1.Bounded := by
  have hm : (buildNeedle s.nextID data filename mimeType env).Size =
      (((buildNeedle s.nextID data filename mimeType env).Write []).length : Int) := by
    obtain ⟨a, b⟩ := buildNeedle_Size s.nextID data filename mimeType env hlen
    rw [a, b]
    push_cast
    rfl
  unfold Store.WriteWithMetadata
  by_cases hro : s.config.ReadOnly = true
  · simp only [hro, if_true]
    exact h
  simp only [hro, Bool.false_eq_true, if_false]
  cases hg : mapGet s.volumes s.activeVolID with
  | none => exact h
  | some vol =>
    simp only
    generalize buildNeedle s.nextID data filename mimeType env = m at hm
    have hb1 : (vol.WriteNeedle m).1.Bounded s.config.MaxVolumeSize :=
      Bounded_write vol _ m (h _ vol hg) hm
    have h1 := Bounded_set s s.activeVolID _ h hb1
    rcases hwr : vol.WriteNeedle m with ⟨vol1, _ | err⟩
    · rw [hwr] at h1
      simp only
      intro k v hv
      rw [(saveWritten_fst _ _ _ _ _ _ _).1] at hv
      rw [(saveWritten_fst _ _ _ _ _ _ _).2.2.2.1]
      exact h1 k v hv
    · rw [hwr] at h1
      simp only
      by_cases hfull : err = .ErrVolumeFull
      · simp only [hfull, if_true]
        obtain ⟨c1, c2, c3⟩ := createNewVolume_bounded
          { s with nextID := (s.nextID + 1) % 2 ^ 64,
                   volumes := mapSet s.volumes s.activeVolID vol1,
                   db := (s.db.SetVolumeInactive s.activeVolID env.setInactiveFails).1 }
          env.openFails env.saveVolumeFails h1 hS
          (by
            rw [openFile_set_ne _ _ _ _ _ _ (succ_mod_ne s.activeVolID)]
            exact hnew)
        generalize Store.createNewVolume
          { s with nextID := (s.nextID + 1) % 2 ^ 64,
                   volumes := mapSet s.volumes s.activeVolID vol1,
                   db := (s.db.SetVolumeInactive s.activeVolID env.setInactiveFails).1 }
          env.openFails env.saveVolumeFails = c at c1 c2 c3
        obtain ⟨s3, e | vol2⟩ := c
        · exact c1
        · simp only at c1 c2 c3 ⊢
          have c5 := c3 vol2 rfl
          have hb2 : (vol2.WriteNeedle m).1.Bounded s3.config.MaxVolumeSize :=
            Bounded_write vol2 _ m (c1 _ vol2 c5) hm
          have h3 := Bounded_set s3 vol2.ID _ c1 hb2
          rcases hwr2 : vol2.WriteNeedle m with ⟨vol3, _ | err2⟩
          · rw [hwr2] at h3
            simp only
            intro k v hv
            rw [(saveWritten_fst _ _ _ _ _ _ _).1] at hv
            rw [(saveWritten_fst _ _ _ _ _ _ _).2.2.2.1]
            exact h3 k v hv
          · rw [hwr2] at h3
            exact h3
      · simp only [hfull, if_false]
        exact h1

theorem Bounded_step (s : Store) (op : Op) (h : s.Bounded) (hS : 0 ≤ s.config.MaxVolumeSize)
    (hop : op.Short) (hnew : s.openFile ((s.activeVolID + 1) % 2 ^ 32) = []) :
    (s.step op).Bounded := by
  cases op with
  | write data filename mimeType env =>
    exact Bounded_write_step s data filename mimeType env h hS hop hnew
  | delete order i env =>
    show (s.Delete order i env).1.Bounded
    obtain ⟨_, _, hc, _, h5⟩ := Delete_cases s i env order
    unfold Store.Bounded
    rw [hc]
    rcases h5 with ⟨hv, _⟩ | ⟨a, va, hva, _, hv, _⟩
    · rw [hv]; exact h
    · rw [hv]
      apply Bounded_set s a _ h
      obtain ⟨b1, b2, b3⟩ := h a va hva
      obtain ⟨f1, f2⟩ := DeleteNeedle_File va i
      refine ⟨by rw [f1, f2]; exact b1, by rw [f2]; exact b2, ?_⟩
      unfold Volume.DeleteNeedle
      split <;> exact b3

theorem step_config (s : Store) (op : Op) : (s.step op).config = s.config := by
  cases op with
  | write data filename mimeType env =>
    show (s.WriteWithMetadata data filename mimeType env).1.config = _
    rcases WriteWithMetadata_cases s data filename mimeType env _ rfl _ rfl _ rfl with
      ⟨h1, _⟩ | ⟨_, h1, _⟩
    · rw [h1]
    · exact h1
  | delete order i env => exact (Delete_cases s i env order).2.2.1

theorem Bounded_run (ops : List Op) (s : Store) (h : s.Bounded)
    (hS : 0 ≤ s.config.MaxVolumeSize) (hop : ∀ op ∈ ops, op.Short) (hf : s.Fresh)
    (ha : s.activeVolID + ops.length < 2 ^ 32) : (s.run ops).Bounded := by
  induction ops generalizing s with
  | nil => exact h
  | cons op ops ih =>
    simp only [List.length_cons] at ha
    obtain ⟨f1, f2⟩ := Fresh_step s op hf (by omega)
    have hnew : s.openFile ((s.activeVolID + 1) % 2 ^ 32) = [] := by
      rw [Nat.mod_eq_of_lt (by omega)]
      exact hf _ (by omega)
    exact ih (s.step op) (Bounded_step s op h hS (hop op (List.mem_cons_self _ _)) hnew)
      (by rw [step_config]; exact hS) (fun x hx => hop x (List.mem_cons_of_mem _ hx)) f1
      (by omega)

theorem written_cons (s : Store) (op : Op) (rest : List Op) :
    s.written (op :: rest) = s.written [op] + (s.step op).written rest := by
  cases op with
  | write data filename mimeType env => simp [Store.written, Store.step]
  | delete order i env => simp [Store.written, Store.step]

theorem mapGet_mapSet_some {α : Type} (m : List (Nat × α)) (k j : Nat) (a : α)
    (h : mapGet m j ≠ none) : mapGet (mapSet m k a) j ≠ none := by
  by_cases hj : j = k
  · subst hj
    rw [mapGet_mapSet_self]
    simp
  · rw [mapGet_mapSet_ne _ _ _ _ hj]
    exact h

theorem step_keeps_key (s : Store) (op : Op) (k : Nat) (h : mapGet s.volumes k ≠ none) :
    mapGet (s.step op).volumes k ≠ none := by
  cases op with
  | write data filename mimeType env =>
    show mapGet (s.WriteWithMetadata data filename mimeType env).1.volumes k ≠ none
    rcases WriteWithMetadata_cases s data filename mimeType env _ rfl _ rfl _ rfl with
      ⟨h1, _⟩ | ⟨_, _, _, h2⟩
    · rw [h1]; exact h
    · rcases h2 with ⟨hv, _⟩ | ⟨vol, _, hv, _⟩ | ⟨vol, file, _, _, hv, _⟩
      · rw [hv]; exact h
      · rw [hv]; exact mapGet_mapSet_some _ _ _ _ h
      · rw [hv]
        exact mapGet_mapSet_some _ _ _ _ (mapGet_mapSet_some _ _ _ _
          (mapGet_mapSet_some _ _ _ _ h))
  | delete order i env =>
    show mapGet (s.Delete order i env).1.volumes k ≠ none
    obtain ⟨_, _, _, _, h5⟩ := Delete_cases s i env order
    rcases h5 with ⟨hv, _⟩ | ⟨a, va, _, _, hv, _⟩
    · rw [hv]; exact h
    · rw [hv]; exact mapGet_mapSet_some _ _ _ _ h

theorem Two_iff (s : Store) :
    s.Two ↔ ∃ k1 k2, k1 ≠ k2 ∧ mapGet s.volumes k1 ≠ none ∧ mapGet s.volumes k2 ≠ none := by
  constructor
  · rintro ⟨k1, k2, v1, v2, hne, h1, h2⟩
    exact ⟨k1, k2, hne, by rw [h1]; simp, by rw [h2]; simp⟩
  · rintro ⟨k1, k2, hne, h1, h2⟩
    cases e1 : mapGet s.volumes k1 with
    | none => exact absurd e1 h1
    | some v1 =>
      cases e2 : mapGet s.volumes k2 with
      | none => exact absurd e2 h2
      | some v2 => exact ⟨k1, k2, v1, v2, hne, e1, e2⟩

theorem Two_step (s : Store) (op : Op) (h : s.Two) : (s.step op).Two := by
  rw [Two_iff] at h ⊢
  obtain ⟨k1, k2, hne, h1, h2⟩ := h
  exact ⟨k1, k2, hne, step_keeps_key s op k1 h1, step_keeps_key s op k2 h2⟩

/-- The store holds two volumes, or its active volume holds exactly the bytes written so
far: one more call. -/
theorem Count_step (s : Store) (op : Op) (w : Nat) (hop : op.Short)
    (h : s.Two ∨ s.One w) : (s.step op).Two ∨ (s.step op).One (w + s.written [op]) := by
  rcases h with h | ⟨v, hv, hw⟩
  · exact Or.inl (Two_step s op h)
  cases op with
  | write data filename mimeType env =>
    have hlen : data.length + 29 < 2 ^ 32 := hop
    obtain ⟨hsz, _⟩ := buildNeedle_Size s.nextID data filename mimeType env hlen
    show (s.WriteWithMetadata data filename mimeType env).1.Two ∨
      (s.WriteWithMetadata data filename mimeType env).1.One
        (w + ((match (s.WriteWithMetadata data filename mimeType env).2 with
          | .ok _ => 29 + data.length
          | .error _ => 0) + 0))
    rcases WriteWithMetadata_cases s data filename mimeType env _ rfl _ rfl _ rfl with
      ⟨h1, h2⟩ | ⟨_, _, _, h2⟩
    · right
      rw [h1, h2]
      exact ⟨v, hv, by simpa using hw⟩
    · rcases h2 with ⟨hvs, hact, e, he⟩ | ⟨vol, hvol, hvs, hact, hres⟩ |
        ⟨vol, file, hvol, _, hvs, hact, _⟩
      · right
        rw [he]
        refine ⟨v, by rw [hvs, hact]; exact hv, by simpa using hw⟩
      · right
        rw [hv] at hvol
        cases hvol
        rcases hres with ⟨hok, hr⟩ | ⟨hfail, e, he⟩
        · rw [hr]
          refine ⟨_, by rw [hvs, hact, mapGet_mapSet_self], ?_⟩
          rw [(WriteNeedle_ok v _ hok).2.2.2, hsz, hw]
          push_cast
          omega
        · rw [he]
          refine ⟨_, by rw [hvs, hact, mapGet_mapSet_self], ?_⟩
          rw [(WriteNeedle_failed v _ hfail).2.2, hw]
          simp
      · left
        have hab : (s.activeVolID + 1) % 2 ^ 32 ≠ s.activeVolID := succ_mod_ne s.activeVolID
        rw [Two_iff]
        refine ⟨s.activeVolID, (s.activeVolID + 1) % 2 ^ 32, fun hc => hab hc.symm, ?_, ?_⟩
        · rw [hvs]
          exact mapGet_mapSet_some _ _ _ _ (mapGet_mapSet_some _ _ _ _
            (by rw [mapGet_mapSet_self]; simp))
        · rw [hvs, mapGet_mapSet_self]
          simp
  | delete order i env =>
    show (s.Delete order i env).1.Two ∨ (s.Delete order i env).1.One (w + (0 + 0))
    right
    obtain ⟨hact, _, _, _, h5⟩ := Delete_cases s i env order
    rcases h5 with ⟨hvs, _⟩ | ⟨a, va, hva, _, hvs, _⟩
    · exact ⟨v, by rw [hvs, hact]; exact hv, by simpa using hw⟩
    · by_cases ha : a = s.activeVolID
      · subst ha
        rw [hv] at hva
        cases hva
        exact ⟨_, by rw [hvs, hact, mapGet_mapSet_self],
          by rw [(DeleteNeedle_File v i).2]; simpa using hw⟩
      · refine ⟨v, ?_, by simpa using hw⟩
        rw [hvs, hact, mapGet_mapSet_ne _ _ _ _ (fun hc => ha hc.symm)]
        exact hv

theorem Count_run (ops : List Op) (s : Store) (w : Nat) (hop : ∀ op ∈ ops, op.Short)
    (h : s.Two ∨ s.One w) : (s.run ops).Two ∨ (s.run ops).One (w + s.written ops) := by
  induction ops generalizing s w with
  | nil => simpa [Store.run, Store.written] using h
  | cons op ops ih =>
    have h1 := Count_step s op w (hop op (List.mem_cons_self _ _)) h
    have h2 := ih (s.step op) (w + s.written [op])
      (fun x hx => hop x (List.mem_cons_of_mem _ hx)) h1
    rw [written_cons, ← Nat.add_assoc]
    exact h2

/-- The store `NewStore` builds on an empty catalog and an empty data directory. -/
theorem Bounded_new (cfg : Config) (env : StartEnv) (s : Store)
    (h : NewStore cfg { files := [], volumes := [] } [] env = .ok s)
    (hS : 0 ≤ cfg.MaxVolumeSize) : s.Bounded ∧ s.One 0 ∧ s.config = cfg := by
  unfold NewStore Store.loadFromDatabase Database.LoadAllVolumeInfo
    Database.LoadAllFileMetadataIncludingDeleted at h
  by_cases h1 : env.loadVolumesFails = true
  · simp [h1] at h
  by_cases h2 : env.loadMetasFails = true
  · simp [h1, h2, Store.loadVolumes] at h
  simp only [h1, h2, Bool.false_eq_true, if_false, Store.loadVolumes, Store.loadMetas,
    List.length_nil, if_true, Store.createNewVolume] at h
  simp only [show (0 + 1) % 2 ^ 32 = 1 from rfl] at h
  by_cases h3 : env.openFails 1 = true
  · rw [if_pos h3] at h
    simp at h
  rw [if_neg h3] at h
  by_cases h4 : env.saveVolumeFails = true
  · simp [h4, Database.SaveVolumeInfo] at h
  simp only [h4, Database.SaveVolumeInfo, Bool.false_eq_true, if_false, List.any_nil,
    Except.ok.injEq] at h
  subst h
  refine ⟨fun k v hv => ?_, ⟨_, mapGet_mapSet_self _ _ _, rfl⟩, rfl⟩
  by_cases hk : k = 1
  · subst hk
    simp only [mapGet_mapSet_self, Option.some.injEq] at hv
    subst hv
    exact ⟨rfl, hS, rfl⟩
  · simp only at hv
    rw [mapGet_mapSet_ne _ _ _ _ hk] at hv
    simp [mapGet] at hv

theorem run_config (ops : List Op) (s : Store) : (s.run ops).config = s.config := by
  induction ops generalizing s with
  | nil => rfl
  | cons op ops ih =>
    show ((s.step op).run ops).config = _
    rw [ih, step_config]

/-- A payload whose length is a multiple of 2 ^ 32 is written to the new store of 4096
bytes per volume as a record of DataSize 0 and Size() 29. -/
theorem huge_write (d : List Nat) (hl : d.length % 2 ^ 32 = 0) :
    (sampleStore.WriteWithMetadata d "" "" sampleEnv).2 = .ok 1 ∧
    (sampleStore.WriteWithMetadata d "" "" sampleEnv).1.volumes =
      mapSet sampleStore.volumes 1
        { ID := 1, File := (buildNeedle 1 d "" "" sampleEnv).Write [], MaxSize := 4096,
          CurrentSize := 29, Active := true,
          NeedleIndex := [(1, { Offset := 0, Size := 0, Flags := 0, VolumeID := 1 })] } := by
  have hl2 : d.length % 4294967296 = 0 := hl
  have hsz : (buildNeedle 1 d "" "" sampleEnv).Size = 29 := by
    show (((NeedleHeaderSize + d.length % 2 ^ 32 + NeedleFooterSize) % 2 ^ 32 : Nat) : Int) = 29
    rw [hl]; rfl
  have hw : (NewVolume 1 [] 4096).WriteNeedle (buildNeedle 1 d "" "" sampleEnv) =
      ({ ID := 1, File := (buildNeedle 1 d "" "" sampleEnv).Write [], MaxSize := 4096,
         CurrentSize := 29, Active := true,
         NeedleIndex := [(1, { Offset := 0, Size := 0, Flags := 0, VolumeID := 1 })] }, none) := by
    unfold Volume.WriteNeedle
    simp only [hsz]
    simp [NewVolume, writeAt_nil, mapSet, buildNeedle, hl2]
  unfold Store.WriteWithMetadata
  have e0 : sampleStore.config.ReadOnly = false := rfl
  have e2 : sampleStore.nextID = 1 := rfl
  have e3 : sampleStore.activeVolID = 1 := rfl
  simp only [e0, e2, e3, Bool.false_eq_true, if_false]
  have e4 : mapGet sampleStore.volumes 1 = some (NewVolume 1 [] 4096) := rfl
  rw [e4]
  simp only
  rw [hw]
  simp only [saveWritten_fst, buildNeedle_ID, true_and]

/-- After that write volume 1 is the only volume, its file holds the whole record and
its CurrentSize is 29. -/
theorem huge_write_size (d : List Nat) (hl : d.length % 2 ^ 32 = 0) :
    (∃ v, mapGet (sampleStore.run [.write d "" "" sampleEnv]).volumes 1 = some v ∧
      v.File.length = 29 + d.length ∧ v.CurrentSize = 29) ∧
    (∀ k, k ≠ 1 → mapGet (sampleStore.run [.write d "" "" sampleEnv]).volumes k = none) ∧
    sampleStore.written [.write d "" "" sampleEnv] = 29 + d.length := by
  obtain ⟨h1, h2⟩ := huge_write d hl
  have hrun : (sampleStore.run [.write d "" "" sampleEnv]).volumes =
      (sampleStore.WriteWithMetadata d "" "" sampleEnv).1.volumes := rfl
  refine ⟨⟨_, by rw [hrun, h2, mapGet_mapSet_self], ?_, rfl⟩, fun k hk => ?_, ?_⟩
  · show ((buildNeedle 1 d "" "" sampleEnv).Write []).length = 29 + d.length
    rw [Needle.Write_length]
    rfl
  · rw [hrun, h2, mapGet_mapSet_ne _ _ _ _ hk]
    have hk2 : ¬ 1 = k := fun hc => hk hc.symm
    simp [sampleStore, mapGet, hk2]
  · show (match (sampleStore.WriteWithMetadata d "" "" sampleEnv).2 with
        | .ok _ => 29 + d.length
        | .error _ => 0) + 0 = 29 + d.length
    rw [h1]
    rfl

/-! ## The int64 sums of WriteNeedle -/

theorem addInt64_exact (a b : Int) (h1 : -(2 ^ 63) ≤ a + b) (h2 : a + b < 2 ^ 63) :
    addInt64 a b = a + b :=
  toInt64_toUint64 (a + b) h1 h2

/-- As long as CurrentSize + Size() is an `int64` value, the method with wrapping sums is
the method with exact sums. -/
theorem WriteNeedleInt64_exact (v : Volume) (n : Needle)
    (h1 : -(2 ^ 63) ≤ v.CurrentSize + n.Size) (h2 : v.CurrentSize + n.Size < 2 ^ 63) :
    v.WriteNeedleInt64 n = v.WriteNeedle n := by
  unfold Volume.WriteNeedleInt64 Volume.WriteNeedle
  rw [addInt64_exact _ _ h1 h2]

theorem run_nextID_le (ops : List Op) (s : Store) (h : s.nextID + ops.length < 2 ^ 64) :
    (s.run ops).nextID ≤ s.nextID + ops.length := by
  induction ops generalizing s with
  | nil => exact Nat.le_refl _
  | cons op ops ih =>
    simp only [List.length_cons] at h ⊢
    show ((s.step op).run ops).nextID ≤ _
    rcases step_nextID s op with e | e
    · have := ih (s.step op) (by rw [e]; omega)
      rw [e] at this
      omega
    · rw [Nat.mod_eq_of_lt (by omega)] at e
      have := ih (s.step op) (by rw [e]; omega)
      rw [e] at this
      omega

/-- A payload whose length is a multiple of 2 ^ 32 and which starts with four zero bytes,
written to the new store of 8 GiB per volume, is read back as the empty string after a
restart too. -/
theorem huge_restart (d tail : List Nat) (hd : d = bigEndian 4 0 ++ tail)
    (hl : d.length % 2 ^ 32 = 0) :
    ∃ s2, (bigStore.run [.write d "" "" sampleEnv]).reopen sampleStartEnv = .ok s2 ∧
      s2.Read [1] 1 = .ok [] := by
  obtain ⟨m0, _, _⟩ := Mirrored_new _ _ _ _ NewStore_big
  have hm : (bigStore.run [.write d "" "" sampleEnv]).Mirrored := by
    apply Mirrored_run _ _ m0
    · intro op hop
      simp only [List.mem_singleton] at hop
      subst hop
      rfl
    · show (1 : Nat) + 1 < 2 ^ 64
      norm_num
    · show (1 : Nat) + 1 < 2 ^ 32
      norm_num
  obtain ⟨s2, e1, _, e3⟩ := reopen_mirrored _ sampleStartEnv hm rfl rfl (fun _ => rfl)
  refine ⟨s2, e1, ?_⟩
  rw [Read_congr _ s2 1 (fun k => e3 k 1) [1]]
  exact (huge_payload d tail hd hl).2

/-- Method `FindByFilename` returns a non-deleted row whose file_name equals the
given name exactly, and among those rows the one with the smallest id (the oldest); it
returns an error exactly when there is no such row. -/
theorem FindByFilename_first (d : Database) (filename : String) :
    (∀ m, d.FindByFilename filename false = .ok m →
      m ∈ d.files ∧ m.FileName = filename ∧ m.Deleted = false ∧
      ∀ r ∈ d.files, r.FileName = filename → r.Deleted = false → m.ID ≤ r.ID) ∧
    ((∃ e, d.FindByFilename filename false = .error e) ↔
      ∀ r ∈ d.files, r.FileName = filename → r.Deleted = true) := by
  obtain ⟨h1, h2⟩ :=
    firstByID_spec (d.files.filter (fun m => m.FileName == filename && !m.Deleted))
  unfold Database.FindByFilename
  simp only [Bool.false_eq_true, if_false]
  cases hf : firstByID (d.files.filter (fun m => m.FileName == filename && !m.Deleted)) with
  | none =>
    have hnil := h1.1 hf
    constructor
    · intro m hm
      cases hm
    · constructor
      · intro _ r hr hn
        have hnot : r ∉ d.files.filter (fun m => m.FileName == filename && !m.Deleted) := by
          rw [hnil]; exact List.not_mem_nil _
        by_contra hd
        have hd2 : r.Deleted = false := by simpa using hd
        exact hnot (List.mem_filter.2 ⟨hr, by simp [hn, hd2]⟩)
      · intro _
        exact ⟨_, rfl⟩
  | some m0 =>
    obtain ⟨hm, hle⟩ := h2 m0 hf
    have hm2 := List.mem_filter.1 hm
    have hp : m0.FileName = filename ∧ m0.Deleted = false := by simpa using hm2.2
    constructor
    · intro m hm3
      cases hm3
      exact ⟨hm2.1, hp.1, hp.2, fun r hr hn hd =>
        hle r (List.mem_filter.2 ⟨hr, by simp [hn, hd]⟩)⟩
    · constructor
      · rintro ⟨e, he⟩
        cases he
      · intro hall
        have := hall m0 hm2.1 hp.1
        rw [hp.2] at this
        cases this

/-! ## The claims -/

/-- C1 (amended). Store round trip.  Let no volume of the table index the id the store
is about to issue (so it is in every store reached from a new one, see `IdsSound_run`), and
let `d` be a byte string with 29 + len(d) < 2 ^ 32.  If `WriteWithMetadata d` returns `id`
without error, then `Read id`, performed after any further sequence of fewer than 2 ^ 32
calls of `WriteWithMetadata` and of `Delete` of other ids, returns exactly `d`, in whatever
order `Read` visits the volume table. -/
theorem store_round_trip (s s1 : Store) (d : List Nat) (filename mimeType : String)
    (env : Env) (id : Nat) (hu : s.Unheld s.nextID) (hlen : d.length + 29 < 2 ^ 32)
    (hw : s.WriteWithMetadata d filename mimeType env = (s1, .ok id))
    (ops : List Op) (hops : ∀ op ∈ ops, op.isDeleteOf id = false) (hshort : ops.length < 2 ^ 32)
    (order : List Nat) (hord : order.Perm (s1.run ops).volumeIDs) :
    (s1.run ops).Read order id = .ok d :=
  Read_after_write s s1 d filename mimeType env id hu hlen hw ops hops hshort order hord

set_option maxRecDepth 100000 in
/-- C1, instance: "hello" written to the new store, then a second write and `Delete(2)`. -/
theorem store_round_trip_witness :
    (sampleStore.WriteWithMetadata hello "a.txt" "text/plain" sampleEnv).2 = .ok 1 ∧
    (((sampleStore.WriteWithMetadata hello "a.txt" "text/plain" sampleEnv).1.run sampleOps).Read
      [1] 1) = .ok hello :=
  ⟨by decide,
    store_round_trip sampleStore _ hello "a.txt" "text/plain" sampleEnv 1 sampleStore_unheld
      (by decide) (by decide) sampleOps (by simp [sampleOps, Op.isDeleteOf]) (by decide) [1]
      (by decide)⟩

/-- C1, counterexample to the claim as stated.  The store is not read-only, the payload
of 2 ^ 32 zero bytes fits (29 + len(d) <= max_volume_size = 2 ^ 33), `WriteWithMetadata`
returns id 1 without error, and the `Read(1)` that follows at once returns the empty string:
`uint32(len(data))` is 0, so the record says DataSize = 0 and the first four payload bytes are
read as the checksum of no data. -/
theorem store_round_trip_counterexample :
    bigStore.config.ReadOnly = false ∧
    29 + (hugeData.length : Int) ≤ bigStore.config.MaxVolumeSize ∧
    (bigStore.WriteWithMetadata hugeData "" "" sampleEnv).2 = .ok 1 ∧
    (bigStore.WriteWithMetadata hugeData "" "" sampleEnv).1.Read [1] 1 = .ok [] ∧
    hugeData ≠ [] := by
  have hlen : hugeData.length = 4294967296 := by
    unfold hugeData; rw [List.length_replicate]
  have hd : hugeData = bigEndian 4 0 ++ List.replicate 4294967292 0 := by
    unfold hugeData
    rw [show (4294967296 : Nat) = 4 + 4294967292 from rfl, List.replicate_add]
    rfl
  obtain ⟨h1, h2⟩ := huge_payload hugeData _ hd (by rw [hlen]; rfl)
  refine ⟨rfl, ?_, h1, h2, ?_⟩
  · rw [hlen]; decide
  · intro h
    rw [h] at hlen
    simp at hlen

/-- C2 (amended). Tombstone isolation.  In a store in which `id` is indexed by one volume
at most (as in every store reached from a new one by writes and deletes alone), after a
successful `Delete id` (whatever order its loop visits the volume table in) every `Read id`
of the running store returns `ErrNeedleNotFound`, in whatever order it visits the table;
the file of every volume and the rest of the data directory hold the bytes they held
before the delete; and `Read id` keeps returning `ErrNeedleNotFound` after any further
writes and deletes, as long as `id` was issued before (`id < nextID`) and the id counter
does not run over. -/
theorem tombstone_isolation (s : Store) (order : List Nat) (id : Nat) (env : Env)
    (hu : s.HeldOnce id) (hok : (s.Delete order id env).2 = none) :
    (∀ order2, (s.Delete order id env).1.Read order2 id = .error .ErrNeedleNotFound) ∧
    (∀ k, (mapGet (s.Delete order id env).1.volumes k).map (fun v => v.File) =
      (mapGet s.volumes k).map (fun v => v.File)) ∧
    (s.Delete order id env).1.disk = s.disk ∧
    (∀ ops : List Op, id < s.nextID → s.nextID + ops.length < 2 ^ 64 →
      ∀ order2, ((s.Delete order id env).1.run ops).Read order2 id = .error .ErrNeedleNotFound) := by
  obtain ⟨h1, h2⟩ := Delete_tombstone s order id env hu hok
  refine ⟨fun order2 => NoLive_read _ id h1 order2, h2, (Delete_cases s id env order).2.2.2.1, ?_⟩
  intro ops hid hroom order2
  apply NoLive_read
  apply NoLive_run ops _ id h1
  · rw [(Delete_cases s id env order).2.1]; exact hid
  · rw [(Delete_cases s id env order).2.1]; exact hroom

set_option maxRecDepth 100000 in
/-- C2, instance: `Delete(1)` in the store that holds "hello" under id 1. -/
theorem tombstone_isolation_witness :
    (writtenStore.Delete [1] 1 sampleEnv).2 = none ∧
    (writtenStore.Delete [1] 1 sampleEnv).1.Read [1] 1 = .error .ErrNeedleNotFound ∧
    (mapGet (writtenStore.Delete [1] 1 sampleEnv).1.volumes 1).map (fun v => v.File) =
      (mapGet writtenStore.volumes 1).map (fun v => v.File) ∧
    ((writtenStore.Delete [1] 1 sampleEnv).1.run sampleOps).Read [1] 1 =
      .error .ErrNeedleNotFound :=
  ⟨by decide,
    (tombstone_isolation writtenStore [1] 1 sampleEnv (writtenStore_heldOnce 1) (by decide)).1 [1],
    (tombstone_isolation writtenStore [1] 1 sampleEnv (writtenStore_heldOnce 1) (by decide)).2.1 1,
    (tombstone_isolation writtenStore [1] 1 sampleEnv (writtenStore_heldOnce 1)
      (by decide)).2.2.2 sampleOps (by decide) (by decide) [1]⟩

/-- C2, counterexample to the claim as stated.  First, "hello" is held under id 1 and
`Delete(1)` returns nil although its catalog update fails; the running store answers
ErrNeedleNotFound, but after a close and reopen `Read(1)` returns "hello" again.  Second,
within one process: "a", "b", "c" are written to a new store of 100 bytes per volume (the
catalog insert of "c" failing), `Delete(1)`, a compaction of volume 1, a close and reopen,
a second compaction and a write of 50 bytes that rolls over lead to a store whose
volumes 1 and 2 both index id 3.  `Delete(3)` returns nil, and `Read(3)` still returns
bytes in whichever order the table is visited. -/
theorem tombstone_counterexample :
    (writtenStore.Delete [1] 1 deleteFaultEnv).2 = none ∧
    (writtenStore.Delete [1] 1 deleteFaultEnv).1.Read [1] 1 = .error .ErrNeedleNotFound ∧
    ((writtenStore.Delete [1] 1 deleteFaultEnv).1.reopen sampleStartEnv).map
      (fun s => s.Read [1] 1) = .ok (.ok hello) ∧
    NewStore { MaxVolumeSize := 100, ReadOnly := false } { files := [], volumes := [] } []
      sampleStartEnv = .ok store100 ∧
    (twin1.compactVolume ((mapGet twin1.volumes 1).getD sampleVolume)
      (allKeysEnv [1, 2, 3])).2 = none ∧
    twin2.reopen sampleStartEnv = .ok twin3 ∧
    (twin3.compactVolume ((mapGet twin3.volumes 1).getD sampleVolume)
      (allKeysEnv [1, 2])).2 = none ∧
    (twin4.WriteWithMetadata payload50 "" "" sampleEnv).2 = .ok 3 ∧
    twin5.volumes.map (fun e => (e.1, (mapGet e.2.NeedleIndex 3).isSome)) =
      [(2, true), (1, true)] ∧
    (twin5.Delete [1, 2] 3 sampleEnv).2 = none ∧
    (twin5.Delete [1, 2] 3 sampleEnv).1.Read [1, 2] 3 = .ok payload50 ∧
    (twin5.Delete [1, 2] 3 sampleEnv).1.Read [2, 1] 3 = .ok payload50 ∧
    (twin5.Delete [2, 1] 3 sampleEnv).2 = none ∧
    (twin5.Delete [2, 1] 3 sampleEnv).1.Read [1, 2] 3 = .ok [99] ∧
    (twin5.Delete [2, 1] 3 sampleEnv).1.Read [2, 1] 3 = .ok [99] := by
  decide!

/-- C3. Needle codec round trip.  For every needle whose fields are within their Go types
and whose DataSize equals len(Data), `ReadNeedleFrom` applied to the bytes emitted by
`Needle.Write` (followed by any further bytes) succeeds, returns the same ID, Cookie, DataSize,
CreateTime, Flags and Data (the three strings, which are not encoded, come back empty) and
leaves exactly the further bytes unread. -/
theorem needle_codec_roundtrip (n : Needle) (rest : List Nat) (hr : n.InRange)
    (hs : n.DataSize = n.Data.length) :
    ReadNeedleFrom (n.Write [] ++ rest) =
      .ok ({ n with FileName := "", MimeType := "", MD5 := "" }, rest) := by
  obtain ⟨h1, h2, h3, h4, h5, h6⟩ := hr
  rw [ReadNeedleFrom_Write n rest hs h3]
  have e1 : n.ID % 2 ^ 64 = n.ID := Nat.mod_eq_of_lt h1
  have e2 : n.Cookie % 2 ^ 32 = n.Cookie := Nat.mod_eq_of_lt h2
  have e3 : n.Flags % 2 ^ 8 = n.Flags := Nat.mod_eq_of_lt h4
  have e4 : toInt64 (toUint64 n.CreateTime % 2 ^ 64) = n.CreateTime := by
    have : toUint64 n.CreateTime % 2 ^ 64 = toUint64 n.CreateTime := by
      apply Nat.mod_eq_of_lt
      have := toUint64_cast n.CreateTime
      have h4 : n.CreateTime % 2 ^ 64 < 2 ^ 64 := Int.emod_lt_of_pos _ (by norm_num)
      omega
    rw [this]
    exact toInt64_toUint64 _ h5 h6
  rw [e1, e2, e3, e4]

/-- C3, instance: the two-byte sample needle followed by three more bytes. -/
theorem needle_codec_roundtrip_witness :
    sampleNeedle.InRange ∧ sampleNeedle.DataSize = sampleNeedle.Data.length ∧
    ReadNeedleFrom (sampleNeedle.Write [] ++ [1, 2, 3]) =
      .ok ({ sampleNeedle with FileName := "", MimeType := "", MD5 := "" }, [1, 2, 3]) :=
  ⟨by decide, rfl, needle_codec_roundtrip sampleNeedle [1, 2, 3] (by decide) rfl⟩

/-- C4. Encoded layout.  For every needle, `Needle.Write` appends to what the writer
already holds: the ID as 8 big-endian bytes, the Cookie as 4, the DataSize as 4, the CreateTime
as the 8 big-endian bytes of its two's complement image (CreateTime mod 2 ^ 64), the Flags as
one byte, the data bytes themselves, and the IEEE CRC-32 of the data as 4 big-endian bytes.
The header is 25 bytes, the footer 4, the data start at offset 25 and the record is
29 + len(Data) bytes long. -/
theorem needle_write_layout (n : Needle) :
    NeedleHeaderSize = 25 ∧ NeedleFooterSize = 4 ∧
    (∀ w, n.Write w = w ++ n.Write []) ∧
    (n.Write []).length = 29 + n.Data.length ∧
    (n.Write []).take 8 =
      [n.ID / 2 ^ 56 % 256, n.ID / 2 ^ 48 % 256, n.ID / 2 ^ 40 % 256, n.ID / 2 ^ 32 % 256,
       n.ID / 2 ^ 24 % 256, n.ID / 2 ^ 16 % 256, n.ID / 2 ^ 8 % 256, n.ID % 256] ∧
    ((n.Write []).drop 8).take 4 =
      [n.Cookie / 2 ^ 24 % 256, n.Cookie / 2 ^ 16 % 256, n.Cookie / 2 ^ 8 % 256, n.Cookie % 256] ∧
    ((n.Write []).drop 12).take 4 =
      [n.DataSize / 2 ^ 24 % 256, n.DataSize / 2 ^ 16 % 256, n.DataSize / 2 ^ 8 % 256,
       n.DataSize % 256] ∧
    ((toUint64 n.CreateTime : Nat) : Int) = n.CreateTime % 2 ^ 64 ∧
    ((n.Write []).drop 16).take 8 =
      [toUint64 n.CreateTime / 2 ^ 56 % 256, toUint64 n.CreateTime / 2 ^ 48 % 256,
       toUint64 n.CreateTime / 2 ^ 40 % 256, toUint64 n.CreateTime / 2 ^ 32 % 256,
       toUint64 n.CreateTime / 2 ^ 24 % 256, toUint64 n.CreateTime / 2 ^ 16 % 256,
       toUint64 n.CreateTime / 2 ^ 8 % 256, toUint64 n.CreateTime % 256] ∧
    ((n.Write []).drop 24).take 1 = [n.Flags % 256] ∧
    ((n.Write []).drop 25).take n.Data.length = n.Data ∧
    (n.Write []).drop (25 + n.Data.length) =
      [ChecksumIEEE n.Data / 2 ^ 24 % 256, ChecksumIEEE n.Data / 2 ^ 16 % 256,
       ChecksumIEEE n.Data / 2 ^ 8 % 256, ChecksumIEEE n.Data % 256] := by
  have e8 : ∀ x, bigEndian 8 x = [x / 2 ^ 56 % 256, x / 2 ^ 48 % 256, x / 2 ^ 40 % 256,
      x / 2 ^ 32 % 256, x / 2 ^ 24 % 256, x / 2 ^ 16 % 256, x / 2 ^ 8 % 256, x % 256] := by
    intro x; simp [bigEndian, Nat.div_div_eq_div_mul]
  have e4 : ∀ x, bigEndian 4 x = [x / 2 ^ 24 % 256, x / 2 ^ 16 % 256, x / 2 ^ 8 % 256,
      x % 256] := by
    intro x; simp [bigEndian, Nat.div_div_eq_div_mul]
  have e1 : ∀ x, bigEndian 1 x = [x % 256] := by
    intro x; simp [bigEndian]
  refine ⟨rfl, rfl, ?_, Needle.Write_length n, ?_, ?_, ?_, toUint64_cast _, ?_, ?_, ?_, ?_⟩
  · intro w; rw [Needle.Write_eq, Needle.Write_eq]; simp
  all_goals rw [Needle.Write_eq, e8, e8, e4, e4, e4, e1]
  any_goals simp
  rw [Nat.add_comm, ← List.drop_drop]
  simp

/-- C5, the code at the failing input.  For DataSize = 2 ^ 32 - 1 the method `Size` returns
28, not 29 + DataSize = 4294967324: the sum is formed in `uint32` and wraps before it is
converted to `int64`. -/
theorem needle_size_wraps :
    Needle.Size
      { ID := 1, Cookie := 0, Data := List.replicate 4294967295 0, DataSize := 4294967295,
        Flags := 0, CreateTime := 0, FileName := "", MimeType := "", MD5 := "" } = 28 := by
  decide

/-- C6. Decode failure characterisation.  With data_size the big-endian value of bytes
12..15 of the reader: when the reader holds at least 29 + data_size bytes, `ReadNeedleFrom`
fails with `ErrCRCMismatch` exactly when the IEEE CRC-32 of the data_size bytes from offset 25
differs from the big-endian value of the four bytes after them, and otherwise returns the
needle made of the fields at their offsets and leaves the bytes after the record unread; when
the reader holds fewer than 29 + data_size bytes it returns `io.EOF` or `io.ErrUnexpectedEOF`,
so neither a needle nor `ErrCRCMismatch`. -/
theorem read_needle_from_failure (r : List Nat) :
    (29 + fromBigEndian ((r.drop 12).take 4) ≤ r.length →
      (ReadNeedleFrom r = .error .ErrCRCMismatch ↔
        ChecksumIEEE ((r.drop 25).take (fromBigEndian ((r.drop 12).take 4))) ≠
          fromBigEndian ((r.drop (25 + fromBigEndian ((r.drop 12).take 4))).take 4)) ∧
      (ChecksumIEEE ((r.drop 25).take (fromBigEndian ((r.drop 12).take 4))) =
          fromBigEndian ((r.drop (25 + fromBigEndian ((r.drop 12).take 4))).take 4) →
        ReadNeedleFrom r =
          .ok (decodedNeedle r, r.drop (29 + fromBigEndian ((r.drop 12).take 4))))) ∧
    (r.length < 29 + fromBigEndian ((r.drop 12).take 4) →
      ReadNeedleFrom r = .error .EOF ∨ ReadNeedleFrom r = .error .ErrUnexpectedEOF) := by
  refine ⟨fun h => ?_, ReadNeedleFrom_of_lt r⟩
  rw [ReadNeedleFrom_of_le r h]
  constructor
  · by_cases hc : ChecksumIEEE ((r.drop 25).take (fromBigEndian ((r.drop 12).take 4))) =
          fromBigEndian ((r.drop (25 + fromBigEndian ((r.drop 12).take 4))).take 4)
    · simp [hc]
    · simp [hc]
  · intro hc
    simp [hc]

set_option maxRecDepth 100000 in
/-- C6, instance: the encoding of the sample needle, whole and cut after 30 bytes. -/
theorem read_needle_from_failure_witness :
    29 + fromBigEndian (((sampleNeedle.Write []).drop 12).take 4) ≤ (sampleNeedle.Write []).length ∧
    ReadNeedleFrom (sampleNeedle.Write []) =
      .ok (decodedNeedle (sampleNeedle.Write []), []) ∧
    (ReadNeedleFrom ((sampleNeedle.Write []).take 30) = .error .EOF ∨
      ReadNeedleFrom ((sampleNeedle.Write []).take 30) = .error .ErrUnexpectedEOF) :=
  ⟨by decide,
   ((read_needle_from_failure (sampleNeedle.Write [])).1 (by decide)).2 (by decide),
   (read_needle_from_failure ((sampleNeedle.Write []).take 30)).2 (by decide)⟩

/-- C7 (amended). CRC soundness at the volume.  For every needle with DataSize =
len(Data), tombstone bit clear, that `WriteNeedle` appended successfully: if bit `k` (k < 8)
of byte `p` of the data region of its record (file offset old CurrentSize + 25 + p,
p < DataSize) is flipped and nothing else changes, `ReadNeedle` of its id fails with
`ErrCRCMismatch`. -/
theorem read_needle_detects_bit_flip (v : Volume) (n : Needle) (p k : Nat)
    (hs : n.DataSize = n.Data.length) (hlt : n.DataSize < 2 ^ 32) (hlive : n.Flags &&& 0x01 = 0)
    (hok : (v.WriteNeedle n).2 = none) (hp : p < n.Data.length) (hk : k < 8) :
    ((v.WriteNeedle n).1.corruptBit (v.CurrentSize.toNat + 25 + p) k).ReadNeedle n.ID =
      .error .ErrCRCMismatch :=
  ReadNeedle_flipBit v n p k hs hlt hlive hok hp hk

/-- C7, instance: bit 3 of the second data byte of the sample needle in a new volume. -/
theorem read_needle_detects_bit_flip_witness :
    sampleNeedle.DataSize = sampleNeedle.Data.length ∧ sampleNeedle.DataSize < 2 ^ 32 ∧
    sampleNeedle.Flags &&& 0x01 = 0 ∧ (sampleVolume.WriteNeedle sampleNeedle).2 = none ∧
    ((sampleVolume.WriteNeedle sampleNeedle).1.corruptBit
        (sampleVolume.CurrentSize.toNat + 25 + 1) 3).ReadNeedle sampleNeedle.ID =
      .error .ErrCRCMismatch :=
  ⟨rfl, by decide, by decide, by decide,
    read_needle_detects_bit_flip sampleVolume sampleNeedle 1 3 rfl (by decide) (by decide)
      (by decide) (by decide) (by decide)⟩

set_option maxRecDepth 100000 in
/-- C7, counterexample to the claim as stated.  Both needles have non-empty data and
are appended successfully to a new volume, and then bit 0 of the first byte of the data region
(file offset 25) is flipped.  The needle that carries the tombstone bit is reported as
`ErrNeedleNotFound`; the needle whose DataSize is smaller than len(Data) is read without
error, because the bytes that follow its data region are the checksum of the flipped byte. -/
theorem read_needle_bit_flip_counterexample :
    ((sampleVolume.WriteNeedle deadNeedle).2 = none ∧
      ((sampleVolume.WriteNeedle deadNeedle).1.corruptBit 25 0).ReadNeedle deadNeedle.ID =
        .error .ErrNeedleNotFound) ∧
    ((sampleVolume.WriteNeedle oddNeedle).2 = none ∧
      ((sampleVolume.WriteNeedle oddNeedle).1.corruptBit 25 0).ReadNeedle oddNeedle.ID =
        .ok { ID := 7, Cookie := 0, Data := [1], DataSize := 1, Flags := 0, CreateTime := 0,
              FileName := "", MimeType := "", MD5 := "" }) := by
  decide

set_option maxRecDepth 100000 in
/-- C8, the code at the failing input (scenario S5).  "abcd" is written to a new store
and gets id 1; the byte at file offset 25 of volume 1 is 97 and is changed to 120.
`Volume.ReadNeedle 1` on that volume fails with `ErrCRCMismatch`, but `Store.Read 1` returns
`ErrNeedleNotFound`: its loop drops the error of every volume. -/
theorem store_read_hides_crc_mismatch :
    (sampleStore.WriteWithMetadata [97, 98, 99, 100] "" "" sampleEnv).2 = .ok 1 ∧
    (mapGet (sampleStore.WriteWithMetadata [97, 98, 99, 100] "" "" sampleEnv).1.volumes 1).map
      (fun v => (v.File.getD 25 0, (v.corruptByte 25 120).ReadNeedle 1)) =
        some (97, .error .ErrCRCMismatch) ∧
    ((sampleStore.WriteWithMetadata [97, 98, 99, 100] "" "" sampleEnv).1.corruptByte 1 25 120).Read
      [1] 1 = .error .ErrNeedleNotFound := by
  decide

/-- C9 (amended). VolumeFull.  For every volume and needle whose sum CurrentSize +
n.Size() is an `int64` value (CurrentSize at least -2 ^ 63, the sum at most 2 ^ 63 - 1),
`WriteNeedle` returns `ErrVolumeFull` exactly when CurrentSize + n.Size() > MaxSize; in
that case Active is false afterwards and the file bytes, CurrentSize and the needle index
are what they were. -/
theorem write_needle_volume_full (v : Volume) (n : Needle)
    (hlo : -(2 ^ 63) ≤ v.CurrentSize) (hhi : v.CurrentSize + n.Size < 2 ^ 63) :
    ((v.WriteNeedleInt64 n).2 = some .ErrVolumeFull ↔ v.CurrentSize + n.Size > v.MaxSize) ∧
    (v.CurrentSize + n.Size > v.MaxSize →
      (v.WriteNeedleInt64 n).1.Active = false ∧ (v.WriteNeedleInt64 n).1.File = v.File ∧
      (v.WriteNeedleInt64 n).1.CurrentSize = v.CurrentSize ∧
      (v.WriteNeedleInt64 n).1.NeedleIndex = v.NeedleIndex) := by
  have hs := Needle.Size_nonneg n
  rw [WriteNeedleInt64_exact v n (by omega) hhi]
  unfold Volume.WriteNeedle
  by_cases h : v.CurrentSize + n.Size > v.MaxSize
  · simp [h]
  · by_cases h2 : v.CurrentSize < 0
    · simp [h, h2]
    · simp [h, h2]

/-- C9, instance: a 31-byte record does not fit a 64-byte volume that holds 40 bytes. -/
theorem write_needle_volume_full_witness :
    fullVolume.CurrentSize + sampleNeedle.Size > fullVolume.MaxSize ∧
    (fullVolume.WriteNeedleInt64 sampleNeedle).2 = some .ErrVolumeFull ∧
    (fullVolume.WriteNeedleInt64 sampleNeedle).1.Active = false ∧
    (fullVolume.WriteNeedleInt64 sampleNeedle).1.File = fullVolume.File ∧
    (fullVolume.WriteNeedleInt64 sampleNeedle).1.CurrentSize = fullVolume.CurrentSize ∧
    (fullVolume.WriteNeedleInt64 sampleNeedle).1.NeedleIndex = fullVolume.NeedleIndex :=
  ⟨by decide,
    (write_needle_volume_full fullVolume sampleNeedle (by decide) (by decide)).1.2 (by decide),
    (write_needle_volume_full fullVolume sampleNeedle (by decide) (by decide)).2 (by decide)⟩

/-- C9, counterexample to the claim as stated.  The volume has CurrentSize 2 ^ 63 - 1 (the
value of its catalog row) and MaxSize 100, the needle has Size() 31.  CurrentSize +
n.Size() exceeds MaxSize, but the `int64` sum of the capacity test wraps to
-2 ^ 63 + 30, the test is false, `WriteNeedle` does not return `ErrVolumeFull` and Active
stays true. -/
theorem write_needle_full_counterexample :
    brimVolume.CurrentSize + sampleNeedle.Size > brimVolume.MaxSize ∧
    addInt64 brimVolume.CurrentSize sampleNeedle.Size = -9223372036854775778 ∧
    (brimVolume.WriteNeedleInt64 sampleNeedle).2 ≠ some .ErrVolumeFull ∧
    (brimVolume.WriteNeedleInt64 sampleNeedle).1.Active = true := by
  have hsum : addInt64 brimVolume.CurrentSize sampleNeedle.Size = -9223372036854775778 := by
    decide
  have h1 : ¬ addInt64 brimVolume.CurrentSize sampleNeedle.Size > brimVolume.MaxSize := by
    rw [hsum]; decide
  have h2 : ¬ brimVolume.CurrentSize < 0 := by decide
  refine ⟨by decide, hsum, ?_, ?_⟩
  · unfold Volume.WriteNeedleInt64
    simp only [h1, h2, if_false]
    simp
  · unfold Volume.WriteNeedleInt64
    simp only [h1, h2, if_false]
    rfl

/-- C10. Append postcondition.  For every volume and needle with
CurrentSize + n.Size() <= MaxSize, a successful `WriteNeedle` found CurrentSize >= 0, wrote the
encoding of the needle at file offset old CurrentSize, left every file byte below old
CurrentSize as it was, set index[n.ID] to (old CurrentSize, n.DataSize, n.Flags, v.ID), left
every other index entry as it was, and increased CurrentSize by exactly n.Size(). -/
theorem write_needle_append (v : Volume) (n : Needle)
    (hfit : v.CurrentSize + n.Size ≤ v.MaxSize) (hok : (v.WriteNeedle n).2 = none) :
    0 ≤ v.CurrentSize ∧
    (((v.WriteNeedle n).1.File.drop v.CurrentSize.toNat).take (n.Write []).length = n.Write []) ∧
    (∀ i : Nat, (i : Int) < v.CurrentSize → i < v.File.length →
      (v.WriteNeedle n).1.File[i]? = v.File[i]?) ∧
    mapGet (v.WriteNeedle n).1.NeedleIndex n.ID =
      some { Offset := v.CurrentSize, Size := n.DataSize, Flags := n.Flags, VolumeID := v.ID } ∧
    (∀ k, k ≠ n.ID → mapGet (v.WriteNeedle n).1.NeedleIndex k = mapGet v.NeedleIndex k) ∧
    (v.WriteNeedle n).1.CurrentSize = v.CurrentSize + n.Size := by
  have h1 : ¬ v.CurrentSize + n.Size > v.MaxSize := by omega
  have h2 : ¬ v.CurrentSize < 0 := by
    intro h
    simp [Volume.WriteNeedle, h1, h] at hok
  simp only [Volume.WriteNeedle, h1, h2, if_false]
  refine ⟨by omega, writeAt_drop_take _ _ _, ?_, mapGet_mapSet_self _ _ _, ?_, trivial⟩
  · intro i hi hl
    exact writeAt_getElem? _ _ _ _ (by omega) hl
  · intro k hk
    exact mapGet_mapSet_ne _ _ _ _ hk

/-- C10, instance: the sample needle appended to a new volume. -/
theorem write_needle_append_witness :
    sampleVolume.CurrentSize + sampleNeedle.Size ≤ sampleVolume.MaxSize ∧
    (sampleVolume.WriteNeedle sampleNeedle).2 = none ∧
    (sampleVolume.WriteNeedle sampleNeedle).1.CurrentSize = 31 :=
  ⟨by decide, by decide,
    (write_needle_append sampleVolume sampleNeedle (by decide) (by decide)).2.2.2.2.2⟩

/-- C11 (amended). In every volume state reached from `NewVolume` on a new, empty file by
a sequence of WriteNeedle and DeleteNeedle calls whose needles have DataSize = len(Data)
and an encoded size below 2 ^ 32, CurrentSize is the byte length of the file and is the
sum of the encoded sizes of the needles appended successfully, tombstoned or not. -/
theorem volume_size_invariant (id : Nat) (maxSize : Int) (ops : List VolOp)
    (hw : ∀ op ∈ ops, op.WellSized) :
    ((NewVolume id [] maxSize).run ops).CurrentSize =
      (((NewVolume id [] maxSize).run ops).File.length : Int) ∧
    ((NewVolume id [] maxSize).run ops).CurrentSize =
      ((NewVolume id [] maxSize).appended ops : Int) := by
  obtain ⟨h1, h2⟩ := Volume.run_size ops (NewVolume id [] maxSize) hw rfl
  refine ⟨h1, ?_⟩
  rw [h2]
  simp [NewVolume]

/-- C11, instance: two appends, a tombstone and a third append that does not fit leave a
volume of 64 bytes with CurrentSize = file length = bytes appended = 62. -/
theorem volume_size_invariant_witness :
    (∀ op ∈ sampleVolOps, op.WellSized) ∧
    ((NewVolume 1 [] 64).run sampleVolOps).CurrentSize = 62 ∧
    (((NewVolume 1 [] 64).run sampleVolOps).File.length : Int) = 62 ∧
    ((NewVolume 1 [] 64).appended sampleVolOps : Int) = 62 :=
  ⟨by simp [sampleVolOps, VolOp.WellSized, sampleNeedle], by decide,
    (volume_size_invariant 1 64 sampleVolOps
      (by simp [sampleVolOps, VolOp.WellSized, sampleNeedle])).1.symm.trans (by decide),
    (volume_size_invariant 1 64 sampleVolOps
      (by simp [sampleVolOps, VolOp.WellSized, sampleNeedle])).2.symm.trans (by decide)⟩

/-- C11 as stated fails: WriteNeedle accepts a needle with DataSize = 1 and five data
bytes, advances CurrentSize by Size() = 30 and grows the new file to 34 bytes. -/
theorem volume_size_counterexample :
    ((NewVolume 1 [] 64).WriteNeedle oddNeedle).2 = none ∧
    ((NewVolume 1 [] 64).run [.write oddNeedle]).CurrentSize = 30 ∧
    ((NewVolume 1 [] 64).run [.write oddNeedle]).File.length = 34 ∧
    (NewVolume 1 [] 64).appended [.write oddNeedle] = 34 ∧
    ((NewVolume 1 [] 64).run [.write oddNeedle]).CurrentSize ≠
      (((NewVolume 1 [] 64).run [.write oddNeedle]).File.length : Int) := by
  decide

/-- C12 (amended). For every volume whose Active flag is false: a WriteNeedle call that
fails leaves the file, CurrentSize and the index unchanged; a call whose needle fits
(CurrentSize + Size() <= MaxSize, CurrentSize not negative) succeeds: it appends the record
at CurrentSize, indexes it and advances CurrentSize, and the volume stays inactive. -/
theorem inactive_volume_write (v : Volume) (n : Needle) (hin : v.Active = false) :
    ((v.WriteNeedle n).2 ≠ none →
      (v.WriteNeedle n).1.File = v.File ∧ (v.WriteNeedle n).1.CurrentSize = v.CurrentSize ∧
      (v.WriteNeedle n).1.NeedleIndex = v.NeedleIndex) ∧
    (0 ≤ v.CurrentSize → v.CurrentSize + n.Size ≤ v.MaxSize →
      (v.WriteNeedle n).2 = none ∧ (v.WriteNeedle n).1.Active = false ∧
      (v.WriteNeedle n).1.File = writeAt v.File v.CurrentSize.toNat (n.Write []) ∧
      (v.WriteNeedle n).1.CurrentSize = v.CurrentSize + n.Size ∧
      mapGet (v.WriteNeedle n).1.NeedleIndex n.ID =
        some { Offset := v.CurrentSize, Size := n.DataSize, Flags := n.Flags, VolumeID := v.ID }) := by
  refine ⟨fun h => ⟨(WriteNeedle_failed v n h).1, (WriteNeedle_failed v n h).2.2,
    (WriteNeedle_failed v n h).2.1⟩, ?_⟩
  intro h0 hfit
  have h1 : ¬ v.CurrentSize + n.Size > v.MaxSize := by omega
  have h2 : ¬ v.CurrentSize < 0 := by omega
  simp only [Volume.WriteNeedle, h1, h2, if_false, hin, mapGet_mapSet_self]
  simp

/-- C12, instance: an inactive, empty volume of 64 bytes takes a record of 31 bytes and
stays inactive. -/
theorem inactive_volume_write_witness :
    inactiveVolume.Active = false ∧
    (inactiveVolume.WriteNeedle sampleNeedle).2 = none ∧
    (inactiveVolume.WriteNeedle sampleNeedle).1.Active = false ∧
    (inactiveVolume.WriteNeedle sampleNeedle).1.CurrentSize =
      inactiveVolume.CurrentSize + sampleNeedle.Size :=
  ⟨rfl,
    ((inactive_volume_write inactiveVolume sampleNeedle rfl).2 (by decide) (by decide)).1,
    ((inactive_volume_write inactiveVolume sampleNeedle rfl).2 (by decide) (by decide)).2.1,
    ((inactive_volume_write inactiveVolume sampleNeedle rfl).2 (by decide) (by decide)).2.2.2.1⟩

set_option maxRecDepth 100000 in
/-- C12 as stated fails: WriteNeedle does not look at the Active flag.  An inactive volume
with room takes a record; and in a store with max_volume_size = 64, after a write of 20
bytes and a failed write of 40 bytes the active volume 2 is inactive in memory, and the
next write of 20 bytes is appended to it. -/
theorem inactive_volume_counterexample :
    inactiveVolume.Active = false ∧
    (inactiveVolume.WriteNeedle sampleNeedle).2 = none ∧
    inactiveVolume.File.length = 0 ∧
    (inactiveVolume.WriteNeedle sampleNeedle).1.File.length = 31 ∧
    (inactiveVolume.WriteNeedle sampleNeedle).1.CurrentSize = 31 ∧
    mapGet (inactiveVolume.WriteNeedle sampleNeedle).1.NeedleIndex 7 ≠ none ∧
    NewStore { MaxVolumeSize := 64, ReadOnly := false } { files := [], volumes := [] } []
      sampleStartEnv = .ok smallStore ∧
    rolledStore.activeVolID = 2 ∧
    (mapGet rolledStore.volumes 2).map (fun v => (v.Active, v.File.length, v.CurrentSize)) =
      some (false, 0, 0) ∧
    (rolledStore.WriteWithMetadata payload20 "" "" sampleEnv).2 = .ok 3 ∧
    (mapGet (rolledStore.WriteWithMetadata payload20 "" "" sampleEnv).1.volumes 2).map
      (fun v => (v.Active, v.File.length, v.CurrentSize)) = some (false, 49, 49) := by
  decide

/-- C13. `ReadNeedle(id)` fails with ErrNeedleNotFound when the id has no index entry or
its entry has flag bit 0 set; otherwise it decodes the record at the offset of the entry
and returns what the decoder returns, the needle or the decode error.  (An entry with a
negative offset has no record: the seek itself fails and its error is returned.) -/
theorem read_needle_lookup (v : Volume) (id : Nat) :
    (mapGet v.NeedleIndex id = none → v.ReadNeedle id = .error .ErrNeedleNotFound) ∧
    (∀ info, mapGet v.NeedleIndex id = some info → info.Flags &&& 0x01 ≠ 0 →
      v.ReadNeedle id = .error .ErrNeedleNotFound) ∧
    (∀ info, mapGet v.NeedleIndex id = some info → info.Flags &&& 0x01 = 0 →
      0 ≤ info.Offset →
      v.ReadNeedle id = (ReadNeedleFrom (v.File.drop info.Offset.toNat)).map Prod.fst) ∧
    (∀ info, mapGet v.NeedleIndex id = some info → info.Flags &&& 0x01 = 0 →
      info.Offset < 0 → v.ReadNeedle id = .error .ErrSeek) := by
  refine ⟨fun h => by simp [Volume.ReadNeedle, h], fun info h hf => ?_, fun info h hf ho => ?_,
    fun info h hf ho => ?_⟩
  · have hb : (info.Flags &&& 1 != 0) = true := by simpa using hf
    simp only [Volume.ReadNeedle, h, hb, if_true]
  · have hb : (info.Flags &&& 1 != 0) = false := by simpa using hf
    have h2 : ¬ info.Offset < 0 := by omega
    simp only [Volume.ReadNeedle, h, hb, h2, if_false, Bool.false_eq_true]
    cases ReadNeedleFrom (v.File.drop info.Offset.toNat) with
    | error e => rfl
    | ok p => rfl
  · have hb : (info.Flags &&& 1 != 0) = false := by simpa using hf
    simp only [Volume.ReadNeedle, h, hb, ho, if_true, if_false, Bool.false_eq_true]

set_option maxRecDepth 100000 in
/-- C13, instances on a volume that holds one record under id 7: an unknown id, the id
after its tombstone, the live id, the live id after a bit of its data was flipped, and an
entry with a negative offset. -/
theorem read_needle_lookup_witness :
    ((sampleVolume.WriteNeedle sampleNeedle).1.ReadNeedle 8 = .error .ErrNeedleNotFound) ∧
    (((sampleVolume.WriteNeedle sampleNeedle).1.DeleteNeedle 7).1.ReadNeedle 7 =
      .error .ErrNeedleNotFound) ∧
    ((sampleVolume.WriteNeedle sampleNeedle).1.ReadNeedle 7 =
      .ok (decodedNeedle (sampleNeedle.Write []))) ∧
    (((sampleVolume.WriteNeedle sampleNeedle).1.corruptBit 25 0).ReadNeedle 7 =
      .error .ErrCRCMismatch) ∧
    negativeVolume.ReadNeedle 7 = .error .ErrSeek :=
  ⟨(read_needle_lookup (sampleVolume.WriteNeedle sampleNeedle).1 8).1 (by decide),
   (read_needle_lookup ((sampleVolume.WriteNeedle sampleNeedle).1.DeleteNeedle 7).1 7).2.1
     { Offset := 0, Size := 2, Flags := 1, VolumeID := 1 } (by decide) (by decide),
   ((read_needle_lookup (sampleVolume.WriteNeedle sampleNeedle).1 7).2.2.1
     { Offset := 0, Size := 2, Flags := 0, VolumeID := 1 } (by decide) (by decide)
     (by decide)).trans (by decide),
   ((read_needle_lookup ((sampleVolume.WriteNeedle sampleNeedle).1.corruptBit 25 0) 7).2.2.1
     { Offset := 0, Size := 2, Flags := 0, VolumeID := 1 } (by decide) (by decide)
     (by decide)).trans (by decide),
   (read_needle_lookup negativeVolume 7).2.2.2
     { Offset := -1, Size := 2, Flags := 0, VolumeID := 1 } (by decide) (by decide) (by decide)⟩

/-- C14. For every sequence of calls on one store that keeps the counter below 2 ^ 64 - 1
(writes that succeed or fail, and deletes between them), the ids returned by the
successful WriteWithMetadata calls increase strictly in call order, hence are pairwise
distinct. -/
theorem issued_ids_increase (s : Store) (ops : List Op)
    (h : s.nextID + ops.length < 2 ^ 64) :
    (s.issued ops).Pairwise (fun a b => a < b) ∧ (s.issued ops).Nodup :=
  ⟨(issued_bounds ops s h).2,
    ((issued_bounds ops s h).2.imp (fun hab => Nat.ne_of_lt hab))⟩

set_option maxRecDepth 100000 in
/-- C14, instance: a write, a failed write, a delete and a write on a new store return the
ids 1 and 3. -/
theorem issued_ids_increase_witness :
    smallStore.issued mixedOps = [1, 3] ∧
    (smallStore.issued mixedOps).Pairwise (fun a b => a < b) ∧
    (smallStore.issued mixedOps).Nodup :=
  ⟨by decide, issued_ids_increase smallStore mixedOps (by decide)⟩

/-- C15 (amended). For every catalog whose file row ids are below 2 ^ 64 - 1, a store that
`NewStore` starts on it (loadFromDatabase from the counter value 1) has nextID = 1 when the
catalog has no file rows; otherwise nextID is one more than the id of some file row and
exceeds the id of every file row, deleted ones and rows of missing volumes included, that
is, it is the maximum id + 1.  So the first id issued after the restart exceeds every id
present in the catalog. -/
theorem startup_counter (cfg : Config) (db : Database) (disk : List (Nat × List Nat))
    (env : StartEnv) (s : Store) (h : NewStore cfg db disk env = .ok s)
    (hid : ∀ m ∈ db.files, m.ID + 1 < 2 ^ 64) :
    (db.files = [] → s.nextID = 1) ∧
    (db.files ≠ [] → ∃ m ∈ db.files, s.nextID = m.ID + 1) ∧
    (∀ m ∈ db.files, m.ID < s.nextID) ∧
    (∀ data filename mimeType e id,
      (s.WriteWithMetadata data filename mimeType e).2 = .ok id →
        id = s.nextID ∧ ∀ m ∈ db.files, m.ID < id) := by
  obtain ⟨c1, c2, c3⟩ := NewStore_counter cfg db disk env s h hid
  refine ⟨c1, c2, c3, fun data filename mimeType e id hw => ?_⟩
  obtain ⟨e1, _⟩ := WriteWithMetadata_ok s data filename mimeType e id hw
  exact ⟨e1, fun m hm => by rw [e1]; exact c3 m hm⟩


set_option maxRecDepth 100000 in
/-- C15, instance: after "hello" was written under id 1 and the store closed and opened
again, Read(1) returns "hello" and the next write returns id 2. -/
theorem startup_counter_witness :
    NewStore writtenStore.config writtenStore.Close.1 writtenStore.Close.2 sampleStartEnv =
      .ok reopenedStore ∧
    writtenStore.Close.1.files.map (fun m => m.ID) = [1] ∧
    reopenedStore.Read [1] 1 = .ok hello ∧
    (reopenedStore.WriteWithMetadata [120] "x" "" sampleEnv).2 = .ok 2 ∧
    (2 = reopenedStore.nextID ∧ ∀ m ∈ writtenStore.Close.1.files, m.ID < 2) :=
  ⟨by decide, by decide, by decide, by decide,
    (startup_counter writtenStore.config writtenStore.Close.1 writtenStore.Close.2 sampleStartEnv
      reopenedStore (by decide) (by decide)).2.2.2 [120] "x" "" sampleEnv 2 (by decide)⟩

set_option maxRecDepth 100000 in
/-- C15 as stated fails: on a catalog whose file row has the id 2 ^ 64 - 1 the counter
wraps to 0 at startup, and the first write after the start returns the id 0. -/
theorem startup_counter_counterexample :
    lastIdCatalog.files.map (fun m => m.ID) = [18446744073709551615] ∧
    (NewStore { MaxVolumeSize := 4096, ReadOnly := false } lastIdCatalog [] sampleStartEnv).map
      (fun s => s.nextID) = .ok 0 ∧
    (NewStore { MaxVolumeSize := 4096, ReadOnly := false } lastIdCatalog [] sampleStartEnv).map
      (fun s => (s.WriteWithMetadata hello "a.txt" "text/plain" sampleEnv).2) = .ok (.ok 0) := by
  decide

/-- C16 (amended). For every id returned by a successful write whose catalog insert was
not failed: after any further calls, a close and a reopen of the store (catalog ids below
2 ^ 64 - 1), the counter is above that id, and no write among calls that keep the counter
below 2 ^ 64 - 1 returns that id again. -/
theorem ids_survive_restart (s : Store) (data : List Nat) (filename mimeType : String)
    (env : Env) (id : Nat)
    (hw : (s.WriteWithMetadata data filename mimeType env).2 = .ok id)
    (hsave : env.saveMetaFails = false) (ops1 : List Op) (senv : StartEnv) (s2 : Store)
    (hre : ((s.WriteWithMetadata data filename mimeType env).1.run ops1).reopen senv = .ok s2)
    (hid : ∀ m ∈ ((s.WriteWithMetadata data filename mimeType env).1.run ops1).db.files,
      m.ID + 1 < 2 ^ 64)
    (ops2 : List Op) (hroom : s2.nextID + ops2.length < 2 ^ 64) :
    id < s2.nextID ∧ id ∉ s2.issued ops2 := by
  have hro : s.config.ReadOnly = false := by
    by_cases hro : s.config.ReadOnly = true
    · simp [Store.WriteWithMetadata, hro] at hw
    · simpa using hro
  have hrow := ((WriteWithMetadata_catalog s hro data filename mimeType env).2.2 id hw).2 hsave
  obtain ⟨row, hr, hrid⟩ := run_keeps_row ops1 _ id hrow
  have hlt : id < s2.nextID := by
    rw [← hrid]
    exact (NewStore_counter _ _ _ senv s2 hre hid).2.2 row hr
  refine ⟨hlt, fun hmem => ?_⟩
  have := ((issued_bounds ops2 s2 hroom).1 id hmem).1
  omega

set_option maxRecDepth 100000 in
/-- C16, instance: "hello" is written under id 1, the store is closed and opened again,
and the next write returns id 2. -/
theorem ids_survive_restart_witness :
    (sampleStore.WriteWithMetadata hello "a.txt" "text/plain" sampleEnv).2 = .ok 1 ∧
    reopenedStore.issued [.write [120] "x" "" sampleEnv] = [2] ∧
    (1 < reopenedStore.nextID ∧ 1 ∉ reopenedStore.issued [.write [120] "x" "" sampleEnv]) :=
  ⟨by decide, by decide,
    ids_survive_restart sampleStore hello "a.txt" "text/plain" sampleEnv 1 (by decide) rfl []
      sampleStartEnv reopenedStore (by decide) (by decide) [.write [120] "x" "" sampleEnv]
      (by decide)⟩

set_option maxRecDepth 100000 in
/-- C16 as stated fails: a write whose catalog insert fails returns id 1 and its needle is
readable, the catalog has no row for it, and after a close and reopen the next write
returns id 1 again. -/
theorem id_reused_counterexample :
    (sampleStore.WriteWithMetadata hello "a.txt" "text/plain" saveFaultEnv).2 = .ok 1 ∧
    orphanStore.Read [1] 1 = .ok hello ∧
    orphanStore.db.files = [] ∧
    (orphanStore.reopen sampleStartEnv).map (fun s => s.nextID) = .ok 1 ∧
    (orphanStore.reopen sampleStartEnv).map
      (fun s => (s.WriteWithMetadata [120] "x" "" sampleEnv).2) = .ok (.ok 1) := by
  decide

/-- C17 (amended). On a store that is not read-only `Delete(id)` returns nil or
ErrNeedleNotFound, and nil exactly when a visited volume has an index entry for the id (the
in-memory tombstone is then set), whatever the catalog update does: when the catalog
update fails, Delete still returns nil and the catalog is unchanged; when it does not
fail, the rows of the id carry deleted = true and flags = 1. -/
theorem delete_success (s : Store) (hro : s.config.ReadOnly = false) (order : List Nat)
    (id : Nat) (env : Env) :
    ((s.Delete order id env).2 = none ∨ (s.Delete order id env).2 = some .ErrNeedleNotFound) ∧
    ((s.Delete order id env).2 = none ↔
      ∃ k ∈ order, ∃ v, mapGet s.volumes k = some v ∧ mapGet v.NeedleIndex id ≠ none) ∧
    ((s.Delete order id env).2 = none → env.deleteMetaFails = true →
      (s.Delete order id env).1.db = s.db) ∧
    ((s.Delete order id env).2 = none → env.deleteMetaFails = false →
      (s.Delete order id env).1.db.files =
        s.db.files.map (fun m => if m.ID = id then { m with Deleted := true, Flags := 1 } else m)) := by
  have h := deleteRange_result s id env order
  simp only [Store.Delete, hro, Bool.false_eq_true, if_false]
  refine ⟨h.1, h.2.1, fun hok hf => ?_, fun hok hf => ?_⟩
  · rw [h.2.2 hok]; simp [Database.DeleteFileMetadata, hf]
  · rw [h.2.2 hok]; simp [Database.DeleteFileMetadata, hf]

set_option maxRecDepth 100000 in
/-- C17, instance: after "hello" is written under id 1, `Delete(1)` returns nil and marks
the catalog row, and `Delete(2)` returns ErrNeedleNotFound. -/
theorem delete_success_witness :
    writtenStore.config.ReadOnly = false ∧
    (writtenStore.Delete [1] 1 sampleEnv).2 = none ∧
    (writtenStore.Delete [1] 1 sampleEnv).1.db.files.map (fun m => (m.ID, m.Deleted, m.Flags)) =
      [(1, true, 1)] ∧
    (writtenStore.Delete [1] 2 sampleEnv).2 = some .ErrNeedleNotFound :=
  ⟨by decide,
   (delete_success writtenStore (by decide) [1] 1 sampleEnv).2.1.2 (by decide),
   (congrArg (fun l => l.map (fun m => (m.ID, m.Deleted, m.Flags)))
     ((delete_success writtenStore (by decide) [1] 1 sampleEnv).2.2.2 (by decide) rfl)).trans
     (by decide),
   by decide⟩

set_option maxRecDepth 100000 in
/-- C17 as stated fails: with a failing catalog update `Delete(1)` returns nil, and the
catalog row of id 1 still has deleted = false and flags = 0. -/
theorem delete_success_counterexample :
    deleteFaultEnv.deleteMetaFails = true ∧
    (writtenStore.db.DeleteFileMetadata 1 deleteFaultEnv.deleteMetaFails).2 = some .ErrDatabase ∧
    (writtenStore.Delete [1] 1 deleteFaultEnv).2 = none ∧
    (writtenStore.Delete [1] 1 deleteFaultEnv).1.db = writtenStore.db ∧
    (writtenStore.Delete [1] 1 deleteFaultEnv).1.db.files.map
      (fun m => (m.ID, m.Deleted, m.Flags)) = [(1, false, 0)] := by
  decide

/-- C18. On a store configured read-only, WriteWithMetadata and Delete fail with
ErrReadOnly for every input and return the store as it was: every volume, the volume
table, the counter and the catalog are unchanged. -/
theorem read_only_rejects (s : Store) (hro : s.config.ReadOnly = true) (data : List Nat)
    (filename mimeType : String) (order : List Nat) (id : Nat) (env : Env) :
    s.WriteWithMetadata data filename mimeType env = (s, .error .ErrReadOnly) ∧
    s.Delete order id env = (s, some .ErrReadOnly) := by
  simp [Store.WriteWithMetadata, Store.Delete, hro]

/-- C18, instance: the read-only sample store. -/
theorem read_only_rejects_witness :
    readOnlyStore.config.ReadOnly = true ∧
    readOnlyStore.WriteWithMetadata hello "a.txt" "text/plain" sampleEnv =
      (readOnlyStore, .error .ErrReadOnly) ∧
    readOnlyStore.Delete [1] 1 sampleEnv = (readOnlyStore, some .ErrReadOnly) :=
  ⟨rfl, read_only_rejects readOnlyStore rfl hello "a.txt" "text/plain" [1] 1 sampleEnv⟩

/-- C19 (amended). Every WriteWithMetadata call on a store that is not read-only, whether
it fails (VolumeFull after the retry, a failed open or catalog insert of the new volume, a
seek error) or succeeds, advances the id counter by exactly one (modulo 2 ^ 64). -/
theorem write_burns_id (s : Store) (hro : s.config.ReadOnly = false) (data : List Nat)
    (filename mimeType : String) (env : Env) :
    (s.WriteWithMetadata data filename mimeType env).1.nextID = (s.nextID + 1) % 2 ^ 64 ∧
    (s.nextID + 1 < 2 ^ 64 →
      (s.WriteWithMetadata data filename mimeType env).1.nextID = s.nextID + 1) :=
  ⟨(WriteWithMetadata_catalog s hro data filename mimeType env).1,
    fun hlt => by
      rw [(WriteWithMetadata_catalog s hro data filename mimeType env).1, Nat.mod_eq_of_lt hlt]⟩

set_option maxRecDepth 100000 in
/-- C19, instance: a write of 40 bytes to a new store with max_volume_size = 64 fails with
ErrVolumeFull after the retry and moves the counter from 1 to 2. -/
theorem write_burns_id_witness :
    smallStore.config.ReadOnly = false ∧
    (smallStore.WriteWithMetadata payload40 "" "" sampleEnv).2 = .error .ErrVolumeFull ∧
    smallStore.nextID = 1 ∧
    (smallStore.WriteWithMetadata payload40 "" "" sampleEnv).1.nextID = 2 :=
  ⟨rfl, by decide, rfl,
    (write_burns_id smallStore rfl payload40 "" "" sampleEnv).1.trans (by decide)⟩

/-- C19 as stated fails: a write to a read-only store fails with ErrReadOnly and leaves
the counter at 1. -/
theorem read_only_burns_no_id :
    readOnlyStore.config.ReadOnly = true ∧
    (readOnlyStore.WriteWithMetadata hello "a.txt" "text/plain" sampleEnv).2 =
      .error .ErrReadOnly ∧
    readOnlyStore.nextID = 1 ∧
    (readOnlyStore.WriteWithMetadata hello "a.txt" "text/plain" sampleEnv).1.nextID = 1 := by
  decide

/-- C20 (amended). Rollover.  For every store that is not read-only, whose active volume a cannot fit the
needle of the call (CurrentSize + Size() > MaxSize) while Size() <= max_volume_size, with
a + 1 below 2 ^ 32 and the file of volume a + 1 new, a WriteWithMetadata call in which
neither the open nor the catalog calls of the rollover fail succeeds with the id of the
call: volume a is inactive in memory and in every catalog row of a (and its row is still
there), the volume a + 1 is in the table and in the catalog as active and is the active
volume, and it holds exactly the needle, indexed at offset 0, with CurrentSize = Size();
no other volume of the table changes. -/
theorem write_rollover (s : Store) (data : List Nat) (filename mimeType : String) (env : Env)
    (vol : Volume)
    (hro : s.config.ReadOnly = false)
    (hvol : mapGet s.volumes s.activeVolID = some vol)
    (hfull : vol.CurrentSize + (buildNeedle s.nextID data filename mimeType env).Size >
      vol.MaxSize)
    (hfit : (buildNeedle s.nextID data filename mimeType env).Size ≤ s.config.MaxVolumeSize)
    (ha : s.activeVolID + 1 < 2 ^ 32)
    (hnew : s.openFile (s.activeVolID + 1) = [])
    (ho : env.openFails = false) (hsv : env.saveVolumeFails = false)
    (hsi : env.setInactiveFails = false) :
    (s.WriteWithMetadata data filename mimeType env).2 = .ok s.nextID ∧
    (s.WriteWithMetadata data filename mimeType env).1.activeVolID = s.activeVolID + 1 ∧
    mapGet (s.WriteWithMetadata data filename mimeType env).1.volumes s.activeVolID =
      some { vol with Active := false } ∧
    (∀ row ∈ (s.WriteWithMetadata data filename mimeType env).1.db.volumes,
      row.ID = s.activeVolID → row.Active = false) ∧
    ((∃ row ∈ s.db.volumes, row.ID = s.activeVolID) →
      ∃ row ∈ (s.WriteWithMetadata data filename mimeType env).1.db.volumes,
        row.ID = s.activeVolID) ∧
    mapGet (s.WriteWithMetadata data filename mimeType env).1.volumes (s.activeVolID + 1) =
      some { ID := s.activeVolID + 1,
             File := (buildNeedle s.nextID data filename mimeType env).Write [],
             MaxSize := s.config.MaxVolumeSize,
             CurrentSize := (buildNeedle s.nextID data filename mimeType env).Size,
             Active := true,
             NeedleIndex := [(s.nextID,
               { Offset := 0, Size := (buildNeedle s.nextID data filename mimeType env).DataSize,
                 Flags := 0, VolumeID := s.activeVolID + 1 })] } ∧
    (∃ row ∈ (s.WriteWithMetadata data filename mimeType env).1.db.volumes,
      row.ID = s.activeVolID + 1 ∧ row.Active = true ∧
      row.MaxSize = s.config.MaxVolumeSize ∧
      (env.updateSizeFails = false →
        row.CurrentSize = (buildNeedle s.nextID data filename mimeType env).Size)) ∧
    (∀ k, k ≠ s.activeVolID → k ≠ s.activeVolID + 1 →
      mapGet (s.WriteWithMetadata data filename mimeType env).1.volumes k =
        mapGet s.volumes k) := by
  have hb : s.activeVolID + 1 = (s.activeVolID + 1) % 2 ^ 32 := (Nat.mod_eq_of_lt ha).symm
  have hab : s.activeVolID ≠ s.activeVolID + 1 := by omega
  obtain ⟨r1, r2, r3, r4⟩ := WriteWithMetadata_rollover s data filename mimeType env vol _
    (s.activeVolID + 1) rfl hb hro hvol hfull hfit hnew ho hsv
  rw [hsi] at r4
  obtain ⟨i1, i2⟩ := SetVolumeInactive_rows s.db s.activeVolID
  obtain ⟨v1, v2, v3⟩ := SaveVolumeInfo_rows (s.db.SetVolumeInactive s.activeVolID false).1
    { ID := s.activeVolID + 1, MaxSize := s.config.MaxVolumeSize, CurrentSize := 0,
      Active := true }
  obtain ⟨u1, u2⟩ := UpdateVolumeSize_rows
    ((s.db.SetVolumeInactive s.activeVolID false).1.SaveVolumeInfo
      { ID := s.activeVolID + 1, MaxSize := s.config.MaxVolumeSize, CurrentSize := 0,
        Active := true } false).1 (s.activeVolID + 1)
    (buildNeedle s.nextID data filename mimeType env).Size env.updateSizeFails
  refine ⟨r1, r2, ?_, ?_, ?_, ?_, ?_, ?_⟩
  · rw [r3, mapGet_mapSet_ne _ _ _ _ hab, mapGet_mapSet_ne _ _ _ _ hab, mapGet_mapSet_self]
  · intro row hr hid
    rw [r4] at hr
    obtain ⟨r0, hr0, e1, e2⟩ := u1 row hr
    rw [← e2]
    rcases v1 r0 hr0 with h | h
    · rw [h] at e1
      simp only at e1
      omega
    · exact i1 r0 h (e1.trans hid)
  · intro hex
    obtain ⟨r0, hr0, e0⟩ := i2 hex
    obtain ⟨row, hr, e1, _⟩ := u2 r0 (v2 r0 hr0 (by rw [e0]; exact hab))
    exact ⟨row, r4 ▸ hr, e1.trans e0⟩
  · rw [r3, mapGet_mapSet_self, WriteNeedle_new _ _ _ hfit]
    rfl
  · obtain ⟨row, hr, e1, e2, e3, e4⟩ := u2 _ v3
    exact ⟨row, r4 ▸ hr, e1, e2, e3, fun hf => e4 hf rfl⟩
  · intro k hk1 hk2
    rw [r3, mapGet_mapSet_ne _ _ _ _ hk2, mapGet_mapSet_ne _ _ _ _ hk2,
      mapGet_mapSet_ne _ _ _ _ hk1]

set_option maxRecDepth 100000 in
/-- C20, instance: with max_volume_size = 64, the second write of 20 bytes rolls over from
volume 1 to volume 2, and three writes of 20 bytes leave volumes 1 and 2 inactive with
size 49 and volume 3 active with size 49, in memory and in the catalog. -/
theorem write_rollover_witness :
    NewStore { MaxVolumeSize := 64, ReadOnly := false } { files := [], volumes := [] } []
      sampleStartEnv = .ok smallStore ∧
    threeWrites.volumes.map (fun e => (e.1, e.2.Active, e.2.CurrentSize)) =
      [(3, true, 49), (2, false, 49), (1, false, 49)] ∧
    threeWrites.db.volumes.map (fun r => (r.ID, r.Active, r.CurrentSize)) =
      [(1, false, 49), (2, false, 49), (3, true, 49)] ∧
    threeWrites.activeVolID = 3 ∧
    filledStore.activeVolID = 1 ∧ filledStore.nextID = 2 ∧
    (filledStore.WriteWithMetadata payload20 "" "" sampleEnv).2 = .ok filledStore.nextID ∧
    (filledStore.WriteWithMetadata payload20 "" "" sampleEnv).1.activeVolID =
      filledStore.activeVolID + 1 :=
  ⟨by decide, by decide, by decide, by decide, by decide, by decide,
    (write_rollover filledStore payload20 "" "" sampleEnv
      ((NewVolume 1 [] 64).WriteNeedle (buildNeedle 1 payload20 "" "" sampleEnv)).1
      (by decide) (by decide) (by decide) (by decide) (by decide) (by decide) rfl rfl rfl).1,
    (write_rollover filledStore payload20 "" "" sampleEnv
      ((NewVolume 1 [] 64).WriteNeedle (buildNeedle 1 payload20 "" "" sampleEnv)).1
      (by decide) (by decide) (by decide) (by decide) (by decide) (by decide) rfl rfl rfl).2.1⟩

/-- C20, counterexample to the claim as stated.  A store of 64 bytes per volume takes
three writes of 20 bytes; the rollover of the second fails to mark volume 1 inactive in
the catalog and the rollover of the third fails to open a new file, so the catalog holds
volume 1 as active and volume 2 as inactive, each with 49 bytes.  After a close and
reopen the active volume is 1.  It cannot fit the next needle of 49 bytes, which is
within max_volume_size, and no open or catalog call fails; but `createNewVolume` takes the
number 2, opens the file of the old volume 2 and replaces its table entry, and the retry
returns ErrVolumeFull.  Id 2, readable before the call, is not found after it. -/
theorem write_rollover_counterexample :
    clash1.db.volumes =
      [{ ID := 1, MaxSize := 64, CurrentSize := 49, Active := true },
       { ID := 2, MaxSize := 64, CurrentSize := 49, Active := false }] ∧
    clash1.reopen sampleStartEnv = .ok clash2 ∧
    clash2.config.ReadOnly = false ∧ clash2.activeVolID = 1 ∧
    (mapGet clash2.volumes 1).map (fun v => (v.CurrentSize, v.MaxSize)) = some (49, 64) ∧
    (buildNeedle clash2.nextID payload20 "" "" sampleEnv).Size = 49 ∧
    (clash2.WriteWithMetadata payload20 "" "" sampleEnv).2 = .error .ErrVolumeFull ∧
    (mapGet (clash2.WriteWithMetadata payload20 "" "" sampleEnv).1.volumes 2).map
      (fun v => (v.CurrentSize, v.File.length, v.NeedleIndex)) = some (49, 49, []) ∧
    clash2.Read [1, 2] 2 = .ok payload20 ∧
    (clash2.WriteWithMetadata payload20 "" "" sampleEnv).1.Read [1, 2] 2 =
      .error .ErrNeedleNotFound := by
  decide!

/-- C21 (amended). Size bound.  Let a store be built by `NewStore` on an empty catalog and
an empty data directory with max_volume_size = S >= 0, and be driven through fewer than
2 ^ 32 - 1 writes and deletes in which every payload has 29 + len(data) < 2 ^ 32.  Then
every volume of the table has CurrentSize equal to its file length, and both are at most
S; and if the total encoded size (29 + len(data) each) of the needles written with success
exceeds S, the table holds volumes under two different numbers. -/
theorem size_bound (cfg : Config) (env0 : StartEnv) (s0 : Store)
    (h0 : NewStore cfg { files := [], volumes := [] } [] env0 = .ok s0)
    (hS : 0 ≤ cfg.MaxVolumeSize) (ops : List Op) (hop : ∀ op ∈ ops, op.Short)
    (hlen : ops.length + 1 < 2 ^ 32) :
    (∀ k v, mapGet (s0.run ops).volumes k = some v →
      v.CurrentSize = (v.File.length : Int) ∧ v.CurrentSize ≤ cfg.MaxVolumeSize ∧
      (v.File.length : Int) ≤ cfg.MaxVolumeSize) ∧
    (cfg.MaxVolumeSize < (s0.written ops : Int) →
      ∃ k1 k2 v1 v2, k1 ≠ k2 ∧ mapGet (s0.run ops).volumes k1 = some v1 ∧
        mapGet (s0.run ops).volumes k2 = some v2) := by
  obtain ⟨b1, b2, b3⟩ := Bounded_new cfg env0 s0 h0 hS
  obtain ⟨f1, f2⟩ := Fresh_new cfg env0 s0 h0
  have hb : (s0.run ops).Bounded :=
    Bounded_run ops s0 b1 (by rw [b3]; exact hS) hop f1 (by rw [f2]; omega)
  have hcfg : (s0.run ops).config = cfg := by rw [run_config, b3]
  constructor
  · intro k v hv
    obtain ⟨c1, c2, _⟩ := hb k v hv
    rw [hcfg] at c2
    exact ⟨c1, c2, by rw [← c1]; exact c2⟩
  · intro hgt
    rcases Count_run ops s0 0 hop (Or.inr b2) with h | ⟨v, hv, hw⟩
    · exact h
    · obtain ⟨_, c2, _⟩ := hb _ v hv
      rw [hcfg, hw] at c2
      push_cast at c2
      omega

set_option maxRecDepth 100000 in
/-- C21, instance: scenario S2, three writes of 20 bytes to a store with max_volume_size
64.  The 147 encoded bytes exceed 64, and the table holds more than one volume, each of
at most 64 bytes. -/
theorem size_bound_witness :
    (∀ k v, mapGet (smallStore.run [.write payload20 "" "" sampleEnv,
        .write payload20 "" "" sampleEnv, .write payload20 "" "" sampleEnv]).volumes k =
          some v →
      v.CurrentSize = (v.File.length : Int) ∧ v.CurrentSize ≤ 64 ∧
      (v.File.length : Int) ≤ 64) ∧
    smallStore.written [.write payload20 "" "" sampleEnv, .write payload20 "" "" sampleEnv,
      .write payload20 "" "" sampleEnv] = 147 ∧
    ∃ k1 k2 v1 v2, k1 ≠ k2 ∧
      mapGet (smallStore.run [.write payload20 "" "" sampleEnv,
        .write payload20 "" "" sampleEnv, .write payload20 "" "" sampleEnv]).volumes k1 =
          some v1 ∧
      mapGet (smallStore.run [.write payload20 "" "" sampleEnv,
        .write payload20 "" "" sampleEnv, .write payload20 "" "" sampleEnv]).volumes k2 =
          some v2 :=
  have h := size_bound { MaxVolumeSize := 64, ReadOnly := false } sampleStartEnv smallStore
    NewStore_small (by decide)
    [.write payload20 "" "" sampleEnv, .write payload20 "" "" sampleEnv,
      .write payload20 "" "" sampleEnv] (by decide) (by decide)
  ⟨h.1, by decide, h.2 (by decide)⟩

/-- C21, counterexample to the claim as stated.  The store is built on an empty catalog
and an empty data directory with max_volume_size = 4096.  One write of 2 ^ 32 zero bytes
returns id 1 without error: `uint32(len(data))` is 0, so `Size()` is 29 and the needle
passes the size test.  Afterwards the file of volume 1 holds 2 ^ 32 + 29 bytes, far more
than 4096, while CurrentSize is 29; the encoded size of the one needle written exceeds
4096, and volume 1 is the only volume of the table. -/
theorem size_bound_counterexample :
    NewStore { MaxVolumeSize := 4096, ReadOnly := false } { files := [], volumes := [] } []
      sampleStartEnv = .ok sampleStore ∧
    (sampleStore.WriteWithMetadata hugeData "" "" sampleEnv).2 = .ok 1 ∧
    (∃ v, mapGet (sampleStore.run [.write hugeData "" "" sampleEnv]).volumes 1 = some v ∧
      v.File.length = 4294967325 ∧ v.CurrentSize = 29) ∧
    (∀ k, k ≠ 1 → mapGet (sampleStore.run [.write hugeData "" "" sampleEnv]).volumes k = none) ∧
    sampleStore.written [.write hugeData "" "" sampleEnv] = 4294967325 := by
  have hlen : hugeData.length = 4294967296 := by
    unfold hugeData; rw [List.length_replicate]
  have hmod : hugeData.length % 2 ^ 32 = 0 := by rw [hlen]; rfl
  obtain ⟨h1, _⟩ := huge_write hugeData hmod
  obtain ⟨⟨v, g1, g2, g3⟩, g4, g5⟩ := huge_write_size hugeData hmod
  rw [hlen] at g2 g5
  exact ⟨NewStore_sample, h1, ⟨v, g1, g2, g3⟩, g4, g5⟩

/-- C22 (amended). Compaction preservation.  Let `vol` be a volume of the table whose
index describes its file (every live entry locates a well-formed record carrying the
entry's own id, `Volume.Sound`), let the compaction not be skipped and the temp file open
empty, let the loop visit every live id once, and let the live records together fit in
max_volume_size.  Then `compactVolume` returns nil, the volume installed under the same
number holds exactly the live needles in the order visited, `ReadNeedle(id)` on it returns
for every id what it returned on the source, `Store.Read(id)` returns for every id and
every visiting order what it returned before, and every id that is tombstoned or unknown
in the source gets ErrNeedleNotFound from the new volume. -/
theorem compaction_preserves_reads (s : Store) (vol : Volume) (env : CompactEnv)
    (hvol : mapGet s.volumes vol.ID = some vol) (hs : vol.Sound)
    (hnd : env.order.Nodup) (hall : ∀ id, vol.isLive id = true → id ∈ env.order)
    (hne : vol.NeedleIndex ≠ []) (hb : env.belowThreshold = false)
    (ho : env.openFails = false) (htemp : s.openFile ((vol.ID + 10000) % 2 ^ 32) = [])
    (hfit : (vol.liveSize (env.order.filter vol.isLive) : Int) ≤ s.config.MaxVolumeSize) :
    (s.compactVolume vol env).2 = none ∧
    (∃ newVol, mapGet (s.compactVolume vol env).1.volumes vol.ID = some newVol ∧
      newVol.File = encodeAll (readAll vol (env.order.filter vol.isLive)) ∧
      (∀ id, newVol.ReadNeedle id = vol.ReadNeedle id) ∧
      (∀ id, vol.isLive id = false → newVol.ReadNeedle id = .error .ErrNeedleNotFound)) ∧
    (∀ order id, (s.compactVolume vol env).1.Read order id = s.Read order id) := by
  obtain ⟨c1, c2, _⟩ := compactVolume_rewrite s vol env hne hb ho htemp
  have hreads := compacted_reads vol hs env.order ((vol.ID + 10000) % 2 ^ 32)
    s.config.MaxVolumeSize hnd hall hfit
  refine ⟨c1, ⟨_, by rw [c2, mapGet_mapSet_self], ?_, hreads, fun id hl => ?_⟩,
    fun order id => ?_⟩
  · have hF := (LoadIndex_encodeAll vol.ID s.config.MaxVolumeSize
      (readAll vol (env.order.filter vol.isLive)) (fun n hn =>
        ((readAll_sound vol hs (env.order.filter vol.isLive)
          (fun id hid => (List.mem_filter.1 hid).2)).2.1 n hn).1)).1
    rw [compacted_volume vol hs env.order _ _ hfit]
    exact hF
  · rw [hreads id]
    exact ReadNeedle_not_live vol id hl
  · apply Read_congr
    intro k
    rw [c2]
    by_cases hk : k = vol.ID
    · subst hk
      rw [mapGet_mapSet_self, hvol]
      simp only [Option.map_some', hreads id]
    · rw [mapGet_mapSet_ne _ _ _ _ hk]

set_option maxRecDepth 100000 in
/-- C22, instance: scenario S4, ten objects of 100 bytes of which the first four are
deleted, compacted with the ids visited in a scrambled order. -/
theorem compaction_preserves_reads_witness :
    (fourDeleted.compactVolume s4Volume s4Env).2 = none ∧
    (∃ newVol, mapGet (fourDeleted.compactVolume s4Volume s4Env).1.volumes s4Volume.ID =
        some newVol ∧
      newVol.File = encodeAll (readAll s4Volume (s4Env.order.filter s4Volume.isLive)) ∧
      (∀ id, newVol.ReadNeedle id = s4Volume.ReadNeedle id) ∧
      (∀ id, s4Volume.isLive id = false →
        newVol.ReadNeedle id = .error .ErrNeedleNotFound)) ∧
    (∀ order id, (fourDeleted.compactVolume s4Volume s4Env).1.Read order id =
      fourDeleted.Read order id) :=
  compaction_preserves_reads fourDeleted s4Volume s4Env s4Volume_get s4Volume_sound
    (by decide) (isLive_mem s4Volume s4Env.order (by decide!)) (by decide!) rfl rfl
    (by decide!) (by decide!)

/-- C22, counterexample to the claim as stated.  The store `stale4` is reached by three
writes, `Delete(1)`, a compaction of volume 1, a close and reopen, and one more write.
The second compaction of volume 1 finds the temp file empty, reads the needle of every
live id (2, 3, 4) and writes each of them without error, and returns nil; before it
`Read(2)` succeeds with "c", after it `Read(2)` is ErrNeedleNotFound, and `Read(3)`
returns "dd" before and "c" after. -/
theorem compaction_reads_counterexample :
    mapGet stale4.volumes 1 = some stale4Volume ∧
    stale4.openFile ((stale4Volume.ID + 10000) % 2 ^ 32) = [] ∧
    [1, 2, 3, 4].filter stale4Volume.isLive = [2, 3, 4] ∧
    ([2, 3, 4].map (fun id => (stale4Volume.ReadNeedle id).toOption.map (fun n => n.Data))) =
      [some [99], some [100, 100], some [100, 100]] ∧
    (stale4.compactVolume stale4Volume (allKeysEnv [1, 2, 3, 4])).2 = none ∧
    (mapGet stale5.volumes 1).map (fun v => v.File) =
      some (encodeAll (readAll stale4Volume [2, 3, 4])) ∧
    stale4.Read [1] 2 = .ok [99] ∧ stale5.Read [1] 2 = .error .ErrNeedleNotFound ∧
    stale4.Read [1] 3 = .ok [100, 100] ∧ stale5.Read [1] 3 = .ok [99] := by
  decide!

/-- C23, the code at the failing input.  On a catalog whose only volume row is inactive,
`NewStore` loads volume 1 and creates no volume, the table not being empty: the active
volume id stays 0 and names no volume of the table, and the next write finds no volume
under it (in Go a nil pointer, on which `WriteNeedle` is called). -/
theorem startup_all_inactive :
    NewStore { MaxVolumeSize := 4096, ReadOnly := false } inactiveCatalog [] sampleStartEnv =
      .ok inactiveStart ∧
    inactiveStart.activeVolID = 0 ∧
    mapGet inactiveStart.volumes inactiveStart.activeVolID = none ∧
    inactiveStart.volumeIDs = [1] ∧
    (inactiveStart.WriteWithMetadata hello "a.txt" "text/plain" sampleEnv).2 =
      .error .ErrNilVolume := by
  decide

/-- C24 (amended). Recovery preserves reads.  Let a store be built by `NewStore` on an
empty catalog and be driven through fewer than 2 ^ 32 - 1 calls of `WriteWithMetadata` and
`Delete` whose catalog insert (for a write) or catalog update (for a delete) succeeds, and
no compaction.  Then a reopen after `Close`, from the same catalog and files and with
every catalog query answered and every file opened, returns a store, and in it `Read(id)`
returns for every id exactly the result it returned before the restart, whatever the order
in which the volume table is visited before and after.  For an id that a write of the run
returned for a payload with 29 + len(data) < 2 ^ 32 and that no later call deleted, that
result is the payload; for an id that a `Delete` of the run tombstoned, and for an id that
has no file row in the catalog or whose row carries the tombstone bit, it is
ErrNeedleNotFound. -/
theorem restart_preserves_reads (cfg : Config) (disk : List (Nat × List Nat))
    (env0 senv : StartEnv) (s0 : Store)
    (h0 : NewStore cfg { files := [], volumes := [] } disk env0 = .ok s0) (ops : List Op)
    (hok : ∀ op ∈ ops, op.CatalogOk) (hlen : ops.length + 1 < 2 ^ 32)
    (h1 : senv.loadVolumesFails = false) (h2 : senv.loadMetasFails = false)
    (h3 : ∀ k, senv.openFails k = false) :
    ∃ s2, (s0.run ops).reopen senv = .ok s2 ∧
      (∀ id o1 o2, o1.Perm (s0.run ops).volumeIDs → o2.Perm s2.volumeIDs →
        s2.Read o2 id = (s0.run ops).Read o1 id) ∧
      (∀ ops1 ops2 d filename mimeType env id,
        ops = ops1 ++ .write d filename mimeType env :: ops2 → d.length + 29 < 2 ^ 32 →
        ((s0.run ops1).WriteWithMetadata d filename mimeType env).2 = .ok id →
        (∀ op ∈ ops2, op.isDeleteOf id = false) →
        ∀ o1 o2, o1.Perm (s0.run ops).volumeIDs → o2.Perm s2.volumeIDs →
          (s0.run ops).Read o1 id = .ok d ∧ s2.Read o2 id = .ok d) ∧
      (∀ ops1 ops2 order id env, ops = ops1 ++ .delete order id env :: ops2 →
        ((s0.run ops1).Delete order id env).2 = none →
        ∀ o1 o2, (s0.run ops).Read o1 id = .error .ErrNeedleNotFound ∧
          s2.Read o2 id = .error .ErrNeedleNotFound) ∧
      (∀ id, (∀ m ∈ (s0.run ops).db.files, m.ID = id → m.Flags &&& 0x01 ≠ 0) →
        ∀ o1 o2, (s0.run ops).Read o1 id = .error .ErrNeedleNotFound ∧
          s2.Read o2 id = .error .ErrNeedleNotFound) := by
  obtain ⟨m0, n0, a0⟩ := Mirrored_new cfg disk env0 s0 h0
  obtain ⟨i0, _⟩ := IdsSound_new cfg disk env0 s0 h0
  have hm : (s0.run ops).Mirrored :=
    Mirrored_run ops s0 m0 hok (by rw [n0]; omega) (by rw [a0]; omega)
  obtain ⟨s2, e1, e2, e3⟩ := reopen_mirrored (s0.run ops) senv hm h1 h2 h3
  have hsame : ∀ id o1 o2, o1.Perm (s0.run ops).volumeIDs → o2.Perm s2.volumeIDs →
      s2.Read o2 id = (s0.run ops).Read o1 id := by
    intro id o1 o2 p1 p2
    rw [Read_congr (s0.run ops) s2 id (fun k => e3 k id) o2]
    apply Read_any_order (s0.run ops) hm id o2 o1
    · intro k hk
      have : mapGet s2.volumes k ≠ none := fun hc => hk ((e2 k).1 hc)
      exact p2.mem_iff.2 ((mapGet_keys_iff s2.volumes k).2 this)
    · intro k hk
      exact p1.mem_iff.2 ((mapGet_keys_iff (s0.run ops).volumes k).2 hk)
  refine ⟨s2, e1, hsame, ?_, ?_, fun id hrows o1 o2 => ?_⟩
  · intro ops1 ops2 d filename mimeType env id hops hd hw hnd o1 o2 p1 p2
    have hl : ops.length = ops1.length + (ops2.length + 1) := by
      rw [hops, List.length_append, List.length_cons]
    have hs1 : (s0.run ops1).IdsSound := IdsSound_run ops1 s0 i0 (by rw [n0]; omega)
    have hrun : s0.run ops =
        ((s0.run ops1).WriteWithMetadata d filename mimeType env).1.run ops2 := by
      rw [hops, ← run_run]
      rfl
    have hbefore : (s0.run ops).Read o1 id = .ok d := by
      rw [hrun] at p1 ⊢
      exact Read_after_write (s0.run ops1) _ d filename mimeType env id (IdsSound_unheld _ hs1)
        hd (Prod.ext rfl hw) ops2 hnd (by omega) o1 p1
    exact ⟨hbefore, by rw [hsame id o1 o2 p1 p2]; exact hbefore⟩
  · intro ops1 ops2 order id env hops hdel o1 o2
    have hl : ops.length = ops1.length + (ops2.length + 1) := by
      rw [hops, List.length_append, List.length_cons]
    have hs1 : (s0.run ops1).IdsSound := IdsSound_run ops1 s0 i0 (by rw [n0]; omega)
    have hn1 : (s0.run ops1).nextID ≤ 1 + ops1.length := by
      have := run_nextID_le ops1 s0 (by rw [n0]; omega)
      rw [n0] at this
      exact this
    have hrun : s0.run ops = ((s0.run ops1).Delete order id env).1.run ops2 := by
      rw [hops, ← run_run]
      rfl
    obtain ⟨t1, _⟩ := Delete_tombstone (s0.run ops1) order id env
      (IdsSound_heldOnce _ hs1 id) hdel
    obtain ⟨_, dn, _, _, d5⟩ := Delete_cases (s0.run ops1) id env order
    have hid : id < (s0.run ops1).nextID := by
      rcases d5 with ⟨_, hne⟩ | ⟨a, va, hva, hd2, _, _⟩
      · exact absurd hdel hne
      · exact hs1.1 a id ⟨va, hva, DeleteNeedle_ok_held va id hd2⟩
    have hno : NoLive (s0.run ops).volumes id := by
      rw [hrun]
      exact NoLive_run ops2 _ id t1 (by rw [dn]; exact hid) (by rw [dn]; omega)
    refine ⟨NoLive_read _ id hno o1, ?_⟩
    rw [Read_congr (s0.run ops) s2 id (fun k => e3 k id) o2]
    exact NoLive_read _ id hno o2
  · rw [Read_congr (s0.run ops) s2 id (fun k => e3 k id) o2]
    exact ⟨Mirrored_read_none _ hm id hrows o1, Mirrored_read_none _ hm id hrows o2⟩

set_option maxRecDepth 100000 in
/-- C24, instance: "hello" written to the new store as id 1, a second object written as
id 2 and deleted, then the restart: id 1 reads "hello" and id 2 is not found, before and
after. -/
theorem restart_preserves_reads_witness :
    ∃ s2, (sampleStore.run (.write hello "a.txt" "text/plain" sampleEnv :: sampleOps)).reopen
        sampleStartEnv = .ok s2 ∧
      (∀ id o1 o2,
        o1.Perm (sampleStore.run
          (.write hello "a.txt" "text/plain" sampleEnv :: sampleOps)).volumeIDs →
        o2.Perm s2.volumeIDs →
        s2.Read o2 id =
          (sampleStore.run (.write hello "a.txt" "text/plain" sampleEnv :: sampleOps)).Read
            o1 id) ∧
      (∀ o1 o2,
        o1.Perm (sampleStore.run
          (.write hello "a.txt" "text/plain" sampleEnv :: sampleOps)).volumeIDs →
        o2.Perm s2.volumeIDs →
        (sampleStore.run (.write hello "a.txt" "text/plain" sampleEnv :: sampleOps)).Read
          o1 1 = .ok hello ∧ s2.Read o2 1 = .ok hello) ∧
      (∀ o1 o2,
        (sampleStore.run (.write hello "a.txt" "text/plain" sampleEnv :: sampleOps)).Read
          o1 2 = .error .ErrNeedleNotFound ∧ s2.Read o2 2 = .error .ErrNeedleNotFound) := by
  obtain ⟨s2, e1, hsame, hlive, hdel, _⟩ :=
    restart_preserves_reads { MaxVolumeSize := 4096, ReadOnly := false } [] sampleStartEnv
      sampleStartEnv sampleStore NewStore_sample
      (.write hello "a.txt" "text/plain" sampleEnv :: sampleOps) (by decide) (by decide)
      rfl rfl (fun _ => rfl)
  exact ⟨s2, e1, hsame,
    hlive [] sampleOps hello "a.txt" "text/plain" sampleEnv 1 rfl (by decide) (by decide)
      (by simp [sampleOps, Op.isDeleteOf]),
    hdel [.write hello "a.txt" "text/plain" sampleEnv, .write [120] "x" "" sampleEnv] []
      [1] 2 sampleEnv rfl (by decide)⟩

/-- C24, counterexample to the claim as stated.  A new store of 8 GiB per volume takes
one write of 2 ^ 32 zero bytes, which returns id 1, and the catalog insert succeeds.
After the close and reopen `Read(1)` returns the empty string, as before the restart, not
the bytes written. -/
theorem restart_bytes_counterexample :
    NewStore { MaxVolumeSize := 8589934592, ReadOnly := false } { files := [], volumes := [] }
      [] sampleStartEnv = .ok bigStore ∧
    hugeData.length = 4294967296 ∧
    (bigStore.WriteWithMetadata hugeData "" "" sampleEnv).2 = .ok 1 ∧
    (bigStore.WriteWithMetadata hugeData "" "" sampleEnv).1.Read [1] 1 = .ok [] ∧
    ∃ s2, (bigStore.run [.write hugeData "" "" sampleEnv]).reopen sampleStartEnv = .ok s2 ∧
      s2.Read [1] 1 = .ok [] := by
  have hlen : hugeData.length = 4294967296 := by
    unfold hugeData; rw [List.length_replicate]
  have hd : hugeData = bigEndian 4 0 ++ List.replicate 4294967292 0 := by
    unfold hugeData
    rw [show (4294967296 : Nat) = 4 + 4294967292 from rfl, List.replicate_add]
    rfl
  obtain ⟨h1, h2⟩ := huge_payload hugeData _ hd (by rw [hlen]; rfl)
  exact ⟨NewStore_big, hlen, h1, h2, huge_restart hugeData _ hd (by rw [hlen]; rfl)⟩

/-- C25. `FindByFilename` returns the oldest row of a name, not the most recent one.  Two
S3 requests PUT /b/k, with the bodies "v1" and "v2", succeed with the ids 1 and 2 and
leave two non-deleted rows named b/k.  `FindByFilename` returns the row with id 1, and
the S3 request GET /b/k answers with the body "v1" of the first PUT. -/
theorem s3_get_serves_first_put :
    (S3Handler.PutObject sampleStore "b" "k" [118, 49] "" sampleEnv).2 = .ok 1 ∧
    (S3Handler.PutObject put1 "b" "k" [118, 50] "" sampleEnv).2 = .ok 2 ∧
    put2.db.files.map (fun m => (m.ID, m.FileName, m.Deleted)) =
      [(1, "b/k", false), (2, "b/k", false)] ∧
    (put2.FindByFilename "b/k" false).map (fun m => m.ID) = .ok 1 ∧
    put2.Read [1] 2 = .ok [118, 50] ∧
    S3Handler.GetObject put2 [1] "b" "k" false false =
      .ok ([118, 49], "application/octet-stream") := by
  decide!

/-- C26 (amended). For every catalog, every prefix p without the characters `%`, `_` and
the escape character of the engine, and every limit n: every row `ListByPrefix(p, n)`
returns is a row of the catalog with deleted = false whose file_name begins with
characters the engine matches with those of p (with p itself, when the engine compares
exactly); for n > 0 at most n rows are returned, and for n <= 0 all such rows. -/
theorem list_by_literal_pfx (d : Database) (e : Engine) (pfx : String) (limit : Int)
    (rows : List FileMetadata)
    (hp : ∀ c ∈ pfx.data, c ≠ '%' ∧ c ≠ '_' ∧ some c ≠ e.escape)
    (h : d.ListByPrefix e pfx limit false = .ok rows) :
    (0 < limit → rows.length ≤ limit.toNat) ∧
    (limit ≤ 0 → rows =
      d.files.filter (fun m => like e (pfx.data ++ ['%']) m.FileName.data && !m.Deleted)) ∧
    (∀ m ∈ rows, m ∈ d.files ∧ m.Deleted = false ∧
      ∃ q r, m.FileName.data = q ++ r ∧
        List.Forall₂ (fun a b => e.same a b = true) pfx.data q) ∧
    (e = exactEngine → ∀ m ∈ rows, pfx.data <+: m.FileName.data) := by
  unfold Database.ListByPrefix at h
  simp only [Bool.false_eq_true, if_false, Except.ok.injEq] at h
  have hmem : ∀ m ∈ rows, m ∈ d.files ∧ m.Deleted = false ∧
      ∃ q r, m.FileName.data = q ++ r ∧
        List.Forall₂ (fun a b => e.same a b = true) pfx.data q := by
    intro m hm
    have hm2 : m ∈ d.files.filter
        (fun m => like e (pfx.data ++ ['%']) m.FileName.data && !m.Deleted) := by
      rw [← h] at hm
      split at hm
      · exact List.mem_of_mem_take hm
      · exact hm
    obtain ⟨h1, h2⟩ := List.mem_filter.1 hm2
    simp only [Bool.and_eq_true, Bool.not_eq_true'] at h2
    exact ⟨h1, h2.2, (like_literal e pfx.data hp _).1 h2.1⟩
  refine ⟨fun hl => ?_, fun hl => ?_, hmem, fun he m hm => ?_⟩
  · rw [← h, if_pos hl, List.length_take]
    exact Nat.min_le_left _ _
  · rw [← h, if_neg (by omega)]
  · obtain ⟨_, _, q, r, hqr, hf⟩ := hmem m hm
    subst he
    rw [hqr, forall2_exact _ _ hf]
    exact List.prefix_append _ _

/-- C26, instance: the prefix a with limit 2 on the sample catalog gives rows 1 and 3. -/
theorem list_by_literal_pfx_witness :
    nameCatalog.ListByPrefix exactEngine "a" 2 false =
      .ok [nameRow 1 "a.txt" false, nameRow 3 "a.txt" false] ∧
    [nameRow 1 "a.txt" false, nameRow 3 "a.txt" false].length ≤ (2 : Int).toNat ∧
    (∀ m ∈ [nameRow 1 "a.txt" false, nameRow 3 "a.txt" false], "a".data <+: m.FileName.data) :=
  ⟨by decide,
    (list_by_literal_pfx nameCatalog exactEngine "a" 2
      [nameRow 1 "a.txt" false, nameRow 3 "a.txt" false] (by decide) (by decide)).1
      (by decide),
    (list_by_literal_pfx nameCatalog exactEngine "a" 2
      [nameRow 1 "a.txt" false, nameRow 3 "a.txt" false] (by decide) (by decide)).2.2.2 rfl⟩

/-- C26 as stated fails: with limit 0 three rows are returned; the prefix `_` returns
a.txt and b.txt, and the prefix `%c` returns abc, none of which starts with the prefix. -/
theorem list_by_pfx_counterexample :
    (nameCatalog.ListByPrefix exactEngine "a" 0 false).map (fun l => l.map (fun m => m.ID)) =
      .ok [1, 3, 5] ∧
    (nameCatalog.ListByPrefix exactEngine "_" 2 false).map
      (fun l => l.map (fun m => m.FileName)) = .ok ["a.txt", "b.txt"] ∧
    (nameCatalog.ListByPrefix exactEngine "%c" 2 false).map
      (fun l => l.map (fun m => m.FileName)) = .ok ["abc"] := by
  decide

/-- C27 (amended). For every volume with an empty index whose file is the concatenation
of the encodings of needles n1..nk (fields within their Go types, DataSize = len(Data),
encoded size below 2 ^ 32, pairwise distinct ids) followed by bytes that do not decode as
a needle (possibly none), `LoadIndex` returns no error, leaves the file unchanged, sets
CurrentSize to the sum of the k encoded sizes, and builds an index with exactly the ids
n1..nk, each at the offset that is the sum of the encoded sizes of the needles before it,
with the size and flags of the record. -/
theorem load_index_rebuilds (v : Volume) (ns : List Needle) (tail : List Nat)
    (hidx : v.NeedleIndex = []) (hfile : v.File = encodeAll ns ++ tail)
    (hwf : ∀ n ∈ ns, n.WellFormed) (hnd : (ns.map (fun n => n.ID)).Nodup)
    (htail : (ReadNeedleFrom tail).toOption = none) :
    v.LoadIndex.2 = none ∧ v.LoadIndex.1.File = v.File ∧
    v.LoadIndex.1.CurrentSize = sizeAll ns ∧
    (∀ i n, ns[i]? = some n →
      mapGet v.LoadIndex.1.NeedleIndex n.ID =
        some { Offset := sizeAll (ns.take i), Size := n.DataSize, Flags := n.Flags,
               VolumeID := v.ID }) ∧
    (∀ id, id ∉ ns.map (fun n => n.ID) → mapGet v.LoadIndex.1.NeedleIndex id = none) := by
  have hloop := loadIndexLoop_encodeAll v.ID ns tail hwf htail
    ((encodeAll ns ++ tail).length + 1)
    (by
      have := sizeAll_le_length ns
      rw [List.length_append, encodeAll_length]
      omega) 0 []
  simp only [Volume.LoadIndex, hidx]
  rw [hfile, hloop]
  refine ⟨trivial, trivial, by simp, fun i n hi => ?_, fun id hid => ?_⟩
  · simp only
    rw [indexAll_get v.ID ns 0 [] hnd i n hi]
    simp
  · simp only
    rw [indexAll_other v.ID ns 0 [] id hid]
    rfl

set_option maxRecDepth 100000 in
/-- C27, instance: two records of 31 bytes followed by three bytes. -/
theorem load_index_rebuilds_witness :
    scannedVolume.LoadIndex.2 = none ∧ scannedVolume.LoadIndex.1.File = scannedVolume.File ∧
    scannedVolume.LoadIndex.1.CurrentSize = 62 ∧
    scannedVolume.LoadIndex.1.NeedleIndex =
      [(8, { Offset := 31, Size := 2, Flags := 1, VolumeID := 1 }),
       (7, { Offset := 0, Size := 2, Flags := 0, VolumeID := 1 })] ∧
    scannedVolume.File.length = 65 :=
  ⟨(load_index_rebuilds scannedVolume [sampleNeedle, { sampleNeedle with ID := 8, Flags := 1 }]
      [1, 2, 3] rfl rfl (by decide) (by decide) (by decide)).1,
   (load_index_rebuilds scannedVolume [sampleNeedle, { sampleNeedle with ID := 8, Flags := 1 }]
      [1, 2, 3] rfl rfl (by decide) (by decide) (by decide)).2.1,
   by decide, by decide, by decide⟩

set_option maxRecDepth 100000 in
/-- C27 as stated fails: the file is the encoding (34 bytes) of a needle with DataSize 1
and five data bytes; the record does not decode, and `LoadIndex` leaves the index empty
and CurrentSize 0. -/
theorem load_index_counterexample :
    oddVolume.NeedleIndex = [] ∧ oddVolume.File = encodeAll [oddNeedle] ++ [] ∧
    (oddNeedle.Write []).length = 34 ∧
    oddVolume.LoadIndex.1.NeedleIndex = [] ∧ oddVolume.LoadIndex.1.CurrentSize = 0 := by
  decide

/-- C28 (amended). Round trip across compaction, and what a restart makes of it.  Let
`WriteWithMetadata d` return `id` (29 + len(d) < 2 ^ 32, no volume indexing the id
beforehand), let fewer than 2 ^ 32 further writes and deletes of other ids follow, and let
a volume of the table whose index describes its file then be compacted (not skipped, temp
file empty, every live id visited once, the live records fitting in max_volume_size).
Then `Read(id)` on the running store still returns exactly `d`.  The compaction leaves
the file rows of the catalog as they were, so a store reopened from that catalog (rows
with distinct ids, every query answered, every file opened) indexes each id with
{offset, size, flags, volume_id} of its row from before the compaction. -/
theorem compaction_round_trip (s s1 : Store) (d : List Nat) (filename mimeType : String)
    (env : Env) (id : Nat) (hu : s.Unheld s.nextID) (hlen : d.length + 29 < 2 ^ 32)
    (hw : s.WriteWithMetadata d filename mimeType env = (s1, .ok id))
    (ops : List Op) (hops : ∀ op ∈ ops, op.isDeleteOf id = false) (hshort : ops.length < 2 ^ 32)
    (vol : Volume) (cenv : CompactEnv)
    (hvol : mapGet (s1.run ops).volumes vol.ID = some vol) (hs : vol.Sound)
    (hnd : cenv.order.Nodup) (hall : ∀ i, vol.isLive i = true → i ∈ cenv.order)
    (hne : vol.NeedleIndex ≠ []) (hb : cenv.belowThreshold = false)
    (ho : cenv.openFails = false)
    (htemp : (s1.run ops).openFile ((vol.ID + 10000) % 2 ^ 32) = [])
    (hfit : (vol.liveSize (cenv.order.filter vol.isLive) : Int) ≤
      (s1.run ops).config.MaxVolumeSize)
    (order : List Nat) (hord : order.Perm (s1.run ops).volumeIDs) :
    ((s1.run ops).compactVolume vol cenv).1.Read order id = .ok d ∧
    ((s1.run ops).compactVolume vol cenv).1.db.files = (s1.run ops).db.files ∧
    (∀ senv : StartEnv, senv.loadVolumesFails = false → senv.loadMetasFails = false →
      (∀ k, senv.openFails k = false) → (s1.run ops).db.volumes ≠ [] →
      ((s1.run ops).db.volumes.map (fun i => i.ID)).Nodup →
      ((s1.run ops).db.files.map (fun m => m.ID)).Nodup →
      ∃ s2, ((s1.run ops).compactVolume vol cenv).1.reopen senv = .ok s2 ∧
        ∀ k v2, mapGet s2.volumes k = some v2 → ∀ i info,
          mapGet v2.NeedleIndex i = some info ↔
            ∃ m ∈ (s1.run ops).db.files, m.ID = i ∧ m.VolumeID = k ∧
              info = { Offset := m.Offset, Size := m.Size, Flags := m.Flags,
                       VolumeID := m.VolumeID }) := by
  obtain ⟨_, _, c3, c4, _⟩ := compactVolume_rewrite (s1.run ops) vol cenv hne hb ho htemp
  refine ⟨?_, c3, ?_⟩
  · rw [compactVolume_Read (s1.run ops) vol cenv hvol hs hnd hall hne hb ho htemp hfit]
    exact Read_after_write s s1 d filename mimeType env id hu hlen hw ops hops hshort order hord
  · intro senv h1 h2 h3 hvne hndv hndf
    have hids : ((s1.run ops).compactVolume vol cenv).1.db.volumes.map (fun i => i.ID) =
        (s1.run ops).db.volumes.map (fun i => i.ID) := by
      rw [c4, UpdateVolumeSize_ids]
    have hvne2 : ((s1.run ops).compactVolume vol cenv).1.db.volumes ≠ [] := by
      intro h
      rw [h] at hids
      exact hvne (List.map_eq_nil_iff.1 hids.symm)
    obtain ⟨s2, e1, _, _, e4, e5⟩ := NewStore_get
      ((s1.run ops).compactVolume vol cenv).1.config
      ((s1.run ops).compactVolume vol cenv).1.db
      ((s1.run ops).compactVolume vol cenv).1.Close.2 senv hvne2 (by rw [hids]; exact hndv)
      h1 h2 (fun i _ => h3 i.ID)
    refine ⟨s2, e1, fun k v2 hv2 i info => ?_⟩
    by_cases hk : k ∈ ((s1.run ops).compactVolume vol cenv).1.db.volumes.map (fun i => i.ID)
    · obtain ⟨r, hr, rfl⟩ := List.mem_map.1 hk
      rw [e4 r hr] at hv2
      cases hv2
      simp only [c3]
      exact indexAfter_iff r.ID (s1.run ops).db.files hndf i info
    · rw [e5 k hk] at hv2; cases hv2

set_option maxRecDepth 100000 in
/-- C28, instance: "hello" written as id 1, a second object written and deleted, volume 1
compacted; the running store reads "hello", and the reopened store indexes the catalog
rows. -/
theorem compaction_round_trip_witness :
    (roundTripStore.compactVolume roundTripVolume (allKeysEnv [1, 2])).1.Read [1] 1 =
      .ok hello ∧
    (roundTripStore.compactVolume roundTripVolume (allKeysEnv [1, 2])).1.db.files =
      roundTripStore.db.files ∧
    ∃ s2, (roundTripStore.compactVolume roundTripVolume (allKeysEnv [1, 2])).1.reopen
        sampleStartEnv = .ok s2 ∧
      ∀ k v2, mapGet s2.volumes k = some v2 → ∀ i info,
        mapGet v2.NeedleIndex i = some info ↔
          ∃ m ∈ roundTripStore.db.files, m.ID = i ∧ m.VolumeID = k ∧
            info = { Offset := m.Offset, Size := m.Size, Flags := m.Flags,
                     VolumeID := m.VolumeID } :=
  have h := compaction_round_trip sampleStore
    (sampleStore.WriteWithMetadata hello "a.txt" "text/plain" sampleEnv).1 hello "a.txt"
    "text/plain" sampleEnv 1 sampleStore_unheld (by decide) (by decide) sampleOps
    (by simp [sampleOps, Op.isDeleteOf]) (by decide) roundTripVolume (allKeysEnv [1, 2])
    (by decide) roundTripVolume_sound (by decide)
    (isLive_mem roundTripVolume (allKeysEnv [1, 2]).order (by decide)) (by decide) rfl rfl
    (by decide) (by decide) [1] (by decide)
  ⟨h.1, h.2.1, h.2.2 sampleStartEnv rfl rfl (fun _ => rfl) (by decide) (by decide) (by decide)⟩

/-- C28, counterexample to the claim as stated.  The objects "a" and "b" are written to
a new store as ids 1 and 2 and `Delete(1)` follows, so every other needle of the volume
of id 2 is deleted; id 2 is never deleted.  Volume 1 is compacted, after which the running
store still reads "b".  The store is closed and reopened from the catalog without any
failure: `Read(2)` now returns ErrNeedleNotFound.  With a third object "c" written as
id 3 before the delete, the reopened store returns "c" for `Read(2)` and
ErrNeedleNotFound for `Read(3)`. -/
theorem compaction_restart_counterexample :
    ((sampleStore.step (.write [97] "" "" sampleEnv)).WriteWithMetadata [98] "" ""
      sampleEnv).2 = .ok 2 ∧
    lone1.Read [1] 2 = .ok [98] ∧
    (lone1.compactVolume ((mapGet lone1.volumes 1).getD sampleVolume)
      (allKeysEnv [1, 2])).2 = none ∧
    lone2.Read [1] 2 = .ok [98] ∧
    lone2.reopen sampleStartEnv = .ok lone3 ∧
    lone3.Read [1] 2 = .error .ErrNeedleNotFound ∧
    (((sampleStore.step (.write [97] "" "" sampleEnv)).step
      (.write [98] "" "" sampleEnv)).WriteWithMetadata [99] "" "" sampleEnv).2 = .ok 3 ∧
    stale1.Read [1] 2 = .ok [98] ∧ stale1.Read [1] 3 = .ok [99] ∧
    (stale1.compactVolume ((mapGet stale1.volumes 1).getD sampleVolume)
      (allKeysEnv [1, 2, 3])).2 = none ∧
    stale2.Read [1] 2 = .ok [98] ∧ stale2.Read [1] 3 = .ok [99] ∧
    stale2.reopen sampleStartEnv = .ok stale3 ∧
    stale3.Read [1] 2 = .ok [99] ∧ stale3.Read [1] 3 = .error .ErrNeedleNotFound := by
  decide!

/-- C29 (amended). Compaction size.  Let the index of `vol` describe its file
(`Volume.Sound`), let the compaction not be skipped and the temp file open empty, and let
the live records together fit in max_volume_size.  Then CurrentSize and the file length of
the volume installed under the same number both equal the sum of 29 + size over the live
index entries that the loop visits; that sum is at most the CurrentSize of the source when
the records of the visited live entries do not overlap; and when the catalog update
succeeds the volume row carries the new size. -/
theorem compaction_size (s : Store) (vol : Volume) (env : CompactEnv)
    (hs : vol.Sound) (hne : vol.NeedleIndex ≠ []) (hb : env.belowThreshold = false)
    (ho : env.openFails = false) (htemp : s.openFile ((vol.ID + 10000) % 2 ^ 32) = [])
    (hfit : (vol.liveSize (env.order.filter vol.isLive) : Int) ≤ s.config.MaxVolumeSize) :
    (∃ newVol, mapGet (s.compactVolume vol env).1.volumes vol.ID = some newVol ∧
      newVol.CurrentSize = vol.liveSize (env.order.filter vol.isLive) ∧
      newVol.File.length = vol.liveSize (env.order.filter vol.isLive)) ∧
    (0 ≤ vol.CurrentSize → (env.order.filter vol.isLive).Pairwise vol.Apart →
      (vol.liveSize (env.order.filter vol.isLive) : Int) ≤ vol.CurrentSize) ∧
    (env.updateSizeFails = false → ∀ row ∈ (s.compactVolume vol env).1.db.volumes,
      row.ID = vol.ID → row.CurrentSize = vol.liveSize (env.order.filter vol.isLive)) := by
  obtain ⟨_, c2, _, c4, _⟩ := compactVolume_rewrite s vol env hne hb ho htemp
  obtain ⟨_, i2, i3⟩ := readAll_sound vol hs (env.order.filter vol.isLive)
    (fun id hid => (List.mem_filter.1 hid).2)
  have hF := compacted_volume vol hs env.order ((vol.ID + 10000) % 2 ^ 32)
    s.config.MaxVolumeSize hfit
  obtain ⟨l1, l2, _⟩ := LoadIndex_encodeAll vol.ID s.config.MaxVolumeSize
    (readAll vol (env.order.filter vol.isLive)) (fun n hn => (i2 n hn).1)
  rw [hF] at c2 c4
  refine ⟨⟨_, by rw [c2, mapGet_mapSet_self], by rw [l2, i3], by rw [l1, encodeAll_length, i3]⟩,
    fun h0 hap => ?_, fun hu row hr hid => ?_⟩
  · have := liveSize_le vol hs (env.order.filter vol.isLive)
      (fun id hid => (List.mem_filter.1 hid).2) hap
    omega
  · rw [c4, l2, i3, hu] at hr
    simp only [Database.UpdateVolumeSize, Bool.false_eq_true, if_false, List.mem_map] at hr
    obtain ⟨r0, _, rfl⟩ := hr
    by_cases h : r0.ID = vol.ID
    · simp [h]
    · rw [if_neg h] at hid
      exact absurd hid h

set_option maxRecDepth 100000 in
/-- C29, instance: scenario S4.  Ten objects of 100 bytes fill 1290 bytes; with four of
them deleted the compaction leaves 774 = 1290 - 4 * 129 bytes, in the volume and in its
catalog row. -/
theorem compaction_size_witness :
    s4Volume.CurrentSize = 1290 ∧
    s4Volume.liveSize (s4Env.order.filter s4Volume.isLive) = 1290 - 4 * 129 ∧
    ((∃ newVol, mapGet (fourDeleted.compactVolume s4Volume s4Env).1.volumes s4Volume.ID =
        some newVol ∧
      newVol.CurrentSize = s4Volume.liveSize (s4Env.order.filter s4Volume.isLive) ∧
      newVol.File.length = s4Volume.liveSize (s4Env.order.filter s4Volume.isLive)) ∧
    (0 ≤ s4Volume.CurrentSize → (s4Env.order.filter s4Volume.isLive).Pairwise s4Volume.Apart →
      (s4Volume.liveSize (s4Env.order.filter s4Volume.isLive) : Int) ≤ s4Volume.CurrentSize) ∧
    (s4Env.updateSizeFails = false →
      ∀ row ∈ (fourDeleted.compactVolume s4Volume s4Env).1.db.volumes,
        row.ID = s4Volume.ID →
          row.CurrentSize = s4Volume.liveSize (s4Env.order.filter s4Volume.isLive))) :=
  ⟨by decide!, by decide!,
    compaction_size fourDeleted s4Volume s4Env s4Volume_sound (by decide!) rfl rfl
      (by decide!) (by decide!)⟩

/-- C29, counterexample to the claim as stated.  The second compaction of volume 1 of
`stale4` finds the temp file empty, meets no error on any needle and returns nil.  The
live index entries of the source are those of the ids 2, 3 and 4, with sizes 1, 1 and 2,
so the sum of 29 + size is 91; the new volume has CurrentSize 92 and a file of 92 bytes,
one byte more than the 91 bytes of the source. -/
theorem compaction_size_counterexample :
    mapGet stale4.volumes 1 = some stale4Volume ∧
    stale4.openFile ((stale4Volume.ID + 10000) % 2 ^ 32) = [] ∧
    (stale4.compactVolume stale4Volume (allKeysEnv [1, 2, 3, 4])).2 = none ∧
    [1, 2, 3, 4].filter stale4Volume.isLive = [2, 3, 4] ∧
    ([2, 3, 4].map (fun id => (mapGet stale4Volume.NeedleIndex id).map (fun i => i.Size))) =
      [some 1, some 1, some 2] ∧
    stale4Volume.liveSize [2, 3, 4] = 91 ∧
    stale4Volume.CurrentSize = 91 ∧ stale4Volume.File.length = 91 ∧
    (mapGet stale5.volumes 1).map (fun v => (v.CurrentSize, v.File.length)) =
      some (92, 92) := by
  decide!

/-- C30. Recovery postcondition.  Let `loadFromDatabase` run on an empty table over a
catalog whose volume rows and whose file rows have distinct ids (the primary keys), with
both catalog queries answered and every volume file opened.  Then it returns a store in
which every volume row has a volume under its number, with CurrentSize and Active of the
row and the file of the data directory whatever its length; every volume of the table
comes from a row; the index of the volume under number k holds an entry for an id exactly
when a file row has that id and volume_id k, deleted rows included, and the entry is
{offset, size, flags, volume_id} of the row; and a row whose flags carry bit 0x01 makes
`ReadNeedle` return ErrNeedleNotFound.  The row that `DeleteFileMetadata` leaves for a
deleted id has deleted = true and flag bit 0x01 set. -/
theorem recovery_from_catalog (s0 : Store) (env : StartEnv)
    (h0 : s0.volumes = []) (hndv : (s0.db.volumes.map (fun i => i.ID)).Nodup)
    (hndf : (s0.db.files.map (fun m => m.ID)).Nodup)
    (hlv : env.loadVolumesFails = false) (hlm : env.loadMetasFails = false)
    (hopen : ∀ i ∈ s0.db.volumes, env.openFails i.ID = false) :
    (∃ s, s0.loadFromDatabase env = .ok s ∧
      (∀ i ∈ s0.db.volumes, ∃ v, mapGet s.volumes i.ID = some v ∧ v.ID = i.ID ∧
        v.CurrentSize = i.CurrentSize ∧ v.Active = i.Active ∧
        v.File = (mapGet s0.disk i.ID).getD []) ∧
      (∀ k v, mapGet s.volumes k = some v → k ∈ s0.db.volumes.map (fun i => i.ID)) ∧
      (∀ k v, mapGet s.volumes k = some v → ∀ id info,
        mapGet v.NeedleIndex id = some info ↔
          ∃ m ∈ s0.db.files, m.ID = id ∧ m.VolumeID = k ∧
            info = { Offset := m.Offset, Size := m.Size, Flags := m.Flags,
                     VolumeID := m.VolumeID }) ∧
      (∀ k v, mapGet s.volumes k = some v → ∀ m ∈ s0.db.files, m.VolumeID = k →
        m.Flags &&& 0x01 ≠ 0 → v.ReadNeedle m.ID = .error .ErrNeedleNotFound)) ∧
    (∀ (d : Database) (id : Nat), ∀ m ∈ (d.DeleteFileMetadata id false).1.files, m.ID = id →
      m.Deleted = true ∧ m.Flags &&& 0x01 = 1) := by
  constructor
  · obtain ⟨s, e1, _, _, e4, e5⟩ := loadFromDatabase_get s0 env h0 hndv hlv hlm hopen
    have hrow : ∀ k v, mapGet s.volumes k = some v → ∃ i ∈ s0.db.volumes, i.ID = k ∧
        v = { loadedVolume i ((mapGet s0.disk i.ID).getD []) s0.config.MaxVolumeSize with
          NeedleIndex := indexAfter i.ID s0.db.files [] } := by
      intro k v hv
      by_cases hk : k ∈ s0.db.volumes.map (fun i => i.ID)
      · obtain ⟨i, hi, rfl⟩ := List.mem_map.1 hk
        rw [e4 i hi] at hv
        exact ⟨i, hi, rfl, (Option.some.inj hv).symm⟩
      · rw [e5 k hk] at hv; cases hv
    refine ⟨s, e1, fun i hi => ⟨_, e4 i hi, rfl, rfl, rfl, rfl⟩, fun k v hv => ?_,
      fun k v hv id info => ?_, fun k v hv m hm hvol hflag => ?_⟩
    · obtain ⟨i, hi, rfl, _⟩ := hrow k v hv
      exact List.mem_map.2 ⟨i, hi, rfl⟩
    · obtain ⟨i, hi, rfl, rfl⟩ := hrow k v hv
      exact indexAfter_iff i.ID s0.db.files hndf id info
    · obtain ⟨i, hi, rfl, rfl⟩ := hrow k v hv
      have hget : mapGet (indexAfter i.ID s0.db.files []) m.ID = some (rowEntry m) :=
        (indexAfter_get i.ID s0.db.files [] hndf m.ID).1 m hm rfl hvol
      unfold Volume.ReadNeedle
      simp only [hget]
      have hf : ((rowEntry m).Flags &&& 0x01 != 0) = true := by
        simpa [rowEntry, bne_iff_ne] using hflag
      rw [if_pos hf]
  · intro d id m hm hid
    simp only [Database.DeleteFileMetadata, Bool.false_eq_true, if_false, List.mem_map] at hm
    obtain ⟨r, _, rfl⟩ := hm
    by_cases hr : r.ID = id
    · rw [if_pos hr]
      exact ⟨rfl, show (1 : Nat) &&& 1 = 1 by decide⟩
    · rw [if_neg hr] at hid
      exact absurd hid hr

set_option maxRecDepth 100000 in
/-- C30, instance: the restart of `stale1`, whose catalog has one volume row and three
file rows, the first of a deleted object. -/
theorem recovery_from_catalog_witness :
    ∃ s, stale1.closed.loadFromDatabase sampleStartEnv = .ok s ∧
      (∀ i ∈ stale1.closed.db.volumes, ∃ v, mapGet s.volumes i.ID = some v ∧ v.ID = i.ID ∧
        v.CurrentSize = i.CurrentSize ∧ v.Active = i.Active ∧
        v.File = (mapGet stale1.closed.disk i.ID).getD []) ∧
      (∀ k v, mapGet s.volumes k = some v →
        k ∈ stale1.closed.db.volumes.map (fun i => i.ID)) ∧
      (∀ k v, mapGet s.volumes k = some v → ∀ id info,
        mapGet v.NeedleIndex id = some info ↔
          ∃ m ∈ stale1.closed.db.files, m.ID = id ∧ m.VolumeID = k ∧
            info = { Offset := m.Offset, Size := m.Size, Flags := m.Flags,
                     VolumeID := m.VolumeID }) ∧
      (∀ k v, mapGet s.volumes k = some v → ∀ m ∈ stale1.closed.db.files, m.VolumeID = k →
        m.Flags &&& 0x01 ≠ 0 → v.ReadNeedle m.ID = .error .ErrNeedleNotFound) :=
  (recovery_from_catalog stale1.closed sampleStartEnv rfl (by decide) (by decide) rfl rfl
    (by decide)).1

end Haystack
